import Mathlib

/-!
Plasma `FrameSvg`: the shared frame registry.

A shallow embedding of `src/src/plasma/framesvg.cpp`.

* C++ objects live in an explicit `World`: a heap of `FrameData` records addressed by
  pointers, the `FrameSvg` consumers, the static `s_sharedFrames` registry and the theme
  pixmap cache.
* A pointer is a natural number, `0` is the null pointer.  Dereferencing a null or a
  deleted pointer is undefined behaviour in C++; here the operation returns `none`.
* `qreal` values are exact rationals; only their numerator and denominator are used, so
  every definition evaluates inside the kernel.
* The vector image source (`Svg::hasElement`, `Svg::elementSize`, the natural size of an
  image) and `QString::number` for `qreal` are not part of this file's source; they are
  the fields of `Env`.
-/

namespace Plasma

/-! ## Qt value types -/

/-- `QSize`: integer width and height. -/
structure QSize where
  width : Int
  height : Int
deriving DecidableEq

/-- `QSize::isValid`: both dimensions are at least zero. -/
def QSize.isValid (s : QSize) : Bool :=
  decide (0 ≤ s.width) && decide (0 ≤ s.height)

/-- `QSize::isEmpty`: one of the dimensions is below one. -/
def QSize.isEmpty (s : QSize) : Bool :=
  decide (s.width < 1) || decide (s.height < 1)

/-- `QSizeF`: `qreal` width and height. -/
structure QSizeF where
  width : ℚ
  height : ℚ
deriving DecidableEq

/-- `qRound`: the nearest integer, `floor (x + 1/2)`, computed exactly on numerator and
denominator.  The C++ function adds in `double` and converts the sum to `int`; this is
its result when the value is in the range of `int` and the addition is exact.  A
conversion past that range is undefined in C++, and the model has no counterpart for
it. -/
def qRound (x : ℚ) : Int :=
  (2 * x.num + (x.den : Int)) / (2 * (x.den : Int))

/-- `QSizeF::isEmpty`: `wd <= 0 || ht <= 0`. -/
def QSizeF.isEmpty (s : QSizeF) : Bool :=
  decide (s.width.num ≤ 0) || decide (s.height.num ≤ 0)

/-- `QSizeF::toSize`: both dimensions rounded with `qRound`.  It is the size that the
code computes when both rounded dimensions are values of `int`; the statements about sizes
that are converted assume that range where they depend on it. -/
def QSizeF.toSize (s : QSizeF) : QSize :=
  { width := qRound s.width, height := qRound s.height }

/-- `qFuzzyCompare (p1, p2)` for `p2` an integer:
`qAbs (p1 - p2) * 1000000000000 <= qMin (qAbs p1, qAbs p2)`, cleared of denominators. -/
def qFuzzyCompareInt (p1 : ℚ) (p2 : Int) : Bool :=
  decide ((p1.num - p2 * (p1.den : Int)).natAbs * 1000000000000
    ≤ min p1.num.natAbs (p2.natAbs * p1.den))

/-- `operator== (QSizeF, QSizeF)` with the right operand converted from a `QSize`:
`qFuzzyCompare` on both dimensions. -/
def QSizeF.fuzzyEq (s : QSizeF) (t : QSize) : Bool :=
  qFuzzyCompareInt s.width t.width && qFuzzyCompareInt s.height t.height

/-- `QSize::operator* (qreal)`: both dimensions multiplied and rounded with `qRound`. -/
def QSize.scaled (s : QSize) (c : ℚ) : QSize :=
  { width := (2 * s.width * c.num + (c.den : Int)) / (2 * (c.den : Int)),
    height := (2 * s.height * c.num + (c.den : Int)) / (2 * (c.den : Int)) }

/-- `QPixmap`, reduced to what the frame cache observes: `none` is the null pixmap,
`some s` a raster of size `s`. -/
abbrev QPixmap := Option QSize

/-- `QPixmap (const QSize &)`: a null pixmap unless both dimensions are positive. -/
def QPixmap.ofSize (s : QSize) : QPixmap :=
  if s.width ≤ 0 ∨ s.height ≤ 0 then none else some s

/-- `FrameData *`: `0` is the null pointer, `p + 1` addresses cell `p` of the heap. -/
abbrev Ptr := Nat

/-- `FrameSvg *`: the identity of a consumer. -/
abbrev SvgId := Nat

/-- `ThemePrivate *`: the identity of a theme, `0` is the null pointer. -/
abbrev ThemeId := Nat

/-- `Plasma::Types::Location`, the values `setElementPrefix (Location)` distinguishes. -/
inductive Location where
  | Floating
  | Desktop
  | FullScreen
  | TopEdge
  | BottomEdge
  | LeftEdge
  | RightEdge
deriving DecidableEq

/-- `static const int MAX_FRAME_SIZE = 100000`. -/
def MAX_FRAME_SIZE : Int := 100000

/-- `FrameSvg::EnabledBorder` flag values. -/
def NoBorder : Nat := 0

/-- `FrameSvg::TopBorder`. -/
def TopBorder : Nat := 1

/-- `FrameSvg::BottomBorder`. -/
def BottomBorder : Nat := 2

/-- `FrameSvg::LeftBorder`. -/
def LeftBorder : Nat := 4

/-- `FrameSvg::RightBorder`. -/
def RightBorder : Nat := 8

/-- `FrameSvg::AllBorders`. -/
def AllBorders : Nat := 15

/-- `borders & flag`, as a truth value. -/
def hasBorder (borders flag : Nat) : Bool :=
  decide (Nat.land borders flag ≠ 0)

/-! ## `QHash` as an association list without duplicate keys -/

/-- `QHash::value (key)`: the stored value, `none` when the key is absent. -/
def QHash.value {K V : Type} [DecidableEq K] : List (K × V) → K → Option V
  | [], _ => none
  | (k, v) :: t, key => if k = key then some v else QHash.value t key

/-- `QHash::remove (key)`. -/
def QHash.remove {K V : Type} [DecidableEq K] (h : List (K × V)) (key : K) : List (K × V) :=
  h.filter (fun e => decide (e.1 ≠ key))

/-- `QHash::insert (key, value)`: replaces the value of a key already there. -/
def QHash.insert {K V : Type} [DecidableEq K] (h : List (K × V)) (key : K) (v : V) :
    List (K × V) :=
  (key, v) :: QHash.remove h key

/-- `QHash::contains (key)`. -/
def QHash.contains {K V : Type} [DecidableEq K] (h : List (K × V)) (key : K) : Bool :=
  (QHash.value h key).isSome

/-- A `QHash` held as a function, for the tables that are never iterated. -/
def tableSet {K V : Type} [DecidableEq K] (f : K → V) (key : K) (v : V) : K → V :=
  fun k => if k = key then v else f k

/-! ## `FrameData` -/

/-- `FrameData` (declared in `private/framesvg_p.h`): the fields that
`framesvg.cpp` reads and writes. -/
structure FrameData where
  framePrefix : String
  enabledBorders : Nat
  frameSize : QSize
  topHeight : Int
  leftWidth : Int
  rightWidth : Int
  bottomHeight : Int
  topMargin : Int
  leftMargin : Int
  rightMargin : Int
  bottomMargin : Int
  fixedTopHeight : Int
  fixedLeftWidth : Int
  fixedRightWidth : Int
  fixedBottomHeight : Int
  fixedTopMargin : Int
  fixedLeftMargin : Int
  fixedRightMargin : Int
  fixedBottomMargin : Int
  noBorderPadding : Bool
  stretchBorders : Bool
  tileCenter : Bool
  composeOverBorder : Bool
  devicePixelRatio : ℚ
  theme : ThemeId
  cachedBackground : QPixmap
  references : List (SvgId × Int)
deriving DecidableEq

/-- `references[svg]` read through `QHash::operator[]`: an absent key reads as `0`. -/
def FrameData.count (fd : FrameData) (svg : SvgId) : Int :=
  (QHash.value fd.references svg).getD 0

/-- `FrameData::ref`: `references[svg] = references[svg] + 1`. -/
def FrameData.ref (fd : FrameData) (svg : SvgId) : FrameData :=
  { fd with references := QHash.insert fd.references svg (fd.count svg + 1) }

/-- `FrameData::deref`: `references[svg] = references[svg] - 1`, the key removed when
the count is below one; returns `references.isEmpty ()` with the updated record. -/
def FrameData.deref (fd : FrameData) (svg : SvgId) : Bool × FrameData :=
  let n := fd.count svg - 1
  let refs := QHash.insert fd.references svg n
  let refs := if n < 1 then QHash.remove refs svg else refs
  (refs.isEmpty, { fd with references := refs })

/-- `FrameData::removeRefs`. -/
def FrameData.removeRefs (fd : FrameData) (svg : SvgId) : Bool × FrameData :=
  let refs := QHash.remove fd.references svg
  (refs.isEmpty, { fd with references := refs })

/-- `FrameData::refcount`: `references.count ()`, the number of distinct consumers. -/
def FrameData.refcount (fd : FrameData) : Nat :=
  fd.references.length

/-- Modelled from the spec: the constructor `FrameData (FrameSvg *svg, const QString &p)`
of `private/framesvg_p.h`.  A FrameData is created lazily with no size yet, all borders
enabled, zero margins, no hints, no theme identity, no raster, and a reference set that
holds only the new owner. -/
def FrameData.create (svg : SvgId) (p : String) (ratio : ℚ) : FrameData :=
  { framePrefix := p, enabledBorders := AllBorders,
    frameSize := { width := -1, height := -1 },
    topHeight := 0, leftWidth := 0, rightWidth := 0, bottomHeight := 0,
    topMargin := 0, leftMargin := 0, rightMargin := 0, bottomMargin := 0,
    fixedTopHeight := 0, fixedLeftWidth := 0, fixedRightWidth := 0, fixedBottomHeight := 0,
    fixedTopMargin := 0, fixedLeftMargin := 0, fixedRightMargin := 0, fixedBottomMargin := 0,
    noBorderPadding := false, stretchBorders := false, tileCenter := false,
    composeOverBorder := false, devicePixelRatio := ratio, theme := 0,
    cachedBackground := none, references := [(svg, 1)] }

/-- Modelled from the spec: the copy constructor
`FrameData (const FrameData &other, FrameSvg *svg)` of `private/framesvg_p.h`.
Copy-construction duplicates all geometry and hint fields but starts with a reference
set containing only the new owner; the copy has no theme identity and no raster yet. -/
def FrameData.copy (other : FrameData) (svg : SvgId) : FrameData :=
  { other with theme := 0, cachedBackground := none, references := [(svg, 1)] }

end Plasma

namespace Plasma

/-! ## The world -/

/-- The collaborators that `framesvg.cpp` calls and does not define: the vector image
source behind `Svg` and Qt's number formatting. -/
structure Env where
  /-- `Svg::hasElement (id)` for an image path loaded from a theme. -/
  hasElement : ThemeId → String → String → Bool
  /-- `Svg::elementSize (id)` at the natural size of the image. -/
  elementSize : ThemeId → String → String → QSize
  /-- `Svg::size ()` right after the image path was set. -/
  naturalSize : ThemeId → String → QSize
  /-- `QString::number (qreal)`. -/
  numberReal : ℚ → String

/-- A `FrameSvg` consumer: the state of its `Svg` base class that this file reads, and
the members of `FrameSvgPrivate`.  `actualPrefix` is `d->prefix`. -/
structure FrameSvg where
  imagePath : String
  size : QSize
  scaleFactor : ℚ
  devicePixelRatio : ℚ
  theme : ThemeId
  usingRenderingCache : Bool
  actualPrefix : String
  requestedPrefix : String
  location : Location
  frames : List (String × Ptr)
  cacheAll : Bool

/-- The process state: the heap of `FrameData` objects, the consumers, the static
`FrameSvgPrivate::s_sharedFrames` and the pixmap cache of each theme. -/
structure World where
  heap : List (Option FrameData)
  svgs : SvgId → FrameSvg
  sharedFrames : ThemeId → String → Option Ptr
  pixmapCache : ThemeId → String → Option QPixmap

/-- Dereference a `FrameData *`: `none` for the null pointer and for a deleted object. -/
def World.fd (w : World) : Ptr → Option FrameData
  | 0 => none
  | p + 1 => w.heap.getD p none

/-- Write through a `FrameData *`. -/
def World.setFd (w : World) : Ptr → FrameData → World
  | 0, _ => w
  | p + 1, fd => { w with heap := w.heap.set p (some fd) }

/-- The operator `new FrameData (...)`: the object is placed in a fresh cell. -/
def World.alloc (w : World) (fd : FrameData) : Ptr × World :=
  (w.heap.length + 1, { w with heap := w.heap ++ [some fd] })

/-- Update one consumer. -/
def World.setSvg (w : World) (q : SvgId) (c : FrameSvg) : World :=
  { w with svgs := tableSet w.svgs q c }

/-- The expression `d->frames.insert (key, p)` on consumer `q`. -/
def World.framesInsert (w : World) (q : SvgId) (key : String) (p : Ptr) : World :=
  let c := w.svgs q
  w.setSvg q { c with frames := QHash.insert c.frames key p }

/-- The expression `d->frames.remove (key)` on consumer `q`. -/
def World.framesRemove (w : World) (q : SvgId) (key : String) : World :=
  let c := w.svgs q
  w.setSvg q { c with frames := QHash.remove c.frames key }

/-- The expression `s_sharedFrames[theme].insert (key, p)`. -/
def World.sharedInsert (w : World) (theme : ThemeId) (key : String) (p : Ptr) : World :=
  let part := tableSet (w.sharedFrames theme) key (some p)
  { w with sharedFrames := tableSet w.sharedFrames theme part }

/-- The expression `s_sharedFrames[theme].remove (key)`. -/
def World.sharedRemove (w : World) (theme : ThemeId) (key : String) : World :=
  let part := tableSet (w.sharedFrames theme) key none
  { w with sharedFrames := tableSet w.sharedFrames theme part }

/-- The expression `s_sharedFrames[theme].value (key)`: the null pointer when absent. -/
def World.sharedValue (w : World) (theme : ThemeId) (key : String) : Ptr :=
  (w.sharedFrames theme key).getD 0

/-- The expression `d->frames.value (key)`: the null pointer when absent. -/
def World.framesValue (w : World) (q : SvgId) (key : String) : Ptr :=
  (QHash.value (w.svgs q).frames key).getD 0

/-- `FrameData::~FrameData` followed by the release of the cell: every consumer still in
the reference set drops its entry for the FrameData's prefix. -/
def World.delete (w : World) (p : Ptr) : Option World :=
  match w.fd p with
  | none => none
  | some fd =>
    let w1 := fd.references.foldl (fun acc e => acc.framesRemove e.1 fd.framePrefix) w
    some { w1 with heap := w1.heap.set (p - 1) none }

/-- `Svg::hasElement` of consumer `q`. -/
def hasElement (env : Env) (w : World) (q : SvgId) (id : String) : Bool :=
  env.hasElement (w.svgs q).theme (w.svgs q).imagePath id

/-- `Svg::elementSize` of consumer `q`. -/
def elementSize (env : Env) (w : World) (q : SvgId) (id : String) : QSize :=
  env.elementSize (w.svgs q).theme (w.svgs q).imagePath id

/-- `FrameSvg::hasElementPrefix (const QString &)`. -/
def hasElementPrefix (env : Env) (w : World) (q : SvgId) (p : String) : Bool :=
  if p.isEmpty then hasElement env w q "center" else hasElement env w q (p ++ "-center")

end Plasma

namespace Plasma

/-! ## Reference counting through pointers -/

/-- The call `p->ref (svg)`. -/
def World.ref (w : World) (p : Ptr) (svg : SvgId) : Option World :=
  (w.fd p).bind fun fd => some (w.setFd p (fd.ref svg))

/-- The call `p->deref (svg)`: the returned flag says that the reference set is empty. -/
def World.deref (w : World) (p : Ptr) (svg : SvgId) : Option (Bool × World) :=
  (w.fd p).bind fun fd => some ((fd.deref svg).1, w.setFd p (fd.deref svg).2)

/-! ## Sizes and cache keys -/

/-- The assignments of `FrameSvgPrivate::updateSizes` to the fields of `frame`, for the
consumer state `c`: margins, extents and hints are read from the theme under the active
prefix, and the raster is dropped. -/
def updatedSizes (env : Env) (c : FrameSvg) (frame : FrameData) : FrameData :=
  let px := c.actualPrefix
  let has := fun (id : String) => env.hasElement c.theme c.imagePath id
  let esz := fun (id : String) => env.elementSize c.theme c.imagePath (px ++ id)
  let b := frame.enabledBorders
  let marginV := fun (hint side : String) =>
    if has (px ++ hint) then (esz hint).height else (esz side).height
  let marginH := fun (hint side : String) =>
    if has (px ++ hint) then (esz hint).width else (esz side).width
  { frame with
    cachedBackground := none,
    fixedTopHeight := (esz "top").height,
    fixedTopMargin := marginV "hint-top-margin" "top",
    topHeight := if hasBorder b TopBorder then (esz "top").height else 0,
    topMargin := if hasBorder b TopBorder then marginV "hint-top-margin" "top" else 0,
    fixedLeftWidth := (esz "left").width,
    fixedLeftMargin := marginH "hint-left-margin" "left",
    leftWidth := if hasBorder b LeftBorder then (esz "left").width else 0,
    leftMargin := if hasBorder b LeftBorder then marginH "hint-left-margin" "left" else 0,
    fixedRightWidth := (esz "right").width,
    fixedRightMargin := marginH "hint-right-margin" "right",
    rightWidth := if hasBorder b RightBorder then (esz "right").width else 0,
    rightMargin :=
      if hasBorder b RightBorder then marginH "hint-right-margin" "right" else 0,
    fixedBottomHeight := (esz "bottom").height,
    fixedBottomMargin := marginV "hint-bottom-margin" "bottom",
    bottomHeight := if hasBorder b BottomBorder then (esz "bottom").height else 0,
    bottomMargin :=
      if hasBorder b BottomBorder then marginV "hint-bottom-margin" "bottom" else 0,
    composeOverBorder :=
      has (px ++ "hint-compose-over-border") && has ("mask-" ++ px ++ "center"),
    tileCenter := has "hint-tile-center" || has (px ++ "hint-tile-center"),
    noBorderPadding := has "hint-no-border-padding" || has (px ++ "hint-no-border-padding"),
    stretchBorders := has "hint-stretch-borders" || has (px ++ "hint-stretch-borders") }

/-- `FrameSvgPrivate::updateSizes`: recomputes margins, extents and hints of the active
prefix's FrameData from the theme and drops its raster.  The temporary `q->resize ()`
is undone before returning, so the size of the `Svg` is unchanged. -/
def updateSizes (env : Env) (q : SvgId) (w : World) : Option World :=
  let p := w.framesValue q (w.svgs q).actualPrefix
  (w.fd p).bind fun frame => some (w.setFd p (updatedSizes env (w.svgs q) frame))

/-- `FrameSvgPrivate::frameSize`: a FrameData without a valid size first gets the size of
the `Svg`, after `updateSizes ()` ran on the active prefix. -/
def frameSize (env : Env) (q : SvgId) (p : Ptr) (w : World) : Option (QSize × World) :=
  (w.fd p).bind fun frame =>
    if frame.frameSize.isValid then some (frame.frameSize, w)
    else
      (updateSizes env q w).bind fun w1 =>
        (w1.fd p).bind fun frame1 =>
          some ((w1.svgs q).size, w1.setFd p { frame1 with frameSize := (w1.svgs q).size })

/-- The string that `cacheId` builds: the seven components joined by an underscore. -/
def cacheKey (env : Env) (borders : Nat) (width height : Int) (scaleFactor ratio : ℚ)
    (prefixToSave imagePath : String) : String :=
  toString borders ++ "_" ++ toString width ++ "_" ++ toString height ++ "_"
    ++ env.numberReal scaleFactor ++ "_" ++ env.numberReal ratio ++ "_"
    ++ prefixToSave ++ "_" ++ imagePath

/-- `FrameSvgPrivate::cacheId`: the key, and the world after the call to `frameSize`. -/
def cacheId (env : Env) (q : SvgId) (p : Ptr) (prefixToSave : String) (w : World) :
    Option (String × World) :=
  (frameSize env q p w).bind fun r =>
    (r.2.fd p).bind fun frame =>
      some (cacheKey env frame.enabledBorders r.1.width r.1.height
        (r.2.svgs q).scaleFactor (r.2.svgs q).devicePixelRatio prefixToSave
        (r.2.svgs q).imagePath, r.2)

end Plasma

namespace Plasma

/-! ## The constructor -/

/-- The member initialisers of `FrameSvgPrivate` together with the body of
`FrameSvg::FrameSvg`: `d->frames.insert (QString (), new FrameData (this, QString ()))`.
The consumer's `Svg` state is as `svg` gives it. -/
def construct (q : SvgId) (svg : FrameSvg) (w : World) : World :=
  let r := w.alloc (FrameData.create q "" svg.devicePixelRatio)
  r.2.setSvg q { svg with
    actualPrefix := "", requestedPrefix := "", location := Location.Floating,
    frames := [("", r.1)], cacheAll := false }

/-! ## `clearCache` -/

/-- One round of the loop of `FrameSvg::clearCache` on the entry `(key, p)`; `frame` is
the pointer read from `d->frames[d->prefix]` before the loop. -/
def clearCacheStep (env : Env) (q : SvgId) (frame : Ptr) (key : String) (p : Ptr)
    (w : World) : Option World :=
  if frame = p then some w
  else
    (w.deref p q).bind fun r =>
      (if r.1 then
        (cacheId env q p key r.2).bind fun k =>
          (k.2.fd p).bind fun fd =>
            some ((k.2.sharedRemove fd.theme k.1).setFd p { fd with cachedBackground := none })
      else some r.2).bind fun w1 => some (w1.framesRemove q key)

/-- The loop of `FrameSvg::clearCache` over the entries of `d->frames`. -/
def clearCacheLoop (env : Env) (q : SvgId) (frame : Ptr) :
    List (String × Ptr) → World → Option World
  | [], w => some w
  | (key, p) :: rest, w =>
    (clearCacheStep env q frame key p w).bind fun w1 => clearCacheLoop env q frame rest w1

/-- `FrameSvg::clearCache`.  Reading `d->frames[d->prefix]` inserts a null entry when the
active prefix has none. -/
def clearCache (env : Env) (q : SvgId) (w : World) : Option World :=
  let px := (w.svgs q).actualPrefix
  let w0 := if QHash.contains (w.svgs q).frames px then w else w.framesInsert q px 0
  clearCacheLoop env q (w0.framesValue q px) (w0.svgs q).frames w0

/-! ## `setElementPrefix` -/

/-- The effective prefix that `setElementPrefix (p)` selects: empty when the theme has no
element `p-center`, else `p` followed by a dash when `p` is not empty. -/
def resolvePrefix (env : Env) (w : World) (q : SvgId) (p : String) : String :=
  if !hasElement env w q (p ++ "-center") then ""
  else if !p.isEmpty then p ++ "-" else p

/-- The branch of `FrameSvg::setElementPrefix` taken when `d->frames` has no entry for the
new prefix, up to and including `d->updateSizes ()`. -/
def setElementPrefixCreate (env : Env) (q : SvgId) (oldFrameData : Ptr) (w : World) :
    Option World :=
  let px := (w.svgs q).actualPrefix
  (if oldFrameData ≠ 0 then
    (w.fd oldFrameData).bind fun old =>
      (if !old.frameSize.isEmpty then
        (cacheId env q oldFrameData px w).bind fun k =>
          let found := k.2.sharedValue (k.2.svgs q).theme k.1
          if found ≠ 0 then
            (k.2.fd found).bind fun nf =>
              if nf.devicePixelRatio ≠ (k.2.svgs q).devicePixelRatio then some (0, k.2)
              else some (found, k.2)
          else some (0, k.2)
      else some (0, w)).bind fun r =>
        let cache := decide (r.1 = 0) && !old.frameSize.isEmpty
        (if r.1 ≠ 0 then (r.2.ref r.1 q).bind fun w1 => some (r.1, w1)
         else (r.2.fd oldFrameData).bind fun old1 => some (r.2.alloc (old1.copy q))).bind
          fun a =>
            let w2 := a.2.framesInsert q px a.1
            if cache then
              (cacheId env q oldFrameData px w2).bind fun k =>
                (k.2.fd a.1).bind fun nf =>
                  some ((k.2.sharedInsert (k.2.svgs q).theme k.1 a.1).setFd a.1
                    { nf with theme := (k.2.svgs q).theme })
            else some w2
  else
    let a := w.alloc (FrameData.create q px (w.svgs q).devicePixelRatio)
    some (a.2.framesInsert q px a.1)).bind fun w3 => updateSizes env q w3

/-- `FrameSvg::setElementPrefix (const QString &)`. -/
def setElementPrefix (env : Env) (q : SvgId) (p : String) (w : World) : Option World :=
  let c := w.svgs q
  let oldPrefix := c.actualPrefix
  let w1 := w.setSvg q { c with actualPrefix := resolvePrefix env w q p, requestedPrefix := p }
  let px := (w1.svgs q).actualPrefix
  let oldFrameData := w1.framesValue q oldPrefix
  if oldPrefix = px ∧ oldFrameData ≠ 0 then some w1
  else
    (if !QHash.contains (w1.svgs q).frames px then setElementPrefixCreate env q oldFrameData w1
     else some w1).bind fun w2 =>
      (if !(w2.svgs q).cacheAll then
        let w3 := w2.framesRemove q oldPrefix
        if oldFrameData ≠ 0 then
          (w3.deref oldFrameData q).bind fun r =>
            if r.1 then
              (cacheId env q oldFrameData oldPrefix r.2).bind fun k =>
                (k.2.fd oldFrameData).bind fun fd =>
                  (k.2.sharedRemove fd.theme k.1).delete oldFrameData
            else some r.2
        else some w3
      else some w2).bind fun w4 =>
        let c4 := w4.svgs q
        some (w4.setSvg q { c4 with location := Location.Floating })

/-- `FrameSvg::setElementPrefix (Plasma::Types::Location)`. -/
def setElementPrefixLocation (env : Env) (q : SvgId) (location : Location) (w : World) :
    Option World :=
  (match location with
    | Location.TopEdge => setElementPrefix env q "north" w
    | Location.BottomEdge => setElementPrefix env q "south" w
    | Location.LeftEdge => setElementPrefix env q "west" w
    | Location.RightEdge => setElementPrefix env q "east" w
    | _ => setElementPrefix env q "" w).bind fun w1 =>
      let c := w1.svgs q
      some (w1.setSvg q { c with location := location })

/-- `FrameSvg::hasElementPrefix (Plasma::Types::Location)`. -/
def hasElementPrefixLocation (env : Env) (w : World) (q : SvgId) (location : Location) :
    Bool :=
  match location with
  | Location.TopEdge => hasElementPrefix env w q "north"
  | Location.BottomEdge => hasElementPrefix env w q "south"
  | Location.LeftEdge => hasElementPrefix env w q "west"
  | Location.RightEdge => hasElementPrefix env w q "east"
  | _ => hasElementPrefix env w q ""

/-! ## Signals -/

/-- `FrameSvgPrivate::updateNeeded`, the slot that the constructor connects to the signal
`repaintNeeded ()`. -/
def updateNeeded (env : Env) (q : SvgId) (w : World) : Option World :=
  (setElementPrefix env q (w.svgs q).requestedPrefix w).bind fun w1 =>
    (clearCache env q w1).bind fun w2 => updateSizes env q w2

/-- The statement `emit repaintNeeded ()`: the connection made in the constructor is
direct, so the slot `updateNeeded` runs before the emitting statement returns. -/
def emitRepaintNeeded (env : Env) (q : SvgId) (w : World) : Option World :=
  updateNeeded env q w

/-- `FrameSvgPrivate::updateAndSignalSizes`. -/
def updateAndSignalSizes (env : Env) (q : SvgId) (w : World) : Option World :=
  (updateSizes env q w).bind fun w1 => emitRepaintNeeded env q w1

end Plasma

namespace Plasma

/-! ## `setEnabledBorders` and `resizeFrame` -/

/-- The tail shared by `setEnabledBorders` and `resizeFrame` when the registry has a
FrameData `newFd` under the new key: reference it, make it the active one, release the
old one and, when that was its last reference, evict and delete it. -/
def adoptShared (q : SvgId) (fd newFd : Ptr) (oldKey : String) (w : World) : Option World :=
  (w.ref newFd q).bind fun w1 =>
    let w2 := w1.framesInsert q (w1.svgs q).actualPrefix newFd
    (w2.deref fd q).bind fun r =>
      if r.1 then
        (r.2.fd fd).bind fun old => (r.2.sharedRemove old.theme oldKey).delete fd
      else some r.2

/-- The tail shared by `setEnabledBorders` and `resizeFrame` when the registry has nothing
under the new key: a sole owner takes its FrameData out of the registry and keeps it;
otherwise the consumer releases it and continues with a copy.  Returns the pointer the
consumer continues with. -/
def detachOrCopy (q : SvgId) (fd : Ptr) (oldKey : String) (w : World) :
    Option (Ptr × World) :=
  (w.fd fd).bind fun old =>
    if old.refcount = 1 then some (fd, w.sharedRemove old.theme oldKey)
    else
      (w.deref fd q).bind fun r =>
        (r.2.fd fd).bind fun old1 =>
          let a := r.2.alloc (old1.copy q)
          some (a.1, a.2.framesInsert q (a.2.svgs q).actualPrefix a.1)

/-- Lines 136 to 140 of `FrameSvg::setEnabledBorders`: the old key, then the new key
computed with the new borders written into the FrameData and the old ones restored
after.  Returns `(oldKey, newKey)` and the world at that point. -/
def setEnabledBordersKeys (env : Env) (q : SvgId) (fd : Ptr) (borders : Nat) (w : World) :
    Option ((String × String) × World) :=
  (cacheId env q fd (w.svgs q).actualPrefix w).bind fun k1 =>
    (k1.2.fd fd).bind fun f1 =>
      let oldBorders := f1.enabledBorders
      let w2 := k1.2.setFd fd { f1 with enabledBorders := borders }
      (cacheId env q fd (w2.svgs q).actualPrefix w2).bind fun k2 =>
        (k2.2.fd fd).bind fun f2 =>
          some ((k1.1, k2.1), k2.2.setFd fd { f2 with enabledBorders := oldBorders })

/-- `FrameSvg::setEnabledBorders`. -/
def setEnabledBorders (env : Env) (q : SvgId) (borders : Nat) (w : World) : Option World :=
  let fd := w.framesValue q (w.svgs q).actualPrefix
  (w.fd fd).bind fun f0 =>
    if borders = f0.enabledBorders then some w
    else
      (setEnabledBordersKeys env q fd borders w).bind fun k =>
        let newFd := k.2.sharedValue (k.2.svgs q).theme k.1.2
        if newFd ≠ 0 then adoptShared q fd newFd k.1.1 k.2
        else
          (detachOrCopy q fd k.1.1 k.2).bind fun r =>
            (r.2.fd r.1).bind fun f =>
              updateAndSignalSizes env q (r.2.setFd r.1 { f with enabledBorders := borders })

/-- `FrameSvg::enabledBorders`. -/
def enabledBorders (w : World) (q : SvgId) : Option Nat :=
  match QHash.value (w.svgs q).frames (w.svgs q).actualPrefix with
  | none => some NoBorder
  | some p => (w.fd p).bind fun f => some f.enabledBorders

/-- Lines 345 to 349 of `FrameSvg::resizeFrame`: the old key, then the new key computed
with the new size written into the FrameData and `currentSize` restored after. -/
def resizeFrameKeys (env : Env) (q : SvgId) (fd : Ptr) (size : QSizeF) (w : World) :
    Option ((String × String) × World) :=
  (cacheId env q fd (w.svgs q).actualPrefix w).bind fun k1 =>
    (k1.2.fd fd).bind fun f1 =>
      let currentSize := f1.frameSize
      let w2 := k1.2.setFd fd { f1 with frameSize := size.toSize }
      (cacheId env q fd (w2.svgs q).actualPrefix w2).bind fun k2 =>
        (k2.2.fd fd).bind fun f2 =>
          some ((k1.1, k2.1), k2.2.setFd fd { f2 with frameSize := currentSize })

/-- `FrameSvg::resizeFrame`. -/
def resizeFrame (env : Env) (q : SvgId) (size : QSizeF) (w : World) : Option World :=
  if (w.svgs q).imagePath.isEmpty then some w
  else if size.isEmpty then some w
  else
    let fd := w.framesValue q (w.svgs q).actualPrefix
    (w.fd fd).bind fun f0 =>
      if size.fuzzyEq f0.frameSize then some w
      else
        (resizeFrameKeys env q fd size w).bind fun k =>
          let newFd := k.2.sharedValue (k.2.svgs q).theme k.1.2
          if newFd ≠ 0 then adoptShared q fd newFd k.1.1 k.2
          else
            (detachOrCopy q fd k.1.1 k.2).bind fun r =>
              (updateSizes env q r.2).bind fun w1 =>
                (w1.fd r.1).bind fun f =>
                  let theme := (w1.svgs q).theme
                  some ((w1.setFd r.1 { f with frameSize := size.toSize, theme := theme }
                    ).sharedInsert theme k.1.2 r.1)

/-- `FrameSvg::frameSize`: `QSize (-1, -1)` when the active prefix has no entry. -/
def FrameSvg_frameSize (env : Env) (q : SvgId) (w : World) : Option (QSize × World) :=
  match QHash.value (w.svgs q).frames (w.svgs q).actualPrefix with
  | none => some ({ width := -1, height := -1 }, w)
  | some p => frameSize env q p w

/-! ## `setImagePath` -/

/-- Modelled from the spec: `SvgPrivate::setImagePath` of the vector image source, which is
outside this file.  It stores the path and resets the size of the `Svg` to the natural
size of the new image. -/
def Svg_setImagePath (env : Env) (q : SvgId) (path : String) (w : World) : World :=
  let c := w.svgs q
  w.setSvg q { c with imagePath := path, size := env.naturalSize c.theme path }

/-- `FrameSvg::setImagePath`. -/
def setImagePath (env : Env) (q : SvgId) (path : String) (w : World) : Option World :=
  if path = (w.svgs q).imagePath then some w
  else
    (clearCache env q w).bind fun w1 =>
      let fd := w1.framesValue q (w1.svgs q).actualPrefix
      (w1.fd fd).bind fun f0 =>
        (if f0.refcount = 1 then
          (cacheId env q fd (w1.svgs q).actualPrefix w1).bind fun k =>
            (k.2.fd fd).bind fun f1 => some (fd, k.2.sharedRemove f1.theme k.1)
        else
          (w1.deref fd q).bind fun r => some (0, r.2)).bind fun a =>
          let w2 := Svg_setImagePath env q path a.2
          let px := (w2.svgs q).actualPrefix
          (if a.1 = 0 then
            let oldFd := w2.framesValue q px
            (cacheId env q oldFd px w2).bind fun k =>
              let found := k.2.sharedValue (k.2.svgs q).theme k.1
              if found ≠ 0 then
                (k.2.ref found q).bind fun w3 => some ((found, false), w3.framesInsert q px found)
              else
                (k.2.fd oldFd).bind fun old =>
                  let n := k.2.alloc (old.copy q)
                  some ((n.1, true), n.2.framesInsert q px n.1)
          else some ((a.1, true), w2)).bind fun b =>
            if b.1.2 then
              (cacheId env q b.1.1 px b.2).bind fun k =>
                (k.2.fd b.1.1).bind fun f =>
                  let theme := (k.2.svgs q).theme
                  updateAndSignalSizes env q
                    ((k.2.sharedInsert theme k.1 b.1.1).setFd b.1.1 { f with theme := theme })
            else emitRepaintNeeded env q b.2

end Plasma

namespace Plasma

/-! ## Raster generation and the alpha mask -/

/-- `FrameSvgPrivate::cacheFrame`: writes the background, and the overlay when there is
one, through to the pixmap cache of the theme. -/
def cacheFrame (env : Env) (q : SvgId) (prefixToSave : String) (background overlay : QPixmap)
    (w : World) : Option World :=
  if !(w.svgs q).usingRenderingCache then some w
  else
    let frame := w.framesValue q prefixToSave
    if frame = 0 then some w
    else
      (cacheId env q frame prefixToSave w).bind fun k =>
        let theme := (k.2.svgs q).theme
        let c1 := tableSet (k.2.pixmapCache theme) k.1 (some background)
        let c2 := if overlay.isSome then tableSet c1 ("overlay_" ++ k.1) (some overlay) else c1
        some { k.2 with pixmapCache := tableSet k.2.pixmapCache theme c2 }

/-- `FrameSvgPrivate::generateFrameBackground`, as far as it changes the state: the size
checks, the new raster, and the call of `alphaMask ()` that `paintCenter` makes when the
FrameData composes over its border.  Painting itself changes no state of this model;
`mask` stands for the call `alphaMask ()`. -/
def generateFrameBackground (env : Env) (q : SvgId)
    (mask : World → Option (QPixmap × World)) (frame : Ptr) (w : World) : Option World :=
  (frameSize env q frame w).bind fun r =>
    let size := r.1.scaled (r.2.svgs q).devicePixelRatio
    if !size.isValid then some r.2
    else if size.width ≥ MAX_FRAME_SIZE ∨ size.height ≥ MAX_FRAME_SIZE then some r.2
    else
      (r.2.fd frame).bind fun f =>
        let w1 := r.2.setFd frame { f with cachedBackground := QPixmap.ofSize size }
        if f.composeOverBorder then (mask w1).bind fun m => some m.2 else some w1

/-- The overlay placement of `FrameSvgPrivate::generateBackground` (lines 753 to 772):
position and size of the overlay, with the calls of `frameSize` that the hints cause. -/
def overlayPlacement (env : Env) (q : SvgId) (frame : Ptr) (w : World) :
    Option (((Int × Int) × QSize) × World) :=
  let px := (w.svgs q).actualPrefix
  let overlaySize := elementSize env w q (px ++ "overlay")
  (w.fd frame).bind fun f =>
    if hasElement env w q (px ++ "hint-overlay-pos-right") then
      some (((f.frameSize.width - overlaySize.width, 0), overlaySize), w)
    else if hasElement env w q (px ++ "hint-overlay-pos-bottom") then
      some (((0, f.frameSize.height - overlaySize.height), overlaySize), w)
    else if hasElement env w q (px ++ "hint-overlay-stretch") then
      (frameSize env q frame w).bind fun r => some (((0, 0), r.1), r.2)
    else
      (if hasElement env w q (px ++ "hint-overlay-tile-horizontal") then
        (frameSize env q frame w).bind fun r =>
          some ({ overlaySize with width := r.1.width }, r.2)
      else some (overlaySize, w)).bind fun a =>
        (if hasElement env w q (px ++ "hint-overlay-tile-vertical") then
          (frameSize env q frame a.2).bind fun r =>
            some ({ a.1 with height := r.1.height }, r.2)
        else some a).bind fun b => some (((0, 0), b.1), b.2)

/-- `FrameSvgPrivate::generateBackground`; `mask` stands for the call `alphaMask ()`. -/
def generateBackground (env : Env) (q : SvgId) (mask : World → Option (QPixmap × World))
    (frame : Ptr) (w : World) : Option World :=
  (w.fd frame).bind fun f0 =>
    if f0.cachedBackground.isSome || !hasElementPrefix env w q (w.svgs q).requestedPrefix then
      some w
    else
      let px := (w.svgs q).actualPrefix
      (cacheId env q frame px w).bind fun k =>
        let theme := (k.2.svgs q).theme
        let overlayAvailable :=
          !("mask-".data.isPrefixOf px.data) && hasElement env k.2 q (px ++ "overlay")
        let useCache := (k.2.svgs q).usingRenderingCache
        let hit := if useCache then k.2.pixmapCache theme k.1 else none
        let overlayHit : Option QPixmap :=
          if useCache && overlayAvailable then k.2.pixmapCache theme ("overlay_" ++ k.1)
          else none
        (k.2.fd frame).bind fun f1 =>
          let w1 := match hit with
            | some pix => k.2.setFd frame { f1 with cachedBackground := pix }
            | none => k.2
          let frameCached := (hit.getD none).isSome
          let overlayCached := (overlayHit.getD none).isSome
          (if !frameCached then generateFrameBackground env q mask frame w1
           else some w1).bind fun w2 =>
            (if overlayAvailable && !overlayCached then
              (overlayPlacement env q frame w2).bind fun o =>
                (mask o.2).bind fun m => some (m.1, m.2)
            else some (overlayHit.getD none, w2)).bind fun ov =>
              if !frameCached then
                (ov.2.fd frame).bind fun f2 =>
                  cacheFrame env q (ov.2.svgs q).actualPrefix f2.cachedBackground
                    (if overlayCached then ov.1 else none) ov.2
              else some ov.2

/-- The mask branch of `FrameSvgPrivate::alphaMask` (lines 678 to 724), entered with
`d->prefix` still the old prefix; `gen` stands for `generateBackground`.  When the mask
raster stays null the function returns early and `d->prefix` keeps the mask prefix. -/
def alphaMaskBranch (env : Env) (q : SvgId) (gen : Ptr → World → Option World)
    (frame : Ptr) (w : World) : Option (QPixmap × World) :=
  let c := w.svgs q
  let oldPrefix := c.actualPrefix
  let px := "mask-" ++ oldPrefix
  let w0 := w.setSvg q { c with actualPrefix := px }
  (if !QHash.contains (w0.svgs q).frames px then
    (cacheId env q frame px w0).bind fun k =>
      let theme := (k.2.svgs q).theme
      let found := k.2.sharedValue theme k.1
      (if found ≠ 0 then (k.2.ref found q).bind fun w1 => some (found, w1)
       else
        (k.2.fd frame).bind fun f =>
          let a := k.2.alloc (f.copy q)
          (a.2.fd a.1).bind fun nf =>
            some (a.1, (a.2.sharedInsert theme k.1 a.1).setFd a.1 { nf with theme := theme })
      ).bind fun m =>
        (m.2.fd frame).bind fun f =>
          (m.2.fd m.1).bind fun mf =>
            updateSizes env q
              ((m.2.setFd m.1 { mf with enabledBorders := f.enabledBorders }).framesInsert
                q px m.1)
  else some w0).bind fun w1 =>
    let maskFrame := w1.framesValue q px
    (w1.fd frame).bind fun f =>
      (w1.fd maskFrame).bind fun mf =>
        let w2 := w1.setFd maskFrame { mf with enabledBorders := f.enabledBorders }
        (if mf.cachedBackground.isNone then some (true, w2)
         else (frameSize env q frame w2).bind fun r =>
          (r.2.fd maskFrame).bind fun mf1 => some (decide (mf1.frameSize ≠ r.1), r.2)).bind
          fun t =>
            (if t.1 then
              (cacheId env q maskFrame px t.2).bind fun k1 =>
                (frameSize env q frame k1.2).bind fun r =>
                  (r.2.fd maskFrame).bind fun mf2 =>
                    let w3 := r.2.setFd maskFrame { mf2 with frameSize := r.1 }
                    (cacheId env q maskFrame px w3).bind fun k2 =>
                      let theme := (k2.2.svgs q).theme
                      let w4 :=
                        if (k2.2.sharedFrames theme k1.1).isSome then
                          (k2.2.sharedRemove theme k1.1).sharedInsert theme k2.1 maskFrame
                        else k2.2
                      (w4.fd maskFrame).bind fun mf3 =>
                        gen maskFrame (w4.setFd maskFrame { mf3 with cachedBackground := none })
            else some t.2).bind fun w5 =>
              (w5.fd maskFrame).bind fun mf4 =>
                if t.1 && mf4.cachedBackground.isNone then some (none, w5)
                else
                  let c5 := w5.svgs q
                  some (mf4.cachedBackground, w5.setSvg q { c5 with actualPrefix := oldPrefix })

/-- `FrameSvgPrivate::alphaMask`.  The function calls itself through `generateBackground`
(for an overlay, or a FrameData that composes over its border); `fuel` bounds the depth
of these calls, and the result is `none` when it does not suffice. -/
def alphaMask (env : Env) (q : SvgId) : Nat → World → Option (QPixmap × World)
  | 0, _ => none
  | fuel + 1, w =>
    let px := (w.svgs q).actualPrefix
    let frame := w.framesValue q px
    if hasElement env w q ("mask-" ++ px ++ "center") then
      alphaMaskBranch env q (generateBackground env q (alphaMask env q fuel)) frame w
    else
      (w.fd frame).bind fun f =>
        (if f.cachedBackground.isNone then
          generateBackground env q (alphaMask env q fuel) frame w
        else some w).bind fun w1 =>
          (w1.fd frame).bind fun f1 => some (f1.cachedBackground, w1)

/-- `FrameSvg::alphaMask`. -/
def FrameSvg_alphaMask (env : Env) (q : SvgId) (fuel : Nat) (w : World) :
    Option (QPixmap × World) :=
  alphaMask env q fuel w

/-- `FrameSvg::framePixmap`. -/
def framePixmap (env : Env) (q : SvgId) (fuel : Nat) (w : World) : Option (QPixmap × World) :=
  let frame := w.framesValue q (w.svgs q).actualPrefix
  (w.fd frame).bind fun f =>
    (if f.cachedBackground.isNone then
      generateBackground env q (alphaMask env q fuel) frame w
    else some w).bind fun w1 => (w1.fd frame).bind fun f1 => some (f1.cachedBackground, w1)

/-- `FrameSvg::setCacheAllRenderedFrames`. -/
def setCacheAllRenderedFrames (env : Env) (q : SvgId) (cache : Bool) (w : World) :
    Option World :=
  (if (w.svgs q).cacheAll && !cache then clearCache env q w else some w).bind fun w1 =>
    let c := w1.svgs q
    some (w1.setSvg q { c with cacheAll := cache })

end Plasma

namespace Plasma

/-! ## `QString::number (double)` -/

/-- The largest `e` with `d * 10 ^ e ≤ n`, searched upwards from `e`; used with
`d ≤ n`. -/
def decimalExponentUp (n d : Nat) : Nat → Nat → Nat
  | 0, e => e
  | fuel + 1, e => if d * 10 ^ (e + 1) ≤ n then decimalExponentUp n d fuel (e + 1) else e

/-- The smallest `k` with `d ≤ n * 10 ^ k`, searched upwards from `k`; used with
`n < d`. -/
def decimalExponentDown (n d : Nat) : Nat → Nat → Nat
  | 0, k => k
  | fuel + 1, k => if d ≤ n * 10 ^ k then k else decimalExponentDown n d fuel (k + 1)

/-- A list of digits without its trailing zeros. -/
def stripZeros (l : List Char) : List Char :=
  (l.reverse.dropWhile fun c => decide (c = '0')).reverse

/-- The text of the exponent of the `e` format: a sign and at least two digits. -/
def exponentText (e : Int) : String :=
  (if e < 0 then "e-" else "e+") ++ (if e.natAbs < 10 then "0" else "") ++ toString e.natAbs

/-- The `g` format with six significant digits for the positive fraction `n / d`: the
value is rounded to six significant digits (ties to even); it is written with an exponent
when the decimal exponent is below `-4` or at least `6`, in fixed notation otherwise, and
trailing zeros are dropped. -/
def formatG6 (n d : Nat) : String :=
  let e0 : Int :=
    if d ≤ n then (decimalExponentUp n d n 0 : Nat)
    else -((decimalExponentDown n d d 1 : Nat) : Int)
  let p := if 5 ≤ e0 then n else n * 10 ^ (5 - e0).toNat
  let q := if 5 ≤ e0 then d * 10 ^ (e0 - 5).toNat else d
  let m0 := p / q
  let r := p % q
  let m1 := if 2 * r < q then m0 else if q < 2 * r then m0 + 1
    else if m0 % 2 = 0 then m0 else m0 + 1
  let m := if m1 = 1000000 then 100000 else m1
  let e := if m1 = 1000000 then e0 + 1 else e0
  let digits := (toString m).data
  if e < -4 ∨ 6 ≤ e then
    let rest := stripZeros (digits.drop 1)
    String.mk (digits.take 1) ++ (if rest = [] then "" else "." ++ String.mk rest)
      ++ exponentText e
  else if 0 ≤ e then
    let frac := stripZeros (digits.drop (e.toNat + 1))
    String.mk (digits.take (e.toNat + 1)) ++ (if frac = [] then "" else "." ++ String.mk frac)
  else
    "0." ++ String.mk (List.replicate ((-e).toNat - 1) '0') ++ String.mk (stripZeros digits)

/-- `QString::number (double n, char format = 'g', int precision = 6)` of Qt, on exact
rationals. -/
def qNumber (x : ℚ) : String :=
  if x.num = 0 then "0"
  else (if x.num < 0 then "-" else "") ++ formatG6 x.num.natAbs x.den

end Plasma


namespace Plasma

/-! ## Predicates on states and example data -/

/-- The key that `cacheId` computes for the active prefix of consumer `q`, for a FrameData
with the given borders and a valid frame size `size`. -/
def keyOf (env : Env) (w : World) (q : SvgId) (borders : Nat) (size : QSize) : String :=
  cacheKey env borders size.width size.height (w.svgs q).scaleFactor
    (w.svgs q).devicePixelRatio (w.svgs q).actualPrefix (w.svgs q).imagePath

/-- A theme for the examples: the image `bg` of natural size 100 x 100 has a center, four
borders of extent 5, a mask for the default prefix and a `north` prefix; numbers are
written as Qt writes them. -/
def exampleEnv : Env :=
  { hasElement := fun _ path id =>
      decide (path = "bg") &&
        decide (id ∈ ["center", "top", "left", "right", "bottom", "mask-center", "north-center"])
    elementSize := fun _ path id =>
      if path = "bg" ∧ id ∈ ["top", "left", "right", "bottom"] then { width := 5, height := 5 }
      else { width := 0, height := 0 }
    naturalSize := fun _ path =>
      if path = "bg" then { width := 100, height := 100 } else { width := -1, height := -1 }
    numberReal := qNumber }

/-- The `Svg` state of a consumer that has no image yet: no path, no valid size, scale
factor and device pixel ratio 1, theme 1, no rendering cache. -/
def blankSvg : FrameSvg :=
  { imagePath := "", size := { width := -1, height := -1 }, scaleFactor := 1,
    devicePixelRatio := 1, theme := 1, usingRenderingCache := false, actualPrefix := "",
    requestedPrefix := "", location := Location.Floating, frames := [], cacheAll := false }

/-- The state of a process before any consumer is constructed. -/
def World.empty : World :=
  { heap := [], svgs := fun _ => blankSvg, sharedFrames := fun _ _ => none,
    pixmapCache := fun _ _ => none }

/-- Two freshly constructed consumers, 1 and 2, on the same theme; their FrameData are
at the pointers 1 and 2. -/
def twoConsumers : World :=
  construct 2 blankSvg (construct 1 blankSvg World.empty)

/-- Run a sequence of operations, stopping at the first that fails. -/
def run (ops : List (World → Option World)) (w : World) : Option World :=
  ops.foldl (fun acc op => acc.bind op) (some w)

/-- The call `alphaMask ()` on consumer `q` with the returned pixmap dropped. -/
def callAlphaMask (env : Env) (q : SvgId) (w : World) : Option World :=
  (alphaMask env q 8 w).map fun r => r.2

/-- The size 200 x 200. -/
def size200 : QSizeF := { width := 200, height := 200 }

/-- The size 300 x 300. -/
def size300 : QSizeF := { width := 300, height := 300 }

/-- What the examples observe of a FrameData: borders, frame size, reference set. -/
structure FrameView where
  borders : Nat
  size : QSize
  references : List (SvgId × Int)
deriving DecidableEq

/-- The observed part of a FrameData. -/
def FrameData.view (fd : FrameData) : FrameView :=
  { borders := fd.enabledBorders, size := fd.frameSize, references := fd.references }

/-- The FrameData that consumer `q` holds for its active prefix. -/
def World.active (w : World) (q : SvgId) : Ptr :=
  w.framesValue q (w.svgs q).actualPrefix

/-- A FrameData to fall back on when a pointer is read that addresses nothing. -/
def FrameData.blank : FrameData := FrameData.create 0 "" 0

/-- The FrameData at pointer `p`; `FrameData.blank` for a pointer that addresses nothing. -/
def World.get (w : World) (p : Ptr) : FrameData := (w.fd p).getD FrameData.blank

/-- The size 200.25 x 200, which `toSize` rounds to 200 x 200. -/
def size200Quarter : QSizeF :=
  { width := { num := 801, den := 4, den_nz := by decide, reduced := by decide },
    height := 200 }

/-- Consumer 1 has set the image `bg`; consumer 2 is still fresh. -/
def soloWorld : World :=
  (run [setImagePath exampleEnv 1 "bg"] twoConsumers).getD World.empty

/-- Both consumers have set the image `bg` and resized to 200 x 200: consumer 2 found the
FrameData of consumer 1 in the registry, so both hold the FrameData at pointer 1. -/
def sharedWorld : World :=
  (run [setImagePath exampleEnv 1 "bg", resizeFrame exampleEnv 1 size200,
        setImagePath exampleEnv 2 "bg", resizeFrame exampleEnv 2 size200]
    twoConsumers).getD World.empty

/-- A freshly constructed consumer whose `Svg` was resized to 50 x 50 before: its
FrameData, at pointer 1, has no valid frame size yet. -/
def freshSizedWorld : World :=
  construct 1 { blankSvg with size := { width := 50, height := 50 } } World.empty

/-- Consumer 1 with scale factor 1000000 and consumer 2 with scale factor 1000001, both
with the image `bg` at 100 x 100; their FrameData are at the pointers 1 and 2. -/
def scaledWorld : World :=
  (run [setImagePath exampleEnv 1 "bg", setImagePath exampleEnv 2 "bg"]
    (construct 2 { blankSvg with scaleFactor := 1000001 }
      (construct 1 { blankSvg with scaleFactor := 1000000 } World.empty))).getD World.empty

/-- The value of a list of decimal digits. -/
def digitsValue (l : List Char) : Nat :=
  l.foldl (fun a c => a * 10 + (c.toNat - 48)) 0

end Plasma


namespace Plasma

/-! ## The registry invariant -/

/-- Consumer `q` holds exactly one FrameData, `p`, and holds it under its active prefix. -/
def Holds (w : World) (q : SvgId) (p : Ptr) : Prop :=
  (w.svgs q).frames = [((w.svgs q).actualPrefix, p)]

/-- The part of a consumer's state that the invariant reads: the FrameData it holds and
the components of its cache keys. -/
def SameKeyData (c c2 : FrameSvg) : Prop :=
  c2.frames = c.frames ∧ c2.actualPrefix = c.actualPrefix ∧ c2.cacheAll = c.cacheAll
    ∧ c2.imagePath = c.imagePath ∧ c2.scaleFactor = c.scaleFactor
    ∧ c2.devicePixelRatio = c.devicePixelRatio

/-- Two readings of one heap cell between which only `updateSizes` and the lazy
initialisation of `frameSize` ran: the object is neither created nor deleted, reference
set, theme and borders are kept, and so is a frame size that was valid. -/
def QuietFd : Option FrameData → Option FrameData → Prop
  | none, none => True
  | some a, some b =>
    b.references = a.references ∧ b.theme = a.theme ∧ b.enabledBorders = a.enabledBorders
      ∧ (a.frameSize.isValid = true → b.frameSize = a.frameSize)
  | _, _ => False

/-- Two states between which only `updateSizes` and the lazy initialisation of
`frameSize` ran. -/
def Quiet (w w2 : World) : Prop :=
  w2.svgs = w.svgs ∧ w2.sharedFrames = w.sharedFrames ∧ ∀ x, QuietFd (w.fd x) (w2.fd x)

/-- The reference set of the FrameData at `p`, empty when `p` addresses nothing. -/
def World.refsAt (w : World) (p : Ptr) : List (SvgId × Int) :=
  ((w.fd p).map fun fd => fd.references).getD []

/-- The invariant of the Shared Frame Registry over the constructed consumers `qs`:
every consumer holds one live FrameData and is counted once in its reference set; a
reference set names each consumer once, and only consumers that hold the FrameData; and
every registry entry points to a live FrameData with a non-empty reference set, stamped
with the theme it is registered for, of valid frame size, under the key that `cacheId`
computes for each of its holders. -/
structure Inv (env : Env) (qs : List SvgId) (w : World) : Prop where
  single : ∀ q, q ∈ qs → (w.svgs q).cacheAll = false ∧
    ∃ p fd, Holds w q p ∧ w.fd p = some fd ∧ QHash.value fd.references q = some 1
  nodup : ∀ p fd, w.fd p = some fd → (fd.references.map Prod.fst).Nodup
  owners : ∀ p fd q n, w.fd p = some fd → QHash.value fd.references q = some n →
    q ∈ qs ∧ Holds w q p
  registered : ∀ t k p, w.sharedFrames t k = some p →
    ∃ fd, w.fd p = some fd ∧ fd.references ≠ [] ∧ fd.theme = t
      ∧ fd.frameSize.isValid = true
      ∧ ∀ q, q ∈ qs → Holds w q p → k = keyOf env w q fd.enabledBorders fd.frameSize

/-- The states reachable from the empty process by constructing consumers and calling
`setImagePath`, `setElementPrefix` (both overloads), `setEnabledBorders`, `resizeFrame`
and `clearCache` on constructed consumers; `qs` lists the constructed consumers. -/
inductive Reachable (env : Env) : List SvgId → World → Prop
  | init : Reachable env [] World.empty
  | construct (qs : List SvgId) (w : World) (q : SvgId) (svg : FrameSvg) :
      Reachable env qs w → q ∉ qs → Reachable env (q :: qs) (Plasma.construct q svg w)
  | setImagePath (qs : List SvgId) (w w1 : World) (q : SvgId) (path : String) :
      Reachable env qs w → q ∈ qs → Plasma.setImagePath env q path w = some w1 →
      Reachable env qs w1
  | setElementPrefix (qs : List SvgId) (w w1 : World) (q : SvgId) (p : String) :
      Reachable env qs w → q ∈ qs → Plasma.setElementPrefix env q p w = some w1 →
      Reachable env qs w1
  | setElementPrefixLocation (qs : List SvgId) (w w1 : World) (q : SvgId) (l : Location) :
      Reachable env qs w → q ∈ qs → Plasma.setElementPrefixLocation env q l w = some w1 →
      Reachable env qs w1
  | setEnabledBorders (qs : List SvgId) (w w1 : World) (q : SvgId) (borders : Nat) :
      Reachable env qs w → q ∈ qs → Plasma.setEnabledBorders env q borders w = some w1 →
      Reachable env qs w1
  | resizeFrame (qs : List SvgId) (w w1 : World) (q : SvgId) (size : QSizeF) :
      Reachable env qs w → q ∈ qs → Plasma.resizeFrame env q size w = some w1 →
      Reachable env qs w1
  | clearCache (qs : List SvgId) (w w1 : World) (q : SvgId) :
      Reachable env qs w → q ∈ qs → Plasma.clearCache env q w = some w1 →
      Reachable env qs w1

end Plasma

namespace Plasma

/-- A theme like `exampleEnv` in which every image has the natural size 100 x 100. -/
def sizedEnv : Env :=
  { exampleEnv with naturalSize := fun _ _ => { width := 100, height := 100 } }

/-- One consumer, constructed and with the image `bg` set, on the theme `sizedEnv`: its
FrameData, at pointer 1, is registered under the key `15_100_100_1_1__bg`. -/
def registeredWorld : World :=
  (setImagePath sizedEnv 1 "bg" (construct 1 blankSvg World.empty)).getD World.empty

end Plasma

namespace Plasma

/-! ## Margins and prefix accessors -/

/-- `Plasma::Types::MarginEdge`. -/
inductive MarginEdge where
  | TopMargin
  | BottomMargin
  | LeftMargin
  | RightMargin
deriving DecidableEq

/-- `FrameSvg::marginSize`: zero when the no-border-padding hint is set, else the effective
margin of the edge; the default case of the switch is the bottom margin. -/
def marginSize (w : World) (q : SvgId) (edge : MarginEdge) : Option Int :=
  (w.fd (w.framesValue q (w.svgs q).actualPrefix)).bind fun f =>
    if f.noBorderPadding then some 0
    else
      match edge with
      | MarginEdge.TopMargin => some f.topMargin
      | MarginEdge.LeftMargin => some f.leftMargin
      | MarginEdge.RightMargin => some f.rightMargin
      | _ => some f.bottomMargin

/-- `FrameSvg::fixedMarginSize`: zero when the no-border-padding hint is set, else the
fixed margin of the edge. -/
def fixedMarginSize (w : World) (q : SvgId) (edge : MarginEdge) : Option Int :=
  (w.fd (w.framesValue q (w.svgs q).actualPrefix)).bind fun f =>
    if f.noBorderPadding then some 0
    else
      match edge with
      | MarginEdge.TopMargin => some f.fixedTopMargin
      | MarginEdge.LeftMargin => some f.fixedLeftMargin
      | MarginEdge.RightMargin => some f.fixedRightMargin
      | _ => some f.fixedBottomMargin

/-- `FrameSvg::prefix`: the prefix as it was requested. -/
def requestedPrefixOf (w : World) (q : SvgId) : String :=
  (w.svgs q).requestedPrefix

/-- `FrameSvg::actualPrefix`: the effective prefix `d->prefix`. -/
def FrameSvg_actualPrefix (w : World) (q : SvgId) : String :=
  (w.svgs q).actualPrefix

/-- The name of the border element that belongs to a margin edge. -/
def MarginEdge.element : MarginEdge → String
  | MarginEdge.TopMargin => "top"
  | MarginEdge.BottomMargin => "bottom"
  | MarginEdge.LeftMargin => "left"
  | MarginEdge.RightMargin => "right"

/-- The name of the margin hint element that belongs to a margin edge. -/
def MarginEdge.hint : MarginEdge → String
  | MarginEdge.TopMargin => "hint-top-margin"
  | MarginEdge.BottomMargin => "hint-bottom-margin"
  | MarginEdge.LeftMargin => "hint-left-margin"
  | MarginEdge.RightMargin => "hint-right-margin"

/-- The border flag that belongs to a margin edge. -/
def MarginEdge.border : MarginEdge → Nat
  | MarginEdge.TopMargin => TopBorder
  | MarginEdge.BottomMargin => BottomBorder
  | MarginEdge.LeftMargin => LeftBorder
  | MarginEdge.RightMargin => RightBorder

/-- The extent of an element that counts for a margin edge: the height for top and
bottom, the width for left and right. -/
def MarginEdge.extentOf (e : MarginEdge) (s : QSize) : Int :=
  match e with
  | MarginEdge.TopMargin => s.height
  | MarginEdge.BottomMargin => s.height
  | MarginEdge.LeftMargin => s.width
  | MarginEdge.RightMargin => s.width

/-- The effective margin field of an edge. -/
def FrameData.margin (f : FrameData) : MarginEdge → Int
  | MarginEdge.TopMargin => f.topMargin
  | MarginEdge.BottomMargin => f.bottomMargin
  | MarginEdge.LeftMargin => f.leftMargin
  | MarginEdge.RightMargin => f.rightMargin

/-- The effective extent field of an edge. -/
def FrameData.extent (f : FrameData) : MarginEdge → Int
  | MarginEdge.TopMargin => f.topHeight
  | MarginEdge.BottomMargin => f.bottomHeight
  | MarginEdge.LeftMargin => f.leftWidth
  | MarginEdge.RightMargin => f.rightWidth

/-- The fixed margin field of an edge. -/
def FrameData.fixedMargin (f : FrameData) : MarginEdge → Int
  | MarginEdge.TopMargin => f.fixedTopMargin
  | MarginEdge.BottomMargin => f.fixedBottomMargin
  | MarginEdge.LeftMargin => f.fixedLeftMargin
  | MarginEdge.RightMargin => f.fixedRightMargin

/-- The fixed extent field of an edge. -/
def FrameData.fixedExtent (f : FrameData) : MarginEdge → Int
  | MarginEdge.TopMargin => f.fixedTopHeight
  | MarginEdge.BottomMargin => f.fixedBottomHeight
  | MarginEdge.LeftMargin => f.fixedLeftWidth
  | MarginEdge.RightMargin => f.fixedRightWidth

end Plasma

namespace Plasma

/-- Consumer 1 has set the image `bg` and enabled the top border only. -/
def topBorderWorld : World :=
  (run [setImagePath exampleEnv 1 "bg", setEnabledBorders exampleEnv 1 TopBorder]
    twoConsumers).getD World.empty

end Plasma

namespace Plasma

/-- One consumer with the device pixel ratio -1 that has set the image `bg`: its
FrameData, at pointer 1, has the frame size 100 x 100 and no raster. -/
def negativeRatioWorld : World :=
  (run [setImagePath exampleEnv 1 "bg"]
    (construct 1 { blankSvg with devicePixelRatio := -1 } World.empty)).getD World.empty

/-- One consumer with the device pixel ratio 0 that has set the image `bg`: its
FrameData, at pointer 1, has the frame size 100 x 100 and no raster. -/
def zeroRatioWorld : World :=
  (run [setImagePath exampleEnv 1 "bg"]
    (construct 1 { blankSvg with devicePixelRatio := 0 } World.empty)).getD World.empty

/-- The raster of the FrameData at `p`. -/
def World.raster (w : World) (p : Ptr) : Option QPixmap :=
  (w.fd p).map fun f => f.cachedBackground

end Plasma

namespace Plasma

/-- The size 100000 x 100, whose width reaches `MAX_FRAME_SIZE`. -/
def oversizedSize : QSizeF := { width := 100000, height := 100 }

end Plasma

namespace Plasma

/-- Both consumers have set the image `bg` and resized to 200 x 200 on the theme
`sizedEnv`, consumer 1 first: both hold the FrameData at pointer 1, which is registered. -/
def sharedSizedWorld : World :=
  (resizeFrame sizedEnv 2 size200
    ((setImagePath sizedEnv 2 "bg"
      ((resizeFrame sizedEnv 1 size200
        ((setImagePath sizedEnv 1 "bg" twoConsumers).getD World.empty)).getD
          World.empty)).getD World.empty)).getD World.empty

end Plasma

namespace Plasma

/-- Consumer 1 of `soloWorld` has turned cache-all mode on, visited the prefix `north` and
returned to the default prefix: its collection holds the FrameData 1 under the default
prefix and the FrameData 3 under `north-`. -/
def cachingWorld : World :=
  (run [setCacheAllRenderedFrames exampleEnv 1 true, setElementPrefix exampleEnv 1 "north",
        setElementPrefix exampleEnv 1 ""] soloWorld).getD World.empty

/-- The state `registeredWorld` after consumer 1 has turned cache-all mode on. -/
def cacheAllWorld : World :=
  (setCacheAllRenderedFrames sizedEnv 1 true registeredWorld).getD World.empty

end Plasma

namespace Plasma

/-! ## Definitions for the claims on locations, masks and geometry -/

/-- The prefix name that the specification assigns to a location: the four edges map to
the compass names, every other location to the empty string. -/
def Location.edgeName : Location → String
  | Location.TopEdge => "north"
  | Location.BottomEdge => "south"
  | Location.LeftEdge => "west"
  | Location.RightEdge => "east"
  | _ => ""

end Plasma

namespace Plasma

/-- A call on the reference map of a FrameData: `ref`, `deref` or `removeRefs` for a
consumer. -/
inductive RefOp where
  | ref (svg : SvgId)
  | deref (svg : SvgId)
  | removeRefs (svg : SvgId)
deriving DecidableEq

/-- The FrameData after one call on its reference map. -/
def FrameData.call (f : FrameData) : RefOp → FrameData
  | RefOp.ref svg => f.ref svg
  | RefOp.deref svg => (f.deref svg).2
  | RefOp.removeRefs svg => (f.removeRefs svg).2

/-- The FrameData after a sequence of calls on its reference map. -/
def FrameData.calls (f : FrameData) (ops : List RefOp) : FrameData :=
  ops.foldl FrameData.call f

/-- Every count stored in the reference map is at least 1. -/
def FrameData.countsPositive (f : FrameData) : Prop :=
  ∀ e ∈ f.references, 1 ≤ e.2

end Plasma

namespace Plasma

/-- Consumer 1 of `soloWorld` has resized its frame to 100000 x 100, for which no raster
is generated. -/
def oversizedWorld : World :=
  (run [resizeFrame exampleEnv 1 oversizedSize] soloWorld).getD World.empty

/-- Consumer 1 of `soloWorld` has asked for the prefix `south`, which the theme does not
have: the active prefix is the default one and the requested prefix is `south`. -/
def southWorld : World :=
  (run [setElementPrefix exampleEnv 1 "south"] soloWorld).getD World.empty

end Plasma

namespace Plasma

/-- Three consumers on the image `bg`.  Consumer 2 has the top border only and the size
200 x 200.  Consumer 1 resized to 200 x 200 and called `alphaMask ()`, which registered
its mask FrameData (pointer 4) under the key `15_200_200_1_1_mask-_bg`; it then took the
top border only (adopting the FrameData of consumer 2), called `alphaMask ()`, resized to
300 x 300 and called `alphaMask ()` again, which wrote borders and size into the mask
FrameData without moving its registry entry.  Consumer 3 has the prefix `mask`. -/
def staleMaskWorld : World :=
  (run [setImagePath exampleEnv 2 "bg", setEnabledBorders exampleEnv 2 TopBorder,
        resizeFrame exampleEnv 2 size200,
        setImagePath exampleEnv 1 "bg", resizeFrame exampleEnv 1 size200,
        callAlphaMask exampleEnv 1,
        setEnabledBorders exampleEnv 1 TopBorder, callAlphaMask exampleEnv 1,
        resizeFrame exampleEnv 1 size300, callAlphaMask exampleEnv 1,
        setImagePath exampleEnv 3 "bg", setElementPrefix exampleEnv 3 "mask"]
    (construct 3 blankSvg twoConsumers)).getD World.empty

end Plasma

namespace Plasma

/-- `QRect`, held as the top left corner with width and height. -/
structure QRect where
  x : Int
  y : Int
  width : Int
  height : Int
deriving DecidableEq

/-- The conversion of a `qreal` to `int` that C++ applies to an argument: the fraction
is dropped. -/
def qTruncate (x : ℚ) : Int :=
  x.num.tdiv x.den

/-- `FrameSvgPrivate::contentGeometry`: the products with the device pixel ratio are
`qreal`, and are converted to `int` where they are passed to `QSize` and to
`QRect::translate`. -/
def contentGeometry (env : Env) (w : World) (q : SvgId) (frame : FrameData) (size : QSize) :
    QRect :=
  let ratio := (w.svgs q).devicePixelRatio
  let px := (w.svgs q).actualPrefix
  let cw := qTruncate ((size.width : ℚ) - frame.leftWidth * ratio - frame.rightWidth * ratio)
  let ch := qTruncate ((size.height : ℚ) - frame.topHeight * ratio - frame.bottomHeight * ratio)
  let dx :=
    if hasBorder frame.enabledBorders LeftBorder && hasElement env w q (px ++ "left") then
      qTruncate (frame.leftWidth * ratio)
    else 0
  let dy :=
    if hasBorder frame.enabledBorders TopBorder && hasElement env w q (px ++ "top") then
      qTruncate (frame.topHeight * ratio)
    else 0
  { x := dx, y := dy, width := cw, height := ch }

end Plasma

namespace Plasma

/-- The example theme with an overlay of 20 x 10 that is aligned to the right. -/
def overlayEnv : Env :=
  { exampleEnv with
    hasElement := fun t path id =>
      exampleEnv.hasElement t path id || decide (id ∈ ["overlay", "hint-overlay-pos-right"])
    elementSize := fun t path id =>
      if id = "overlay" then { width := 20, height := 10 }
      else exampleEnv.elementSize t path id }

end Plasma

namespace Plasma

/-! ## Reference accounting -/

/-- The number of prefixes under which consumer `c` holds the FrameData at `p`. -/
def World.holdCount (w : World) (c : SvgId) (p : Ptr) : Nat :=
  ((w.svgs c).frames.filter fun e => decide (e.2 = p)).length

/-- The entry of a reference map for a consumer that is counted `n` times: none when `n`
is not positive. -/
def storedEntry (n : Int) : Option Int :=
  if n ≤ 0 then none else some n

/-- The reference maps of the live FrameData store the counts `T`, and `T` is 0 for a
pointer that addresses nothing. -/
structure Counted (w : World) (T : SvgId → Ptr → Int) : Prop where
  nonneg : ∀ c p, 0 ≤ T c p
  counts : ∀ p f c, w.fd p = some f → QHash.value f.references c = storedEntry (T c p)
  dead : ∀ p c, w.fd p = none → T c p = 0

/-- The counts `T` with `n` added for consumer `c` and pointer `p`. -/
def bump (T : SvgId → Ptr → Int) (c : SvgId) (p : Ptr) (n : Int) : SvgId → Ptr → Int :=
  fun c2 p2 => if c2 = c ∧ p2 = p then T c2 p2 + n else T c2 p2

/-- Exact reference accounting: the collections have no duplicate prefixes and point to
live FrameData only, and the reference map of every live FrameData stores, for every
consumer, the number of prefixes under which the consumer holds it, with no entry when
that number is 0. -/
structure Accounted (w : World) : Prop where
  keys : ∀ c, ((w.svgs c).frames.map Prod.fst).Nodup
  live : ∀ c k x, QHash.value (w.svgs c).frames k = some x → ∃ f, w.fd x = some f
  counts : ∀ p f c, w.fd p = some f →
    QHash.value f.references c
      = (if w.holdCount c p = 0 then none else some (w.holdCount c p : Int))

/-- The collection of consumer `q` has an entry for its active prefix. -/
def ActiveHeld (w : World) (q : SvgId) : Prop :=
  ∃ p, QHash.value (w.svgs q).frames (w.svgs q).actualPrefix = some p

end Plasma

namespace Plasma

/-- Every FrameData of `w` is still there in `w2`, with its theme, its borders and a
frame size that was valid. -/
def Kept (w w2 : World) : Prop :=
  ∀ x g, w.fd x = some g → ∃ g1, w2.fd x = some g1 ∧ g1.theme = g.theme
    ∧ g1.enabledBorders = g.enabledBorders
    ∧ (g.frameSize.isValid = true → g1.frameSize = g.frameSize)

end Plasma

namespace Plasma

/-- The entries that the loop of `clearCache` removes from the collection `l`: those
whose FrameData is not `frame`, the FrameData of the active prefix. -/
def staleEntries (frame : Ptr) (l : List (String × Ptr)) : List (String × Ptr) :=
  l.filter fun e => decide (e.2 ≠ frame)

/-- The number of entries of `l` that point to `x`. -/
def entryCount (l : List (String × Ptr)) (x : Ptr) : Nat :=
  (l.filter fun e => decide (e.2 = x)).length

end Plasma

namespace Plasma

/-- The state `w1` after a raster function ran for consumer `q` on `w`: the accounting is
exact, the active prefix of `q` has an entry, the other consumers are untouched and
every entry of the collection of `q` is still there. -/
def Grown (q : SvgId) (w w1 : World) : Prop :=
  Accounted w1 ∧ ActiveHeld w1 q ∧ (∀ c, c ≠ q → w1.svgs c = w.svgs c)
    ∧ ∀ k x, QHash.value (w.svgs q).frames k = some x →
        QHash.value (w1.svgs q).frames k = some x

end Plasma

namespace Plasma

/-- The invariant of the states reached with the constructed consumers `qs`: the
accounting is exact, every constructed consumer has an entry for its active prefix, and
a consumer that is not constructed has an empty collection. -/
def Sound (qs : List SvgId) (w : World) : Prop :=
  Accounted w ∧ (∀ q, q ∈ qs → ActiveHeld w q) ∧ ∀ c, c ∉ qs → (w.svgs c).frames = []

/-- The states reachable from the empty process by constructing consumers and calling
`setImagePath`, `setElementPrefix` (both overloads), `setEnabledBorders`, `resizeFrame`,
`clearCache`, `setCacheAllRenderedFrames`, `alphaMask` and `framePixmap` on constructed
consumers; `qs` lists the constructed consumers. -/
inductive Reached (env : Env) : List SvgId → World → Prop
  | init : Reached env [] World.empty
  | construct (qs : List SvgId) (w : World) (q : SvgId) (svg : FrameSvg) :
      Reached env qs w → q ∉ qs → Reached env (q :: qs) (Plasma.construct q svg w)
  | setImagePath (qs : List SvgId) (w w1 : World) (q : SvgId) (path : String) :
      Reached env qs w → q ∈ qs → Plasma.setImagePath env q path w = some w1 →
      Reached env qs w1
  | setElementPrefix (qs : List SvgId) (w w1 : World) (q : SvgId) (p : String) :
      Reached env qs w → q ∈ qs → Plasma.setElementPrefix env q p w = some w1 →
      Reached env qs w1
  | setElementPrefixLocation (qs : List SvgId) (w w1 : World) (q : SvgId) (l : Location) :
      Reached env qs w → q ∈ qs → Plasma.setElementPrefixLocation env q l w = some w1 →
      Reached env qs w1
  | setEnabledBorders (qs : List SvgId) (w w1 : World) (q : SvgId) (borders : Nat) :
      Reached env qs w → q ∈ qs → Plasma.setEnabledBorders env q borders w = some w1 →
      Reached env qs w1
  | resizeFrame (qs : List SvgId) (w w1 : World) (q : SvgId) (size : QSizeF) :
      Reached env qs w → q ∈ qs → Plasma.resizeFrame env q size w = some w1 →
      Reached env qs w1
  | clearCache (qs : List SvgId) (w w1 : World) (q : SvgId) :
      Reached env qs w → q ∈ qs → Plasma.clearCache env q w = some w1 →
      Reached env qs w1
  | setCacheAllRenderedFrames (qs : List SvgId) (w w1 : World) (q : SvgId) (cache : Bool) :
      Reached env qs w → q ∈ qs → Plasma.setCacheAllRenderedFrames env q cache w = some w1 →
      Reached env qs w1
  | alphaMask (qs : List SvgId) (w : World) (q : SvgId) (fuel : Nat) (r : QPixmap × World) :
      Reached env qs w → q ∈ qs → Plasma.FrameSvg_alphaMask env q fuel w = some r →
      Reached env qs r.2
  | framePixmap (qs : List SvgId) (w : World) (q : SvgId) (fuel : Nat) (r : QPixmap × World) :
      Reached env qs w → q ∈ qs → Plasma.framePixmap env q fuel w = some r →
      Reached env qs r.2

end Plasma

namespace Plasma

/-- Consumer 1 of `cacheAllWorld` has visited the prefix `north` and returned to the
default prefix: its collection holds the FrameData 1 under the default prefix and the
FrameData 2 under `north-`. -/
def visitedWorld : World :=
  (setElementPrefix sizedEnv 1 ""
    ((setElementPrefix sizedEnv 1 "north" cacheAllWorld).getD World.empty)).getD World.empty

/-- The state after consumer 1 of `registeredWorld` has called `alphaMask ()`: its
collection holds the FrameData 1 under the default prefix and the mask FrameData 2 under
`mask-`. -/
def maskedWorld : World :=
  ((FrameSvg_alphaMask sizedEnv 1 8 registeredWorld).getD (none, World.empty)).2

/-- The collection of consumer `q` maps its active prefix to a live FrameData. -/
def ActiveLive (w : World) (q : SvgId) : Prop :=
  ∃ p f, QHash.value (w.svgs q).frames (w.svgs q).actualPrefix = some p ∧ p ≠ 0
    ∧ w.fd p = some f

end Plasma

namespace Plasma

/-! ## `contentsRect` and `framePixmap` examples -/

/-- `QRectF`: origin and extent. -/
structure QRectF where
  x : ℚ
  y : ℚ
  width : ℚ
  height : ℚ
deriving DecidableEq

/-- The default constructor `QRectF ()`: the null rectangle. -/
def QRectF.null : QRectF := { x := 0, y := 0, width := 0, height := 0 }

/-- The constructor `QRectF (QPoint (0, 0), size)`. -/
def QRectF.ofSize (s : QSize) : QRectF :=
  { x := 0, y := 0, width := s.width, height := s.height }

/-- `QRectF::adjusted (dx1, dy1, dx2, dy2)`: the two corners moved by the given offsets. -/
def QRectF.adjusted (r : QRectF) (dx1 dy1 dx2 dy2 : ℚ) : QRectF :=
  { x := r.x + dx1, y := r.y + dy1, width := r.width + dx2 - dx1,
    height := r.height + dy2 - dy1 }

/-- `FrameSvg::contentsRect`: the null rectangle when `d->frames.value (d->prefix)` is the
null pointer, else the rectangle of the frame size adjusted by the four margin fields of
the FrameData. -/
def contentsRect (w : World) (q : SvgId) : Option QRectF :=
  let frame := w.framesValue q (w.svgs q).actualPrefix
  if frame = 0 then some QRectF.null
  else
    (w.fd frame).bind fun f =>
      some ((QRectF.ofSize f.frameSize).adjusted f.leftMargin f.topMargin (-f.rightMargin)
        (-f.bottomMargin))

/-- The rectangle that the specification gives for `contentsRect ()`: when the active
prefix has a FrameData, the rectangle (0, 0, frame width, frame height) inset by
`marginSize` of the left, top, right and bottom edge; the null rectangle when there is no
FrameData. -/
def contentsRectFromMargins (w : World) (q : SvgId) : Option QRectF :=
  let frame := w.framesValue q (w.svgs q).actualPrefix
  if frame = 0 then some QRectF.null
  else
    (w.fd frame).bind fun f =>
      (marginSize w q MarginEdge.LeftMargin).bind fun l =>
        (marginSize w q MarginEdge.TopMargin).bind fun t =>
          (marginSize w q MarginEdge.RightMargin).bind fun r =>
            (marginSize w q MarginEdge.BottomMargin).bind fun b =>
              some { x := l, y := t, width := f.frameSize.width - l - r,
                     height := f.frameSize.height - t - b }

/-- The example theme with the hint `hint-no-border-padding` in the image `bg`. -/
def paddingEnv : Env :=
  { exampleEnv with
    hasElement := fun t path id =>
      exampleEnv.hasElement t path id
        || (decide (path = "bg") && decide (id = "hint-no-border-padding")) }

/-- One consumer, constructed and with the image `bg` set, on the theme `paddingEnv`: its
FrameData, at pointer 1, has the frame size 100 x 100, four margins of 5 and the
no-border-padding hint set. -/
def paddingWorld : World :=
  (setImagePath paddingEnv 1 "bg" (construct 1 blankSvg World.empty)).getD World.empty

/-- The call `framePixmap ()` on consumer `q` with the returned pixmap dropped. -/
def callFramePixmap (env : Env) (q : SvgId) (w : World) : Option World :=
  (framePixmap env q 8 w).map fun r => r.2

/-- Consumer 1 of `soloWorld` has rendered its frame with `framePixmap ()` and then asked
for the prefix `south`, which the theme does not have: the active prefix is still the
default one, and its FrameData holds the raster. -/
def paintedSouthWorld : World :=
  (run [callFramePixmap exampleEnv 1, setElementPrefix exampleEnv 1 "south"]
    soloWorld).getD World.empty

end Plasma

namespace Plasma

/-! ## The Lunar calendar binding (`declarativeimports/calendar/lunar.cpp`) -/

/-- The largest value of `int`. -/
def INT_MAX : Int := 2147483647

/-- The functions of the library `lunar-date` and of `klocalizedstring.h` that
`Lunar::get` calls, as functions of the solar date that was set. -/
structure LunarLib where
  lunar_date_get_jieri : Int → Int → Int → String → String
  lunar_date_strftime : Int → Int → Int → String → String
  i18n : String → String

/-- The members of `Lunar`. -/
structure Lunar where
  m_festival : String
  m_text : String
  m_year : Int
  m_month : Int
  m_day : Int
deriving DecidableEq

/-- `Lunar::Lunar`. -/
def Lunar.create : Lunar :=
  { m_festival := "", m_text := "", m_year := -1, m_month := -1, m_day := -1 }

/-- `Lunar::get`: clears festival and text when a component of the date is negative, else
reads both from the library. -/
def Lunar.get (lib : LunarLib) (s : Lunar) : Lunar :=
  if s.m_year < 0 ∨ s.m_month < 0 ∨ s.m_day < 0 then
    { s with m_festival := "", m_text := "" }
  else
    let festival := lib.lunar_date_get_jieri s.m_year s.m_month s.m_day "\n"
    let format := lib.i18n "Lunar: %(NIAN)(Y)%(YUE)(M)%(RI)(D)" ++ ("\n" ++ festival)
    { s with m_festival := festival,
             m_text := lib.lunar_date_strftime s.m_year s.m_month s.m_day format }

/-- `Lunar::setYear`. -/
def Lunar.setYear (lib : LunarLib) (y : Int) (s : Lunar) : Lunar :=
  { Lunar.get lib { s with m_year := y } with m_text := "okokok" }

/-- `Lunar::setMonth`: `m_month = m + 1`; the addition has no defined result when it
leaves the range of `int`. -/
def Lunar.setMonth (lib : LunarLib) (m : Int) (s : Lunar) : Option Lunar :=
  if m + 1 > INT_MAX then none
  else some (Lunar.get lib { s with m_month := m + 1 })

/-- `Lunar::setDay`. -/
def Lunar.setDay (lib : LunarLib) (d : Int) (s : Lunar) : Lunar :=
  Lunar.get lib { s with m_day := d }

/-- `Lunar::year`. -/
def Lunar.year (s : Lunar) : Int := s.m_year

/-- `Lunar::month`. -/
def Lunar.month (s : Lunar) : Int := s.m_month

/-- `Lunar::day`. -/
def Lunar.day (s : Lunar) : Int := s.m_day

/-- A stand-in for the library: the festival and the text name the date they are asked
for. -/
def exampleLunarLib : LunarLib :=
  { lunar_date_get_jieri := fun _ m d _ => toString m ++ "/" ++ toString d
    lunar_date_strftime := fun y _ _ format => toString y ++ " " ++ format
    i18n := fun s => s }

end Plasma

namespace Plasma

/-! ## The range of `int` -/

/-- The least value of the C++ type `int`. -/
def INT_MIN : Int := -2147483648

/-- Whether both dimensions of the size, rounded with `qRound`, are values of the C++ type
`int`.  `QSizeF::toSize` converts the rounded `qreal` to `int`, which C++ defines for such
values only; for them `QSizeF.toSize` is its result. -/
def QSizeF.fitsInt (s : QSizeF) : Bool :=
  decide (INT_MIN ≤ qRound s.width) && decide (qRound s.width ≤ INT_MAX)
    && decide (INT_MIN ≤ qRound s.height) && decide (qRound s.height ≤ INT_MAX)

/-- Three consumers on the image `bg`, as in `staleMaskWorld` before consumer 3 acts.
Consumer 2 has the top border only and the size 200 x 200.  Consumer 1 resized to
200 x 200 and called `alphaMask ()`, which registered its mask FrameData (pointer 4) under
the key `15_200_200_1_1_mask-_bg`; it then took the top border only, called
`alphaMask ()`, resized to 300 x 300 and called `alphaMask ()` again, which wrote borders
and size into the mask FrameData without moving its registry entry.  Consumer 1 holds the
FrameData 5 under the default prefix, which is active, and the mask FrameData 4 under
`mask-`. -/
def staleKeyWorld : World :=
  (run [setImagePath exampleEnv 2 "bg", setEnabledBorders exampleEnv 2 TopBorder,
        resizeFrame exampleEnv 2 size200,
        setImagePath exampleEnv 1 "bg", resizeFrame exampleEnv 1 size200,
        callAlphaMask exampleEnv 1,
        setEnabledBorders exampleEnv 1 TopBorder, callAlphaMask exampleEnv 1,
        resizeFrame exampleEnv 1 size300, callAlphaMask exampleEnv 1]
    (construct 3 blankSvg twoConsumers)).getD World.empty

end Plasma

namespace Plasma

/-- Consumer `q` is ready for the slot `updateNeeded`: its requested prefix resolves to
its active prefix, so that the slot keeps the prefix, and its collection names no prefix
twice and holds live FrameData only, so that `clearCache` dereferences no deleted
object.  The collection may have any number of entries. -/
def Steady (env : Env) (w : World) (q : SvgId) : Prop :=
  resolvePrefix env w q (w.svgs q).requestedPrefix = (w.svgs q).actualPrefix
    ∧ ((w.svgs q).frames.map Prod.fst).Nodup
    ∧ ∀ e, e ∈ (w.svgs q).frames → (w.fd e.2).isSome = true

end Plasma

namespace Plasma

/-- Consumer 2 of `sharedWorld` has turned cache-all mode on, visited the prefix `north`
and returned to the default prefix: its collection holds the FrameData 1, which consumer 1
holds too, under the default prefix, and the FrameData 3 under `north-`. -/
def sharedCachingWorld : World :=
  (run [setCacheAllRenderedFrames exampleEnv 2 true, setElementPrefix exampleEnv 2 "north",
        setElementPrefix exampleEnv 2 ""] sharedWorld).getD World.empty

/-- Consumer 1 of `oversizedWorld` has called `alphaMask ()`, which returned a null pixmap
and left the prefix `mask-` active: the consumer holds the mask FrameData 3 under `mask-`
and the FrameData 1 under the default prefix, and its requested prefix is the default
one. -/
def earlyReturnWorld : World :=
  (run [callAlphaMask exampleEnv 1] oversizedWorld).getD World.empty

end Plasma

namespace Plasma

/-- The example theme with the hint `hint-compose-over-border` for the default prefix:
with the element `mask-center` it makes a frame of the default prefix compose over its
border. -/
def composeEnv : Env :=
  { exampleEnv with
    hasElement := fun t path id =>
      exampleEnv.hasElement t path id || (decide (path = "bg")
        && decide (id = "hint-compose-over-border")) }

/-- One consumer on the theme `composeEnv` that has set the image `bg`: its FrameData, at
pointer 1, has the frame size 100 x 100, composes over its border and has no raster. -/
def composeWorld : World :=
  (run [setImagePath composeEnv 1 "bg"] (construct 1 blankSvg World.empty)).getD World.empty

end Plasma

namespace Plasma

/-- Between `w` and `w1` only the FrameData at `p`, the registry and the pixmap cache may
have changed: the consumers and every other cell of the heap are as before, and the
FrameData at `p` is alive. -/
def OnlyCell (p : Ptr) (w w1 : World) : Prop :=
  w1.svgs = w.svgs ∧ (∀ x, x ≠ p → w1.fd x = w.fd x) ∧ ∃ g, w1.fd p = some g

end Plasma

namespace Plasma

/-- The FrameData that `alphaMask` takes as the mask of the active FrameData of consumer
`q`, whose record is `f`: the entry of the mask prefix in the collection of `q` or, when
there is none, the FrameData registered under the key of `f` for the mask prefix; the
null pointer when there is neither, in which case `alphaMask` makes a copy. -/
def maskCandidate (env : Env) (w : World) (q : SvgId) (f : FrameData) : Ptr :=
  match QHash.value (w.svgs q).frames ("mask-" ++ (w.svgs q).actualPrefix) with
  | some mp => mp
  | none =>
    w.sharedValue (w.svgs q).theme
      (cacheKey env f.enabledBorders f.frameSize.width f.frameSize.height
        (w.svgs q).scaleFactor (w.svgs q).devicePixelRatio
        ("mask-" ++ (w.svgs q).actualPrefix) (w.svgs q).imagePath)

end Plasma

namespace Plasma

theorem QHash.value_remove {K V : Type} [DecidableEq K] (h : List (K × V)) (key k2 : K) :
    QHash.value (QHash.remove h key) k2 = if k2 = key then none else QHash.value h k2 := by
  induction h with
  | nil => simp [QHash.remove, QHash.value]
  | cons e t ih =>
    obtain ⟨k, v⟩ := e
    unfold QHash.remove at ih ⊢
    rw [List.filter_cons]
    by_cases hk : k = key
    · subst hk
      by_cases h2 : k2 = k
      · subst h2
        simpa using ih
      · have h3 : ¬ k = k2 := fun h => h2 h.symm
        simpa [QHash.value, h2, h3] using ih
    · by_cases h2 : k2 = key
      · subst h2
        simpa [hk, QHash.value] using ih
      · by_cases h3 : k = k2
        · subst h3
          simp [hk, QHash.value]
        · simpa [hk, QHash.value, h2, h3] using ih

theorem QHash.value_remove_self {K V : Type} [DecidableEq K] (h : List (K × V)) (key : K) :
    QHash.value (QHash.remove h key) key = none := by
  simp [QHash.value_remove]

theorem QHash.value_remove_ne {K V : Type} [DecidableEq K] (h : List (K × V)) (key k2 : K)
    (hne : k2 ≠ key) : QHash.value (QHash.remove h key) k2 = QHash.value h k2 := by
  simp [QHash.value_remove, hne]

theorem QHash.value_insert_self {K V : Type} [DecidableEq K] (h : List (K × V)) (key : K)
    (v : V) : QHash.value (QHash.insert h key v) key = some v := by
  simp [QHash.insert, QHash.value]

theorem QHash.value_insert_ne {K V : Type} [DecidableEq K] (h : List (K × V)) (key k2 : K)
    (v : V) (hne : k2 ≠ key) : QHash.value (QHash.insert h key v) k2 = QHash.value h k2 := by
  have : key ≠ k2 := fun h => hne h.symm
  simp [QHash.insert, QHash.value, this, QHash.value_remove_ne h key k2 hne]

theorem QHash.remove_remove {K V : Type} [DecidableEq K] (h : List (K × V)) (key : K) :
    QHash.remove (QHash.remove h key) key = QHash.remove h key := by
  simp [QHash.remove, List.filter_filter]

theorem QHash.remove_insert {K V : Type} [DecidableEq K] (h : List (K × V)) (key : K) (v : V) :
    QHash.remove (QHash.insert h key v) key = QHash.remove h key := by
  simp [QHash.insert, QHash.remove, List.filter_filter, List.filter_cons]

theorem FrameData.deref_facts (fd : FrameData) (svg : SvgId) :
    QHash.value (fd.deref svg).2.references svg
        = (if fd.count svg - 1 < 1 then none else some (fd.count svg - 1))
      ∧ (∀ other : SvgId, other ≠ svg →
          QHash.value (fd.deref svg).2.references other = QHash.value fd.references other)
      ∧ ((fd.deref svg).1 = true ↔ (fd.deref svg).2.references = []) := by
  refine ⟨?_, ?_, ?_⟩
  · by_cases h : fd.count svg - 1 < 1
    · simp [FrameData.deref, h, QHash.remove_insert, QHash.value_remove_self]
    · simp [FrameData.deref, h, QHash.value_insert_self]
  · intro other hne
    by_cases h : fd.count svg - 1 < 1
    · simp [FrameData.deref, h, QHash.remove_insert, QHash.value_remove_ne _ _ _ hne]
    · simp [FrameData.deref, h, QHash.value_insert_ne _ _ _ _ hne]
  · simp [FrameData.deref, List.isEmpty_iff]

end Plasma

namespace Plasma

theorem digitChar_toNat (d : Nat) (h : d < 10) : (Nat.digitChar d).toNat - 48 = d := by
  interval_cases d <;> rfl

theorem digitChar_isDigit (d : Nat) (h : d < 10) : (Nat.digitChar d).isDigit = true := by
  interval_cases d <;> rfl

theorem toDigitsCore_spec (fuel : Nat) : ∀ (n : Nat) (ds : List Char), n < fuel →
    ∃ pre : List Char, Nat.toDigitsCore 10 fuel n ds = pre ++ ds
      ∧ digitsValue pre = n ∧ ∀ c ∈ pre, c.isDigit = true := by
  induction fuel with
  | zero => intro n ds h; omega
  | succ fuel ih =>
    intro n ds h
    have hd : n % 10 < 10 := Nat.mod_lt _ (by norm_num)
    unfold Nat.toDigitsCore
    by_cases h0 : n / 10 = 0
    · refine ⟨[Nat.digitChar (n % 10)], ?_, ?_, ?_⟩
      · simp [h0]
      · simp [digitsValue, digitChar_toNat _ hd]
        omega
      · intro c hc
        simp at hc
        rw [hc]
        exact digitChar_isDigit _ hd
    · have hlt : n / 10 < fuel := by omega
      obtain ⟨pre, h1, h2, h3⟩ := ih (n / 10) (Nat.digitChar (n % 10) :: ds) hlt
      refine ⟨pre ++ [Nat.digitChar (n % 10)], ?_, ?_, ?_⟩
      · simp [h0, h1]
      · simp only [digitsValue] at h2 ⊢
        rw [List.foldl_append]
        simp [h2, digitChar_toNat _ hd]
        omega
      · intro c hc
        simp at hc
        rcases hc with hc | hc
        · exact h3 c hc
        · rw [hc]; exact digitChar_isDigit _ hd

theorem toDigits_spec (n : Nat) :
    digitsValue (Nat.toDigits 10 n) = n ∧ ∀ c ∈ Nat.toDigits 10 n, c.isDigit = true := by
  obtain ⟨pre, h1, h2, h3⟩ := toDigitsCore_spec (n + 1) n [] (by omega)
  simp at h1
  unfold Nat.toDigits
  rw [h1]
  exact ⟨h2, h3⟩

theorem toString_nat_data (n : Nat) : (toString n).data = Nat.toDigits 10 n := by
  rfl

theorem toString_nat_injective (a b : Nat) (h : toString a = toString b) : a = b := by
  have h1 : (toString a).data = (toString b).data := by rw [h]
  rw [toString_nat_data, toString_nat_data] at h1
  have := (toDigits_spec a).1
  rw [h1, (toDigits_spec b).1] at this
  exact this.symm

theorem toString_int_data (i : Int) :
    (toString i).data = match i with
      | Int.ofNat m => Nat.toDigits 10 m
      | Int.negSucc m => '-' :: Nat.toDigits 10 (m + 1) := by
  cases i <;> rfl

theorem toDigits_ne_nil (n : Nat) : Nat.toDigits 10 n ≠ [] := by
  intro h
  unfold Nat.toDigits Nat.toDigitsCore at h
  by_cases h0 : n / 10 = 0
  · simp [h0] at h
  · simp only [h0] at h
    obtain ⟨pre, h1, _, _⟩ := toDigitsCore_spec n (n / 10) [Nat.digitChar (n % 10)] (by omega)
    simp [h1] at h

theorem toString_int_injective (a b : Int) (h : toString a = toString b) : a = b := by
  have h1 : (toString a).data = (toString b).data := by rw [h]
  rw [toString_int_data, toString_int_data] at h1
  cases a with
  | ofNat m =>
    cases b with
    | ofNat k =>
      simp only at h1
      have := (toDigits_spec m).1
      rw [h1, (toDigits_spec k).1] at this
      rw [this]
    | negSucc k =>
      simp only at h1
      exfalso
      have hd := (toDigits_spec m).2 '-' (by rw [h1]; simp)
      exact absurd hd (by decide)
  | negSucc m =>
    cases b with
    | ofNat k =>
      simp only at h1
      exfalso
      have hd := (toDigits_spec k).2 '-' (by rw [← h1]; simp)
      exact absurd hd (by decide)
    | negSucc k =>
      simp only [List.cons.injEq, true_and] at h1
      have := (toDigits_spec (m + 1)).1
      rw [h1, (toDigits_spec (k + 1)).1] at this
      have : m = k := by omega
      rw [this]

end Plasma

namespace Plasma

theorem World.fd_setFd_self (w : World) (p : Ptr) (old new : FrameData)
    (h : w.fd p = some old) : (w.setFd p new).fd p = some new := by
  cases p with
  | zero => simp [World.fd] at h
  | succ n =>
    simp only [World.fd, World.setFd] at h ⊢
    have hlt : n < w.heap.length := by
      by_contra hge
      rw [List.getD_eq_getElem?_getD, List.getElem?_eq_none (by omega)] at h
      simp at h
    simp [List.getD_eq_getElem?_getD, List.getElem?_set, hlt]

theorem World.fd_setFd_ne (w : World) (p p2 : Ptr) (new : FrameData) (hne : p2 ≠ p) :
    (w.setFd p new).fd p2 = w.fd p2 := by
  cases p with
  | zero => rfl
  | succ n =>
    cases p2 with
    | zero => rfl
    | succ m =>
      have : n ≠ m := fun h => hne (by rw [h])
      simp [World.fd, World.setFd, List.getD_eq_getElem?_getD, List.getElem?_set, this]

theorem World.fd_alloc_new (w : World) (fd : FrameData) :
    (w.alloc fd).2.fd (w.alloc fd).1 = some fd := by
  simp [World.alloc, World.fd, List.getD_eq_getElem?_getD]

theorem World.fd_alloc_old (w : World) (fd old : FrameData) (p : Ptr) (h : w.fd p = some old) :
    (w.alloc fd).2.fd p = some old ∧ p ≠ (w.alloc fd).1 := by
  cases p with
  | zero => simp [World.fd] at h
  | succ n =>
    simp only [World.fd] at h
    have hlt : n < w.heap.length := by
      by_contra hge
      rw [List.getD_eq_getElem?_getD, List.getElem?_eq_none (by omega)] at h
      simp at h
    constructor
    · simp only [World.alloc, World.fd]
      rw [List.getD_eq_getElem?_getD] at h ⊢
      rw [List.getElem?_append_left hlt]
      exact h
    · intro h2
      have h3 : n + 1 = w.heap.length + 1 := h2
      omega

theorem World.setFd_self (w : World) (p : Ptr) (fd : FrameData) (h : w.fd p = some fd) :
    w.setFd p fd = w := by
  cases p with
  | zero => rfl
  | succ n =>
    simp only [World.fd] at h
    have hlt : n < w.heap.length := by
      by_contra hge
      rw [List.getD_eq_getElem?_getD, List.getElem?_eq_none (by omega)] at h
      simp at h
    simp only [World.setFd]
    have : w.heap.set n (some fd) = w.heap := by
      apply List.ext_getElem?
      intro i
      rw [List.getElem?_set]
      by_cases hi : n = i
      · subst hi
        rw [List.getD_eq_getElem?_getD, List.getElem?_eq_getElem hlt] at h
        simp at h
        simp [hlt, h]
      · simp [hi]
    rw [this]

theorem World.setFd_setFd (w : World) (p : Ptr) (a b : FrameData) :
    (w.setFd p a).setFd p b = w.setFd p b := by
  cases p with
  | zero => rfl
  | succ n => simp [World.setFd, List.set_set]

end Plasma

namespace Plasma

@[simp] theorem World.setFd_svgs (w : World) (p : Ptr) (fd : FrameData) :
    (w.setFd p fd).svgs = w.svgs := by
  cases p <;> rfl

@[simp] theorem World.setFd_sharedFrames (w : World) (p : Ptr) (fd : FrameData) :
    (w.setFd p fd).sharedFrames = w.sharedFrames := by
  cases p <;> rfl

@[simp] theorem World.setFd_pixmapCache (w : World) (p : Ptr) (fd : FrameData) :
    (w.setFd p fd).pixmapCache = w.pixmapCache := by
  cases p <;> rfl

@[simp] theorem World.setFd_framesValue (w : World) (p : Ptr) (fd : FrameData) (q : SvgId)
    (key : String) : (w.setFd p fd).framesValue q key = w.framesValue q key := by
  simp [World.framesValue]

@[simp] theorem World.setFd_sharedValue (w : World) (p : Ptr) (fd : FrameData) (t : ThemeId)
    (key : String) : (w.setFd p fd).sharedValue t key = w.sharedValue t key := by
  simp [World.sharedValue]

@[simp] theorem updatedSizes_enabledBorders (env : Env) (c : FrameSvg) (f : FrameData) :
    (updatedSizes env c f).enabledBorders = f.enabledBorders := rfl

@[simp] theorem updatedSizes_frameSize (env : Env) (c : FrameSvg) (f : FrameData) :
    (updatedSizes env c f).frameSize = f.frameSize := rfl

@[simp] theorem updatedSizes_references (env : Env) (c : FrameSvg) (f : FrameData) :
    (updatedSizes env c f).references = f.references := rfl

@[simp] theorem updatedSizes_theme (env : Env) (c : FrameSvg) (f : FrameData) :
    (updatedSizes env c f).theme = f.theme := rfl

@[simp] theorem updatedSizes_devicePixelRatio (env : Env) (c : FrameSvg) (f : FrameData) :
    (updatedSizes env c f).devicePixelRatio = f.devicePixelRatio := rfl

@[simp] theorem updatedSizes_framePrefix (env : Env) (c : FrameSvg) (f : FrameData) :
    (updatedSizes env c f).framePrefix = f.framePrefix := rfl

@[simp] theorem updatedSizes_cachedBackground (env : Env) (c : FrameSvg) (f : FrameData) :
    (updatedSizes env c f).cachedBackground = none := rfl

theorem updateSizes_eq (env : Env) (q : SvgId) (w : World) (f0 : FrameData)
    (h : w.fd (w.framesValue q (w.svgs q).actualPrefix) = some f0) :
    updateSizes env q w = some (w.setFd (w.framesValue q (w.svgs q).actualPrefix)
      (updatedSizes env (w.svgs q) f0)) := by
  simp [updateSizes, h]

/-- What `updateSizes` does: it rewrites the active FrameData only, and there only the
margins, extents, hints and the raster. -/
theorem updateSizes_spec (env : Env) (q : SvgId) (w w1 : World)
    (h : updateSizes env q w = some w1) :
    ∃ f0 : FrameData, w.fd (w.framesValue q (w.svgs q).actualPrefix) = some f0
      ∧ w1 = w.setFd (w.framesValue q (w.svgs q).actualPrefix)
          (updatedSizes env (w.svgs q) f0) := by
  unfold updateSizes at h
  cases hf : w.fd (w.framesValue q (w.svgs q).actualPrefix) with
  | none => simp [hf] at h
  | some f0 =>
    simp only [hf, Option.some_bind, Option.some.injEq] at h
    exact ⟨f0, rfl, h.symm⟩

theorem frameSize_valid (env : Env) (q : SvgId) (p : Ptr) (w : World) (fd : FrameData)
    (h : w.fd p = some fd) (hv : fd.frameSize.isValid = true) :
    frameSize env q p w = some (fd.frameSize, w) := by
  simp [frameSize, h, hv]

theorem cacheId_valid (env : Env) (q : SvgId) (p : Ptr) (px : String) (w : World)
    (fd : FrameData) (h : w.fd p = some fd) (hv : fd.frameSize.isValid = true) :
    cacheId env q p px w = some (cacheKey env fd.enabledBorders fd.frameSize.width
      fd.frameSize.height (w.svgs q).scaleFactor (w.svgs q).devicePixelRatio px
      (w.svgs q).imagePath, w) := by
  simp [cacheId, frameSize_valid env q p w fd h hv, h]

theorem qRound_nonneg (x : ℚ) (h : 0 < x.num) : 0 ≤ qRound x := by
  unfold qRound
  apply Int.ediv_nonneg
  · have : (0 : Int) ≤ (x.den : Int) := Int.natCast_nonneg _
    omega
  · have : (0 : Int) ≤ (x.den : Int) := Int.natCast_nonneg _
    omega

theorem QSizeF.toSize_isValid (s : QSizeF) (h : s.isEmpty = false) :
    s.toSize.isValid = true := by
  simp only [QSizeF.isEmpty, Bool.or_eq_false_iff, decide_eq_false_iff_not, not_le] at h
  simp [QSizeF.toSize, QSize.isValid, qRound_nonneg _ h.1, qRound_nonneg _ h.2]

theorem setEnabledBordersKeys_valid (env : Env) (q : SvgId) (p : Ptr) (borders : Nat)
    (w : World) (fd : FrameData) (h : w.fd p = some fd) (hv : fd.frameSize.isValid = true) :
    setEnabledBordersKeys env q p borders w = some
      ((cacheKey env fd.enabledBorders fd.frameSize.width fd.frameSize.height
          (w.svgs q).scaleFactor (w.svgs q).devicePixelRatio (w.svgs q).actualPrefix
          (w.svgs q).imagePath,
        cacheKey env borders fd.frameSize.width fd.frameSize.height
          (w.svgs q).scaleFactor (w.svgs q).devicePixelRatio (w.svgs q).actualPrefix
          (w.svgs q).imagePath), w) := by
  unfold setEnabledBordersKeys
  rw [cacheId_valid env q p _ w fd h hv]
  simp only [Option.some_bind, h]
  have h2 : (w.setFd p { fd with enabledBorders := borders }).fd p
      = some { fd with enabledBorders := borders } := World.fd_setFd_self w p fd _ h
  rw [cacheId_valid env q p _ _ _ h2 hv]
  simp only [Option.some_bind, h2, World.setFd_svgs, World.setFd_setFd]
  rw [World.setFd_self w p fd h]

theorem resizeFrameKeys_valid (env : Env) (q : SvgId) (p : Ptr) (size : QSizeF)
    (w : World) (fd : FrameData) (h : w.fd p = some fd) (hv : fd.frameSize.isValid = true)
    (hs : size.isEmpty = false) :
    resizeFrameKeys env q p size w = some
      ((cacheKey env fd.enabledBorders fd.frameSize.width fd.frameSize.height
          (w.svgs q).scaleFactor (w.svgs q).devicePixelRatio (w.svgs q).actualPrefix
          (w.svgs q).imagePath,
        cacheKey env fd.enabledBorders size.toSize.width size.toSize.height
          (w.svgs q).scaleFactor (w.svgs q).devicePixelRatio (w.svgs q).actualPrefix
          (w.svgs q).imagePath), w) := by
  unfold resizeFrameKeys
  rw [cacheId_valid env q p _ w fd h hv]
  simp only [Option.some_bind, h]
  have h2 : (w.setFd p { fd with frameSize := size.toSize }).fd p
      = some { fd with frameSize := size.toSize } := World.fd_setFd_self w p fd _ h
  rw [cacheId_valid env q p _ _ _ h2 (QSizeF.toSize_isValid size hs)]
  simp only [Option.some_bind, h2, World.setFd_svgs, World.setFd_setFd]
  rw [World.setFd_self w p fd h]

end Plasma

namespace Plasma

theorem String.append_left_cancel_iff (a b c : String) : a ++ b = a ++ c ↔ b = c := by
  constructor
  · intro h
    have h1 := congrArg String.data h
    simp only [String.data_append] at h1
    exact String.ext (List.append_cancel_left h1)
  · intro h; rw [h]

theorem String.append_right_cancel_iff (a b c : String) : b ++ a = c ++ a ↔ b = c := by
  constructor
  · intro h
    have h1 := congrArg String.data h
    simp only [String.data_append] at h1
    exact String.ext (List.append_cancel_right h1)
  · intro h; rw [h]

theorem toString_nat_inj (a b : Nat) : toString a = toString b ↔ a = b :=
  ⟨toString_nat_injective a b, fun h => by rw [h]⟩

theorem toString_int_inj (a b : Int) : toString a = toString b ↔ a = b :=
  ⟨toString_int_injective a b, fun h => by rw [h]⟩

/-- The key returned by `cacheId` is `cacheKey` of the FrameData's borders and frame size
as they are after the call, and of the consumer's scale factor, device pixel ratio and
image path. -/
theorem cacheId_eq_cacheKey (env : Env) (q : SvgId) (p : Ptr) (px : String) (w w1 : World)
    (k : String) (h : cacheId env q p px w = some (k, w1)) :
    ∃ fd fd1 : FrameData, w.fd p = some fd ∧ w1.fd p = some fd1
      ∧ fd1.enabledBorders = fd.enabledBorders
      ∧ fd1.frameSize = (if fd.frameSize.isValid then fd.frameSize else (w.svgs q).size)
      ∧ w1.svgs = w.svgs ∧ w1.sharedFrames = w.sharedFrames
      ∧ k = cacheKey env fd1.enabledBorders fd1.frameSize.width fd1.frameSize.height
          (w.svgs q).scaleFactor (w.svgs q).devicePixelRatio px (w.svgs q).imagePath := by
  cases hf : w.fd p with
  | none => simp [cacheId, frameSize, hf] at h
  | some fd =>
    by_cases hv : fd.frameSize.isValid = true
    · rw [cacheId_valid env q p px w fd hf hv] at h
      simp only [Option.some.injEq, Prod.mk.injEq] at h
      obtain ⟨h1, h2⟩ := h
      subst h2
      exact ⟨fd, fd, rfl, hf, rfl, by simp [hv], rfl, rfl, h1.symm⟩
    · simp only [cacheId, frameSize, hf, Option.some_bind, hv, Bool.false_eq_true, if_false]
        at h
      cases hu : updateSizes env q w with
      | none => simp [hu] at h
      | some w2 =>
        obtain ⟨f0, hf0, hw2⟩ := updateSizes_spec env q w w2 hu
        simp only [hu, Option.some_bind] at h
        cases hf2 : w2.fd p with
        | none => simp [hf2] at h
        | some fd2 =>
          simp only [hf2, Option.some_bind] at h
          have hset := World.fd_setFd_self w2 p fd2
            { fd2 with frameSize := (w2.svgs q).size } hf2
          simp only [hset, Option.some_bind, Option.some.injEq, Prod.mk.injEq] at h
          obtain ⟨h1, h2⟩ := h
          have hsv : w2.svgs = w.svgs := by rw [hw2]; simp
          have hsh : w2.sharedFrames = w.sharedFrames := by rw [hw2]; simp
          have hb2 : fd2.enabledBorders = fd.enabledBorders := by
            by_cases hp : p = w.framesValue q (w.svgs q).actualPrefix
            · subst hp
              rw [hf] at hf0
              simp only [Option.some.injEq] at hf0
              rw [hw2, World.fd_setFd_self w _ fd _ hf] at hf2
              simp only [Option.some.injEq] at hf2
              rw [← hf2, ← hf0]
              rfl
            · rw [hw2, World.fd_setFd_ne w _ p _ hp, hf] at hf2
              simp only [Option.some.injEq] at hf2
              rw [hf2]
          subst h2
          refine ⟨fd, _, rfl, hset, hb2, ?_, ?_, ?_, ?_⟩
          · simp [hv, hsv]
          · simp [hsv]
          · simp [hsh]
          · rw [← h1]
            simp [hsv]

end Plasma

namespace Plasma

theorem cacheKey_components (env : Env) (b b2 : Nat) (w w2 h h2 : Int) (s s2 d d2 : ℚ)
    (p p2 path path2 : String) :
    (cacheKey env b w h s d p path = cacheKey env b2 w h s d p path ↔ b = b2)
    ∧ (cacheKey env b w h s d p path = cacheKey env b w2 h s d p path ↔ w = w2)
    ∧ (cacheKey env b w h s d p path = cacheKey env b w h2 s d p path ↔ h = h2)
    ∧ (cacheKey env b w h s d p path = cacheKey env b w h s d p2 path ↔ p = p2)
    ∧ (cacheKey env b w h s d p path = cacheKey env b w h s d p path2 ↔ path = path2)
    ∧ (cacheKey env b w h s d p path = cacheKey env b w h s2 d p path
        ↔ env.numberReal s = env.numberReal s2)
    ∧ (cacheKey env b w h s d p path = cacheKey env b w h s d2 p path
        ↔ env.numberReal d = env.numberReal d2) := by
  simp only [cacheKey, String.append_right_cancel_iff, String.append_left_cancel_iff,
    toString_nat_inj, toString_int_inj, and_self]

end Plasma

namespace Plasma

@[simp] theorem World.setSvg_fd (w : World) (q : SvgId) (c : FrameSvg) (p : Ptr) :
    (w.setSvg q c).fd p = w.fd p := by
  cases p <;> rfl

@[simp] theorem World.setSvg_svgs_self (w : World) (q : SvgId) (c : FrameSvg) :
    (w.setSvg q c).svgs q = c := by
  simp [World.setSvg, tableSet]

theorem World.setSvg_svgs_ne (w : World) (q q2 : SvgId) (c : FrameSvg) (h : q2 ≠ q) :
    (w.setSvg q c).svgs q2 = w.svgs q2 := by
  simp [World.setSvg, tableSet, h]

@[simp] theorem World.setSvg_sharedFrames (w : World) (q : SvgId) (c : FrameSvg) :
    (w.setSvg q c).sharedFrames = w.sharedFrames := rfl

@[simp] theorem World.setSvg_heap (w : World) (q : SvgId) (c : FrameSvg) :
    (w.setSvg q c).heap = w.heap := rfl

theorem World.setSvg_same (w : World) (q : SvgId) : w.setSvg q (w.svgs q) = w := by
  have : tableSet w.svgs q (w.svgs q) = w.svgs := by
    funext k
    by_cases h : k = q
    · simp [tableSet, h]
    · simp [tableSet, h]
  simp [World.setSvg, this]

@[simp] theorem World.sharedRemove_fd (w : World) (t : ThemeId) (k : String) (p : Ptr) :
    (w.sharedRemove t k).fd p = w.fd p := by
  cases p <;> rfl

@[simp] theorem World.sharedRemove_svgs (w : World) (t : ThemeId) (k : String) :
    (w.sharedRemove t k).svgs = w.svgs := rfl

@[simp] theorem World.sharedInsert_fd (w : World) (t : ThemeId) (k : String) (v p : Ptr) :
    (w.sharedInsert t k v).fd p = w.fd p := by
  cases p <;> rfl

@[simp] theorem World.sharedInsert_svgs (w : World) (t : ThemeId) (k : String) (v : Ptr) :
    (w.sharedInsert t k v).svgs = w.svgs := rfl

@[simp] theorem World.sharedRemove_framesValue (w : World) (t : ThemeId) (k : String)
    (q : SvgId) (key : String) :
    (w.sharedRemove t k).framesValue q key = w.framesValue q key := rfl

@[simp] theorem World.sharedInsert_framesValue (w : World) (t : ThemeId) (k : String)
    (v : Ptr) (q : SvgId) (key : String) :
    (w.sharedInsert t k v).framesValue q key = w.framesValue q key := rfl

theorem World.sharedInsert_value_self (w : World) (t : ThemeId) (k : String) (v : Ptr) :
    (w.sharedInsert t k v).sharedFrames t k = some v := by
  simp [World.sharedInsert, tableSet]

theorem World.sharedRemove_value_self (w : World) (t : ThemeId) (k : String) :
    (w.sharedRemove t k).sharedFrames t k = none := by
  simp [World.sharedRemove, tableSet]

theorem World.sharedInsert_value_ne (w : World) (t t2 : ThemeId) (k k2 : String) (v : Ptr)
    (h : t2 ≠ t ∨ k2 ≠ k) :
    (w.sharedInsert t k v).sharedFrames t2 k2 = w.sharedFrames t2 k2 := by
  by_cases ht : t2 = t
  · subst ht
    have hk : k2 ≠ k := by
      rcases h with h | h
      · exact absurd rfl h
      · exact h
    simp [World.sharedInsert, tableSet, hk]
  · simp [World.sharedInsert, tableSet, ht]

theorem World.sharedRemove_value_ne (w : World) (t t2 : ThemeId) (k k2 : String)
    (h : t2 ≠ t ∨ k2 ≠ k) :
    (w.sharedRemove t k).sharedFrames t2 k2 = w.sharedFrames t2 k2 := by
  by_cases ht : t2 = t
  · subst ht
    have hk : k2 ≠ k := by
      rcases h with h | h
      · exact absurd rfl h
      · exact h
    simp [World.sharedRemove, tableSet, hk]
  · simp [World.sharedRemove, tableSet, ht]

/-- `resizeFrame`, sole owner, nothing registered under the new key. -/
theorem resizeFrame_sole (env : Env) (q : SvgId) (size : QSizeF) (w : World) (p : Ptr)
    (fd : FrameData)
    (hp : w.framesValue q (w.svgs q).actualPrefix = p) (hfd : w.fd p = some fd)
    (hv : fd.frameSize.isValid = true)
    (hpath : (w.svgs q).imagePath.isEmpty = false) (hsize : size.isEmpty = false)
    (hne : size.fuzzyEq fd.frameSize = false) (hsole : fd.refcount = 1)
    (hreg : w.sharedValue (w.svgs q).theme
      (cacheKey env fd.enabledBorders size.toSize.width size.toSize.height
        (w.svgs q).scaleFactor (w.svgs q).devicePixelRatio (w.svgs q).actualPrefix
        (w.svgs q).imagePath) = 0) :
    resizeFrame env q size w = some
      (((w.sharedRemove fd.theme
          (cacheKey env fd.enabledBorders fd.frameSize.width fd.frameSize.height
            (w.svgs q).scaleFactor (w.svgs q).devicePixelRatio (w.svgs q).actualPrefix
            (w.svgs q).imagePath)).setFd p
        { updatedSizes env (w.svgs q) fd with
          frameSize := size.toSize, theme := (w.svgs q).theme }).sharedInsert
        (w.svgs q).theme
        (cacheKey env fd.enabledBorders size.toSize.width size.toSize.height
          (w.svgs q).scaleFactor (w.svgs q).devicePixelRatio (w.svgs q).actualPrefix
          (w.svgs q).imagePath) p) := by
  subst hp
  unfold resizeFrame
  simp only [hpath, Bool.false_eq_true, if_false, hsize, hfd, Option.some_bind, hne]
  rw [resizeFrameKeys_valid env q _ size w fd hfd hv hsize]
  simp only [Option.some_bind, hreg, ne_eq, not_true_eq_false, if_false]
  simp only [detachOrCopy, hfd, Option.some_bind, hsole, if_true]
  rw [updateSizes_eq env q _ fd (by simpa using hfd)]
  simp only [Option.some_bind, World.sharedRemove_svgs, World.sharedRemove_framesValue,
    World.setFd_svgs]
  rw [World.fd_setFd_self _ _ fd _ (by simpa using hfd)]
  simp only [Option.some_bind, World.setFd_setFd]

end Plasma

namespace Plasma

@[simp] theorem World.framesInsert_fd (w : World) (q : SvgId) (k : String) (v p : Ptr) :
    (w.framesInsert q k v).fd p = w.fd p := by
  simp [World.framesInsert]

@[simp] theorem World.framesInsert_sharedFrames (w : World) (q : SvgId) (k : String)
    (v : Ptr) : (w.framesInsert q k v).sharedFrames = w.sharedFrames := rfl

@[simp] theorem World.framesInsert_actualPrefix (w : World) (q : SvgId) (k : String)
    (v : Ptr) (q2 : SvgId) :
    ((w.framesInsert q k v).svgs q2).actualPrefix = (w.svgs q2).actualPrefix := by
  by_cases h : q2 = q
  · subst h; simp [World.framesInsert]
  · simp [World.framesInsert, World.setSvg_svgs_ne _ _ _ _ h]

theorem World.framesInsert_svgs_ne (w : World) (q q2 : SvgId) (k : String) (v : Ptr)
    (h : q2 ≠ q) : (w.framesInsert q k v).svgs q2 = w.svgs q2 := by
  simp [World.framesInsert, World.setSvg_svgs_ne _ _ _ _ h]

theorem World.framesInsert_framesValue_self (w : World) (q : SvgId) (k : String) (v : Ptr) :
    (w.framesInsert q k v).framesValue q k = v := by
  simp [World.framesInsert, World.framesValue, QHash.value_insert_self]

theorem World.framesInsert_single (w : World) (q : SvgId) (k : String) (p v : Ptr)
    (h : (w.svgs q).frames = [(k, p)]) :
    ((w.framesInsert q k v).svgs q).frames = [(k, v)] := by
  simp [World.framesInsert, h, QHash.insert, QHash.remove]

theorem framesValue_of_single (w : World) (q : SvgId) (k : String) (p : Ptr)
    (h : (w.svgs q).frames = [(k, p)]) : w.framesValue q k = p := by
  simp [World.framesValue, h, QHash.value]

theorem updatedSizes_idem (env : Env) (c : FrameSvg) (f : FrameData) :
    updatedSizes env c (updatedSizes env c f) = updatedSizes env c f := rfl

theorem resolvePrefix_congr (env : Env) (w w2 : World) (q : SvgId) (p : String)
    (h : w2.svgs q = w.svgs q) : resolvePrefix env w2 q p = resolvePrefix env w q p := by
  simp [resolvePrefix, hasElement, h]

/-- `clearCache` changes nothing when the consumer holds the active FrameData only. -/
theorem clearCache_single (env : Env) (q : SvgId) (w : World) (p : Ptr)
    (h1 : (w.svgs q).frames = [((w.svgs q).actualPrefix, p)]) :
    clearCache env q w = some w := by
  have hv : w.framesValue q (w.svgs q).actualPrefix = p := framesValue_of_single w q _ p h1
  unfold clearCache
  have hc : QHash.contains (w.svgs q).frames (w.svgs q).actualPrefix = true := by
    simp [QHash.contains, h1, QHash.value]
  simp only [hc, if_true]
  simp only [hv, h1, clearCacheLoop, clearCacheStep, if_true, Option.some_bind]

end Plasma

namespace Plasma

theorem FrameData.deref_copy (fd : FrameData) (q c : SvgId) :
    (fd.deref q).2.copy c = fd.copy c := rfl

theorem FrameData.deref_not_last (fd : FrameData) (q c : SvgId) (hc : c ≠ q)
    (h : (QHash.value fd.references c).isSome = true) : (fd.deref q).1 = false := by
  have h2 := (FrameData.deref_facts fd q).2.1 c hc
  have h3 := (FrameData.deref_facts fd q).2.2
  cases hb : (fd.deref q).1 with
  | false => rfl
  | true =>
    rw [h3.mp hb] at h2
    rw [← h2] at h
    simp [QHash.value] at h

theorem World.ref_eq (w : World) (p : Ptr) (q : SvgId) (f : FrameData) (h : w.fd p = some f) :
    w.ref p q = some (w.setFd p (f.ref q)) := by
  simp [World.ref, h]

theorem World.deref_eq (w : World) (p : Ptr) (q : SvgId) (f : FrameData)
    (h : w.fd p = some f) :
    w.deref p q = some ((f.deref q).1, w.setFd p (f.deref q).2) := by
  simp [World.deref, h]

/-- `adoptShared` when the released FrameData keeps other holders. -/
theorem adoptShared_keep (q : SvgId) (fd newFd : Ptr) (oldKey : String) (w : World)
    (old nf : FrameData) (hfd : w.fd fd = some old) (hnf : w.fd newFd = some nf)
    (hne : newFd ≠ fd) (hnl : (old.deref q).1 = false) :
    adoptShared q fd newFd oldKey w = some
      (((w.setFd newFd (nf.ref q)).framesInsert q (w.svgs q).actualPrefix newFd).setFd fd
        (old.deref q).2) := by
  unfold adoptShared
  rw [World.ref_eq w newFd q nf hnf]
  simp only [Option.some_bind, World.setFd_svgs]
  have h1 : ((w.setFd newFd (nf.ref q)).framesInsert q (w.svgs q).actualPrefix newFd).fd fd
      = some old := by
    rw [World.framesInsert_fd, World.fd_setFd_ne w newFd fd _ (fun h => hne h.symm)]
    exact hfd
  rw [World.deref_eq _ fd q old h1]
  simp [hnl]

/-- `detachOrCopy` for a FrameData that is not solely owned: the consumer leaves it and
continues with a fresh copy. -/
theorem detachOrCopy_copy (q : SvgId) (fd : Ptr) (oldKey : String) (w : World)
    (old : FrameData) (hfd : w.fd fd = some old) (hcount : old.refcount ≠ 1) :
    detachOrCopy q fd oldKey w = some (w.heap.length + 1,
      ((w.setFd fd (old.deref q).2).alloc (old.copy q)).2.framesInsert q
        (w.svgs q).actualPrefix (w.heap.length + 1)) := by
  unfold detachOrCopy
  simp only [hfd, Option.some_bind, hcount, if_false]
  rw [World.deref_eq w fd q old hfd]
  simp only [Option.some_bind]
  rw [World.fd_setFd_self w fd old _ hfd]
  simp only [Option.some_bind, FrameData.deref_copy]
  have hl : (w.setFd fd (old.deref q).2).heap.length = w.heap.length := by
    cases fd with
    | zero => rfl
    | succ n => simp [World.setFd]
  simp [World.alloc, hl]

end Plasma

namespace Plasma

theorem World.alloc_svgs (w : World) (f : FrameData) : (w.alloc f).2.svgs = w.svgs := rfl

theorem World.alloc_sharedFrames (w : World) (f : FrameData) :
    (w.alloc f).2.sharedFrames = w.sharedFrames := rfl

theorem World.alloc_fst (w : World) (f : FrameData) : (w.alloc f).1 = w.heap.length + 1 := rfl

theorem World.setFd_heap_length (w : World) (p : Ptr) (f : FrameData) :
    (w.setFd p f).heap.length = w.heap.length := by
  cases p with
  | zero => rfl
  | succ n => simp [World.setFd]

/-- `resizeFrame` on a FrameData that other consumers hold too. -/
theorem resizeFrame_shared (env : Env) (q : SvgId) (size : QSizeF) (w : World) (p : Ptr)
    (fd : FrameData)
    (hp : w.framesValue q (w.svgs q).actualPrefix = p) (hfd : w.fd p = some fd)
    (hv : fd.frameSize.isValid = true)
    (hpath : (w.svgs q).imagePath.isEmpty = false) (hsize : size.isEmpty = false)
    (hne : size.fuzzyEq fd.frameSize = false) (hcount : 1 < fd.refcount)
    (other : SvgId) (hother : other ≠ q)
    (href : (QHash.value fd.references other).isSome = true)
    (hreg : w.sharedValue (w.svgs q).theme (keyOf env w q fd.enabledBorders size.toSize) ≠ p)
    (hlive : w.sharedValue (w.svgs q).theme (keyOf env w q fd.enabledBorders size.toSize) = 0
      ∨ (w.fd (w.sharedValue (w.svgs q).theme
          (keyOf env w q fd.enabledBorders size.toSize))).isSome = true) :
    ∃ w1 : World, resizeFrame env q size w = some w1
      ∧ w1.framesValue q (w1.svgs q).actualPrefix ≠ p
      ∧ w1.fd p = some (fd.deref q).2
      ∧ (∀ c : SvgId, c ≠ q → w1.svgs c = w.svgs c) := by
  subst hp
  have hnl := FrameData.deref_not_last fd q other hother href
  unfold keyOf at hreg hlive
  unfold resizeFrame
  simp only [hpath, Bool.false_eq_true, if_false, hsize, hfd, Option.some_bind, hne]
  rw [resizeFrameKeys_valid env q _ size w fd hfd hv hsize]
  simp only [Option.some_bind]
  by_cases h0 : w.sharedValue (w.svgs q).theme
      (cacheKey env fd.enabledBorders size.toSize.width size.toSize.height
        (w.svgs q).scaleFactor (w.svgs q).devicePixelRatio (w.svgs q).actualPrefix
        (w.svgs q).imagePath) = 0
  · simp only [h0, ne_eq, not_true_eq_false, if_false]
    rw [detachOrCopy_copy q _ _ w fd hfd (by omega)]
    simp only [Option.some_bind]
    have hnew : (((w.setFd (w.framesValue q (w.svgs q).actualPrefix) (fd.deref q).2).alloc
        (fd.copy q)).2.framesInsert q (w.svgs q).actualPrefix (w.heap.length + 1)).fd
        (w.heap.length + 1) = some (fd.copy q) := by
      rw [World.framesInsert_fd]
      have := World.fd_alloc_new (w.setFd (w.framesValue q (w.svgs q).actualPrefix)
        (fd.deref q).2) (fd.copy q)
      rw [World.alloc_fst, World.setFd_heap_length] at this
      exact this
    have hact : (((w.setFd (w.framesValue q (w.svgs q).actualPrefix) (fd.deref q).2).alloc
        (fd.copy q)).2.framesInsert q (w.svgs q).actualPrefix (w.heap.length + 1)).framesValue q
        (w.svgs q).actualPrefix = w.heap.length + 1 :=
      World.framesInsert_framesValue_self _ _ _ _
    have hpx : ((((w.setFd (w.framesValue q (w.svgs q).actualPrefix) (fd.deref q).2).alloc
        (fd.copy q)).2.framesInsert q (w.svgs q).actualPrefix (w.heap.length + 1)).svgs
        q).actualPrefix = (w.svgs q).actualPrefix := by
      rw [World.framesInsert_actualPrefix, World.alloc_svgs, World.setFd_svgs]
    rw [updateSizes_eq env q _ (fd.copy q) (by rw [hpx, hact]; exact hnew)]
    simp only [Option.some_bind, hpx, hact]
    rw [World.fd_setFd_self _ _ (fd.copy q) _ hnew]
    simp only [Option.some_bind]
    have hold := World.fd_alloc_old (w.setFd (w.framesValue q (w.svgs q).actualPrefix)
      (fd.deref q).2) (fd.copy q) (fd.deref q).2 _ (World.fd_setFd_self w _ fd _ hfd)
    rw [World.alloc_fst, World.setFd_heap_length] at hold
    refine ⟨_, rfl, ?_, ?_, ?_⟩
    · simp only [World.sharedInsert_svgs, World.setFd_svgs, World.sharedInsert_framesValue,
        World.setFd_framesValue, hpx, hact]
      exact fun h => hold.2 h.symm
    · simp only [World.sharedInsert_fd, World.setFd_setFd]
      rw [World.fd_setFd_ne _ _ _ _ hold.2, World.framesInsert_fd]
      exact hold.1
    · intro c hc
      simp only [World.sharedInsert_svgs, World.setFd_svgs]
      rw [World.framesInsert_svgs_ne _ _ _ _ _ hc, World.alloc_svgs, World.setFd_svgs]
  · simp only [ne_eq, h0, not_false_eq_true, if_true]
    have hl : (w.fd (w.sharedValue (w.svgs q).theme
        (cacheKey env fd.enabledBorders size.toSize.width size.toSize.height
          (w.svgs q).scaleFactor (w.svgs q).devicePixelRatio (w.svgs q).actualPrefix
          (w.svgs q).imagePath))).isSome = true := by
      rcases hlive with h | h
      · exact absurd h h0
      · exact h
    obtain ⟨nf, hnf⟩ := Option.isSome_iff_exists.mp hl
    rw [adoptShared_keep q _ _ _ w fd nf hfd hnf hreg hnl]
    refine ⟨_, rfl, ?_, ?_, ?_⟩
    · simp only [World.setFd_svgs, World.setFd_framesValue, World.framesInsert_actualPrefix]
      rw [World.framesInsert_framesValue_self]
      exact hreg
    · exact World.fd_setFd_self _ _ fd _ (by
        rw [World.framesInsert_fd, World.fd_setFd_ne w _ _ _ (fun h => hreg h.symm)]
        exact hfd)
    · intro c hc
      simp only [World.setFd_svgs]
      rw [World.framesInsert_svgs_ne _ _ _ _ _ hc, World.setFd_svgs]

end Plasma
namespace Plasma

/-! ## Reference sets -/

theorem QHash.value_isSome_iff {K V : Type} [DecidableEq K] (h : List (K × V)) (key : K) :
    (QHash.value h key).isSome = true ↔ key ∈ h.map Prod.fst := by
  induction h with
  | nil => simp [QHash.value]
  | cons e t ih =>
    obtain ⟨k, v⟩ := e
    by_cases hk : k = key
    · simp [QHash.value, hk]
    · simp only [QHash.value, hk, if_false, ih, List.map_cons, List.mem_cons]
      constructor
      · intro h1; exact Or.inr h1
      · intro h1
        rcases h1 with h1 | h1
        · exact absurd h1.symm hk
        · exact h1

theorem QHash.value_ne_nil {K V : Type} [DecidableEq K] (h : List (K × V)) (key : K) (v : V)
    (hv : QHash.value h key = some v) : h ≠ [] := by
  intro hn
  rw [hn] at hv
  simp [QHash.value] at hv

theorem QHash.remove_keys_subset {K V : Type} [DecidableEq K] (h : List (K × V)) (key : K) :
    (QHash.remove h key).map Prod.fst = (h.map Prod.fst).filter (fun k => decide (k ≠ key)) := by
  rw [List.filter_map]
  rfl

theorem QHash.nodup_remove {K V : Type} [DecidableEq K] (h : List (K × V)) (key : K)
    (hn : (h.map Prod.fst).Nodup) : ((QHash.remove h key).map Prod.fst).Nodup := by
  rw [QHash.remove_keys_subset]
  exact hn.filter _

theorem QHash.not_mem_remove {K V : Type} [DecidableEq K] (h : List (K × V)) (key : K) :
    key ∉ (QHash.remove h key).map Prod.fst := by
  rw [QHash.remove_keys_subset]
  simp

theorem QHash.nodup_insert {K V : Type} [DecidableEq K] (h : List (K × V)) (key : K) (v : V)
    (hn : (h.map Prod.fst).Nodup) : ((QHash.insert h key v).map Prod.fst).Nodup := by
  simp only [QHash.insert, List.map_cons, List.nodup_cons]
  exact ⟨QHash.not_mem_remove h key, QHash.nodup_remove h key hn⟩

theorem FrameData.nodup_deref (fd : FrameData) (q : SvgId)
    (hn : (fd.references.map Prod.fst).Nodup) :
    ((fd.deref q).2.references.map Prod.fst).Nodup := by
  simp only [FrameData.deref]
  split
  · exact QHash.nodup_remove _ _ (QHash.nodup_insert _ _ _ hn)
  · exact QHash.nodup_insert _ _ _ hn

theorem FrameData.nodup_ref (fd : FrameData) (q : SvgId)
    (hn : (fd.references.map Prod.fst).Nodup) :
    ((fd.ref q).references.map Prod.fst).Nodup := by
  simp only [FrameData.ref]
  exact QHash.nodup_insert _ _ _ hn

theorem FrameData.value_ref_self (fd : FrameData) (q : SvgId) :
    QHash.value (fd.ref q).references q = some (fd.count q + 1) := by
  simp only [FrameData.ref]
  exact QHash.value_insert_self _ _ _

theorem FrameData.value_ref_ne (fd : FrameData) (q q2 : SvgId) (h : q2 ≠ q) :
    QHash.value (fd.ref q).references q2 = QHash.value fd.references q2 := by
  simp only [FrameData.ref]
  exact QHash.value_insert_ne _ _ _ _ h

theorem FrameData.count_of_value (fd : FrameData) (q : SvgId) (n : Int)
    (h : QHash.value fd.references q = some n) : fd.count q = n := by
  simp [FrameData.count, h]

theorem FrameData.count_of_none (fd : FrameData) (q : SvgId)
    (h : QHash.value fd.references q = none) : fd.count q = 0 := by
  simp [FrameData.count, h]

theorem FrameData.value_deref_self (fd : FrameData) (q : SvgId)
    (h : QHash.value fd.references q = some 1) :
    QHash.value (fd.deref q).2.references q = none := by
  have h1 := (FrameData.deref_facts fd q).1
  rw [FrameData.count_of_value fd q 1 h] at h1
  simpa using h1

theorem FrameData.value_deref_ne (fd : FrameData) (q q2 : SvgId) (h : q2 ≠ q) :
    QHash.value (fd.deref q).2.references q2 = QHash.value fd.references q2 :=
  (FrameData.deref_facts fd q).2.1 q2 h

theorem FrameData.deref_last_iff (fd : FrameData) (q : SvgId) :
    (fd.deref q).1 = true ↔ (fd.deref q).2.references = [] :=
  (FrameData.deref_facts fd q).2.2

theorem FrameData.deref_theme (fd : FrameData) (q : SvgId) :
    (fd.deref q).2.theme = fd.theme ∧ (fd.deref q).2.enabledBorders = fd.enabledBorders
      ∧ (fd.deref q).2.frameSize = fd.frameSize := by
  simp [FrameData.deref]

theorem FrameData.ref_theme (fd : FrameData) (q : SvgId) :
    (fd.ref q).theme = fd.theme ∧ (fd.ref q).enabledBorders = fd.enabledBorders
      ∧ (fd.ref q).frameSize = fd.frameSize := by
  simp [FrameData.ref]

/-- A reference set of one entry in which `q` is counted names only `q`. -/
theorem FrameData.sole_refs (fd : FrameData) (q : SvgId) (n : Int)
    (hv : QHash.value fd.references q = some n) (h1 : fd.refcount = 1) :
    fd.references = [(q, n)] := by
  simp only [FrameData.refcount] at h1
  match hr : fd.references with
  | [] => rw [hr] at h1; simp at h1
  | [(k, v)] =>
    rw [hr] at hv
    simp only [QHash.value] at hv
    by_cases hk : k = q
    · simp only [hk, if_true, Option.some.injEq] at hv
      rw [hk, hv]
    · simp [hk] at hv
  | _ :: _ :: _ => rw [hr] at h1; simp at h1

/-- When a reference set names `q` once and has another entry, releasing `q` does not
empty it. -/
theorem FrameData.deref_shared (fd : FrameData) (q : SvgId)
    (hn : (fd.references.map Prod.fst).Nodup)
    (hv : QHash.value fd.references q = some 1) (h1 : fd.refcount ≠ 1) :
    (fd.deref q).1 = false := by
  have hex : ∃ q2, q2 ≠ q ∧ q2 ∈ fd.references.map Prod.fst := by
    simp only [FrameData.refcount] at h1
    match hr : fd.references with
    | [] => rw [hr] at hv; simp [QHash.value] at hv
    | [e] => rw [hr] at h1; simp at h1
    | a :: b :: t =>
      rw [hr] at hn
      simp only [List.map_cons, List.nodup_cons, List.mem_cons, not_or] at hn
      by_cases ha : a.1 = q
      · refine ⟨b.1, ?_, by simp⟩
        intro hb
        exact hn.1.1 (by rw [ha, hb])
      · exact ⟨a.1, ha, by simp⟩
  obtain ⟨q2, hne, hmem⟩ := hex
  have hs : (QHash.value fd.references q2).isSome = true :=
    (QHash.value_isSome_iff _ _).2 hmem
  rw [← FrameData.value_deref_ne fd q q2 hne] at hs
  cases hb : (fd.deref q).1 with
  | false => rfl
  | true =>
    have := (FrameData.deref_last_iff fd q).1 hb
    rw [this] at hs
    simp [QHash.value] at hs

/-! ## Quiet steps -/

theorem QuietFd.cell_refl (a : Option FrameData) : QuietFd a a := by
  cases a with
  | none => trivial
  | some a => exact ⟨rfl, rfl, rfl, fun _ => rfl⟩

theorem QuietFd.cell_trans {a b c : Option FrameData} (h1 : QuietFd a b) (h2 : QuietFd b c) :
    QuietFd a c := by
  cases a with
  | none =>
    cases b with
    | none => exact h2
    | some b => exact absurd h1 (by simp [QuietFd])
  | some a =>
    cases b with
    | none => exact absurd h1 (by simp [QuietFd])
    | some b =>
      cases c with
      | none => exact absurd h2 (by simp [QuietFd])
      | some c =>
        obtain ⟨r1, t1, b1, s1⟩ := h1
        obtain ⟨r2, t2, b2, s2⟩ := h2
        refine ⟨r2.trans r1, t2.trans t1, b2.trans b1, fun hv => ?_⟩
        have hb := s1 hv
        rw [← hb]
        exact s2 (by rw [hb]; exact hv)

theorem QuietFd.of_some {a : FrameData} {b : Option FrameData} (h : QuietFd (some a) b) :
    ∃ b1, b = some b1 ∧ b1.references = a.references ∧ b1.theme = a.theme
      ∧ b1.enabledBorders = a.enabledBorders
      ∧ (a.frameSize.isValid = true → b1.frameSize = a.frameSize) := by
  cases b with
  | none => exact absurd h (by simp [QuietFd])
  | some b => exact ⟨b, rfl, h⟩

theorem QuietFd.to_some {a : Option FrameData} {b : FrameData} (h : QuietFd a (some b)) :
    ∃ a1, a = some a1 ∧ b.references = a1.references ∧ b.theme = a1.theme
      ∧ b.enabledBorders = a1.enabledBorders
      ∧ (a1.frameSize.isValid = true → b.frameSize = a1.frameSize) := by
  cases a with
  | none => exact absurd h (by simp [QuietFd])
  | some a => exact ⟨a, rfl, h⟩

theorem QuietFd.of_none {b : Option FrameData} (h : QuietFd none b) : b = none := by
  cases b with
  | none => rfl
  | some b => exact absurd h (by simp [QuietFd])

theorem Quiet.world_refl (w : World) : Quiet w w :=
  ⟨rfl, rfl, fun _ => QuietFd.cell_refl _⟩

theorem Quiet.world_trans {a b c : World} (h1 : Quiet a b) (h2 : Quiet b c) : Quiet a c :=
  ⟨h2.1.trans h1.1, h2.2.1.trans h1.2.1, fun x => (h1.2.2 x).cell_trans (h2.2.2 x)⟩

/-- Writing a FrameData that keeps reference set, theme, borders and a valid frame size
is a quiet step. -/
theorem Quiet.of_setFd (w : World) (p : Ptr) (a b : FrameData) (h : w.fd p = some a)
    (hq : QuietFd (some a) (some b)) : Quiet w (w.setFd p b) := by
  refine ⟨by simp, by simp, fun x => ?_⟩
  by_cases hx : x = p
  · subst hx
    rw [World.fd_setFd_self w x a b h, h]
    exact hq
  · rw [World.fd_setFd_ne w p x b hx]
    exact QuietFd.cell_refl _

theorem updateSizes_quiet (env : Env) (q : SvgId) (w w1 : World)
    (h : updateSizes env q w = some w1) : Quiet w w1 := by
  obtain ⟨f0, hf0, hw⟩ := updateSizes_spec env q w w1 h
  rw [hw]
  exact Quiet.of_setFd w _ f0 _ hf0 ⟨rfl, rfl, rfl, fun _ => rfl⟩

end Plasma
namespace Plasma

/-! ## One step of one consumer -/

theorem Holds.unique {w : World} {q : SvgId} {a b : Ptr} (h1 : Holds w q a)
    (h2 : Holds w q b) : a = b := by
  simp only [Holds] at h1 h2
  rw [h1] at h2
  simpa using h2

theorem Holds.of_same {w w2 : World} {q : SvgId} {x : Ptr}
    (hs : SameKeyData (w.svgs q) (w2.svgs q)) : Holds w2 q x ↔ Holds w q x := by
  obtain ⟨h1, h2, -⟩ := hs
  simp only [Holds, h1, h2]

theorem keyOf_of_same (env : Env) {w w2 : World} {q : SvgId}
    (hs : SameKeyData (w.svgs q) (w2.svgs q)) (b : Nat) (s : QSize) :
    keyOf env w2 q b s = keyOf env w q b s := by
  obtain ⟨-, h2, -, h4, h5, h6⟩ := hs
  simp only [keyOf, h2, h4, h5, h6]

theorem World.refsAt_some (w : World) (p : Ptr) (fd : FrameData) (h : w.fd p = some fd) :
    w.refsAt p = fd.references := by
  simp [World.refsAt, h]

theorem World.refsAt_none (w : World) (p : Ptr) (h : w.fd p = none) : w.refsAt p = [] := by
  simp [World.refsAt, h]

theorem Inv.value_holder {env : Env} {qs : List SvgId} {w : World} (hinv : Inv env qs w)
    {q : SvgId} (hq : q ∈ qs) {p : Ptr} {fd : FrameData} (hold : Holds w q p)
    (hfd : w.fd p = some fd) : QHash.value fd.references q = some 1 := by
  obtain ⟨-, p1, f1, h1, h2, h3⟩ := hinv.single q hq
  have := Holds.unique h1 hold
  subst this
  rw [hfd] at h2
  simp only [Option.some.injEq] at h2
  rw [h2]
  exact h3

/-- The step lemma: consumer `q` leaves the FrameData `p` for `p2` (possibly the same
object), every other object changes quietly, every registry entry of another object was
there before, a deleted `p` has no entry left, and the entries of `p2` carry the key of
each of its holders.  Then the invariant holds again. -/
theorem Inv.step (env : Env) (qs : List SvgId) (w w2 : World) (q : SvgId) (p p2 : Ptr)
    (fd : FrameData)
    (hinv : Inv env qs w) (hq : q ∈ qs)
    (hold : Holds w q p) (hfd : w.fd p = some fd)
    (hsv : ∀ q2, q2 ∈ qs → q2 ≠ q → SameKeyData (w.svgs q2) (w2.svgs q2))
    (hnew : Holds w2 q p2) (hca : (w2.svgs q).cacheAll = false)
    (hother : ∀ x, x ≠ p → x ≠ p2 → QuietFd (w.fd x) (w2.fd x))
    (hreg : ∀ t k x, w2.sharedFrames t k = some x → x ≠ p2 → w.sharedFrames t k = some x)
    (hp : p ≠ p2 →
      ((fd.deref q).1 = true ∧ w2.fd p = none ∧ ∀ t k, w2.sharedFrames t k ≠ some p)
      ∨ ((fd.deref q).1 = false ∧ QuietFd (some (fd.deref q).2) (w2.fd p)))
    (hp2 : ∃ f2, w2.fd p2 = some f2 ∧ (f2.references.map Prod.fst).Nodup
      ∧ QHash.value f2.references q = some 1
      ∧ ∀ q2, q2 ≠ q → QHash.value f2.references q2 = QHash.value (w.refsAt p2) q2)
    (hkey : ∀ t k, w2.sharedFrames t k = some p2 → ∃ f2, w2.fd p2 = some f2 ∧ f2.theme = t
      ∧ f2.frameSize.isValid = true
      ∧ ∀ q2, q2 ∈ qs → Holds w2 q2 p2 →
          k = keyOf env w2 q2 f2.enabledBorders f2.frameSize) :
    Inv env qs w2 := by
  have hvq : QHash.value fd.references q = some 1 := hinv.value_holder hq hold hfd
  obtain ⟨f2, hf2, hnd2, hv2, hoth2⟩ := hp2
  -- what became of `p` when another consumer still holds it
  have hpkeep : ∀ q2, q2 ≠ q → p ≠ p2 → QHash.value fd.references q2 ≠ none →
      (fd.deref q).1 = false ∧ QuietFd (some (fd.deref q).2) (w2.fd p) := by
    intro q2 hne hpp hval
    rcases hp hpp with ⟨hl, -, -⟩ | h
    · exfalso
      have h1 := (FrameData.deref_last_iff fd q).1 hl
      have h2 := FrameData.value_deref_ne fd q q2 hne
      rw [h1] at h2
      exact hval (by rw [← h2]; rfl)
    · exact h
  constructor
  · -- single
    intro q2 hq2
    by_cases hqq : q2 = q
    · subst hqq
      exact ⟨hca, p2, f2, hnew, hf2, hv2⟩
    · obtain ⟨hc, x, fx, hx1, hx2, hx3⟩ := hinv.single q2 hq2
      have hs := hsv q2 hq2 hqq
      refine ⟨by rw [hs.2.2.1]; exact hc, x, ?_⟩
      have hx1' : Holds w2 q2 x := (Holds.of_same hs).2 hx1
      by_cases hxp2 : x = p2
      · subst hxp2
        refine ⟨f2, hx1', hf2, ?_⟩
        rw [hoth2 q2 hqq, World.refsAt_some w x fx hx2]
        exact hx3
      · by_cases hxp : x = p
        · subst hxp
          rw [hfd] at hx2
          simp only [Option.some.injEq] at hx2
          subst hx2
          obtain ⟨-, hqf⟩ := hpkeep q2 hqq hxp2 (by rw [hx3]; simp)
          obtain ⟨b1, hb1, hr, -⟩ := hqf.of_some
          refine ⟨b1, hx1', hb1, ?_⟩
          rw [hr, FrameData.value_deref_ne fd q q2 hqq]
          exact hx3
        · have hqf := hother x hxp hxp2
          rw [hx2] at hqf
          obtain ⟨b1, hb1, hr, -⟩ := hqf.of_some
          exact ⟨b1, hx1', hb1, by rw [hr]; exact hx3⟩
  · -- nodup
    intro x fx hx
    by_cases hxp2 : x = p2
    · subst hxp2
      rw [hf2] at hx
      simp only [Option.some.injEq] at hx
      rw [← hx]
      exact hnd2
    · by_cases hxp : x = p
      · subst hxp
        rcases hp hxp2 with ⟨-, hn, -⟩ | ⟨-, hqf⟩
        · rw [hn] at hx
          simp at hx
        · rw [hx] at hqf
          rw [hqf.1]
          exact FrameData.nodup_deref fd q (hinv.nodup x fd hfd)
      · have hqf := hother x hxp hxp2
        rw [hx] at hqf
        obtain ⟨a1, ha1, hr, -⟩ := hqf.to_some
        rw [hr]
        exact hinv.nodup x a1 ha1
  · -- owners
    intro x fx q2 n hx hval
    by_cases hxp2 : x = p2
    · subst hxp2
      rw [hf2] at hx
      simp only [Option.some.injEq] at hx
      subst hx
      by_cases hqq : q2 = q
      · subst hqq
        exact ⟨hq, hnew⟩
      · rw [hoth2 q2 hqq] at hval
        cases hwx : w.fd x with
        | none =>
          rw [World.refsAt_none w x hwx] at hval
          simp [QHash.value] at hval
        | some a =>
          rw [World.refsAt_some w x a hwx] at hval
          obtain ⟨h1, h2⟩ := hinv.owners x a q2 n hwx hval
          exact ⟨h1, (Holds.of_same (hsv q2 h1 hqq)).2 h2⟩
    · by_cases hxp : x = p
      · subst hxp
        rcases hp hxp2 with ⟨-, hn, -⟩ | ⟨-, hqf⟩
        · rw [hn] at hx
          simp at hx
        · rw [hx] at hqf
          rw [hqf.1] at hval
          by_cases hqq : q2 = q
          · subst hqq
            rw [FrameData.value_deref_self fd q2 hvq] at hval
            simp at hval
          · rw [FrameData.value_deref_ne fd q q2 hqq] at hval
            obtain ⟨h1, h2⟩ := hinv.owners x fd q2 n hfd hval
            exact ⟨h1, (Holds.of_same (hsv q2 h1 hqq)).2 h2⟩
      · have hqf := hother x hxp hxp2
        rw [hx] at hqf
        obtain ⟨a1, ha1, hr, -⟩ := hqf.to_some
        rw [hr] at hval
        obtain ⟨h1, h2⟩ := hinv.owners x a1 q2 n ha1 hval
        have hqq : q2 ≠ q := by
          intro h
          subst h
          exact hxp (Holds.unique h2 hold)
        exact ⟨h1, (Holds.of_same (hsv q2 h1 hqq)).2 h2⟩
  · -- registered
    intro t k x hr
    by_cases hxp2 : x = p2
    · subst hxp2
      obtain ⟨g, hg, ht, hv, hk⟩ := hkey t k hr
      refine ⟨g, hg, ?_, ht, hv, hk⟩
      rw [hf2] at hg
      simp only [Option.some.injEq] at hg
      rw [← hg]
      exact QHash.value_ne_nil _ _ _ hv2
    · have hold1 := hreg t k x hr hxp2
      obtain ⟨a, ha, hne, hth, hval, hkeys⟩ := hinv.registered t k x hold1
      have hholders : ∀ q2, q2 ∈ qs → Holds w2 q2 x →
          q2 ≠ q ∧ Holds w q2 x := by
        intro q2 hq2 hh
        have hqq : q2 ≠ q := by
          intro h
          subst h
          exact hxp2 (Holds.unique hh hnew)
        exact ⟨hqq, (Holds.of_same (hsv q2 hq2 hqq)).1 hh⟩
      by_cases hxp : x = p
      · subst hxp
        rw [hfd] at ha
        simp only [Option.some.injEq] at ha
        subst ha
        rcases hp hxp2 with ⟨-, -, hno⟩ | ⟨hl, hqf⟩
        · exact absurd hr (hno t k)
        · obtain ⟨b1, hb1, hr1, ht1, hbo1, hs1⟩ := hqf.of_some
          obtain ⟨e1, e2, e3⟩ := FrameData.deref_theme fd q
          refine ⟨b1, hb1, ?_, by rw [ht1, e1]; exact hth, ?_, ?_⟩
          · rw [hr1]
            intro hnil
            have := (FrameData.deref_last_iff fd q).2 hnil
            rw [hl] at this
            exact absurd this (by simp)
          · rw [hs1 (by rw [e3]; exact hval), e3]
            exact hval
          · intro q2 hq2 hh
            obtain ⟨hqq, hh1⟩ := hholders q2 hq2 hh
            rw [keyOf_of_same env (hsv q2 hq2 hqq), hbo1, e2,
              hs1 (by rw [e3]; exact hval), e3]
            exact hkeys q2 hq2 hh1
      · have hqf := hother x hxp hxp2
        rw [ha] at hqf
        obtain ⟨b1, hb1, hr1, ht1, hbo1, hs1⟩ := hqf.of_some
        refine ⟨b1, hb1, by rw [hr1]; exact hne, by rw [ht1]; exact hth, ?_, ?_⟩
        · rw [hs1 hval]
          exact hval
        · intro q2 hq2 hh
          obtain ⟨hqq, hh1⟩ := hholders q2 hq2 hh
          rw [keyOf_of_same env (hsv q2 hq2 hqq), hbo1, hs1 hval]
          exact hkeys q2 hq2 hh1

end Plasma
namespace Plasma

/-! ## Steps that move no consumer -/

/-- The invariant survives a step in which no consumer changes what it holds or its key
data, the registry gains no entry, and every object changes quietly. -/
theorem Inv.mono (env : Env) (qs : List SvgId) (w w2 : World) (hinv : Inv env qs w)
    (hsv : ∀ q, q ∈ qs → SameKeyData (w.svgs q) (w2.svgs q))
    (hreg : ∀ t k x, w2.sharedFrames t k = some x → w.sharedFrames t k = some x)
    (hfd : ∀ x, QuietFd (w.fd x) (w2.fd x)) : Inv env qs w2 := by
  constructor
  · intro q hq
    obtain ⟨hc, x, fx, hx1, hx2, hx3⟩ := hinv.single q hq
    have hs := hsv q hq
    have hqf := hfd x
    rw [hx2] at hqf
    obtain ⟨b1, hb1, hr, -⟩ := hqf.of_some
    exact ⟨by rw [hs.2.2.1]; exact hc, x, b1, (Holds.of_same hs).2 hx1, hb1,
      by rw [hr]; exact hx3⟩
  · intro x fx hx
    have hqf := hfd x
    rw [hx] at hqf
    obtain ⟨a1, ha1, hr, -⟩ := hqf.to_some
    rw [hr]
    exact hinv.nodup x a1 ha1
  · intro x fx q n hx hval
    have hqf := hfd x
    rw [hx] at hqf
    obtain ⟨a1, ha1, hr, -⟩ := hqf.to_some
    rw [hr] at hval
    obtain ⟨h1, h2⟩ := hinv.owners x a1 q n ha1 hval
    exact ⟨h1, (Holds.of_same (hsv q h1)).2 h2⟩
  · intro t k x hr
    obtain ⟨a, ha, hne, hth, hval, hkeys⟩ := hinv.registered t k x (hreg t k x hr)
    have hqf := hfd x
    rw [ha] at hqf
    obtain ⟨b1, hb1, hr1, ht1, hbo1, hs1⟩ := hqf.of_some
    refine ⟨b1, hb1, by rw [hr1]; exact hne, by rw [ht1]; exact hth, ?_, ?_⟩
    · rw [hs1 hval]
      exact hval
    · intro q hq hh
      rw [keyOf_of_same env (hsv q hq), hbo1, hs1 hval]
      exact hkeys q hq ((Holds.of_same (hsv q hq)).1 hh)

theorem SameKeyData.key_refl (c : FrameSvg) : SameKeyData c c :=
  ⟨rfl, rfl, rfl, rfl, rfl, rfl⟩

theorem Inv.quiet (env : Env) (qs : List SvgId) (w w2 : World) (hinv : Inv env qs w)
    (h : Quiet w w2) : Inv env qs w2 := by
  refine Inv.mono env qs w w2 hinv ?_ ?_ h.2.2
  · intro q _
    rw [h.1]
    exact SameKeyData.key_refl _
  · intro t k x hx
    rw [h.2.1] at hx
    exact hx

theorem Inv.of_sharedRemove (env : Env) (qs : List SvgId) (w : World) (hinv : Inv env qs w)
    (t : ThemeId) (k : String) : Inv env qs (w.sharedRemove t k) := by
  refine Inv.mono env qs w _ hinv ?_ ?_ ?_
  · intro q _
    exact SameKeyData.key_refl _
  · intro t2 k2 x hx
    by_cases h : t2 = t ∧ k2 = k
    · obtain ⟨h1, h2⟩ := h
      subst h1 h2
      rw [World.sharedRemove_value_self] at hx
      simp at hx
    · rw [World.sharedRemove_value_ne w t t2 k k2 (by tauto)] at hx
      exact hx
  · intro x
    rw [World.sharedRemove_fd]
    exact QuietFd.cell_refl _

/-! ## What `frameSize` and `cacheId` do to the state -/

theorem frameSize_quiet (env : Env) (q : SvgId) (p : Ptr) (w w1 : World) (s : QSize)
    (h : frameSize env q p w = some (s, w1)) : Quiet w w1 := by
  cases hf : w.fd p with
  | none => simp [frameSize, hf] at h
  | some fd =>
    by_cases hv : fd.frameSize.isValid = true
    · rw [frameSize_valid env q p w fd hf hv] at h
      simp only [Option.some.injEq, Prod.mk.injEq] at h
      rw [← h.2]
      exact Quiet.world_refl w
    · simp only [frameSize, hf, Option.some_bind, hv, Bool.false_eq_true, if_false] at h
      cases hu : updateSizes env q w with
      | none => simp [hu] at h
      | some w2 =>
        have hq2 := updateSizes_quiet env q w w2 hu
        simp only [hu, Option.some_bind] at h
        cases hf2 : w2.fd p with
        | none => simp [hf2] at h
        | some fd2 =>
          simp only [hf2, Option.some_bind, Option.some.injEq, Prod.mk.injEq] at h
          rw [← h.2]
          refine ⟨by simp [hq2.1], by simp [hq2.2.1], fun x => ?_⟩
          by_cases hx : x = p
          · subst hx
            rw [World.fd_setFd_self w2 x fd2 _ hf2, hf]
            have h3 := hq2.2.2 x
            rw [hf, hf2] at h3
            exact ⟨h3.1, h3.2.1, h3.2.2.1, fun hv2 => absurd hv2 hv⟩
          · rw [World.fd_setFd_ne w2 p x _ hx]
            exact hq2.2.2 x

theorem cacheId_quiet (env : Env) (q : SvgId) (p : Ptr) (px : String) (w w1 : World)
    (k : String) (h : cacheId env q p px w = some (k, w1)) : Quiet w w1 := by
  simp only [cacheId, Option.bind_eq_some] at h
  obtain ⟨r, hr, f, -, he⟩ := h
  simp only [Option.some.injEq, Prod.mk.injEq] at he
  rw [← he.2]
  exact frameSize_quiet env q p w r.2 r.1 hr

/-- What `cacheId` returns: a quiet step, and the key of the FrameData as it is after
the call, whose frame size is the old one when that was valid and the size of the `Svg`
otherwise. -/
theorem cacheId_spec (env : Env) (q : SvgId) (p : Ptr) (px : String) (w w1 : World)
    (k : String) (h : cacheId env q p px w = some (k, w1)) :
    Quiet w w1 ∧ ∃ f f1 : FrameData, w.fd p = some f ∧ w1.fd p = some f1
      ∧ f1.frameSize = (if f.frameSize.isValid then f.frameSize else (w.svgs q).size)
      ∧ k = cacheKey env f1.enabledBorders f1.frameSize.width f1.frameSize.height
          (w.svgs q).scaleFactor (w.svgs q).devicePixelRatio px (w.svgs q).imagePath := by
  refine ⟨cacheId_quiet env q p px w w1 k h, ?_⟩
  obtain ⟨f, f1, h1, h2, -, h4, -, -, h7⟩ := cacheId_eq_cacheKey env q p px w w1 k h
  exact ⟨f, f1, h1, h2, h4, h7⟩

/-! ## Allocation and deletion -/

theorem World.fd_alloc_fresh (w : World) (f : FrameData) : w.fd (w.alloc f).1 = none := by
  simp [World.alloc, World.fd]

theorem World.fd_alloc_ne (w : World) (f : FrameData) (x : Ptr) (h : x ≠ (w.alloc f).1) :
    (w.alloc f).2.fd x = w.fd x := by
  cases hx : w.fd x with
  | some old => exact (World.fd_alloc_old w f old x hx).1
  | none =>
    cases x with
    | zero => rfl
    | succ n =>
      simp only [World.alloc] at h ⊢
      simp only [World.fd] at hx ⊢
      have hn : n ≠ w.heap.length := by
        intro h1
        exact h (by rw [h1])
      by_cases hlt : n < w.heap.length
      · rw [List.getD_append _ _ _ _ hlt]
        exact hx
      · have : w.heap.length + 1 ≤ n := by omega
        rw [List.getD_eq_default _ _ (by simp; omega)]

/-- The destructor of a FrameData whose reference set is empty touches no consumer. -/
theorem World.delete_spec (w : World) (p : Ptr) (fd : FrameData) (h : w.fd p = some fd)
    (hr : fd.references = []) :
    ∃ w1, w.delete p = some w1 ∧ w1.svgs = w.svgs ∧ w1.sharedFrames = w.sharedFrames
      ∧ w1.fd p = none ∧ ∀ x, x ≠ p → w1.fd x = w.fd x := by
  simp only [World.delete, h, hr, List.foldl_nil]
  refine ⟨_, rfl, rfl, rfl, ?_, ?_⟩
  · cases p with
    | zero => simp [World.fd] at h
    | succ n =>
      simp only [World.fd, Nat.add_sub_cancel] at h ⊢
      by_cases hlt : n < w.heap.length
      · simp [List.getD_eq_getElem?_getD, List.getElem?_set, hlt]
      · simp [List.getD_eq_getElem?_getD, List.getElem?_set, hlt]
  · intro x hx
    cases p with
    | zero => simp [World.fd] at h
    | succ n =>
      cases x with
      | zero => rfl
      | succ m =>
        have hmn : n ≠ m := by
          intro h1
          exact hx (by rw [h1])
        simp [World.fd, List.getD_eq_getElem?_getD, List.getElem?_set, hmn]

end Plasma
namespace Plasma

/-! ## Splitting a cache key at its separators -/

theorem List.split_at_sep (c : Char) : ∀ (l1 l2 r1 r2 : List Char), c ∉ l1 → c ∉ l2 →
    l1 ++ c :: r1 = l2 ++ c :: r2 → l1 = l2 ∧ r1 = r2
  | [], [], r1, r2, _, _, h => by simpa using h
  | [], b :: l2, r1, r2, _, h2, h => by
    simp only [List.nil_append, List.cons_append, List.cons.injEq] at h
    exact absurd h.1 (by intro hb; exact h2 (by simp [hb]))
  | a :: l1, [], r1, r2, h1, _, h => by
    simp only [List.nil_append, List.cons_append, List.cons.injEq] at h
    exact absurd h.1 (by intro hb; exact h1 (by simp [hb]))
  | a :: l1, b :: l2, r1, r2, h1, h2, h => by
    simp only [List.cons_append, List.cons.injEq] at h
    have ih := List.split_at_sep c l1 l2 r1 r2
      (fun hm => h1 (List.mem_cons_of_mem _ hm)) (fun hm => h2 (List.mem_cons_of_mem _ hm)) h.2
    exact ⟨by rw [h.1, ih.1], ih.2⟩

theorem toString_nat_no_sep (n : Nat) : '_' ∉ (toString n).data := by
  rw [toString_nat_data]
  intro h
  have := (toDigits_spec n).2 '_' h
  exact absurd this (by decide)

theorem toString_int_no_sep (i : Int) : '_' ∉ (toString i).data := by
  rw [toString_int_data]
  cases i with
  | ofNat m =>
    intro h
    have := (toDigits_spec m).2 '_' h
    exact absurd this (by decide)
  | negSucc m =>
    intro h
    simp only [List.mem_cons] at h
    rcases h with h | h
    · exact absurd h (by decide)
    · have := (toDigits_spec (m + 1)).2 '_' h
      exact absurd this (by decide)

/-- Equal cache keys have equal borders, width and height: these three components are
decimal numbers, which contain no separator. -/
theorem cacheKey_head (env : Env) (b b2 : Nat) (w w2 h h2 : Int) (s s2 d d2 : ℚ)
    (p p2 x x2 : String)
    (hk : cacheKey env b w h s d p x = cacheKey env b2 w2 h2 s2 d2 p2 x2) :
    b = b2 ∧ w = w2 ∧ h = h2 := by
  have h1 := congrArg String.data hk
  simp only [cacheKey, String.data_append, List.append_assoc] at h1
  have hu : ("_" : String).data = ['_'] := rfl
  simp only [hu, List.singleton_append] at h1
  obtain ⟨e1, r1⟩ := List.split_at_sep '_' _ _ _ _ (toString_nat_no_sep b)
    (toString_nat_no_sep b2) h1
  obtain ⟨e2, r2⟩ := List.split_at_sep '_' _ _ _ _ (toString_int_no_sep w)
    (toString_int_no_sep w2) r1
  obtain ⟨e3, -⟩ := List.split_at_sep '_' _ _ _ _ (toString_int_no_sep h)
    (toString_int_no_sep h2) r2
  exact ⟨toString_nat_injective b b2 (String.ext e1), toString_int_injective w w2 (String.ext e2),
    toString_int_injective h h2 (String.ext e3)⟩

theorem QSize.ext_wh (a b : QSize) (h1 : a.width = b.width) (h2 : a.height = b.height) :
    a = b := by
  cases a
  cases b
  simp only [QSize.mk.injEq]
  exact ⟨h1, h2⟩

/-- A key that is the key of `(b, s)` for one consumer and also the key of `(b2, s2)` for
some consumer is the key of `(b2, s2)` for the first. -/
theorem keyOf_transfer (env : Env) (w : World) (q q2 : SvgId) (b b2 : Nat) (s s2 : QSize)
    (k : String) (h1 : k = keyOf env w q b s) (h2 : k = keyOf env w q2 b2 s2) :
    b = b2 ∧ s = s2 := by
  rw [h1] at h2
  simp only [keyOf] at h2
  obtain ⟨e1, e2, e3⟩ := cacheKey_head env _ _ _ _ _ _ _ _ _ _ _ _ _ _ h2
  exact ⟨e1, QSize.ext_wh s s2 e2 e3⟩

end Plasma
namespace Plasma

/-! ## Construction, `clearCache`, `updateSizes` -/

theorem World.fd_ne_zero {w : World} {p : Ptr} {fd : FrameData} (h : w.fd p = some fd) :
    p ≠ 0 := by
  intro h0
  subst h0
  simp [World.fd] at h

theorem Inv.of_construct (env : Env) (qs : List SvgId) (w : World) (q : SvgId) (svg : FrameSvg)
    (hinv : Inv env qs w) (hq : q ∉ qs) : Inv env (q :: qs) (Plasma.construct q svg w) := by
  have hne : ∀ q2, q2 ∈ qs → q2 ≠ q := fun q2 h2 h => hq (h ▸ h2)
  have hsv : ∀ q2, q2 ≠ q → (Plasma.construct q svg w).svgs q2 = w.svgs q2 := by
    intro q2 h2
    simp only [Plasma.construct]
    rw [World.setSvg_svgs_ne _ _ _ _ h2]
    rfl
  have hsq : (Plasma.construct q svg w).svgs q = { svg with
      actualPrefix := "", requestedPrefix := "", location := Location.Floating,
      frames := [("", w.heap.length + 1)], cacheAll := false } := by
    simp [Plasma.construct, World.alloc]
  have hfn : (Plasma.construct q svg w).fd (w.heap.length + 1)
      = some (FrameData.create q "" svg.devicePixelRatio) := by
    simp only [Plasma.construct, World.setSvg_fd]
    exact World.fd_alloc_new w _
  have hfo : ∀ x, x ≠ w.heap.length + 1 → (Plasma.construct q svg w).fd x = w.fd x := by
    intro x hx
    simp only [Plasma.construct, World.setSvg_fd]
    exact World.fd_alloc_ne w _ x hx
  have hlive : ∀ x f, w.fd x = some f → x ≠ w.heap.length + 1 := by
    intro x f hx
    exact (World.fd_alloc_old w (FrameData.create q "" svg.devicePixelRatio) f x hx).2
  have hholds : ∀ q2 x, q2 ≠ q → (Holds (Plasma.construct q svg w) q2 x ↔ Holds w q2 x) := by
    intro q2 x h2
    simp only [Holds, hsv q2 h2]
  have hsh : (Plasma.construct q svg w).sharedFrames = w.sharedFrames := rfl
  constructor
  · intro q2 hq2
    by_cases h2 : q2 = q
    · subst h2
      refine ⟨by rw [hsq], w.heap.length + 1, _, ?_, hfn, ?_⟩
      · simp only [Holds, hsq]
      · simp [FrameData.create, QHash.value]
    · have hq2' : q2 ∈ qs := by
        rcases List.mem_cons.1 hq2 with h | h
        · exact absurd h h2
        · exact h
      obtain ⟨hc, x, fx, hx1, hx2, hx3⟩ := hinv.single q2 hq2'
      refine ⟨by rw [hsv q2 h2]; exact hc, x, fx, (hholds q2 x h2).2 hx1, ?_, hx3⟩
      rw [hfo x (hlive x fx hx2)]
      exact hx2
  · intro x fx hx
    by_cases hxn : x = w.heap.length + 1
    · subst hxn
      rw [hfn] at hx
      simp only [Option.some.injEq] at hx
      rw [← hx]
      simp [FrameData.create]
    · rw [hfo x hxn] at hx
      exact hinv.nodup x fx hx
  · intro x fx q2 n hx hval
    by_cases hxn : x = w.heap.length + 1
    · subst hxn
      rw [hfn] at hx
      simp only [Option.some.injEq] at hx
      rw [← hx] at hval
      have h2 : q2 = q := by
        by_contra hc
        have hc2 : ¬ q = q2 := fun h => hc h.symm
        simp [FrameData.create, QHash.value, hc2] at hval
      subst h2
      refine ⟨by simp, ?_⟩
      simp only [Holds, hsq]
    · rw [hfo x hxn] at hx
      obtain ⟨h1, h2⟩ := hinv.owners x fx q2 n hx hval
      exact ⟨List.mem_cons_of_mem _ h1, (hholds q2 x (hne q2 h1)).2 h2⟩
  · intro t k x hr
    rw [hsh] at hr
    obtain ⟨a, ha, hnn, hth, hval, hkeys⟩ := hinv.registered t k x hr
    have hxn := hlive x a ha
    refine ⟨a, by rw [hfo x hxn]; exact ha, hnn, hth, hval, ?_⟩
    intro q2 hq2 hh
    by_cases h2 : q2 = q
    · subst h2
      simp only [Holds, hsq, List.cons.injEq, Prod.mk.injEq, and_true, true_and] at hh
      exact absurd hh.symm hxn
    · have hq2' : q2 ∈ qs := by
        rcases List.mem_cons.1 hq2 with h | h
        · exact absurd h h2
        · exact h
      have := hkeys q2 hq2' ((hholds q2 x h2).1 hh)
      rw [this]
      simp only [keyOf, hsv q2 h2]

theorem Inv.empty (env : Env) : Inv env [] World.empty := by
  constructor
  · intro q hq
    simp at hq
  · intro p fd h
    cases p <;> simp [World.empty, World.fd] at h
  · intro p fd q n h
    cases p <;> simp [World.empty, World.fd] at h
  · intro t k p h
    simp [World.empty] at h

theorem Inv.holds {env : Env} {qs : List SvgId} {w : World} (hinv : Inv env qs w)
    {q : SvgId} (hq : q ∈ qs) :
    ∃ p fd, Holds w q p ∧ w.fd p = some fd ∧ QHash.value fd.references q = some 1
      ∧ (w.svgs q).cacheAll = false ∧ w.framesValue q (w.svgs q).actualPrefix = p
      ∧ p ≠ 0 := by
  obtain ⟨hc, p, fd, h1, h2, h3⟩ := hinv.single q hq
  exact ⟨p, fd, h1, h2, h3, hc, framesValue_of_single w q _ p h1, World.fd_ne_zero h2⟩

theorem clearCache_inv (env : Env) (qs : List SvgId) (w w1 : World) (q : SvgId)
    (hinv : Inv env qs w) (hq : q ∈ qs) (h : clearCache env q w = some w1) :
    Inv env qs w1 := by
  obtain ⟨p, fd, h1, -⟩ := hinv.holds hq
  rw [clearCache_single env q w p h1] at h
  simp only [Option.some.injEq] at h
  rw [← h]
  exact hinv

theorem updateSizes_inv (env : Env) (qs : List SvgId) (w w1 : World) (q : SvgId)
    (hinv : Inv env qs w) (h : updateSizes env q w = some w1) : Inv env qs w1 :=
  Inv.quiet env qs w w1 hinv (updateSizes_quiet env q w w1 h)

end Plasma
namespace Plasma

/-! ## `setElementPrefix` -/

theorem QSize.valid_of_not_empty (s : QSize) (h : s.isEmpty = false) : s.isValid = true := by
  simp only [QSize.isEmpty, QSize.isValid] at h ⊢
  simp only [Bool.or_eq_false_iff, decide_eq_false_iff_not, not_le] at h
  simp only [Bool.and_eq_true, decide_eq_true_eq]
  omega

theorem World.sharedValue_ne_zero (w : World) (t : ThemeId) (k : String)
    (h : w.sharedValue t k ≠ 0) : w.sharedFrames t k = some (w.sharedValue t k) := by
  simp only [World.sharedValue] at h ⊢
  cases hs : w.sharedFrames t k with
  | none => rw [hs] at h; simp at h
  | some x => simp

/-- The three ways in which `setElementPrefix` gets the FrameData of a new prefix from the
FrameData `p` of the old one: the registry has one under the new key; or it has none and
the copy is registered; or the old one has no size yet and the copy is left unregistered.
`w3` is the state before the closing `updateSizes ()`. -/
theorem setElementPrefixCreate_spec (env : Env) (q : SvgId) (p : Ptr) (v v4 : World)
    (f : FrameData) (hp0 : p ≠ 0) (hf : v.fd p = some f)
    (h : setElementPrefixCreate env q p v = some v4) :
    ∃ w3, Quiet w3 v4 ∧
      ((∃ found nf, f.frameSize.isEmpty = false
          ∧ v.sharedFrames (v.svgs q).theme (keyOf env v q f.enabledBorders f.frameSize)
              = some found
          ∧ v.fd found = some nf
          ∧ w3 = (v.setFd found (nf.ref q)).framesInsert q (v.svgs q).actualPrefix found)
      ∨ (f.frameSize.isEmpty = false
          ∧ w3 = (((v.alloc (f.copy q)).2.framesInsert q (v.svgs q).actualPrefix
                (v.alloc (f.copy q)).1).sharedInsert (v.svgs q).theme
                (keyOf env v q f.enabledBorders f.frameSize) (v.alloc (f.copy q)).1).setFd
              (v.alloc (f.copy q)).1 { f.copy q with theme := (v.svgs q).theme })
      ∨ (f.frameSize.isEmpty = true
          ∧ w3 = (v.alloc (f.copy q)).2.framesInsert q (v.svgs q).actualPrefix
              (v.alloc (f.copy q)).1)) := by
  unfold setElementPrefixCreate at h
  simp only [ne_eq, hp0, not_false_eq_true, if_true, hf, Option.some_bind] at h
  obtain ⟨w3, h3, hu⟩ := Option.bind_eq_some.1 h
  refine ⟨w3, updateSizes_quiet env q w3 v4 hu, ?_⟩
  cases he : f.frameSize.isEmpty with
  | true =>
    simp only [he, Bool.not_true, Bool.false_eq_true, if_false, Option.some_bind,
      not_true_eq_false, hf, Bool.and_false, Option.some.injEq] at h3
    exact Or.inr (Or.inr ⟨rfl, h3.symm⟩)
  | false =>
    have hv : f.frameSize.isValid = true := QSize.valid_of_not_empty _ he
    have hall := World.fd_alloc_old v (f.copy q) f p hf
    simp only [he, Bool.not_false, if_true, cacheId_valid env q p _ v f hf hv,
      Option.some_bind, Bool.and_true] at h3
    by_cases hfound : v.sharedValue (v.svgs q).theme
        (cacheKey env f.enabledBorders f.frameSize.width f.frameSize.height
          (v.svgs q).scaleFactor (v.svgs q).devicePixelRatio (v.svgs q).actualPrefix
          (v.svgs q).imagePath) = 0
    · simp only [hfound, not_true_eq_false, if_false, Option.some_bind, hf,
        decide_True, if_true] at h3
      rw [cacheId_valid env q p _ _ f (by simp; exact hall.1) hv] at h3
      simp only [Option.some_bind, World.framesInsert_fd, World.fd_alloc_new,
        Option.some.injEq] at h3
      refine Or.inr (Or.inl ⟨rfl, ?_⟩)
      rw [← h3]
      simp [keyOf, World.framesInsert, World.alloc_svgs, FrameData.copy]
    · have hreg := World.sharedValue_ne_zero v _ _ hfound
      simp only [hfound, not_false_eq_true, if_true] at h3
      cases hnf : v.fd (v.sharedValue (v.svgs q).theme
        (cacheKey env f.enabledBorders f.frameSize.width f.frameSize.height
          (v.svgs q).scaleFactor (v.svgs q).devicePixelRatio (v.svgs q).actualPrefix
          (v.svgs q).imagePath)) with
      | none => simp [hnf] at h3
      | some nf =>
        simp only [hnf, Option.some_bind] at h3
        by_cases hd : nf.devicePixelRatio = (v.svgs q).devicePixelRatio
        · simp only [hd, not_true_eq_false, if_false, Option.some_bind, hfound,
            not_false_eq_true, if_true, World.ref_eq v _ q nf hnf, decide_False,
            Bool.false_and, Bool.false_eq_true, Option.some.injEq] at h3
          exact Or.inl ⟨_, nf, rfl, hreg, hnf, h3.symm⟩
        · simp only [hd, not_false_eq_true, if_true, Option.some_bind, hf,
            not_true_eq_false, if_false, decide_True, Bool.true_and] at h3
          rw [cacheId_valid env q p _ _ f (by simp; exact hall.1) hv] at h3
          simp only [Option.some_bind, World.framesInsert_fd, World.fd_alloc_new,
            Option.some.injEq] at h3
          refine Or.inr (Or.inl ⟨rfl, ?_⟩)
          rw [← h3]
          simp [keyOf, World.framesInsert, World.alloc_svgs, FrameData.copy]

end Plasma
namespace Plasma

theorem QuietFd.some_of_quiet {w w2 : World} (h : Quiet w w2) {x : Ptr} {a : FrameData}
    (ha : w.fd x = some a) : ∃ b, w2.fd x = some b ∧ QuietFd (some a) (some b) := by
  have h1 := h.2.2 x
  rw [ha] at h1
  obtain ⟨b, hb, hr⟩ := h1.of_some
  exact ⟨b, hb, hr⟩

/-- What `setElementPrefix` has done once the FrameData of the new prefix is in `d->frames`:
consumer `q` holds `p2` next to the old FrameData; `p2` is a registered FrameData that `q`
now references too, or a fresh copy that only `q` references, registered under the key
of `q` when it has a size. -/
theorem setElementPrefixCreate_summary (env : Env) (q : SvgId) (p : Ptr) (v v4 : World)
    (f : FrameData) (hp0 : p ≠ 0) (hf : v.fd p = some f)
    (h : setElementPrefixCreate env q p v = some v4) :
    ∃ p2 f2, v4.svgs = (v.framesInsert q (v.svgs q).actualPrefix p2).svgs
      ∧ (∀ x, x ≠ p2 → QuietFd (v.fd x) (v4.fd x))
      ∧ v4.fd p2 = some f2
      ∧ ((∃ nf, f.frameSize.isEmpty = false
            ∧ v.sharedFrames (v.svgs q).theme (keyOf env v q f.enabledBorders f.frameSize)
                = some p2
            ∧ v.fd p2 = some nf ∧ QuietFd (some (nf.ref q)) (some f2)
            ∧ v4.sharedFrames = v.sharedFrames)
        ∨ (v.fd p2 = none ∧ f2.references = [(q, 1)]
            ∧ (v4.sharedFrames = v.sharedFrames
              ∨ (f2.frameSize.isValid = true ∧ f2.theme = (v.svgs q).theme
                ∧ v4.sharedFrames = (v.sharedInsert (v.svgs q).theme
                    (keyOf env v q f2.enabledBorders f2.frameSize) p2).sharedFrames)))) := by
  obtain ⟨w3, hq3, hcase⟩ := setElementPrefixCreate_spec env q p v v4 f hp0 hf h
  rcases hcase with ⟨found, nf, he, hreg, hnf, hw3⟩ | ⟨he, hw3⟩ | ⟨he, hw3⟩
  · have h3f : w3.fd found = some (nf.ref q) := by
      rw [hw3, World.framesInsert_fd]
      exact World.fd_setFd_self v found nf _ hnf
    obtain ⟨f2, hf2, hqf⟩ := QuietFd.some_of_quiet hq3 h3f
    refine ⟨found, f2, ?_, ?_, hf2, Or.inl ⟨nf, he, hreg, hnf, hqf, ?_⟩⟩
    · rw [hq3.1, hw3]
      simp [World.framesInsert, World.setSvg]
    · intro x hx
      have := hq3.2.2 x
      rw [hw3, World.framesInsert_fd, World.fd_setFd_ne v found x _ hx] at this
      exact this
    · rw [hq3.2.1, hw3]
      simp
  · have hv : f.frameSize.isValid = true := QSize.valid_of_not_empty _ he
    have h3f : w3.fd (v.alloc (f.copy q)).1
        = some { f.copy q with theme := (v.svgs q).theme } := by
      rw [hw3]
      refine World.fd_setFd_self _ _ (f.copy q) _ ?_
      rw [World.sharedInsert_fd, World.framesInsert_fd]
      exact World.fd_alloc_new v _
    obtain ⟨f2, hf2, hr, ht, hb, hs⟩ := QuietFd.some_of_quiet hq3 h3f
    have hs2 : f2.frameSize = f.frameSize := hs (by simpa [FrameData.copy] using hv)
    refine ⟨(v.alloc (f.copy q)).1, f2, ?_, ?_, hf2,
      Or.inr ⟨World.fd_alloc_fresh v _, by rw [hr]; rfl, Or.inr ⟨?_, by rw [ht], ?_⟩⟩⟩
    · rw [hq3.1, hw3]
      simp [World.framesInsert, World.setSvg, World.sharedInsert, World.alloc]
    · intro x hx
      have := hq3.2.2 x
      rw [hw3, World.fd_setFd_ne _ _ x _ hx, World.sharedInsert_fd, World.framesInsert_fd,
        World.fd_alloc_ne v _ x hx] at this
      exact this
    · rw [hs2]
      exact hv
    · rw [hq3.2.1, hw3, hb, hs2]
      simp [World.framesInsert, World.setSvg, World.sharedInsert, World.alloc, FrameData.copy]
  · have h3f : w3.fd (v.alloc (f.copy q)).1 = some (f.copy q) := by
      rw [hw3, World.framesInsert_fd]
      exact World.fd_alloc_new v _
    obtain ⟨f2, hf2, hr, -⟩ := QuietFd.some_of_quiet hq3 h3f
    refine ⟨(v.alloc (f.copy q)).1, f2, ?_, ?_, hf2,
      Or.inr ⟨World.fd_alloc_fresh v _, by rw [hr]; rfl, Or.inl ?_⟩⟩
    · rw [hq3.1, hw3]
      simp [World.framesInsert, World.setSvg, World.alloc]
    · intro x hx
      have := hq3.2.2 x
      rw [hw3, World.framesInsert_fd, World.fd_alloc_ne v _ x hx] at this
      exact this
    · rw [hq3.2.1, hw3]
      simp [World.framesInsert, World.setSvg, World.alloc]

theorem FrameData.deref_congr (a b : FrameData) (q : SvgId)
    (h : b.references = a.references) :
    (b.deref q).1 = (a.deref q).1 ∧ (b.deref q).2.references = (a.deref q).2.references := by
  simp [FrameData.deref, FrameData.count, h]

/-- The end of `setElementPrefix`: consumer `q` releases the FrameData `p` of the old
prefix; when that was the last reference, the registry entry under the key that `cacheId`
now computes is removed and the FrameData is deleted. -/
theorem setElementPrefix_release (env : Env) (q : SvgId) (p : Ptr) (oldPrefix : String)
    (v v2 : World) (f : FrameData) (hf : v.fd p = some f)
    (h : ((v.deref p q).bind fun r =>
        if r.1 = true then
          (cacheId env q p oldPrefix r.2).bind fun k =>
            (k.2.fd p).bind fun fd => (k.2.sharedRemove fd.theme k.1).delete p
        else some r.2) = some v2) :
    v2.svgs = v.svgs ∧ (∀ x, x ≠ p → QuietFd (v.fd x) (v2.fd x))
      ∧ (((f.deref q).1 = false ∧ v2.fd p = some (f.deref q).2
            ∧ v2.sharedFrames = v.sharedFrames)
        ∨ ((f.deref q).1 = true ∧ v2.fd p = none
            ∧ ∃ k, (f.frameSize.isValid = true →
                  k = cacheKey env f.enabledBorders f.frameSize.width f.frameSize.height
                    (v.svgs q).scaleFactor (v.svgs q).devicePixelRatio oldPrefix
                    (v.svgs q).imagePath)
              ∧ v2.sharedFrames = (v.sharedRemove f.theme k).sharedFrames)) := by
  rw [World.deref_eq v p q f hf] at h
  simp only [Option.some_bind] at h
  have h6 : (v.setFd p (f.deref q).2).fd p = some (f.deref q).2 :=
    World.fd_setFd_self v p f _ hf
  cases hb : (f.deref q).1 with
  | false =>
    simp only [hb, Bool.false_eq_true, if_false, Option.some.injEq] at h
    rw [← h]
    refine ⟨by simp, ?_, Or.inl ⟨rfl, h6, by simp⟩⟩
    intro x hx
    rw [World.fd_setFd_ne v p x _ hx]
    exact QuietFd.cell_refl _
  | true =>
    simp only [hb, if_true] at h
    obtain ⟨k, hk, h2⟩ := Option.bind_eq_some.1 h
    obtain ⟨f7, hf7, hdel⟩ := Option.bind_eq_some.1 h2
    obtain ⟨hq7, f6, f7', h61, h71, hsz, hkey⟩ :=
      cacheId_spec env q p oldPrefix _ k.2 k.1 hk
    rw [h6] at h61
    simp only [Option.some.injEq] at h61
    subst h61
    rw [hf7] at h71
    simp only [Option.some.injEq] at h71
    subst h71
    have hq67 := hq7.2.2 p
    rw [h6, hf7] at hq67
    obtain ⟨hr, ht, hbo, hs⟩ := hq67
    obtain ⟨e1, e2, e3⟩ := FrameData.deref_theme f q
    have hnil : f7.references = [] := by
      rw [hr]
      exact (FrameData.deref_last_iff f q).1 hb
    have h7r : (k.2.sharedRemove f7.theme k.1).fd p = some f7 := by
      rw [World.sharedRemove_fd]
      exact hf7
    obtain ⟨w8, hw8, hs8, hsh8, hp8, ho8⟩ := World.delete_spec _ p f7 h7r hnil
    rw [hw8] at hdel
    simp only [Option.some.injEq] at hdel
    subst hdel
    refine ⟨?_, ?_, Or.inr ⟨rfl, hp8, k.1, ?_, ?_⟩⟩
    · rw [hs8]
      simp [hq7.1]
    · intro x hx
      rw [ho8 x hx, World.sharedRemove_fd]
      have := hq7.2.2 x
      rw [World.fd_setFd_ne v p x _ hx] at this
      exact this
    · intro hv
      rw [hkey, hbo, e2, hs (by rw [e3]; exact hv), e3]
      simp [hq7.1]
    · rw [hsh8, ht, e1]
      simp [World.sharedRemove, hq7.2.1]

end Plasma
namespace Plasma

/-! ## Reading the registry -/

theorem World.sharedInsert_apply (w : World) (t t2 : ThemeId) (k k2 : String) (v : Ptr) :
    (w.sharedInsert t k v).sharedFrames t2 k2
      = if t2 = t ∧ k2 = k then some v else w.sharedFrames t2 k2 := by
  by_cases h : t2 = t ∧ k2 = k
  · obtain ⟨h1, h2⟩ := h
    subst h1 h2
    simp [World.sharedInsert_value_self]
  · rw [World.sharedInsert_value_ne w t t2 k k2 v (by tauto)]
    simp [h]

theorem World.sharedRemove_apply (w : World) (t t2 : ThemeId) (k k2 : String) :
    (w.sharedRemove t k).sharedFrames t2 k2
      = if t2 = t ∧ k2 = k then none else w.sharedFrames t2 k2 := by
  by_cases h : t2 = t ∧ k2 = k
  · obtain ⟨h1, h2⟩ := h
    subst h1 h2
    simp [World.sharedRemove_value_self]
  · rw [World.sharedRemove_value_ne w t t2 k k2 (by tauto)]
    simp [h]

theorem QHash.exists_value {K V : Type} [DecidableEq K] (h : List (K × V)) (hne : h ≠ []) :
    ∃ k v, QHash.value h k = some v := by
  match h with
  | [] => exact absurd rfl hne
  | (k, v) :: t => exact ⟨k, v, by simp [QHash.value]⟩

theorem Inv.not_registered {env : Env} {qs : List SvgId} {w : World} (hinv : Inv env qs w)
    {x : Ptr} (hx : w.fd x = none) (t : ThemeId) (k : String) :
    w.sharedFrames t k ≠ some x := by
  intro h
  obtain ⟨g, hg, -⟩ := hinv.registered t k x h
  rw [hx] at hg
  simp at hg

theorem Inv.holder_exists {env : Env} {qs : List SvgId} {w : World} (hinv : Inv env qs w)
    {x : Ptr} {g : FrameData} (hg : w.fd x = some g) (hne : g.references ≠ []) :
    ∃ q3, q3 ∈ qs ∧ Holds w q3 x := by
  obtain ⟨q3, n, hv⟩ := QHash.exists_value g.references hne
  exact ⟨q3, hinv.owners x g q3 n hg hv⟩

theorem Inv.not_counted {env : Env} {qs : List SvgId} {w : World} (hinv : Inv env qs w)
    {q : SvgId} {p x : Ptr} {g : FrameData} (hold : Holds w q p) (hg : w.fd x = some g)
    (hne : x ≠ p) : QHash.value g.references q = none := by
  cases hv : QHash.value g.references q with
  | none => rfl
  | some n =>
    exact absurd (Holds.unique (hinv.owners x g q n hg hv).2 hold) hne

/-- Every registry entry of a FrameData that `q` holds is the entry that `q` computes. -/
theorem Inv.entry_of_holder {env : Env} {qs : List SvgId} {w : World} (hinv : Inv env qs w)
    {q : SvgId} (hq : q ∈ qs) {p : Ptr} {fd : FrameData} (hold : Holds w q p)
    (hfd : w.fd p = some fd) {t : ThemeId} {k : String} (h : w.sharedFrames t k = some p) :
    t = fd.theme ∧ fd.frameSize.isValid = true
      ∧ k = keyOf env w q fd.enabledBorders fd.frameSize := by
  obtain ⟨g, hg, -, ht, hv, hk⟩ := hinv.registered t k p h
  rw [hfd] at hg
  simp only [Option.some.injEq] at hg
  subst hg
  exact ⟨ht.symm, hv, hk q hq hold⟩

/-- The key of a registry entry tells the borders and the frame size of the FrameData. -/
theorem Inv.entry_head {env : Env} {qs : List SvgId} {w : World} (hinv : Inv env qs w)
    {x : Ptr} {g : FrameData} (hg : w.fd x = some g) {t : ThemeId} {k : String}
    (h : w.sharedFrames t k = some x) (b : Nat) (wd ht : Int) (s d : ℚ) (px path : String)
    (hk : k = cacheKey env b wd ht s d px path) :
    b = g.enabledBorders ∧ wd = g.frameSize.width ∧ ht = g.frameSize.height := by
  obtain ⟨g2, hg2, hne, -, -, hkeys⟩ := hinv.registered t k x h
  rw [hg] at hg2
  simp only [Option.some.injEq] at hg2
  subst hg2
  obtain ⟨q3, hq3, hh3⟩ := hinv.holder_exists hg hne
  have h3 := hkeys q3 hq3 hh3
  rw [hk] at h3
  simp only [keyOf] at h3
  exact cacheKey_head env _ _ _ _ _ _ _ _ _ _ _ _ _ _ h3

/-- Two registry entries of one FrameData have the same key. -/
theorem Inv.entry_unique {env : Env} {qs : List SvgId} {w : World} (hinv : Inv env qs w)
    {x : Ptr} {t t2 : ThemeId} {k k2 : String} (h : w.sharedFrames t k = some x)
    (h2 : w.sharedFrames t2 k2 = some x) : t2 = t ∧ k2 = k := by
  obtain ⟨g, hg, hne, ht, -, hkeys⟩ := hinv.registered t k x h
  obtain ⟨g2, hg2, -, ht2, -, hkeys2⟩ := hinv.registered t2 k2 x h2
  rw [hg] at hg2
  simp only [Option.some.injEq] at hg2
  subst hg2
  obtain ⟨q3, hq3, hh3⟩ := hinv.holder_exists hg hne
  exact ⟨by rw [← ht, ← ht2], by rw [hkeys q3 hq3 hh3, hkeys2 q3 hq3 hh3]⟩

end Plasma
namespace Plasma

theorem QuietFd.deref {a b : FrameData} (q : SvgId) (h : QuietFd (some a) (some b)) :
    (b.deref q).1 = (a.deref q).1
      ∧ QuietFd (some (a.deref q).2) (some (b.deref q).2) := by
  obtain ⟨hr, ht, hb, hs⟩ := h
  obtain ⟨c1, c2⟩ := FrameData.deref_congr a b q hr
  obtain ⟨e1, e2, e3⟩ := FrameData.deref_theme a q
  obtain ⟨g1, g2, g3⟩ := FrameData.deref_theme b q
  refine ⟨c1, c2, by rw [g1, e1, ht], by rw [g2, e2, hb], fun hv => ?_⟩
  rw [g3, e3]
  exact hs (by rw [← e3]; exact hv)

theorem setElementPrefix_inv (env : Env) (qs : List SvgId) (w w2 : World) (q : SvgId)
    (a : String) (hinv : Inv env qs w) (hq : q ∈ qs)
    (h : setElementPrefix env q a w = some w2) : Inv env qs w2 := by
  obtain ⟨p, fd, hold, hfd, hval, hca, hfv, hp0⟩ := hinv.holds hq
  unfold setElementPrefix at h
  dsimp only at h
  generalize hw1 : w.setSvg q { w.svgs q with
    actualPrefix := resolvePrefix env w q a, requestedPrefix := a } = w1 at h
  have h1q : w1.svgs q = { w.svgs q with
      actualPrefix := resolvePrefix env w q a, requestedPrefix := a } := by
    rw [← hw1]; simp
  have h1ne : ∀ q2, q2 ≠ q → w1.svgs q2 = w.svgs q2 := by
    intro q2 h2
    rw [← hw1]
    exact World.setSvg_svgs_ne w q q2 _ h2
  have h1fd : ∀ x, w1.fd x = w.fd x := by
    intro x; rw [← hw1]; simp
  have h1sh : w1.sharedFrames = w.sharedFrames := by rw [← hw1]; simp
  have h1fr : (w1.svgs q).frames = [((w.svgs q).actualPrefix, p)] := by
    rw [h1q]; exact hold
  have h1px : (w1.svgs q).actualPrefix = resolvePrefix env w q a := by rw [h1q]
  have h1fv : w1.framesValue q (w.svgs q).actualPrefix = p := by
    simp [World.framesValue, h1fr, QHash.value]
  simp only [h1fv, h1px, ne_eq, hp0, not_false_eq_true, and_true, if_true] at h
  by_cases hpx : (w.svgs q).actualPrefix = resolvePrefix env w q a
  · -- the prefix stays
    simp only [hpx, if_true, Option.some.injEq] at h
    subst h
    refine Inv.mono env qs w w1 hinv ?_ ?_ ?_
    · intro q2 _
      by_cases h2 : q2 = q
      · subst h2
        rw [h1q]
        exact ⟨rfl, hpx.symm, rfl, rfl, rfl, rfl⟩
      · rw [h1ne q2 h2]
        exact SameKeyData.key_refl _
    · intro t k x hx
      rw [h1sh] at hx
      exact hx
    · intro x
      rw [h1fd]
      exact QuietFd.cell_refl _
  · -- the prefix changes
    have hcont : QHash.contains (w1.svgs q).frames (resolvePrefix env w q a) = false := by
      simp [QHash.contains, h1fr, QHash.value, hpx]
    simp only [hpx, if_false, hcont, Bool.not_false, if_true] at h
    obtain ⟨v4, hcreate, h2⟩ := Option.bind_eq_some.1 h
    have hfd1 : w1.fd p = some fd := by rw [h1fd]; exact hfd
    obtain ⟨p2, f2, hsv4, hoth4, hf24, hcase⟩ :=
      setElementPrefixCreate_summary env q p w1 v4 fd hp0 hfd1 hcreate
    have h4q : v4.svgs q = { w1.svgs q with
        frames := [(resolvePrefix env w q a, p2), ((w.svgs q).actualPrefix, p)] } := by
      rw [hsv4]
      simp [World.framesInsert, h1fr, h1px, QHash.insert, QHash.remove, hpx]
    have h4ne : ∀ q2, q2 ≠ q → v4.svgs q2 = w.svgs q2 := by
      intro q2 hq2
      rw [hsv4, World.framesInsert_svgs_ne _ _ _ _ _ hq2]
      exact h1ne q2 hq2
    have h4ca : (v4.svgs q).cacheAll = false := by
      rw [h4q, h1q]; exact hca
    simp only [h4ca, Bool.not_false, if_true] at h2
    obtain ⟨v5, hrel, h3⟩ := Option.bind_eq_some.1 h2
    simp only [Option.some.injEq] at h3
    -- the new FrameData is another object
    have hpp : p2 ≠ p := by
      rcases hcase with ⟨nf, -, hreg, -, -, -⟩ | ⟨hnone, -, -⟩
      · intro he
        subst he
        rw [h1sh] at hreg
        obtain ⟨-, -, hk⟩ := hinv.entry_of_holder hq hold hfd hreg
        simp only [keyOf, h1q] at hk
        exact hpx ((cacheKey_components env 0 0 0 0 0 0 0 0 0 0 _ _ "" "").2.2.2.1.1
          (by
            have := (cacheKey_components env fd.enabledBorders 0 fd.frameSize.width 0
              fd.frameSize.height 0 (w.svgs q).scaleFactor 0 (w.svgs q).devicePixelRatio 0
              (resolvePrefix env w q a) (w.svgs q).actualPrefix (w.svgs q).imagePath
              "").2.2.2.1.1 hk
            rw [this])).symm
      · intro he
        subst he
        rw [hfd1] at hnone
        simp at hnone
    obtain ⟨f4, hf4, hqf4⟩ : ∃ f4, v4.fd p = some f4 ∧ QuietFd (some fd) (some f4) := by
      have := hoth4 p (fun he => hpp he.symm)
      rw [hfd1] at this
      obtain ⟨b, hb, hr⟩ := this.of_some
      exact ⟨b, hb, hr⟩
    have hf4r : (v4.framesRemove q (w.svgs q).actualPrefix).fd p = some f4 := by
      simp [World.framesRemove, hf4]
    obtain ⟨hsv5, hoth5, hcase5⟩ :=
      setElementPrefix_release env q p (w.svgs q).actualPrefix _ v5 f4 hf4r hrel
    have h5fr_fd : ∀ x, (v4.framesRemove q (w.svgs q).actualPrefix).fd x = v4.fd x := by
      intro x; simp [World.framesRemove]
    have h5sh : (v4.framesRemove q (w.svgs q).actualPrefix).sharedFrames = v4.sharedFrames :=
      rfl
    have h5q : v5.svgs q = { w1.svgs q with frames := [(resolvePrefix env w q a, p2)] } := by
      rw [hsv5]
      have hpx2 : ¬ resolvePrefix env w q a = (w.svgs q).actualPrefix := fun hc => hpx hc.symm
      simp [World.framesRemove, h4q, QHash.remove, List.filter, hpx2]
    have h5ne : ∀ q2, q2 ≠ q → v5.svgs q2 = w.svgs q2 := by
      intro q2 hq2
      rw [hsv5]
      simp only [World.framesRemove]
      rw [World.setSvg_svgs_ne _ _ _ _ hq2]
      exact h4ne q2 hq2
    -- the final state
    have h2q : w2.svgs q = { w1.svgs q with
        frames := [(resolvePrefix env w q a, p2)], location := Location.Floating } := by
      rw [← h3]
      simp [h5q]
    have h2ne : ∀ q2, q2 ≠ q → w2.svgs q2 = w.svgs q2 := by
      intro q2 hq2
      rw [← h3, World.setSvg_svgs_ne _ _ _ _ hq2]
      exact h5ne q2 hq2
    have h2fd : ∀ x, w2.fd x = v5.fd x := by
      intro x; rw [← h3]; simp
    have h2sh : w2.sharedFrames = v5.sharedFrames := by rw [← h3]; simp
    have h2key : ∀ b s, keyOf env w2 q b s = keyOf env w1 q b s := by
      intro b s
      simp only [keyOf, h2q]
    have h5sub : ∀ t k x, v5.sharedFrames t k = some x → v4.sharedFrames t k = some x := by
      intro t k x hx
      rcases hcase5 with ⟨-, -, hs⟩ | ⟨-, -, k0, -, hs⟩
      · rw [hs] at hx
        exact hx
      · rw [hs, World.sharedRemove_apply] at hx
        split at hx
        · simp at hx
        · exact hx
    have h4sub : ∀ t k x, v4.sharedFrames t k = some x → x ≠ p2 →
        w.sharedFrames t k = some x := by
      intro t k x hx hne
      rcases hcase with ⟨nf, -, -, -, -, hs⟩ | ⟨-, -, hs | ⟨-, -, hs⟩⟩
      · rw [hs, h1sh] at hx
        exact hx
      · rw [hs, h1sh] at hx
        exact hx
      · rw [hs, World.sharedInsert_apply] at hx
        split at hx
        · simp only [Option.some.injEq] at hx
          exact absurd hx.symm hne
        · rw [h1sh] at hx
          exact hx
    obtain ⟨f5, hf5, hqf5⟩ : ∃ f5, v5.fd p2 = some f5 ∧ QuietFd (some f2) (some f5) := by
      have := hoth5 p2 hpp
      rw [h5fr_fd, hf24] at this
      obtain ⟨b, hb, hr⟩ := this.of_some
      exact ⟨b, hb, hr⟩
    refine Inv.step env qs w w2 q p p2 fd hinv hq hold hfd ?_ ?_ ?_ ?_ ?_ ?_ ?_ ?_
    · intro q2 _ hq2
      rw [h2ne q2 hq2]
      exact SameKeyData.key_refl _
    · simp only [Holds, h2q, h1px]
    · rw [h2q, h1q]
      exact hca
    · intro x hxp hxp2
      rw [h2fd]
      have e1 := hoth4 x hxp2
      rw [h1fd] at e1
      have e2 := hoth5 x hxp
      rw [h5fr_fd] at e2
      exact e1.cell_trans e2
    · intro t k x hx hxp2
      rw [h2sh] at hx
      exact h4sub t k x (h5sub t k x hx) hxp2
    · intro _
      rcases hcase5 with ⟨hl, hp5, -⟩ | ⟨hl, hp5, k0, hk0, hs⟩
      · refine Or.inr ⟨by rw [← (QuietFd.deref q hqf4).1]; exact hl, ?_⟩
        rw [h2fd, hp5]
        exact (QuietFd.deref q hqf4).2
      · refine Or.inl ⟨by rw [← (QuietFd.deref q hqf4).1]; exact hl, by rw [h2fd]; exact hp5,
          ?_⟩
        intro t k hx
        rw [h2sh, hs, World.sharedRemove_apply] at hx
        split at hx
        · simp at hx
        · rename_i hnot
          have hw := h4sub t k p hx (fun he => hpp he.symm)
          obtain ⟨ht, hv, hk⟩ := hinv.entry_of_holder hq hold hfd hw
          obtain ⟨-, ht4, hb4, hs4⟩ := hqf4
          apply hnot
          refine ⟨by rw [ht, ht4], ?_⟩
          rw [hk, hk0 (by rw [hs4 hv]; exact hv), hb4, hs4 hv]
          simp only [keyOf]
          have e : (v4.framesRemove q (w.svgs q).actualPrefix).svgs q
              = { v4.svgs q with
                  frames := QHash.remove (v4.svgs q).frames (w.svgs q).actualPrefix } := by
            simp [World.framesRemove]
          rw [e, h4q, h1q]
    · have hr5 := hqf5.1
      rcases hcase with ⟨nf, -, -, hnf, hqn, -⟩ | ⟨hnone, hrefs, -⟩
      · have hnfw : w.fd p2 = some nf := by rw [← h1fd]; exact hnf
        have hr2 := hqn.1
        refine ⟨f5, by rw [h2fd]; exact hf5, ?_, ?_, ?_⟩
        · rw [hr5, hr2]
          exact FrameData.nodup_ref nf q (hinv.nodup p2 nf hnfw)
        · rw [hr5, hr2, FrameData.value_ref_self,
            FrameData.count_of_none nf q (hinv.not_counted hold hnfw hpp)]
          rfl
        · intro q2 hq2
          rw [hr5, hr2, FrameData.value_ref_ne nf q q2 hq2, World.refsAt_some w p2 nf hnfw]
      · have hnw : w.fd p2 = none := by rw [← h1fd]; exact hnone
        refine ⟨f5, by rw [h2fd]; exact hf5, ?_, ?_, ?_⟩
        · rw [hr5, hrefs]
          simp
        · rw [hr5, hrefs]
          simp [QHash.value]
        · intro q2 hq2
          have hq2' : ¬ q = q2 := fun h => hq2 h.symm
          rw [hr5, hrefs, World.refsAt_none w p2 hnw]
          simp [QHash.value, hq2']
    · intro t k hx
      rw [h2sh] at hx
      have hx4 := h5sub t k p2 hx
      obtain ⟨-, ht5, hb5, hs5⟩ := hqf5
      refine ⟨f5, by rw [h2fd]; exact hf5, ?_⟩
      rcases hcase with ⟨nf, -, hreg, hnf, hqn, hs⟩ | ⟨hnone, hrefs, hs | ⟨hv2, ht2, hs⟩⟩
      · have hnfw : w.fd p2 = some nf := by rw [← h1fd]; exact hnf
        rw [hs, h1sh] at hx4
        rw [h1sh] at hreg
        obtain ⟨g, hg, hne, hth, hvalid, hkeys⟩ := hinv.registered t k p2 hx4
        rw [hnfw] at hg
        simp only [Option.some.injEq] at hg
        subst hg
        obtain ⟨-, htn, hbn, hsn⟩ := hqn
        obtain ⟨-, -, e3⟩ := FrameData.ref_theme nf q
        have hs2 : f2.frameSize = nf.frameSize := by
          rw [hsn (by rw [e3]; exact hvalid), e3]
        have hs5' : f5.frameSize = nf.frameSize := by
          rw [hs5 (by rw [hs2]; exact hvalid), hs2]
        have hb5' : f5.enabledBorders = nf.enabledBorders := by
          rw [hb5, hbn]; rfl
        refine ⟨by rw [ht5, htn]; exact hth, by rw [hs5']; exact hvalid, ?_⟩
        intro q2 hq2 hh
        rw [hb5', hs5']
        by_cases hqq : q2 = q
        · subst hqq
          obtain ⟨-, hkk⟩ := hinv.entry_unique hreg hx4
          obtain ⟨z1, z2, z3⟩ := hinv.entry_head hnfw hreg _ _ _ _ _ _ _ rfl
          rw [h2key, hkk]
          simp only [keyOf, z1, z2, z3]
        · have hh' : Holds w q2 p2 := by
            simp only [Holds, h2ne q2 hqq] at hh
            exact hh
          rw [hkeys q2 hq2 hh']
          simp only [keyOf, h2ne q2 hqq]
      · rw [hs, h1sh] at hx4
        exact absurd hx4 (hinv.not_registered (by rw [← h1fd]; exact hnone) t k)
      · rw [hs, World.sharedInsert_apply] at hx4
        split at hx4
        · rename_i hc
          have hs5' : f5.frameSize = f2.frameSize := hs5 hv2
          refine ⟨by rw [ht5, ht2, hc.1], by rw [hs5']; exact hv2, ?_⟩
          intro q2 hq2 hh
          rw [hb5, hs5']
          by_cases hqq : q2 = q
          · subst hqq
            rw [h2key, hc.2]
          · exfalso
            have hh' : Holds w q2 p2 := by
              simp only [Holds, h2ne q2 hqq] at hh
              exact hh
            obtain ⟨-, x, fx, hx1, hx2, -⟩ := hinv.single q2 hq2
            have := Holds.unique hx1 hh'
            subst this
            rw [← h1fd, hnone] at hx2
            simp at hx2
        · rw [h1sh] at hx4
          exact absurd hx4 (hinv.not_registered (by rw [← h1fd]; exact hnone) t k)

end Plasma
namespace Plasma

/-! ## The slot `updateNeeded` -/

theorem updateNeeded_inv (env : Env) (qs : List SvgId) (w w2 : World) (q : SvgId)
    (hinv : Inv env qs w) (hq : q ∈ qs) (h : updateNeeded env q w = some w2) :
    Inv env qs w2 := by
  unfold updateNeeded at h
  obtain ⟨v1, h1, h⟩ := Option.bind_eq_some.1 h
  obtain ⟨v2, h2, h⟩ := Option.bind_eq_some.1 h
  have i1 := setElementPrefix_inv env qs w v1 q _ hinv hq h1
  have i2 := clearCache_inv env qs v1 v2 q i1 hq h2
  exact updateSizes_inv env qs v2 w2 q i2 h

theorem updateAndSignalSizes_inv (env : Env) (qs : List SvgId) (w w2 : World) (q : SvgId)
    (hinv : Inv env qs w) (hq : q ∈ qs) (h : updateAndSignalSizes env q w = some w2) :
    Inv env qs w2 := by
  unfold updateAndSignalSizes emitRepaintNeeded at h
  obtain ⟨v1, h1, h⟩ := Option.bind_eq_some.1 h
  exact updateNeeded_inv env qs v1 w2 q (updateSizes_inv env qs w v1 q hinv h1) hq h

theorem setElementPrefixLocation_inv (env : Env) (qs : List SvgId) (w w2 : World) (q : SvgId)
    (l : Location) (hinv : Inv env qs w) (hq : q ∈ qs)
    (h : setElementPrefixLocation env q l w = some w2) : Inv env qs w2 := by
  unfold setElementPrefixLocation at h
  obtain ⟨v1, h1, h⟩ := Option.bind_eq_some.1 h
  have i1 : Inv env qs v1 := by
    cases l <;> exact setElementPrefix_inv env qs w v1 q _ hinv hq h1
  simp only [Option.some.injEq] at h
  rw [← h]
  refine Inv.mono env qs v1 _ i1 ?_ ?_ ?_
  · intro q2 _
    by_cases h2 : q2 = q
    · subst h2
      simp only [World.setSvg_svgs_self]
      exact ⟨rfl, rfl, rfl, rfl, rfl, rfl⟩
    · rw [World.setSvg_svgs_ne _ _ _ _ h2]
      exact SameKeyData.key_refl _
  · intro t k x hx
    simpa using hx
  · intro x
    rw [World.setSvg_fd]
    exact QuietFd.cell_refl _

end Plasma
namespace Plasma

/-! ## Steps of the consumer that holds the FrameData -/

/-- Writing any fields but the reference set of an unregistered FrameData. -/
theorem Inv.update (env : Env) (qs : List SvgId) (w : World) (q : SvgId) (p : Ptr)
    (fd f2 : FrameData) (hinv : Inv env qs w) (hq : q ∈ qs) (hold : Holds w q p)
    (hfd : w.fd p = some fd) (hun : ∀ t k, w.sharedFrames t k ≠ some p)
    (hr : f2.references = fd.references) : Inv env qs (w.setFd p f2) := by
  refine Inv.step env qs w _ q p p fd hinv hq hold hfd ?_ ?_ ?_ ?_ ?_ ?_ ?_ ?_
  · intro q2 _ _
    simp only [World.setFd_svgs]
    exact SameKeyData.key_refl _
  · simpa [Holds] using hold
  · simpa using (hinv.single q hq).1
  · intro x hx _
    rw [World.fd_setFd_ne w p x f2 hx]
    exact QuietFd.cell_refl _
  · intro t k x hx _
    simpa using hx
  · intro h
    exact absurd rfl h
  · refine ⟨f2, World.fd_setFd_self w p fd f2 hfd, ?_, ?_, ?_⟩
    · rw [hr]
      exact hinv.nodup p fd hfd
    · rw [hr]
      exact hinv.value_holder hq hold hfd
    · intro q2 _
      rw [hr, World.refsAt_some w p fd hfd]
  · intro t k hx
    simp only [World.setFd_sharedFrames] at hx
    exact absurd hx (hun t k)

/-- Registering the FrameData that a consumer holds alone, under the key of that
consumer. -/
theorem Inv.insert (env : Env) (qs : List SvgId) (w : World) (q : SvgId) (p : Ptr)
    (fd : FrameData) (t : ThemeId) (k : String) (hinv : Inv env qs w) (hq : q ∈ qs)
    (hold : Holds w q p) (hfd : w.fd p = some fd) (hsole : fd.references = [(q, 1)])
    (hv : fd.frameSize.isValid = true) (ht : fd.theme = t)
    (hk : k = keyOf env w q fd.enabledBorders fd.frameSize) :
    Inv env qs (w.sharedInsert t k p) := by
  refine Inv.step env qs w _ q p p fd hinv hq hold hfd ?_ ?_ ?_ ?_ ?_ ?_ ?_ ?_
  · intro q2 _ _
    simp only [World.sharedInsert_svgs]
    exact SameKeyData.key_refl _
  · simpa [Holds] using hold
  · simpa using (hinv.single q hq).1
  · intro x _ _
    rw [World.sharedInsert_fd]
    exact QuietFd.cell_refl _
  · intro t2 k2 x hx hxp
    rw [World.sharedInsert_apply] at hx
    split at hx
    · simp only [Option.some.injEq] at hx
      exact absurd hx.symm hxp
    · exact hx
  · intro h
    exact absurd rfl h
  · refine ⟨fd, by rw [World.sharedInsert_fd]; exact hfd, hinv.nodup p fd hfd,
      hinv.value_holder hq hold hfd, ?_⟩
    intro q2 _
    rw [World.refsAt_some w p fd hfd]
  · intro t2 k2 hx
    refine ⟨fd, by rw [World.sharedInsert_fd]; exact hfd, ?_⟩
    have hholder : ∀ q2, q2 ∈ qs → Holds (w.sharedInsert t k p) q2 p → q2 = q := by
      intro q2 hq2 hh
      have hh' : Holds w q2 p := by simpa [Holds] using hh
      have := hinv.value_holder hq2 hh' hfd
      rw [hsole] at this
      by_contra hne
      have hne2 : ¬ q = q2 := fun h => hne h.symm
      simp [QHash.value, hne2] at this
    rw [World.sharedInsert_apply] at hx
    split at hx
    · rename_i hc
      refine ⟨by rw [ht, hc.1], hv, ?_⟩
      intro q2 hq2 hh
      have := hholder q2 hq2 hh
      subst this
      rw [hc.2, hk]
      simp [keyOf]
    · obtain ⟨ht2, hv2, hk2⟩ := hinv.entry_of_holder hq hold hfd hx
      refine ⟨ht2.symm, hv2, ?_⟩
      intro q2 hq2 hh
      have := hholder q2 hq2 hh
      subst this
      rw [hk2]
      simp [keyOf]

/-- Changing image path and `Svg` size of a consumer whose FrameData is unregistered. -/
theorem Inv.setPath (env : Env) (qs : List SvgId) (w : World) (q : SvgId) (p : Ptr)
    (fd : FrameData) (path : String) (size : QSize) (hinv : Inv env qs w) (hq : q ∈ qs)
    (hold : Holds w q p) (hfd : w.fd p = some fd)
    (hun : ∀ t k, w.sharedFrames t k ≠ some p) :
    Inv env qs (w.setSvg q { w.svgs q with imagePath := path, size := size }) := by
  refine Inv.step env qs w _ q p p fd hinv hq hold hfd ?_ ?_ ?_ ?_ ?_ ?_ ?_ ?_
  · intro q2 _ h2
    rw [World.setSvg_svgs_ne _ _ _ _ h2]
    exact SameKeyData.key_refl _
  · simpa [Holds] using hold
  · simpa using (hinv.single q hq).1
  · intro x _ _
    rw [World.setSvg_fd]
    exact QuietFd.cell_refl _
  · intro t k x hx _
    simpa using hx
  · intro h
    exact absurd rfl h
  · refine ⟨fd, by rw [World.setSvg_fd]; exact hfd, hinv.nodup p fd hfd,
      hinv.value_holder hq hold hfd, ?_⟩
    intro q2 _
    rw [World.refsAt_some w p fd hfd]
  · intro t k hx
    simp only [World.setSvg_sharedFrames] at hx
    exact absurd hx (hun t k)

/-- After the entry under the key of its holder is removed, a FrameData has no entry. -/
theorem Inv.unregistered_after_remove {env : Env} {qs : List SvgId} {w : World}
    (hinv : Inv env qs w) {q : SvgId} (hq : q ∈ qs) {p : Ptr} {fd : FrameData}
    (hold : Holds w q p) (hfd : w.fd p = some fd) (k : String)
    (hk : fd.frameSize.isValid = true → k = keyOf env w q fd.enabledBorders fd.frameSize)
    (t2 : ThemeId) (k2 : String) :
    (w.sharedRemove fd.theme k).sharedFrames t2 k2 ≠ some p := by
  intro hx
  rw [World.sharedRemove_apply] at hx
  split at hx
  · simp at hx
  · rename_i hnot
    obtain ⟨ht, hv, hk2⟩ := hinv.entry_of_holder hq hold hfd hx
    exact hnot ⟨ht, by rw [hk2, hk hv]⟩

end Plasma
namespace Plasma

/-! ## The keys of `setEnabledBorders` and `resizeFrame` -/

/-- Computing the two keys of `setEnabledBorders` is a quiet step; both keys are built
from the frame size that the FrameData has afterwards. -/
theorem setEnabledBordersKeys_spec (env : Env) (q : SvgId) (p : Ptr) (borders : Nat)
    (w w1 : World) (k1 k2 : String)
    (h : setEnabledBordersKeys env q p borders w = some ((k1, k2), w1)) :
    Quiet w w1 ∧ ∃ f1, w1.fd p = some f1
      ∧ k1 = keyOf env w q f1.enabledBorders f1.frameSize
      ∧ k2 = keyOf env w q borders f1.frameSize := by
  unfold setEnabledBordersKeys at h
  obtain ⟨ka, ha, h⟩ := Option.bind_eq_some.1 h
  obtain ⟨fa, hfa, h⟩ := Option.bind_eq_some.1 h
  obtain ⟨kb, hb, h⟩ := Option.bind_eq_some.1 h
  obtain ⟨fb, hfb, h⟩ := Option.bind_eq_some.1 h
  simp only [Option.some.injEq, Prod.mk.injEq] at h
  obtain ⟨⟨hk1, hk2⟩, hw1⟩ := h
  obtain ⟨hqa, f, fa', hf, hfa', hsa, hkeya⟩ := cacheId_spec env q p _ w ka.2 ka.1 ha
  rw [hfa] at hfa'
  simp only [Option.some.injEq] at hfa'
  subst hfa'
  have hset : (ka.2.setFd p { fa with enabledBorders := borders }).fd p
      = some { fa with enabledBorders := borders } := World.fd_setFd_self _ p fa _ hfa
  obtain ⟨hqb, g, fb', hg, hfb', hsb, hkeyb⟩ := cacheId_spec env q p _ _ kb.2 kb.1 hb
  rw [hset] at hg
  simp only [Option.some.injEq] at hg
  subst hg
  rw [hfb] at hfb'
  simp only [Option.some.injEq] at hfb'
  subst hfb'
  have hqfb := hqb.2.2 p
  rw [hset, hfb] at hqfb
  obtain ⟨rb, tb, bb, sb⟩ := hqfb
  simp only [World.setFd_svgs] at hsb hkeyb
  have hsva : ka.2.svgs = w.svgs := hqa.1
  -- the frame size is the same in both keys
  have hsz : fb.frameSize = fa.frameSize := by
    rw [hsb]
    by_cases hv : fa.frameSize.isValid = true
    · simp [hv]
    · simp only [hv, Bool.false_eq_true, if_false]
      rw [hsa]
      by_cases hv0 : f.frameSize.isValid = true
      · rw [hsa] at hv
        simp [hv0] at hv
      · simp [hv0, hsva]
  have hfin : w1.fd p = some { fb with enabledBorders := fa.enabledBorders } := by
    rw [← hw1]
    exact World.fd_setFd_self _ p fb _ hfb
  refine ⟨?_, _, hfin, ?_, ?_⟩
  · refine ⟨by rw [← hw1]; simp [hqb.1, hsva], by rw [← hw1]; simp [hqb.2.1, hqa.2.1],
      fun x => ?_⟩
    by_cases hx : x = p
    · subst hx
      rw [hfin, hf]
      have hqfa := hqa.2.2 x
      rw [hf, hfa] at hqfa
      obtain ⟨ra, ta, ba, sa⟩ := hqfa
      refine ⟨by rw [← ra]; exact rb, by rw [← ta]; exact tb, ba, fun hv => ?_⟩
      show fb.frameSize = f.frameSize
      rw [hsz]
      exact sa hv
    · rw [← hw1, World.fd_setFd_ne _ p x _ hx]
      have e1 := hqa.2.2 x
      have e2 := hqb.2.2 x
      rw [World.fd_setFd_ne _ p x _ hx] at e2
      exact e1.cell_trans e2
  · rw [← hk1, hkeya]
    simp only [keyOf, hsz]
  · rw [← hk2, hkeyb, bb]
    simp only [keyOf, hsz, hsva]

/-- Computing the two keys of `resizeFrame` is a quiet step; the old key is built from
the frame size that the FrameData has afterwards. -/
theorem resizeFrameKeys_spec (env : Env) (q : SvgId) (p : Ptr) (size : QSizeF)
    (w w1 : World) (k1 k2 : String) (hs : size.isEmpty = false)
    (h : resizeFrameKeys env q p size w = some ((k1, k2), w1)) :
    Quiet w w1 ∧ ∃ f1, w1.fd p = some f1
      ∧ k1 = keyOf env w q f1.enabledBorders f1.frameSize
      ∧ k2 = keyOf env w q f1.enabledBorders size.toSize := by
  unfold resizeFrameKeys at h
  obtain ⟨ka, ha, h⟩ := Option.bind_eq_some.1 h
  obtain ⟨fa, hfa, h⟩ := Option.bind_eq_some.1 h
  obtain ⟨kb, hb, h⟩ := Option.bind_eq_some.1 h
  obtain ⟨fb, hfb, h⟩ := Option.bind_eq_some.1 h
  simp only [Option.some.injEq, Prod.mk.injEq] at h
  obtain ⟨⟨hk1, hk2⟩, hw1⟩ := h
  obtain ⟨hqa, f, fa', hf, hfa', hsa, hkeya⟩ := cacheId_spec env q p _ w ka.2 ka.1 ha
  rw [hfa] at hfa'
  simp only [Option.some.injEq] at hfa'
  subst hfa'
  have hset : (ka.2.setFd p { fa with frameSize := size.toSize }).fd p
      = some { fa with frameSize := size.toSize } := World.fd_setFd_self _ p fa _ hfa
  have hvs : size.toSize.isValid = true := QSizeF.toSize_isValid size hs
  rw [cacheId_valid env q p _ _ _ hset hvs] at hb
  simp only [Option.some.injEq] at hb
  rw [← hb] at hfb hw1 hk2
  simp only at hfb hw1 hk2
  rw [hset] at hfb
  simp only [Option.some.injEq] at hfb
  have hsva : ka.2.svgs = w.svgs := hqa.1
  have hfin : w1.fd p = some fa := by
    rw [← hw1, World.setFd_setFd]
    have := World.fd_setFd_self _ p fa { fb with frameSize := fa.frameSize } hfa
    rw [this, ← hfb]
  refine ⟨?_, fa, hfin, ?_, ?_⟩
  · refine ⟨by rw [← hw1]; simp [hsva], by rw [← hw1]; simp [hqa.2.1], fun x => ?_⟩
    by_cases hx : x = p
    · subst hx
      rw [hfin, ← hfa]
      exact hqa.2.2 x
    · rw [← hw1, World.fd_setFd_ne _ p x _ hx, World.fd_setFd_ne _ p x _ hx]
      exact hqa.2.2 x
  · rw [← hk1, hkeya]
    simp only [keyOf]
  · rw [← hk2]
    simp only [keyOf, World.setFd_svgs, hsva]

end Plasma
namespace Plasma

/-! ## Adopting a registered FrameData, detaching from a shared one -/

theorem keyOf_frames (env : Env) (w w2 : World) (q : SvgId) (b : Nat) (s : QSize)
    (h1 : (w2.svgs q).actualPrefix = (w.svgs q).actualPrefix)
    (h2 : (w2.svgs q).imagePath = (w.svgs q).imagePath)
    (h3 : (w2.svgs q).scaleFactor = (w.svgs q).scaleFactor)
    (h4 : (w2.svgs q).devicePixelRatio = (w.svgs q).devicePixelRatio) :
    keyOf env w2 q b s = keyOf env w q b s := by
  simp only [keyOf, h1, h2, h3, h4]

theorem adoptShared_inv (env : Env) (qs : List SvgId) (w w2 : World) (q : SvgId)
    (p newFd : Ptr) (fd : FrameData) (k1 k2 : String) (t : ThemeId) (b : Nat) (s : QSize)
    (hinv : Inv env qs w) (hq : q ∈ qs) (hold : Holds w q p) (hfd : w.fd p = some fd)
    (hk1 : fd.frameSize.isValid = true → k1 = keyOf env w q fd.enabledBorders fd.frameSize)
    (hreg : w.sharedFrames t k2 = some newFd) (hk2 : k2 = keyOf env w q b s)
    (h : adoptShared q p newFd k1 w = some w2) : Inv env qs w2 := by
  obtain ⟨nf, hnf, hnne, hnt, hnv, hnkeys⟩ := hinv.registered t k2 newFd hreg
  have hvq := hinv.value_holder hq hold hfd
  have hcaq := (hinv.single q hq).1
  unfold adoptShared at h
  rw [World.ref_eq w newFd q nf hnf] at h
  simp only [Option.some_bind, World.setFd_svgs] at h
  have hfr : ∀ v : World, v.svgs = w.svgs →
      ((v.framesInsert q (w.svgs q).actualPrefix newFd).svgs q)
        = { w.svgs q with frames := [((w.svgs q).actualPrefix, newFd)] } := by
    intro v hv
    simp only [World.framesInsert, World.setSvg_svgs_self, hv]
    have : (w.svgs q).frames = [((w.svgs q).actualPrefix, p)] := hold
    simp [this, QHash.insert, QHash.remove]
  have hfrne : ∀ (v : World) q2, v.svgs = w.svgs → q2 ≠ q →
      ((v.framesInsert q (w.svgs q).actualPrefix newFd).svgs q2) = w.svgs q2 := by
    intro v q2 hv h2
    rw [World.framesInsert_svgs_ne _ _ _ _ _ h2, hv]
  obtain ⟨z1, z2, z3⟩ := hinv.entry_head hnf hreg _ _ _ _ _ _ _ (by rw [hk2]; rfl)
  have hkq : k2 = keyOf env w q nf.enabledBorders nf.frameSize := by
    rw [hk2]
    simp only [keyOf, z1, z2, z3]
  by_cases hpp : newFd = p
  · -- the registry gave the FrameData that the consumer holds already
    subst hpp
    rw [hfd] at hnf
    simp only [Option.some.injEq] at hnf
    subst hnf
    have hw2p : ((w.setFd newFd (fd.ref q)).framesInsert q (w.svgs q).actualPrefix newFd).fd
        newFd = some (fd.ref q) := by
      rw [World.framesInsert_fd]
      exact World.fd_setFd_self w newFd fd _ hfd
    rw [World.deref_eq _ newFd q (fd.ref q) hw2p] at h
    simp only [Option.some_bind] at h
    have hcnt : (fd.ref q).count q = 2 := by
      rw [FrameData.count_of_value _ q _ (FrameData.value_ref_self fd q),
        FrameData.count_of_value fd q 1 hvq]
      rfl
    have hfacts := FrameData.deref_facts (fd.ref q) q
    rw [hcnt] at hfacts
    have hvq2 : QHash.value ((fd.ref q).deref q).2.references q = some 1 := by
      rw [hfacts.1]
      simp
    have hnl : ((fd.ref q).deref q).1 = false := by
      cases hb : ((fd.ref q).deref q).1 with
      | false => rfl
      | true =>
        have := hfacts.2.2.1 hb
        rw [this] at hvq2
        simp [QHash.value] at hvq2
    simp only [hnl, Bool.false_eq_true, if_false, Option.some.injEq] at h
    subst h
    refine Inv.step env qs w _ q newFd newFd fd hinv hq hold hfd ?_ ?_ ?_ ?_ ?_ ?_ ?_ ?_
    · intro q2 _ h2
      simp only [World.setFd_svgs]
      rw [hfrne _ q2 (by simp) h2]
      exact SameKeyData.key_refl _
    · simp only [Holds, World.setFd_svgs]
      rw [hfr _ (by simp)]
    · simp only [World.setFd_svgs]
      rw [hfr _ (by simp)]
      exact hcaq
    · intro x hx _
      rw [World.fd_setFd_ne _ _ x _ hx, World.framesInsert_fd, World.fd_setFd_ne _ _ x _ hx]
      exact QuietFd.cell_refl _
    · intro t2 k3 x hx _
      simpa using hx
    · intro hne
      exact absurd rfl hne
    · refine ⟨_, World.fd_setFd_self _ newFd _ _ hw2p, ?_, hvq2, ?_⟩
      · exact FrameData.nodup_deref _ q (FrameData.nodup_ref fd q (hinv.nodup _ fd hfd))
      · intro q2 h2
        rw [FrameData.value_deref_ne _ q q2 h2, FrameData.value_ref_ne fd q q2 h2,
          World.refsAt_some w newFd fd hfd]
    · intro t2 k3 hx
      simp only [World.setFd_sharedFrames, World.framesInsert_sharedFrames] at hx
      obtain ⟨g, hg, -, hgt, hgv, hgk⟩ := hinv.registered t2 k3 newFd hx
      rw [hfd] at hg
      simp only [Option.some.injEq] at hg
      subst hg
      obtain ⟨e1, e2, e3⟩ := FrameData.deref_theme (fd.ref q) q
      obtain ⟨r1, r2, r3⟩ := FrameData.ref_theme fd q
      refine ⟨_, World.fd_setFd_self _ newFd _ _ hw2p, by rw [e1, r1]; exact hgt,
        by rw [e3, r3]; exact hgv, ?_⟩
      intro q2 hq2 hh
      rw [e2, r2, e3, r3]
      by_cases h2 : q2 = q
      · subst h2
        rw [hgk q2 hq2 hold]
        refine (keyOf_frames env w _ q2 _ _ ?_ ?_ ?_ ?_).symm <;>
          simp only [World.setFd_svgs] <;> rw [hfr _ (by simp)]
      · have hh' : Holds w q2 newFd := by
          simp only [Holds, World.setFd_svgs] at hh
          rw [hfrne _ q2 (by simp) h2] at hh
          exact hh
        rw [hgk q2 hq2 hh']
        simp only [keyOf, World.setFd_svgs]
        rw [hfrne _ q2 (by simp) h2]
  · -- another FrameData
    have hw2p : ((w.setFd newFd (nf.ref q)).framesInsert q (w.svgs q).actualPrefix newFd).fd p
        = some fd := by
      rw [World.framesInsert_fd, World.fd_setFd_ne w newFd p _ (fun he => hpp he.symm)]
      exact hfd
    rw [World.deref_eq _ p q fd hw2p] at h
    simp only [Option.some_bind] at h
    have hw3p : (((w.setFd newFd (nf.ref q)).framesInsert q (w.svgs q).actualPrefix
        newFd).setFd p (fd.deref q).2).fd p = some (fd.deref q).2 :=
      World.fd_setFd_self _ p fd _ hw2p
    have hw3n : (((w.setFd newFd (nf.ref q)).framesInsert q (w.svgs q).actualPrefix
        newFd).setFd p (fd.deref q).2).fd newFd = some (nf.ref q) := by
      rw [World.fd_setFd_ne _ p newFd _ hpp, World.framesInsert_fd]
      exact World.fd_setFd_self w newFd nf _ hnf
    have hw3o : ∀ x, x ≠ p → x ≠ newFd →
        (((w.setFd newFd (nf.ref q)).framesInsert q (w.svgs q).actualPrefix
          newFd).setFd p (fd.deref q).2).fd x = w.fd x := by
      intro x h1 h2
      rw [World.fd_setFd_ne _ p x _ h1, World.framesInsert_fd, World.fd_setFd_ne _ _ x _ h2]
    -- the summary of the final state, whichever branch was taken
    have hsum : w2.svgs q = { w.svgs q with frames := [((w.svgs q).actualPrefix, newFd)] }
        ∧ (∀ q2, q2 ≠ q → w2.svgs q2 = w.svgs q2)
        ∧ (∀ x, x ≠ p → x ≠ newFd → w2.fd x = w.fd x)
        ∧ w2.fd newFd = some (nf.ref q)
        ∧ (∀ t2 k3 x, w2.sharedFrames t2 k3 = some x → w.sharedFrames t2 k3 = some x)
        ∧ (((fd.deref q).1 = true ∧ w2.fd p = none ∧ ∀ t2 k3, w2.sharedFrames t2 k3 ≠ some p)
          ∨ ((fd.deref q).1 = false ∧ w2.fd p = some (fd.deref q).2)) := by
      cases hb : (fd.deref q).1 with
      | false =>
        simp only [hb, Bool.false_eq_true, if_false, Option.some.injEq] at h
        subst h
        refine ⟨?_, ?_, hw3o, hw3n, ?_, Or.inr ⟨rfl, hw3p⟩⟩
        · simp only [World.setFd_svgs]
          exact hfr _ (by simp)
        · intro q2 h2
          simp only [World.setFd_svgs]
          exact hfrne _ q2 (by simp) h2
        · intro t2 k3 x hx
          simpa using hx
      | true =>
        simp only [hb, if_true, hw3p, Option.some_bind] at h
        have hnil : (fd.deref q).2.references = [] := (FrameData.deref_last_iff fd q).1 hb
        have hsr : ((((w.setFd newFd (nf.ref q)).framesInsert q (w.svgs q).actualPrefix
            newFd).setFd p (fd.deref q).2).sharedRemove (fd.deref q).2.theme k1).fd p
            = some (fd.deref q).2 := by
          rw [World.sharedRemove_fd]
          exact hw3p
        obtain ⟨w8, hw8, hs8, hsh8, hp8, ho8⟩ := World.delete_spec _ p _ hsr hnil
        rw [hw8] at h
        simp only [Option.some.injEq] at h
        subst h
        obtain ⟨e1, -, -⟩ := FrameData.deref_theme fd q
        have hsh : ∀ t2 k3, w8.sharedFrames t2 k3
            = (w.sharedRemove fd.theme k1).sharedFrames t2 k3 := by
          intro t2 k3
          rw [hsh8, e1]
          simp [World.sharedRemove_apply]
        refine ⟨?_, ?_, ?_, ?_, ?_, Or.inl ⟨rfl, hp8, ?_⟩⟩
        · rw [hs8]
          simp only [World.sharedRemove_svgs, World.setFd_svgs]
          exact hfr _ (by simp)
        · intro q2 h2
          rw [hs8]
          simp only [World.sharedRemove_svgs, World.setFd_svgs]
          exact hfrne _ q2 (by simp) h2
        · intro x h1 h2
          rw [ho8 x h1, World.sharedRemove_fd]
          exact hw3o x h1 h2
        · rw [ho8 newFd hpp, World.sharedRemove_fd]
          exact hw3n
        · intro t2 k3 x hx
          rw [hsh, World.sharedRemove_apply] at hx
          split at hx
          · simp at hx
          · exact hx
        · intro t2 k3
          rw [hsh]
          exact hinv.unregistered_after_remove hq hold hfd k1 hk1 t2 k3
    obtain ⟨hs1, hs2, hs3, hs4, hs5, hs6⟩ := hsum
    refine Inv.step env qs w w2 q p newFd fd hinv hq hold hfd ?_ ?_ ?_ ?_ ?_ ?_ ?_ ?_
    · intro q2 _ h2
      rw [hs2 q2 h2]
      exact SameKeyData.key_refl _
    · simp only [Holds, hs1]
    · rw [hs1]
      exact hcaq
    · intro x h1 h2
      rw [hs3 x h1 h2]
      exact QuietFd.cell_refl _
    · intro t2 k3 x hx _
      exact hs5 t2 k3 x hx
    · intro _
      rcases hs6 with ⟨h1, h2, h3⟩ | ⟨h1, h2⟩
      · exact Or.inl ⟨h1, h2, h3⟩
      · refine Or.inr ⟨h1, ?_⟩
        rw [h2]
        exact QuietFd.cell_refl _
    · refine ⟨_, hs4, FrameData.nodup_ref nf q (hinv.nodup newFd nf hnf), ?_, ?_⟩
      · rw [FrameData.value_ref_self,
          FrameData.count_of_none nf q (hinv.not_counted hold hnf hpp)]
        rfl
      · intro q2 h2
        rw [FrameData.value_ref_ne nf q q2 h2, World.refsAt_some w newFd nf hnf]
    · intro t2 k3 hx
      have hx' := hs5 t2 k3 newFd hx
      obtain ⟨ht23, hk23⟩ := hinv.entry_unique hreg hx'
      obtain ⟨r1, r2, r3⟩ := FrameData.ref_theme nf q
      refine ⟨_, hs4, by rw [r1, hnt, ht23], by rw [r3]; exact hnv, ?_⟩
      intro q2 hq2 hh
      rw [r2, r3, hk23]
      by_cases h2 : q2 = q
      · subst h2
        rw [hkq]
        refine (keyOf_frames env w _ q2 _ _ ?_ ?_ ?_ ?_).symm <;> rw [hs1]
      · have hh' : Holds w q2 newFd := by
          simp only [Holds, hs2 q2 h2] at hh
          exact hh
        rw [hnkeys q2 hq2 hh']
        simp only [keyOf, hs2 q2 h2]

end Plasma
namespace Plasma

/-- After `detachOrCopy` the consumer holds, alone, an unregistered FrameData with the
borders and the frame size of the one it held before. -/
theorem detachOrCopy_inv (env : Env) (qs : List SvgId) (w v : World) (q : SvgId)
    (p p2 : Ptr) (fd : FrameData) (k1 : String)
    (hinv : Inv env qs w) (hq : q ∈ qs) (hold : Holds w q p) (hfd : w.fd p = some fd)
    (hk1 : fd.frameSize.isValid = true → k1 = keyOf env w q fd.enabledBorders fd.frameSize)
    (h : detachOrCopy q p k1 w = some (p2, v)) :
    Inv env qs v ∧ Holds v q p2 ∧ (∀ t k, v.sharedFrames t k ≠ some p2)
      ∧ (∃ f2, v.fd p2 = some f2 ∧ f2.references = [(q, 1)]
          ∧ f2.enabledBorders = fd.enabledBorders ∧ f2.frameSize = fd.frameSize)
      ∧ (v.svgs q).actualPrefix = (w.svgs q).actualPrefix
      ∧ (v.svgs q).imagePath = (w.svgs q).imagePath
      ∧ (v.svgs q).scaleFactor = (w.svgs q).scaleFactor
      ∧ (v.svgs q).devicePixelRatio = (w.svgs q).devicePixelRatio
      ∧ (v.svgs q).theme = (w.svgs q).theme := by
  have hvq := hinv.value_holder hq hold hfd
  have hcaq := (hinv.single q hq).1
  unfold detachOrCopy at h
  simp only [hfd, Option.some_bind] at h
  by_cases hsole : fd.refcount = 1
  · simp only [hsole, if_true, Option.some.injEq, Prod.mk.injEq] at h
    obtain ⟨h1, h2⟩ := h
    subst h1 h2
    refine ⟨Inv.of_sharedRemove env qs w hinv _ _, by simpa [Holds] using hold,
      hinv.unregistered_after_remove hq hold hfd k1 hk1,
      ⟨fd, by rw [World.sharedRemove_fd]; exact hfd, FrameData.sole_refs fd q 1 hvq hsole,
        rfl, rfl⟩, rfl, rfl, rfl, rfl, rfl⟩
  · simp only [hsole, if_false, World.deref_eq w p q fd hfd, Option.some_bind] at h
    have hw1p : (w.setFd p (fd.deref q).2).fd p = some (fd.deref q).2 :=
      World.fd_setFd_self w p fd _ hfd
    simp only [hw1p, Option.some_bind, Option.some.injEq, Prod.mk.injEq] at h
    obtain ⟨h1, h2⟩ := h
    have hnl : (fd.deref q).1 = false :=
      FrameData.deref_shared fd q (hinv.nodup p fd hfd) hvq hsole
    have hp2 : p2 = w.heap.length + 1 := by
      rw [← h1, World.alloc_fst, World.setFd_heap_length]
    have hfresh : w.fd p2 = none := by
      rw [hp2]
      exact World.fd_alloc_fresh w fd
    have hpp : p ≠ p2 := by
      intro he
      rw [← he, hfd] at hfresh
      simp at hfresh
    have hv2 : v.fd p2 = some ((fd.deref q).2.copy q) := by
      rw [← h2, World.framesInsert_fd, ← h1]
      exact World.fd_alloc_new _ _
    have hvo : ∀ x, x ≠ p2 → v.fd x = (w.setFd p (fd.deref q).2).fd x := by
      intro x hx
      rw [← h2, World.framesInsert_fd]
      exact World.fd_alloc_ne _ _ x (by rw [h1]; exact hx)
    have hvq2 : v.svgs q = { w.svgs q with frames := [((w.svgs q).actualPrefix, p2)] } := by
      rw [← h2]
      simp only [World.framesInsert, World.setSvg_svgs_self, World.alloc_svgs,
        World.setFd_svgs, h1]
      have : (w.svgs q).frames = [((w.svgs q).actualPrefix, p)] := hold
      simp [this, QHash.insert, QHash.remove]
    have hvne : ∀ q2, q2 ≠ q → v.svgs q2 = w.svgs q2 := by
      intro q2 hq2
      rw [← h2, World.framesInsert_svgs_ne _ _ _ _ _ hq2, World.alloc_svgs]
      simp
    have hvsh : v.sharedFrames = w.sharedFrames := by
      rw [← h2]
      simp [World.alloc_sharedFrames]
    have hun : ∀ t k, v.sharedFrames t k ≠ some p2 := by
      intro t k
      rw [hvsh]
      exact hinv.not_registered hfresh t k
    obtain ⟨e1, e2, e3⟩ := FrameData.deref_theme fd q
    refine ⟨?_, by simp only [Holds, hvq2], hun,
      ⟨_, hv2, rfl, by simp [FrameData.copy, e2], by simp [FrameData.copy, e3]⟩,
      by rw [hvq2], by rw [hvq2], by rw [hvq2], by rw [hvq2], by rw [hvq2]⟩
    refine Inv.step env qs w v q p p2 fd hinv hq hold hfd ?_ ?_ ?_ ?_ ?_ ?_ ?_ ?_
    · intro q2 _ hq2
      rw [hvne q2 hq2]
      exact SameKeyData.key_refl _
    · simp only [Holds, hvq2]
    · rw [hvq2]
      exact hcaq
    · intro x hx1 hx2
      rw [hvo x hx2, World.fd_setFd_ne w p x _ hx1]
      exact QuietFd.cell_refl _
    · intro t k x hx _
      rw [hvsh] at hx
      exact hx
    · intro _
      refine Or.inr ⟨hnl, ?_⟩
      rw [hvo p hpp, hw1p]
      exact QuietFd.cell_refl _
    · refine ⟨_, hv2, by simp [FrameData.copy], by simp [FrameData.copy, QHash.value], ?_⟩
      intro q2 hq2
      have hq2' : ¬ q = q2 := fun h => hq2 h.symm
      rw [World.refsAt_none w p2 hfresh]
      simp [FrameData.copy, QHash.value, hq2']
    · intro t k hx
      exact absurd hx (hun t k)

end Plasma
namespace Plasma

/-! ## `setEnabledBorders` and `resizeFrame` -/

theorem Holds.of_svgs {w w2 : World} {q : SvgId} {p : Ptr} (h : w2.svgs = w.svgs)
    (hold : Holds w q p) : Holds w2 q p := by
  simpa [Holds, h] using hold

theorem setEnabledBorders_inv (env : Env) (qs : List SvgId) (w w2 : World) (q : SvgId)
    (borders : Nat) (hinv : Inv env qs w) (hq : q ∈ qs)
    (h : setEnabledBorders env q borders w = some w2) : Inv env qs w2 := by
  obtain ⟨p, fd, hold, hfd, hval, hca, hfv, hp0⟩ := hinv.holds hq
  unfold setEnabledBorders at h
  simp only [hfv, hfd, Option.some_bind] at h
  by_cases hb : borders = fd.enabledBorders
  · simp only [hb, if_true, Option.some.injEq] at h
    rw [← h]
    exact hinv
  · simp only [hb, if_false] at h
    obtain ⟨k, hk, h⟩ := Option.bind_eq_some.1 h
    obtain ⟨⟨k1, k2⟩, wk⟩ := k
    obtain ⟨hqk, f1, hf1, hk1, hk2⟩ := setEnabledBordersKeys_spec env q p borders w wk k1 k2 hk
    have hinvk : Inv env qs wk := Inv.quiet env qs w wk hinv hqk
    have holdk : Holds wk q p := Holds.of_svgs hqk.1 hold
    have hkey : ∀ b s, keyOf env wk q b s = keyOf env w q b s := by
      intro b s
      simp only [keyOf, hqk.1]
    simp only at h
    by_cases hnew : wk.sharedValue (wk.svgs q).theme k2 = 0
    · simp only [hnew, ne_eq, not_true_eq_false, if_false] at h
      obtain ⟨r, hr, h⟩ := Option.bind_eq_some.1 h
      obtain ⟨p2, v⟩ := r
      obtain ⟨hinvv, holdv, hun, ⟨f2, hf2, hr2, -, -⟩, -⟩ :=
        detachOrCopy_inv env qs wk v q p p2 f1 k1 hinvk hq holdk hf1
          (fun _ => by rw [hkey]; exact hk1) hr
      simp only [hf2, Option.some_bind] at h
      exact updateAndSignalSizes_inv env qs _ w2 q
        (Inv.update env qs v q p2 f2 { f2 with enabledBorders := borders } hinvv hq holdv hf2
          hun rfl) hq h
    · simp only [hnew, ne_eq, not_false_eq_true, if_true] at h
      have hreg := World.sharedValue_ne_zero wk _ _ hnew
      exact adoptShared_inv env qs wk w2 q p _ f1 k1 k2 _ borders f1.frameSize hinvk hq holdk
        hf1 (fun _ => by rw [hkey]; exact hk1) hreg (by rw [hkey]; exact hk2) h

theorem resizeFrame_inv (env : Env) (qs : List SvgId) (w w2 : World) (q : SvgId)
    (size : QSizeF) (hinv : Inv env qs w) (hq : q ∈ qs)
    (h : resizeFrame env q size w = some w2) : Inv env qs w2 := by
  obtain ⟨p, fd, hold, hfd, hval, hca, hfv, hp0⟩ := hinv.holds hq
  unfold resizeFrame at h
  by_cases hpath : (w.svgs q).imagePath.isEmpty = true
  · simp only [hpath, if_true, Option.some.injEq] at h
    rw [← h]
    exact hinv
  · simp only [hpath, Bool.false_eq_true, if_false] at h
    by_cases hse : size.isEmpty = true
    · simp only [hse, if_true, Option.some.injEq] at h
      rw [← h]
      exact hinv
    · simp only [hse, Bool.false_eq_true, if_false, hfv, hfd, Option.some_bind] at h
      by_cases hfz : size.fuzzyEq fd.frameSize = true
      · simp only [hfz, if_true, Option.some.injEq] at h
        rw [← h]
        exact hinv
      · simp only [hfz, Bool.false_eq_true, if_false] at h
        have hse' : size.isEmpty = false := by simpa using hse
        obtain ⟨k, hk, h⟩ := Option.bind_eq_some.1 h
        obtain ⟨⟨k1, k2⟩, wk⟩ := k
        obtain ⟨hqk, f1, hf1, hk1, hk2⟩ :=
          resizeFrameKeys_spec env q p size w wk k1 k2 hse' hk
        have hinvk : Inv env qs wk := Inv.quiet env qs w wk hinv hqk
        have holdk : Holds wk q p := Holds.of_svgs hqk.1 hold
        have hkey : ∀ b s, keyOf env wk q b s = keyOf env w q b s := by
          intro b s
          simp only [keyOf, hqk.1]
        simp only at h
        by_cases hnew : wk.sharedValue (wk.svgs q).theme k2 = 0
        · simp only [hnew, ne_eq, not_true_eq_false, if_false] at h
          obtain ⟨r, hr, h⟩ := Option.bind_eq_some.1 h
          obtain ⟨p2, v⟩ := r
          obtain ⟨hinvv, holdv, hun, ⟨f2, hf2, hr2, hb2, -⟩, e1, e2, e3, e4, e5⟩ :=
            detachOrCopy_inv env qs wk v q p p2 f1 k1 hinvk hq holdk hf1
              (fun _ => by rw [hkey]; exact hk1) hr
          obtain ⟨w1, hu, h⟩ := Option.bind_eq_some.1 h
          have hq1 := updateSizes_quiet env q v w1 hu
          have hinv1 : Inv env qs w1 := Inv.quiet env qs v w1 hinvv hq1
          have hold1 : Holds w1 q p2 := Holds.of_svgs hq1.1 holdv
          obtain ⟨f, hf, hrf, -, hbf, -⟩ := QuietFd.some_of_quiet hq1 hf2
          simp only [hf, Option.some_bind, Option.some.injEq] at h
          rw [← h]
          have hun1 : ∀ t k, w1.sharedFrames t k ≠ some p2 := by
            intro t k
            rw [hq1.2.1]
            exact hun t k
          have hinv2 := Inv.update env qs w1 q p2 f
            { f with frameSize := size.toSize, theme := (w1.svgs q).theme }
            hinv1 hq hold1 hf hun1 rfl
          refine Inv.insert env qs _ q p2 _ _ _ hinv2 hq (by simpa [Holds] using hold1)
            (World.fd_setFd_self w1 p2 f _ hf) (by rw [← hr2, ← hrf]) 
            (QSizeF.toSize_isValid size hse') rfl ?_
          rw [hk2]
          simp only [keyOf, World.setFd_svgs, hq1.1, e1, e2, e3, e4, hqk.1, hbf, hb2]
        · simp only [hnew, ne_eq, not_false_eq_true, if_true] at h
          have hreg := World.sharedValue_ne_zero wk _ _ hnew
          exact adoptShared_inv env qs wk w2 q p _ f1 k1 k2 _ f1.enabledBorders size.toSize
            hinvk hq holdk hf1 (fun _ => by rw [hkey]; exact hk1) hreg
            (by rw [hkey]; exact hk2) h

end Plasma
namespace Plasma

/-! ## `setImagePath` -/

theorem World.sharedInsert_setFd (w : World) (t : ThemeId) (k : String) (v p : Ptr)
    (f : FrameData) : (w.sharedInsert t k v).setFd p f = (w.setFd p f).sharedInsert t k v := by
  cases p with
  | zero => rfl
  | succ n => rfl

/-- The end of `setImagePath` for a FrameData that the consumer holds alone and that has
no registry entry: it is stamped with the theme and registered under the key of the
consumer, then sizes are recomputed and the repaint signal is sent. -/
theorem setImagePath_register (env : Env) (qs : List SvgId) (v w2 : World) (q : SvgId)
    (p2 : Ptr) (f2 : FrameData) (px : String)
    (hinv : Inv env qs v) (hq : q ∈ qs) (hold : Holds v q p2) (hf2 : v.fd p2 = some f2)
    (hsole : f2.references = [(q, 1)]) (hun : ∀ t k, v.sharedFrames t k ≠ some p2)
    (hsz : (v.svgs q).size.isValid = true) (hpx : px = (v.svgs q).actualPrefix)
    (h : ((cacheId env q p2 px v).bind fun k =>
        (k.2.fd p2).bind fun f =>
          updateAndSignalSizes env q
            ((k.2.sharedInsert (k.2.svgs q).theme k.1 p2).setFd p2
              { f with theme := (k.2.svgs q).theme })) = some w2) :
    Inv env qs w2 := by
  obtain ⟨k, hk, h⟩ := Option.bind_eq_some.1 h
  obtain ⟨f, hf, h⟩ := Option.bind_eq_some.1 h
  obtain ⟨hqk, g, f', hg, hf', hsize, hkey⟩ := cacheId_spec env q p2 px v k.2 k.1 hk
  rw [hf2] at hg
  simp only [Option.some.injEq] at hg
  subst hg
  rw [hf] at hf'
  simp only [Option.some.injEq] at hf'
  subst hf'
  have hinvk : Inv env qs k.2 := Inv.quiet env qs v k.2 hinv hqk
  have holdk : Holds k.2 q p2 := Holds.of_svgs hqk.1 hold
  have hqf := hqk.2.2 p2
  rw [hf2, hf] at hqf
  have hvalid : f.frameSize.isValid = true := by
    rw [hsize]
    by_cases hv : f2.frameSize.isValid = true
    · simp [hv]
    · simp [hv, hsz]
  have hunk : ∀ t k3, k.2.sharedFrames t k3 ≠ some p2 := by
    intro t k3
    rw [hqk.2.1]
    exact hun t k3
  have hinv2 := Inv.update env qs k.2 q p2 f { f with theme := (k.2.svgs q).theme }
    hinvk hq holdk hf hunk rfl
  rw [World.sharedInsert_setFd] at h
  refine updateAndSignalSizes_inv env qs _ w2 q ?_ hq h
  refine Inv.insert env qs _ q p2 _ _ _ hinv2 hq (by simpa [Holds] using holdk)
    (World.fd_setFd_self k.2 p2 f _ hf) (by rw [← hsole, ← hqf.1]) hvalid rfl ?_
  rw [hkey, hpx]
  simp only [keyOf, World.setFd_svgs, hqk.1]

end Plasma
namespace Plasma

theorem setImagePath_inv (env : Env) (hnat : ∀ t path, (env.naturalSize t path).isValid = true)
    (qs : List SvgId) (w w2 : World) (q : SvgId) (path : String)
    (hinv : Inv env qs w) (hq : q ∈ qs)
    (h : setImagePath env q path w = some w2) : Inv env qs w2 := by
  obtain ⟨p, fd, hold, hfd, hval, hca, hfv, hp0⟩ := hinv.holds hq
  unfold setImagePath at h
  by_cases hsame : path = (w.svgs q).imagePath
  · simp only [hsame, if_true, Option.some.injEq] at h
    rw [← h]
    exact hinv
  · simp only [hsame, if_false, clearCache_single env q w p hold, Option.some_bind, hfv, hfd]
      at h
    by_cases hsole : fd.refcount = 1
    · -- the consumer holds the FrameData alone and keeps it
      simp only [hsole, if_true] at h
      obtain ⟨a, ha, h⟩ := Option.bind_eq_some.1 h
      obtain ⟨k, hk, ha⟩ := Option.bind_eq_some.1 ha
      obtain ⟨f1, hf1, ha⟩ := Option.bind_eq_some.1 ha
      simp only [Option.some.injEq] at ha
      subst ha
      simp only [hp0, if_false, Option.some_bind, if_true] at h
      obtain ⟨hqk, g, f1', hg, hf1', -, hkey⟩ := cacheId_spec env q p _ w k.2 k.1 hk
      rw [hfd] at hg
      simp only [Option.some.injEq] at hg
      subst hg
      rw [hf1] at hf1'
      simp only [Option.some.injEq] at hf1'
      subst hf1'
      have hinvk : Inv env qs k.2 := Inv.quiet env qs w k.2 hinv hqk
      have holdk : Holds k.2 q p := Holds.of_svgs hqk.1 hold
      have hqf := hqk.2.2 p
      rw [hfd, hf1] at hqf
      have hinvr := Inv.of_sharedRemove env qs k.2 hinvk f1.theme k.1
      have holdr : Holds (k.2.sharedRemove f1.theme k.1) q p := by
        simpa [Holds] using holdk
      have hfr : (k.2.sharedRemove f1.theme k.1).fd p = some f1 := by
        rw [World.sharedRemove_fd]
        exact hf1
      have hunr : ∀ t k3, (k.2.sharedRemove f1.theme k.1).sharedFrames t k3 ≠ some p :=
        hinvk.unregistered_after_remove hq holdk hf1 k.1
          (fun _ => by rw [hkey]; simp only [keyOf, hqk.1])
      have hinvp := Inv.setPath env qs _ q p f1 path
        (env.naturalSize ((k.2.sharedRemove f1.theme k.1).svgs q).theme path)
        hinvr hq holdr hfr hunr
      refine setImagePath_register env qs
        (Svg_setImagePath env q path (k.2.sharedRemove f1.theme k.1)) w2 q p f1 _
        hinvp hq ?_ ?_ ?_ ?_ ?_ rfl h
      · simpa [Holds, Svg_setImagePath] using holdr
      · simpa [Svg_setImagePath] using hf1
      · rw [hqf.1]
        exact FrameData.sole_refs fd q 1 hval hsole
      · intro t k3
        simpa [Svg_setImagePath] using hunr t k3
      · simp only [Svg_setImagePath, World.setSvg_svgs_self]
        exact hnat _ _
    · -- the FrameData is shared: the consumer leaves it
      simp only [hsole, if_false, World.deref_eq w p q fd hfd, Option.some_bind, if_true] at h
      have hnl : (fd.deref q).1 = false :=
        FrameData.deref_shared fd q (hinv.nodup p fd hfd) hval hsole
      generalize hv1 : Svg_setImagePath env q path (w.setFd p (fd.deref q).2) = v1 at h
      have h1q : v1.svgs q = { w.svgs q with
          imagePath := path, size := env.naturalSize (w.svgs q).theme path } := by
        rw [← hv1]
        simp [Svg_setImagePath]
      have h1ne : ∀ q2, q2 ≠ q → v1.svgs q2 = w.svgs q2 := by
        intro q2 h2
        rw [← hv1]
        simp only [Svg_setImagePath]
        rw [World.setSvg_svgs_ne _ _ _ _ h2]
        simp
      have h1sh : v1.sharedFrames = w.sharedFrames := by
        rw [← hv1]
        simp [Svg_setImagePath]
      have h1p : v1.fd p = some (fd.deref q).2 := by
        rw [← hv1]
        simp only [Svg_setImagePath, World.setSvg_fd]
        exact World.fd_setFd_self w p fd _ hfd
      have h1o : ∀ x, x ≠ p → v1.fd x = w.fd x := by
        intro x hx
        rw [← hv1]
        simp only [Svg_setImagePath, World.setSvg_fd]
        exact World.fd_setFd_ne w p x _ hx
      have h1px : (v1.svgs q).actualPrefix = (w.svgs q).actualPrefix := by rw [h1q]
      have h1fv : v1.framesValue q (w.svgs q).actualPrefix = p := by
        simp only [World.framesValue, h1q]
        exact hfv
      simp only [h1px, h1fv] at h
      obtain ⟨b, hb, h⟩ := Option.bind_eq_some.1 h
      obtain ⟨k, hk, hb⟩ := Option.bind_eq_some.1 hb
      obtain ⟨hqk, g, f1, hg, hf1, hsize, hkey⟩ := cacheId_spec env q p _ v1 k.2 k.1 hk
      rw [h1p] at hg
      simp only [Option.some.injEq] at hg
      subst hg
      have hqf := hqk.2.2 p
      rw [h1p, hf1] at hqf
      obtain ⟨e1, e2, e3⟩ := FrameData.deref_theme fd q
      have hko : ∀ x, x ≠ p → QuietFd (w.fd x) (k.2.fd x) := by
        intro x hx
        have := hqk.2.2 x
        rw [h1o x hx] at this
        exact this
      have hksh : k.2.sharedFrames = w.sharedFrames := by rw [hqk.2.1, h1sh]
      by_cases hfound : k.2.sharedValue (k.2.svgs q).theme k.1 = 0
      · -- nothing registered under the new key: continue with a copy
        simp only [hfound, ne_eq, not_true_eq_false, if_false, hf1, Option.some_bind,
          Option.some.injEq] at hb
        subst hb
        simp only [if_true] at h
        have hfresh : k.2.fd (k.2.alloc (f1.copy q)).1 = none := World.fd_alloc_fresh _ _
        have hpn : p ≠ (k.2.alloc (f1.copy q)).1 := by
          intro he
          rw [← he, hf1] at hfresh
          simp at hfresh
        have hfreshw : w.fd (k.2.alloc (f1.copy q)).1 = none := by
          have := hko _ (fun he => hpn he.symm)
          rw [hfresh] at this
          cases hw : w.fd (k.2.alloc (f1.copy q)).1 with
          | none => rfl
          | some x => rw [hw] at this; exact absurd this (by simp [QuietFd])
        have hbq : ((k.2.alloc (f1.copy q)).2.framesInsert q (w.svgs q).actualPrefix
            (k.2.alloc (f1.copy q)).1).svgs q = { v1.svgs q with
              frames := [((w.svgs q).actualPrefix, (k.2.alloc (f1.copy q)).1)] } := by
          simp only [World.framesInsert, World.setSvg_svgs_self, World.alloc_svgs, hqk.1]
          have : (v1.svgs q).frames = [((w.svgs q).actualPrefix, p)] := by
            rw [h1q]; exact hold
          simp [this, QHash.insert, QHash.remove]
        have hbne : ∀ q2, q2 ≠ q → ((k.2.alloc (f1.copy q)).2.framesInsert q
            (w.svgs q).actualPrefix (k.2.alloc (f1.copy q)).1).svgs q2 = w.svgs q2 := by
          intro q2 h2
          rw [World.framesInsert_svgs_ne _ _ _ _ _ h2, World.alloc_svgs, hqk.1]
          exact h1ne q2 h2
        have hbn : ((k.2.alloc (f1.copy q)).2.framesInsert q (w.svgs q).actualPrefix
            (k.2.alloc (f1.copy q)).1).fd (k.2.alloc (f1.copy q)).1 = some (f1.copy q) := by
          rw [World.framesInsert_fd]
          exact World.fd_alloc_new _ _
        have hbo : ∀ x, x ≠ (k.2.alloc (f1.copy q)).1 →
            ((k.2.alloc (f1.copy q)).2.framesInsert q (w.svgs q).actualPrefix
              (k.2.alloc (f1.copy q)).1).fd x = k.2.fd x := by
          intro x hx
          rw [World.framesInsert_fd]
          exact World.fd_alloc_ne _ _ x hx
        have hbsh : ((k.2.alloc (f1.copy q)).2.framesInsert q (w.svgs q).actualPrefix
            (k.2.alloc (f1.copy q)).1).sharedFrames = w.sharedFrames := by
          simp [World.alloc_sharedFrames, hksh]
        have hunb : ∀ t k3, ((k.2.alloc (f1.copy q)).2.framesInsert q (w.svgs q).actualPrefix
            (k.2.alloc (f1.copy q)).1).sharedFrames t k3 ≠ some (k.2.alloc (f1.copy q)).1 := by
          intro t k3
          rw [hbsh]
          exact hinv.not_registered hfreshw t k3
        have hinvb : Inv env qs ((k.2.alloc (f1.copy q)).2.framesInsert q
            (w.svgs q).actualPrefix (k.2.alloc (f1.copy q)).1) := by
          refine Inv.step env qs w _ q p (k.2.alloc (f1.copy q)).1 fd hinv hq hold hfd
            ?_ ?_ ?_ ?_ ?_ ?_ ?_ ?_
          · intro q2 _ h2
            rw [hbne q2 h2]
            exact SameKeyData.key_refl _
          · simp only [Holds, hbq, h1px]
          · rw [hbq, h1q]
            exact hca
          · intro x hx1 hx2
            rw [hbo x hx2]
            exact hko x hx1
          · intro t k3 x hx _
            rw [hbsh] at hx
            exact hx
          · intro _
            refine Or.inr ⟨hnl, ?_⟩
            rw [hbo p hpn, hf1]
            exact hqf
          · refine ⟨_, hbn, by simp [FrameData.copy], by simp [FrameData.copy, QHash.value],
              ?_⟩
            intro q2 hq2
            have hq2' : ¬ q = q2 := fun h => hq2 h.symm
            rw [World.refsAt_none w _ hfreshw]
            simp [FrameData.copy, QHash.value, hq2']
          · intro t k3 hx
            exact absurd hx (hunb t k3)
        refine setImagePath_register env qs _ w2 q (k.2.alloc (f1.copy q)).1 (f1.copy q) _ hinvb hq
          ?_ hbn rfl hunb
          ?_ ?_ h
        · simp only [Holds, hbq, h1px]
        · rw [hbq, h1q]
          exact hnat _ _
        · rw [hbq, h1px]
      · -- the registry has a FrameData under the new key
        have hreg := World.sharedValue_ne_zero k.2 _ _ hfound
        generalize hfo : k.2.sharedValue (k.2.svgs q).theme k.1 = found at hb hreg hfound
        rw [hksh] at hreg
        simp only [ne_eq, hfound, not_false_eq_true, if_true] at hb
        obtain ⟨w3, hw3, hb⟩ := Option.bind_eq_some.1 hb
        simp only [Option.some.injEq] at hb
        subst hb
        simp only [Bool.false_eq_true, if_false] at h
        obtain ⟨gw, hgw, hgne, hgt, hgv, hgk⟩ := hinv.registered _ _ found hreg
        have hkq : k.1 = keyOf env v1 q f1.enabledBorders f1.frameSize := by
          rw [hkey]
          simp only [keyOf, h1px]
        have hfp : found ≠ p := by
          intro he
          subst he
          obtain ⟨-, hv, hk3⟩ := hinv.entry_of_holder hq hold hfd hreg
          have hs1 : f1.frameSize = fd.frameSize := by
            rw [hqf.2.2.2 (by rw [e3]; exact hv), e3]
          rw [hkq, hqf.2.2.1, e2, hs1] at hk3
          simp only [keyOf, h1q] at hk3
          exact hsame ((cacheKey_components env fd.enabledBorders 0 fd.frameSize.width 0
            fd.frameSize.height 0 (w.svgs q).scaleFactor 0 (w.svgs q).devicePixelRatio 0
            (w.svgs q).actualPrefix "" path (w.svgs q).imagePath).2.2.2.2.1.1 hk3)
        obtain ⟨nf, hnf, hqnf⟩ : ∃ nf, k.2.fd found = some nf ∧ QuietFd (some gw) (some nf) := by
          have := hko found hfp
          rw [hgw] at this
          obtain ⟨b1, hb1, hr⟩ := this.of_some
          exact ⟨b1, hb1, hr⟩
        rw [World.ref_eq k.2 found q nf hnf] at hw3
        simp only [Option.some.injEq] at hw3
        subst hw3
        obtain ⟨z1, z2, z3⟩ := hinv.entry_head hgw hreg _ _ _ _ _ _ _ (by rw [hkq]; rfl)
        have hbq : ((k.2.setFd found (nf.ref q)).framesInsert q (w.svgs q).actualPrefix
            found).svgs q = { v1.svgs q with frames := [((w.svgs q).actualPrefix, found)] } := by
          simp only [World.framesInsert, World.setSvg_svgs_self, World.setFd_svgs, hqk.1]
          have : (v1.svgs q).frames = [((w.svgs q).actualPrefix, p)] := by
            rw [h1q]; exact hold
          simp [this, QHash.insert, QHash.remove]
        have hbne : ∀ q2, q2 ≠ q → ((k.2.setFd found (nf.ref q)).framesInsert q
            (w.svgs q).actualPrefix found).svgs q2 = w.svgs q2 := by
          intro q2 h2
          rw [World.framesInsert_svgs_ne _ _ _ _ _ h2, World.setFd_svgs, hqk.1]
          exact h1ne q2 h2
        have hbn : ((k.2.setFd found (nf.ref q)).framesInsert q (w.svgs q).actualPrefix
            found).fd found = some (nf.ref q) := by
          rw [World.framesInsert_fd]
          exact World.fd_setFd_self k.2 found nf _ hnf
        have hbo : ∀ x, x ≠ found → ((k.2.setFd found (nf.ref q)).framesInsert q
            (w.svgs q).actualPrefix found).fd x = k.2.fd x := by
          intro x hx
          rw [World.framesInsert_fd]
          exact World.fd_setFd_ne k.2 found x _ hx
        have hbsh : ((k.2.setFd found (nf.ref q)).framesInsert q (w.svgs q).actualPrefix
            found).sharedFrames = w.sharedFrames := by
          simp [hksh]
        obtain ⟨r1, r2, r3⟩ := FrameData.ref_theme nf q
        obtain ⟨qr, qt, qb, qs'⟩ := hqnf
        have hinvb : Inv env qs ((k.2.setFd found (nf.ref q)).framesInsert q
            (w.svgs q).actualPrefix found) := by
          refine Inv.step env qs w _ q p found fd hinv hq hold hfd ?_ ?_ ?_ ?_ ?_ ?_ ?_ ?_
          · intro q2 _ h2
            rw [hbne q2 h2]
            exact SameKeyData.key_refl _
          · simp only [Holds, hbq, h1px]
          · rw [hbq, h1q]
            exact hca
          · intro x hx1 hx2
            rw [hbo x hx2]
            exact hko x hx1
          · intro t k3 x hx _
            rw [hbsh] at hx
            exact hx
          · intro _
            refine Or.inr ⟨hnl, ?_⟩
            rw [hbo p (fun he => hfp he.symm), hf1]
            exact hqf
          · refine ⟨_, hbn, ?_, ?_, ?_⟩
            · refine FrameData.nodup_ref nf q ?_
              rw [qr]
              exact hinv.nodup found gw hgw
            · rw [FrameData.value_ref_self]
              have : QHash.value nf.references q = none := by
                rw [qr]
                exact hinv.not_counted hold hgw hfp
              rw [FrameData.count_of_none nf q this]
              rfl
            · intro q2 h2
              rw [FrameData.value_ref_ne nf q q2 h2, qr, World.refsAt_some w found gw hgw]
          · intro t k3 hx
            rw [hbsh] at hx
            obtain ⟨ht3, hk3⟩ := hinv.entry_unique hreg hx
            have hsz : nf.frameSize = gw.frameSize := qs' hgv
            refine ⟨_, hbn, by rw [r1, qt, hgt, ht3], by rw [r3, hsz]; exact hgv, ?_⟩
            intro q2 hq2 hh
            rw [r2, r3, qb, hsz, hk3]
            by_cases h2 : q2 = q
            · subst h2
              rw [hkq]
              simp only [keyOf, hbq, z1, z2, z3]
            · have hh' : Holds w q2 found := by
                simp only [Holds, hbne q2 h2] at hh
                exact hh
              rw [hgk q2 hq2 hh']
              simp only [keyOf, hbne q2 h2]
        exact updateNeeded_inv env qs _ w2 q hinvb hq h

end Plasma
namespace Plasma

/-! ## Reachable states -/

theorem QHash.value_of_mem {K V : Type} [DecidableEq K] (h : List (K × V)) (k : K) (v : V)
    (hn : (h.map Prod.fst).Nodup) (hm : (k, v) ∈ h) : QHash.value h k = some v := by
  induction h with
  | nil => simp at hm
  | cons e t ih =>
    obtain ⟨k2, v2⟩ := e
    simp only [List.map_cons, List.nodup_cons] at hn
    rcases List.mem_cons.1 hm with he | hmt
    · simp only [Prod.mk.injEq] at he
      simp [QHash.value, he.1, he.2]
    · have hne : k2 ≠ k := by
        intro hk
        apply hn.1
        rw [hk]
        exact List.mem_map.2 ⟨(k, v), hmt, rfl⟩
      simp only [QHash.value, hne, if_false]
      exact ih hn.2 hmt

/-- Every reachable state satisfies the registry invariant, on a theme whose images all
have a valid natural size. -/
theorem Reachable.inv (env : Env)
    (hnat : ∀ t path, (env.naturalSize t path).isValid = true)
    (qs : List SvgId) (w : World) (h : Reachable env qs w) : Inv env qs w := by
  induction h with
  | init => exact Inv.empty env
  | construct qs w q svg _ hq ih => exact Inv.of_construct env qs w q svg ih hq
  | setImagePath qs w w1 q path _ hq h ih =>
    exact setImagePath_inv env hnat qs w w1 q path ih hq h
  | setElementPrefix qs w w1 q p _ hq h ih =>
    exact setElementPrefix_inv env qs w w1 q p ih hq h
  | setElementPrefixLocation qs w w1 q l _ hq h ih =>
    exact setElementPrefixLocation_inv env qs w w1 q l ih hq h
  | setEnabledBorders qs w w1 q borders _ hq h ih =>
    exact setEnabledBorders_inv env qs w w1 q borders ih hq h
  | resizeFrame qs w w1 q size _ hq h ih =>
    exact resizeFrame_inv env qs w w1 q size ih hq h
  | clearCache qs w w1 q _ hq h ih =>
    exact clearCache_inv env qs w w1 q ih hq h

theorem Option.eq_some_getD {α : Type} (o : Option α) (d : α) (h : o.isSome = true) :
    o = some (o.getD d) := by
  cases o with
  | none => simp at h
  | some x => rfl

end Plasma
namespace Plasma

/-! ## Termination of `setElementPrefix` -/

theorem World.live_setFd (w : World) (p x : Ptr) (g : FrameData)
    (h : ∃ f, w.fd x = some f) : ∃ f, (w.setFd p g).fd x = some f := by
  obtain ⟨f, hf⟩ := h
  by_cases hx : x = p
  · subst hx
    exact ⟨g, World.fd_setFd_self w x f g hf⟩
  · exact ⟨f, by rw [World.fd_setFd_ne w p x g hx]; exact hf⟩

theorem Quiet.live {w w2 : World} (h : Quiet w w2) {x : Ptr} (hx : ∃ f, w.fd x = some f) :
    ∃ f, w2.fd x = some f := by
  obtain ⟨f, hf⟩ := hx
  obtain ⟨b, hb, -⟩ := QuietFd.some_of_quiet h hf
  exact ⟨b, hb⟩

theorem updateSizes_total (env : Env) (q : SvgId) (w : World)
    (h : ∃ f, w.fd (w.active q) = some f) : ∃ w1, updateSizes env q w = some w1 := by
  obtain ⟨f, hf⟩ := h
  exact ⟨_, updateSizes_eq env q w f hf⟩

theorem frameSize_total (env : Env) (q : SvgId) (p : Ptr) (w : World) (f : FrameData)
    (hp : w.fd p = some f)
    (ha : f.frameSize.isValid = true ∨ ∃ g, w.fd (w.active q) = some g) :
    ∃ r, frameSize env q p w = some r := by
  by_cases hv : f.frameSize.isValid = true
  · exact ⟨_, frameSize_valid env q p w f hp hv⟩
  · rcases ha with ha | ⟨g, hg⟩
    · exact absurd ha hv
    · have hu := updateSizes_eq env q w g hg
      obtain ⟨f1, hf1⟩ := World.live_setFd w (w.framesValue q (w.svgs q).actualPrefix) p
        (updatedSizes env (w.svgs q) g) ⟨f, hp⟩
      simp only [frameSize, hp, Option.some_bind, hv, Bool.false_eq_true, if_false, hu, hf1]
      exact ⟨_, rfl⟩

theorem cacheId_total (env : Env) (q : SvgId) (p : Ptr) (px : String) (w : World)
    (f : FrameData) (hp : w.fd p = some f)
    (ha : f.frameSize.isValid = true ∨ ∃ g, w.fd (w.active q) = some g) :
    ∃ k, cacheId env q p px w = some k := by
  obtain ⟨r, hr⟩ := frameSize_total env q p w f hp ha
  obtain ⟨f1, hf1⟩ := Quiet.live (frameSize_quiet env q p w r.2 r.1 hr) ⟨f, hp⟩
  simp only [cacheId, hr, Option.some_bind, hf1]
  exact ⟨_, rfl⟩

/-- The release at the end of `setElementPrefix` returns when the old FrameData is alive
and, in case it has no valid size yet, the active FrameData is alive. -/
theorem setElementPrefix_release_total (env : Env) (q : SvgId) (p : Ptr)
    (oldPrefix : String) (v : World) (f : FrameData) (hf : v.fd p = some f)
    (ha : f.frameSize.isValid = true ∨ ∃ g, v.fd (v.active q) = some g) :
    ∃ v2, ((v.deref p q).bind fun r =>
        if r.1 = true then
          (cacheId env q p oldPrefix r.2).bind fun k =>
            (k.2.fd p).bind fun fd => (k.2.sharedRemove fd.theme k.1).delete p
        else some r.2) = some v2 := by
  rw [World.deref_eq v p q f hf]
  simp only [Option.some_bind]
  have h6 : (v.setFd p (f.deref q).2).fd p = some (f.deref q).2 :=
    World.fd_setFd_self v p f _ hf
  cases hb : (f.deref q).1 with
  | false =>
    simp only [Bool.false_eq_true, if_false]
    exact ⟨_, rfl⟩
  | true =>
    simp only [if_true]
    have ha2 : (f.deref q).2.frameSize.isValid = true
        ∨ ∃ g, (v.setFd p (f.deref q).2).fd ((v.setFd p (f.deref q).2).active q) = some g := by
      rcases ha with ha | ha
      · left
        rw [(FrameData.deref_theme f q).2.2]
        exact ha
      · right
        have : (v.setFd p (f.deref q).2).active q = v.active q := by
          simp [World.active]
        rw [this]
        exact World.live_setFd v p _ _ ha
    obtain ⟨k, hk⟩ := cacheId_total env q p oldPrefix _ _ h6 ha2
    obtain ⟨f7, hf7⟩ := Quiet.live (cacheId_quiet env q p oldPrefix _ k.2 k.1 hk) ⟨_, h6⟩
    simp only [hk, Option.some_bind, hf7]
    have h8 : (k.2.sharedRemove f7.theme k.1).fd p = some f7 := by simpa using hf7
    simp only [World.delete, h8]
    exact ⟨_, rfl⟩

theorem World.active_framesInsert (w : World) (q : SvgId) (v : Ptr) :
    (w.framesInsert q (w.svgs q).actualPrefix v).active q = v := by
  simp [World.active, World.framesInsert_framesValue_self]

/-- The creating branch of `setElementPrefix` returns when the old FrameData, if there is
one, is alive and the registry entries of the consumer's theme point to live objects. -/
theorem setElementPrefixCreate_total (env : Env) (q : SvgId) (old : Ptr) (v : World)
    (hold : old = 0 ∨ ∃ f, v.fd old = some f)
    (hreg : ∀ k x, v.sharedFrames (v.svgs q).theme k = some x → ∃ f, v.fd x = some f) :
    ∃ v4, setElementPrefixCreate env q old v = some v4 := by
  unfold setElementPrefixCreate
  dsimp only
  by_cases h0 : old = 0
  · subst h0
    simp only [ne_eq, not_true_eq_false, if_false, Option.some_bind]
    apply updateSizes_total
    rw [World.active]
    simp only [World.framesInsert_actualPrefix, World.alloc_svgs,
      World.framesInsert_framesValue_self, World.framesInsert_fd]
    exact ⟨_, World.fd_alloc_new v _⟩
  · rcases hold with hold | ⟨f, hf⟩
    · exact absurd hold h0
    · simp only [ne_eq, h0, not_false_eq_true, if_true, hf, Option.some_bind]
      have hall := World.fd_alloc_old v (f.copy q) f old hf
      cases he : f.frameSize.isEmpty with
      | true =>
        simp only [Bool.not_true, Bool.false_eq_true, if_false, Option.some_bind,
          not_true_eq_false, hf, Bool.and_false]
        apply updateSizes_total
        rw [World.active]
        simp only [World.framesInsert_actualPrefix, World.alloc_svgs,
          World.framesInsert_framesValue_self, World.framesInsert_fd]
        exact ⟨_, World.fd_alloc_new v _⟩
      | false =>
        have hv : f.frameSize.isValid = true := QSize.valid_of_not_empty _ he
        simp only [Bool.not_false, if_true, cacheId_valid env q old _ v f hf hv,
          Option.some_bind, Bool.and_true]
        have htail : ∃ v4, ((cacheId env q old (v.svgs q).actualPrefix
            ((v.alloc (f.copy q)).2.framesInsert q (v.svgs q).actualPrefix
              (v.alloc (f.copy q)).1)).bind fun k =>
            (k.2.fd (v.alloc (f.copy q)).1).bind fun nf =>
              some ((k.2.sharedInsert (k.2.svgs q).theme k.1 (v.alloc (f.copy q)).1).setFd
                (v.alloc (f.copy q)).1 { nf with theme := (k.2.svgs q).theme })).bind
            (fun w3 => updateSizes env q w3) = some v4 := by
          rw [cacheId_valid env q old _ _ f (by simp; exact hall.1) hv]
          simp only [Option.some_bind, World.framesInsert_fd, World.fd_alloc_new]
          apply updateSizes_total
          rw [World.active]
          simp only [World.setFd_svgs, World.sharedInsert_svgs, World.setFd_framesValue,
            World.sharedInsert_framesValue, World.framesInsert_actualPrefix, World.alloc_svgs,
            World.framesInsert_framesValue_self]
          refine ⟨_, World.fd_setFd_self _ _ (f.copy q) _ ?_⟩
          simp [World.fd_alloc_new]
        by_cases hfound : v.sharedValue (v.svgs q).theme
            (cacheKey env f.enabledBorders f.frameSize.width f.frameSize.height
              (v.svgs q).scaleFactor (v.svgs q).devicePixelRatio (v.svgs q).actualPrefix
              (v.svgs q).imagePath) = 0
        · simp only [hfound, not_true_eq_false, if_false, Option.some_bind, hf,
            decide_True, if_true]
          exact htail
        · obtain ⟨nf, hnf⟩ := hreg _ _ (World.sharedValue_ne_zero v _ _ hfound)
          simp only [hfound, not_false_eq_true, if_true, hnf, Option.some_bind]
          by_cases hd : nf.devicePixelRatio = (v.svgs q).devicePixelRatio
          · simp only [hd, not_true_eq_false, if_false, Option.some_bind, hfound,
              not_false_eq_true, if_true, World.ref_eq v _ q nf hnf, decide_False,
              Bool.false_and, Bool.false_eq_true]
            apply updateSizes_total
            rw [World.active]
            simp only [World.framesInsert_actualPrefix, World.setFd_svgs,
              World.framesInsert_framesValue_self, World.framesInsert_fd]
            exact ⟨_, World.fd_setFd_self v _ nf _ hnf⟩
          · simp only [hd, not_false_eq_true, if_true, Option.some_bind, hf,
              not_true_eq_false, if_false, decide_True, Bool.true_and]
            exact htail

end Plasma
namespace Plasma

/-! ## What `setElementPrefix` does, for every starting state -/

/-- The creating branch of `setElementPrefix`, with or without an old FrameData: the
consumer gets the entry `p2` under its active prefix; `p2` is a FrameData that was alive
and is referenced once more, or a fresh one that only the consumer references; every
other FrameData is left as `updateSizes` leaves it. -/
theorem setElementPrefixCreate_effects (env : Env) (q : SvgId) (old : Ptr) (v v4 : World)
    (h : setElementPrefixCreate env q old v = some v4) :
    ∃ p2 f2, v4.svgs = (v.framesInsert q (v.svgs q).actualPrefix p2).svgs
      ∧ (∀ x, x ≠ p2 → QuietFd (v.fd x) (v4.fd x))
      ∧ v4.fd p2 = some f2
      ∧ ((∃ nf, v.fd p2 = some nf ∧ QuietFd (some (nf.ref q)) (some f2)
            ∧ v4.sharedFrames = v.sharedFrames)
        ∨ (v.fd p2 = none ∧ f2.references = [(q, 1)]
            ∧ (v4.sharedFrames = v.sharedFrames
              ∨ v4.sharedFrames = (v.sharedInsert (v.svgs q).theme
                    (keyOf env v q f2.enabledBorders f2.frameSize) p2).sharedFrames)))
      ∧ (old ≠ 0 → ∃ f, v.fd old = some f) := by
  by_cases h0 : old = 0
  · subst h0
    unfold setElementPrefixCreate at h
    simp only [ne_eq, not_true_eq_false, if_false, Option.some_bind] at h
    have hq := updateSizes_quiet env q _ v4 h
    have h3f : ((v.alloc (FrameData.create q (v.svgs q).actualPrefix
        (v.svgs q).devicePixelRatio)).2.framesInsert q (v.svgs q).actualPrefix
        (v.alloc (FrameData.create q (v.svgs q).actualPrefix
          (v.svgs q).devicePixelRatio)).1).fd
        (v.alloc (FrameData.create q (v.svgs q).actualPrefix
          (v.svgs q).devicePixelRatio)).1
        = some (FrameData.create q (v.svgs q).actualPrefix (v.svgs q).devicePixelRatio) := by
      rw [World.framesInsert_fd]
      exact World.fd_alloc_new v _
    obtain ⟨f2, hf2, hr, -⟩ := QuietFd.some_of_quiet hq h3f
    refine ⟨_, f2, ?_, ?_, hf2,
      Or.inr ⟨World.fd_alloc_fresh v _, by rw [hr]; rfl, Or.inl ?_⟩, fun hc => absurd rfl hc⟩
    · rw [hq.1]
      simp [World.framesInsert, World.setSvg, World.alloc]
    · intro x hx
      have := hq.2.2 x
      rw [World.framesInsert_fd, World.fd_alloc_ne v _ x hx] at this
      exact this
    · rw [hq.2.1]
      simp [World.framesInsert, World.setSvg, World.alloc]
  · have hlive : ∃ f, v.fd old = some f := by
      unfold setElementPrefixCreate at h
      simp only [ne_eq, h0, not_false_eq_true, if_true] at h
      cases hf : v.fd old with
      | none => simp [hf] at h
      | some f => exact ⟨f, rfl⟩
    obtain ⟨f, hf⟩ := hlive
    obtain ⟨p2, f2, h1, h2, h3, h4⟩ := setElementPrefixCreate_summary env q old v v4 f h0 hf h
    refine ⟨p2, f2, h1, h2, h3, ?_, fun _ => ⟨f, hf⟩⟩
    rcases h4 with ⟨nf, -, -, hnf, hq, hs⟩ | ⟨hn, hr, hs⟩
    · exact Or.inl ⟨nf, hnf, hq, hs⟩
    · refine Or.inr ⟨hn, hr, ?_⟩
      rcases hs with hs | ⟨-, -, hs⟩
      · exact Or.inl hs
      · exact Or.inr hs

/-- The stages of `setElementPrefix`: the early return; or the creation of the FrameData of
the new prefix when the consumer has none, the release of the old one unless cache-all
mode is on, and the reset of the location. -/
theorem setElementPrefix_stages (env : Env) (q : SvgId) (a : String) (w wf : World)
    (h : setElementPrefix env q a w = some wf) :
    ∃ w1, w1 = w.setSvg q { w.svgs q with
        actualPrefix := resolvePrefix env w q a, requestedPrefix := a }
      ∧ (((w.svgs q).actualPrefix = resolvePrefix env w q a
            ∧ w.framesValue q (w.svgs q).actualPrefix ≠ 0 ∧ wf = w1)
        ∨ (¬ ((w.svgs q).actualPrefix = resolvePrefix env w q a
              ∧ w.framesValue q (w.svgs q).actualPrefix ≠ 0)
          ∧ ∃ w2 w4,
            ((QHash.contains (w.svgs q).frames (resolvePrefix env w q a) = true ∧ w2 = w1)
              ∨ (QHash.contains (w.svgs q).frames (resolvePrefix env w q a) = false
                ∧ setElementPrefixCreate env q
                    (w.framesValue q (w.svgs q).actualPrefix) w1 = some w2))
            ∧ (((w2.svgs q).cacheAll = true ∧ w4 = w2)
              ∨ ((w2.svgs q).cacheAll = false
                  ∧ w.framesValue q (w.svgs q).actualPrefix = 0
                  ∧ w4 = w2.framesRemove q (w.svgs q).actualPrefix)
              ∨ ((w2.svgs q).cacheAll = false
                  ∧ w.framesValue q (w.svgs q).actualPrefix ≠ 0
                  ∧ (((w2.framesRemove q (w.svgs q).actualPrefix).deref
                        (w.framesValue q (w.svgs q).actualPrefix) q).bind fun r =>
                      if r.1 = true then
                        (cacheId env q (w.framesValue q (w.svgs q).actualPrefix)
                            (w.svgs q).actualPrefix r.2).bind fun k =>
                          (k.2.fd (w.framesValue q (w.svgs q).actualPrefix)).bind fun fd =>
                            (k.2.sharedRemove fd.theme k.1).delete
                              (w.framesValue q (w.svgs q).actualPrefix)
                      else some r.2) = some w4))
            ∧ wf = w4.setSvg q { w4.svgs q with location := Location.Floating })) := by
  refine ⟨_, rfl, ?_⟩
  unfold setElementPrefix at h
  dsimp only at h
  generalize hw1 : w.setSvg q { w.svgs q with
    actualPrefix := resolvePrefix env w q a, requestedPrefix := a } = w1 at h ⊢
  have h1q : w1.svgs q = { w.svgs q with
      actualPrefix := resolvePrefix env w q a, requestedPrefix := a } := by
    rw [← hw1]; simp
  have h1px : (w1.svgs q).actualPrefix = resolvePrefix env w q a := by rw [h1q]
  have h1fr : (w1.svgs q).frames = (w.svgs q).frames := by rw [h1q]
  have h1fv : ∀ k, w1.framesValue q k = w.framesValue q k := by
    intro k
    simp [World.framesValue, h1fr]
  simp only [h1fv, h1px, h1fr] at h
  by_cases hearly : (w.svgs q).actualPrefix = resolvePrefix env w q a
      ∧ w.framesValue q (w.svgs q).actualPrefix ≠ 0
  · rw [if_pos hearly] at h
    exact Or.inl ⟨hearly.1, hearly.2, (Option.some.inj h).symm⟩
  · rw [if_neg hearly] at h
    refine Or.inr ⟨hearly, ?_⟩
    obtain ⟨w2, h2, h3⟩ := Option.bind_eq_some.1 h
    obtain ⟨w4, h4, h5⟩ := Option.bind_eq_some.1 h3
    refine ⟨w2, w4, ?_, ?_, (Option.some.inj h5).symm⟩
    · cases hc : QHash.contains (w.svgs q).frames (resolvePrefix env w q a) with
      | true =>
        simp only [hc, Bool.not_true, Bool.false_eq_true, if_false, Option.some.injEq] at h2
        exact Or.inl ⟨rfl, h2.symm⟩
      | false =>
        simp only [hc, Bool.not_false, if_true] at h2
        exact Or.inr ⟨rfl, h2⟩
    · cases hca : (w2.svgs q).cacheAll with
      | true =>
        simp only [hca, Bool.not_true, Bool.false_eq_true, if_false, Option.some.injEq] at h4
        exact Or.inl ⟨rfl, h4.symm⟩
      | false =>
        simp only [hca, Bool.not_false, if_true] at h4
        by_cases h0 : w.framesValue q (w.svgs q).actualPrefix = 0
        · simp only [h0, ne_eq, not_true_eq_false, if_false, Option.some.injEq] at h4
          exact Or.inr (Or.inl ⟨rfl, h0, h4.symm⟩)
        · simp only [ne_eq, h0, not_false_eq_true, if_true] at h4
          exact Or.inr (Or.inr ⟨rfl, h0, h4⟩)

end Plasma
namespace Plasma

@[simp] theorem World.framesRemove_fd (w : World) (q : SvgId) (k : String) (p : Ptr) :
    (w.framesRemove q k).fd p = w.fd p := by
  simp [World.framesRemove]

@[simp] theorem World.framesRemove_sharedFrames (w : World) (q : SvgId) (k : String) :
    (w.framesRemove q k).sharedFrames = w.sharedFrames := by
  simp [World.framesRemove]

theorem World.framesRemove_svgs_self (w : World) (q : SvgId) (k : String) :
    (w.framesRemove q k).svgs q
      = { w.svgs q with frames := QHash.remove (w.svgs q).frames k } := by
  simp [World.framesRemove]

theorem World.framesRemove_svgs_ne (w : World) (q q2 : SvgId) (k : String) (h : q2 ≠ q) :
    (w.framesRemove q k).svgs q2 = w.svgs q2 := by
  simp [World.framesRemove, World.setSvg_svgs_ne _ _ _ _ h]

theorem World.framesInsert_svgs_self (w : World) (q : SvgId) (k : String) (v : Ptr) :
    (w.framesInsert q k v).svgs q
      = { w.svgs q with frames := QHash.insert (w.svgs q).frames k v } := by
  simp [World.framesInsert]

theorem World.framesValue_live (w : World) (q : SvgId) (k : String)
    (hframes : ∀ k x, QHash.value (w.svgs q).frames k = some x → ∃ f, w.fd x = some f) :
    w.framesValue q k = 0 ∨ ∃ f, w.fd (w.framesValue q k) = some f := by
  cases hv : QHash.value (w.svgs q).frames k with
  | none => left; simp [World.framesValue, hv]
  | some x =>
    right
    simp only [World.framesValue, hv, Option.getD_some]
    exact hframes k x hv

/-- `setElementPrefix` returns whenever the consumer's collection and the registry of its
theme hold pointers to live FrameData only. -/
theorem setElementPrefix_total (env : Env) (q : SvgId) (a : String) (w : World)
    (hframes : ∀ k x, QHash.value (w.svgs q).frames k = some x → ∃ f, w.fd x = some f)
    (hreg : ∀ k x, w.sharedFrames (w.svgs q).theme k = some x → ∃ f, w.fd x = some f) :
    ∃ wf, setElementPrefix env q a w = some wf := by
  unfold setElementPrefix
  dsimp only
  generalize hw1 : w.setSvg q { w.svgs q with
    actualPrefix := resolvePrefix env w q a, requestedPrefix := a } = w1
  have h1q : w1.svgs q = { w.svgs q with
      actualPrefix := resolvePrefix env w q a, requestedPrefix := a } := by
    rw [← hw1]; simp
  have h1px : (w1.svgs q).actualPrefix = resolvePrefix env w q a := by rw [h1q]
  have h1fr : (w1.svgs q).frames = (w.svgs q).frames := by rw [h1q]
  have h1th : (w1.svgs q).theme = (w.svgs q).theme := by rw [h1q]
  have h1fd : ∀ x, w1.fd x = w.fd x := by
    intro x; rw [← hw1]; simp
  have h1sh : w1.sharedFrames = w.sharedFrames := by rw [← hw1]; simp
  have h1fv : ∀ k, w1.framesValue q k = w.framesValue q k := by
    intro k
    simp [World.framesValue, h1fr]
  simp only [h1fv, h1px, h1fr]
  by_cases hearly : (w.svgs q).actualPrefix = resolvePrefix env w q a
      ∧ w.framesValue q (w.svgs q).actualPrefix ≠ 0
  · rw [if_pos hearly]
    exact ⟨_, rfl⟩
  · rw [if_neg hearly]
    have hold := World.framesValue_live w q (w.svgs q).actualPrefix hframes
    -- the FrameData of the new prefix
    have h2 : ∃ w2, (if (!QHash.contains (w.svgs q).frames (resolvePrefix env w q a)) = true
          then setElementPrefixCreate env q (w.framesValue q (w.svgs q).actualPrefix) w1
          else some w1) = some w2
        ∧ (∀ x, (∃ f, w.fd x = some f) → ∃ f, w2.fd x = some f)
        ∧ (∃ g, w2.fd (w2.framesValue q (resolvePrefix env w q a)) = some g)
        ∧ (w2.svgs q).actualPrefix = resolvePrefix env w q a := by
      cases hc : QHash.contains (w.svgs q).frames (resolvePrefix env w q a) with
      | true =>
        simp only [Bool.not_true, Bool.false_eq_true, if_false]
        refine ⟨w1, rfl, fun x hx => by rw [h1fd]; exact hx, ?_, h1px⟩
        rw [h1fv, h1fd]
        simp only [QHash.contains] at hc
        obtain ⟨x, hx⟩ := Option.isSome_iff_exists.1 hc
        simp only [World.framesValue, hx, Option.getD_some]
        exact hframes _ x hx
      | false =>
        simp only [Bool.not_false, if_true]
        obtain ⟨w2, hw2⟩ := setElementPrefixCreate_total env q
          (w.framesValue q (w.svgs q).actualPrefix) w1
          (by simpa only [h1fd] using hold)
          (by
            intro k x hk
            rw [h1sh, h1th] at hk
            rw [h1fd]
            exact hreg k x hk)
        obtain ⟨p2, f2, e1, e2, e3, -, -⟩ := setElementPrefixCreate_effects env q _ w1 w2 hw2
        refine ⟨w2, hw2, ?_, ?_, ?_⟩
        · intro x hx
          by_cases hxp : x = p2
          · subst hxp
            exact ⟨f2, e3⟩
          · have := e2 x hxp
            obtain ⟨f, hf⟩ := hx
            rw [h1fd, hf] at this
            obtain ⟨b, hb, -⟩ := this.of_some
            exact ⟨b, hb⟩
        · have : w2.framesValue q (resolvePrefix env w q a) = p2 := by
            simp only [World.framesValue, e1]
            rw [World.framesInsert_svgs_self, h1px]
            simp [QHash.value_insert_self]
          rw [this]
          exact ⟨f2, e3⟩
        · rw [e1, World.framesInsert_actualPrefix, h1px]
    obtain ⟨w2, hw2, hlive, hact, hpx2⟩ := h2
    rw [hw2]
    simp only [Option.some_bind]
    cases hca : (w2.svgs q).cacheAll with
    | true =>
      simp only [Bool.not_true, Bool.false_eq_true, if_false, Option.some_bind]
      exact ⟨_, rfl⟩
    | false =>
      simp only [Bool.not_false, if_true]
      by_cases h0 : w.framesValue q (w.svgs q).actualPrefix = 0
      · simp only [h0, ne_eq, not_true_eq_false, if_false, Option.some_bind]
        exact ⟨_, rfl⟩
      · simp only [ne_eq, h0, not_false_eq_true, if_true]
        rcases hold with hold | hold
        · exact absurd hold h0
        · obtain ⟨f, hf⟩ := hlive _ hold
          have hne : resolvePrefix env w q a ≠ (w.svgs q).actualPrefix := by
            intro hc
            exact hearly ⟨hc.symm, h0⟩
          obtain ⟨g, hg⟩ := hact
          obtain ⟨w4, hw4⟩ := setElementPrefix_release_total env q
            (w.framesValue q (w.svgs q).actualPrefix) (w.svgs q).actualPrefix
            (w2.framesRemove q (w.svgs q).actualPrefix) f (by simpa using hf)
            (Or.inr ⟨g, by
              rw [World.active, World.framesRemove_fd]
              have : (w2.framesRemove q (w.svgs q).actualPrefix).framesValue q
                  ((w2.framesRemove q (w.svgs q).actualPrefix).svgs q).actualPrefix
                  = w2.framesValue q (resolvePrefix env w q a) := by
                simp only [World.framesValue, World.framesRemove_svgs_self, hpx2]
                rw [QHash.value_remove_ne _ _ _ hne]
              rw [this]
              exact hg⟩)
          rw [hw4]
          simp only [Option.some_bind]
          exact ⟨_, rfl⟩

end Plasma
namespace Plasma

theorem World.deref_live (w : World) (p : Ptr) (q : SvgId) (r : Bool × World)
    (h : w.deref p q = some r) : ∃ f, w.fd p = some f := by
  cases hf : w.fd p with
  | none => simp [World.deref, hf] at h
  | some f => exact ⟨f, rfl⟩

/-- The consumer's record after `setElementPrefix`: the two prefixes are set; cache-all
mode and the other consumers are untouched; the collection gets an entry for the new
prefix when it had none and, unless cache-all mode is on or the call returned early,
loses the entry of the old prefix. -/
theorem setElementPrefix_record (env : Env) (q : SvgId) (a : String) (w wf : World)
    (h : setElementPrefix env q a w = some wf) :
    (wf.svgs q).requestedPrefix = a
      ∧ (wf.svgs q).actualPrefix = resolvePrefix env w q a
      ∧ (wf.svgs q).cacheAll = (w.svgs q).cacheAll
      ∧ (∀ c, c ≠ q → wf.svgs c = w.svgs c)
      ∧ ∃ F2, ((QHash.contains (w.svgs q).frames (resolvePrefix env w q a) = true
            ∧ F2 = (w.svgs q).frames)
          ∨ (QHash.contains (w.svgs q).frames (resolvePrefix env w q a) = false
            ∧ ∃ p2, p2 ≠ 0
              ∧ F2 = QHash.insert (w.svgs q).frames (resolvePrefix env w q a) p2))
        ∧ (wf.svgs q).frames
            = (if (w.svgs q).cacheAll = true
                  ∨ ((w.svgs q).actualPrefix = resolvePrefix env w q a
                    ∧ w.framesValue q (w.svgs q).actualPrefix ≠ 0)
               then F2 else QHash.remove F2 (w.svgs q).actualPrefix) := by
  obtain ⟨w1, hw1, hst⟩ := setElementPrefix_stages env q a w wf h
  have h1q : w1.svgs q = { w.svgs q with
      actualPrefix := resolvePrefix env w q a, requestedPrefix := a } := by
    rw [hw1]; simp
  have h1ne : ∀ c, c ≠ q → w1.svgs c = w.svgs c := by
    intro c hc
    rw [hw1]
    exact World.setSvg_svgs_ne w q c _ hc
  rcases hst with ⟨hpx, hold, hwf⟩ | ⟨hearly, w2, w4, hs2, hs3, hwf⟩
  · subst hwf
    refine ⟨by rw [h1q], by rw [h1q], by rw [h1q], h1ne, (w.svgs q).frames, Or.inl ⟨?_, rfl⟩, ?_⟩
    · rw [← hpx]
      simp only [World.framesValue] at hold
      cases hv : QHash.value (w.svgs q).frames (w.svgs q).actualPrefix with
      | none => rw [hv] at hold; simp at hold
      | some x => simp [QHash.contains, hv]
    · rw [if_pos (Or.inr ⟨hpx, hold⟩), h1q]
  · -- the record after the second stage
    have h2 : ∃ F2, ((QHash.contains (w.svgs q).frames (resolvePrefix env w q a) = true
            ∧ F2 = (w.svgs q).frames)
          ∨ (QHash.contains (w.svgs q).frames (resolvePrefix env w q a) = false
            ∧ ∃ p2, p2 ≠ 0
              ∧ F2 = QHash.insert (w.svgs q).frames (resolvePrefix env w q a) p2))
        ∧ w2.svgs q = { w.svgs q with
            actualPrefix := resolvePrefix env w q a, requestedPrefix := a, frames := F2 }
        ∧ ∀ c, c ≠ q → w2.svgs c = w.svgs c := by
      rcases hs2 with ⟨hc, h2⟩ | ⟨hc, h2⟩
      · subst h2
        exact ⟨_, Or.inl ⟨hc, rfl⟩, by rw [h1q], h1ne⟩
      · obtain ⟨p2, f2, e1, -, e3, -, -⟩ := setElementPrefixCreate_effects env q _ w1 w2 h2
        refine ⟨_, Or.inr ⟨hc, p2, World.fd_ne_zero e3, rfl⟩, ?_, ?_⟩
        · rw [e1, World.framesInsert_svgs_self, h1q]
        · intro c hc2
          rw [e1, World.framesInsert_svgs_ne _ _ _ _ _ hc2]
          exact h1ne c hc2
    obtain ⟨F2, hF2, h2q, h2ne⟩ := h2
    have h2ca : (w2.svgs q).cacheAll = (w.svgs q).cacheAll := by rw [h2q]
    -- the record after the third stage
    have h4 : ∀ F4, F4 = (if (w.svgs q).cacheAll = true then F2
          else QHash.remove F2 (w.svgs q).actualPrefix) →
        w4.svgs q = { w2.svgs q with frames := F4 }
        ∧ ∀ c, c ≠ q → w4.svgs c = w.svgs c := by
      intro F4 hF4
      subst hF4
      rcases hs3 with ⟨hca, h4⟩ | ⟨hca, -, h4⟩ | ⟨hca, -, h4⟩
      · subst h4
        rw [h2ca] at hca
        refine ⟨?_, h2ne⟩
        rw [if_pos hca, h2q]
      · subst h4
        rw [h2ca] at hca
        refine ⟨?_, fun c hc => ?_⟩
        · rw [World.framesRemove_svgs_self, if_neg (by simp [hca]), h2q]
        · rw [World.framesRemove_svgs_ne _ _ _ _ hc]
          exact h2ne c hc
      · rw [h2ca] at hca
        obtain ⟨r, hr, -⟩ := Option.bind_eq_some.1 h4
        obtain ⟨f, hf⟩ := World.deref_live _ _ _ _ hr
        obtain ⟨e1, -, -⟩ := setElementPrefix_release env q _ _ _ w4 f hf h4
        refine ⟨?_, fun c hc => ?_⟩
        · rw [e1, World.framesRemove_svgs_self, if_neg (by simp [hca]), h2q]
        · rw [e1, World.framesRemove_svgs_ne _ _ _ _ hc]
          exact h2ne c hc
    obtain ⟨h4q, h4ne⟩ := h4 _ rfl
    subst hwf
    refine ⟨by simp [h4q, h2q], by simp [h4q, h2q], by simp [h4q, h2q], ?_, F2, hF2, ?_⟩
    · intro c hc
      rw [World.setSvg_svgs_ne _ _ _ _ hc]
      exact h4ne c hc
    · simp only [World.setSvg_svgs_self, h4q]
      by_cases hca : (w.svgs q).cacheAll = true
      · simp [hca]
      · simp [hca, hearly]

end Plasma
namespace Plasma

/-! ## Reachable states are well formed -/

theorem Inv.frames_live {env : Env} {qs : List SvgId} {w : World} (hinv : Inv env qs w)
    {q : SvgId} (hq : q ∈ qs) :
    ∀ k x, QHash.value (w.svgs q).frames k = some x → ∃ f, w.fd x = some f := by
  obtain ⟨p, fd, hold, hfd, -⟩ := hinv.holds hq
  intro k x hk
  rw [hold] at hk
  simp only [QHash.value] at hk
  split at hk
  · simp only [Option.some.injEq] at hk
    subst hk
    exact ⟨fd, hfd⟩
  · simp at hk

theorem Inv.registry_live {env : Env} {qs : List SvgId} {w : World} (hinv : Inv env qs w) :
    ∀ t k x, w.sharedFrames t k = some x → ∃ f, w.fd x = some f := by
  intro t k x hk
  obtain ⟨fd, hfd, -⟩ := hinv.registered t k x hk
  exact ⟨fd, hfd⟩

theorem sizedEnv_natural : ∀ t path, (sizedEnv.naturalSize t path).isValid = true :=
  fun _ _ => rfl

theorem registeredWorld_reachable : Reachable sizedEnv [1] registeredWorld :=
  Reachable.setImagePath [1] (construct 1 blankSvg World.empty) registeredWorld 1 "bg"
    (Reachable.construct [] World.empty 1 blankSvg Reachable.init (by simp)) (by simp)
    (Option.eq_some_getD _ World.empty (by decide))

theorem registeredWorld_inv : Inv sizedEnv [1] registeredWorld :=
  Reachable.inv sizedEnv sizedEnv_natural [1] registeredWorld registeredWorld_reachable

end Plasma
namespace Plasma

/-! ## Reference sets through `ref` and `deref` -/

theorem FrameData.count_ref (f : FrameData) (q : SvgId) : (f.ref q).count q = f.count q + 1 :=
  FrameData.count_of_value _ q _ (FrameData.value_ref_self f q)

/-- What `deref` returns, read off the reference set before the call: the set is not empty
afterwards exactly when the consumer was counted at least twice or another consumer is in
the set. -/
theorem FrameData.deref_keeps_iff (f : FrameData) (q : SvgId) :
    (f.deref q).1 = false
      ↔ (2 ≤ f.count q ∨ ∃ c n, c ≠ q ∧ QHash.value f.references c = some n) := by
  obtain ⟨h1, h2, h3⟩ := FrameData.deref_facts f q
  constructor
  · intro h
    have hne : (f.deref q).2.references ≠ [] := by
      intro hc
      rw [h3.2 hc] at h
      exact absurd h (by simp)
    obtain ⟨k, v, hk⟩ := QHash.exists_value _ hne
    by_cases hkq : k = q
    · subst hkq
      rw [h1] at hk
      left
      by_contra hc
      rw [if_pos (by omega)] at hk
      simp at hk
    · right
      rw [h2 k hkq] at hk
      exact ⟨k, v, hkq, hk⟩
  · intro h
    cases hb : (f.deref q).1 with
    | false => rfl
    | true =>
      exfalso
      have he := h3.1 hb
      rcases h with h | ⟨c, n, hc, hv⟩
      · rw [he, if_neg (by omega)] at h1
        simp [QHash.value] at h1
      · have := h2 c hc
        rw [he, hv] at this
        simp [QHash.value] at this

theorem FrameData.count_deref (f : FrameData) (q : SvgId) :
    f.count q - 1 ≤ (f.deref q).2.count q
      ∧ (2 ≤ f.count q → 1 ≤ (f.deref q).2.count q) := by
  obtain ⟨h1, -, -⟩ := FrameData.deref_facts f q
  by_cases hc : f.count q - 1 < 1
  · rw [if_pos hc] at h1
    rw [FrameData.count_of_none _ q h1]
    constructor <;> omega
  · rw [if_neg hc] at h1
    rw [FrameData.count_of_value _ q _ h1]
    constructor <;> omega

theorem FrameData.count_congr (f g : FrameData) (q : SvgId)
    (h : g.references = f.references) : g.count q = f.count q := by
  simp [FrameData.count, h]

end Plasma
namespace Plasma

/-- The heap and the registry after `setElementPrefix`.  A FrameData other than the old
active one, and the old active one too when the call returns early or cache-all mode is
on, stays alive, keeps the counts of the other consumers and does not lose a count of the
caller.  The old active FrameData stays alive when its reference set is not empty after
one release.  A FrameData created for the new prefix is referenced by the caller only.
Registry entries stay unless the old FrameData is destroyed, but for an entry of the
caller's theme under a key of the new prefix, which the call may overwrite. -/
theorem setElementPrefix_heap (env : Env) (q : SvgId) (a : String) (w wf : World)
    (h : setElementPrefix env q a w = some wf) :
    (∀ x f, w.fd x = some f →
        (x ≠ w.framesValue q (w.svgs q).actualPrefix ∨ (w.svgs q).cacheAll = true
          ∨ ((w.svgs q).actualPrefix = resolvePrefix env w q a
            ∧ w.framesValue q (w.svgs q).actualPrefix ≠ 0)) →
        ∃ f1, wf.fd x = some f1
          ∧ (∀ c, c ≠ q → QHash.value f1.references c = QHash.value f.references c)
          ∧ f.count q ≤ f1.count q)
      ∧ (∀ f, w.fd (w.framesValue q (w.svgs q).actualPrefix) = some f →
          (f.deref q).1 = false →
          ∃ f1, wf.fd (w.framesValue q (w.svgs q).actualPrefix) = some f1
            ∧ (∀ c, c ≠ q → QHash.value f1.references c = QHash.value f.references c)
            ∧ f.count q - 1 ≤ f1.count q ∧ (2 ≤ f.count q → 1 ≤ f1.count q))
      ∧ (QHash.contains (w.svgs q).frames (resolvePrefix env w q a) = false →
          (resolvePrefix env w q a ≠ (w.svgs q).actualPrefix ∨ (w.svgs q).cacheAll = true) →
          w.fd (wf.framesValue q (resolvePrefix env w q a)) = none →
          ∃ f2, wf.fd (wf.framesValue q (resolvePrefix env w q a)) = some f2
            ∧ f2.references = [(q, 1)])
      ∧ (QHash.contains (w.svgs q).frames (resolvePrefix env w q a) = false →
          resolvePrefix env w q a ≠ (w.svgs q).actualPrefix →
          wf.framesValue q (resolvePrefix env w q a)
            = w.framesValue q (w.svgs q).actualPrefix →
          ∀ f, w.fd (w.framesValue q (w.svgs q).actualPrefix) = some f → 1 ≤ f.count q →
          ∃ f1, wf.fd (w.framesValue q (w.svgs q).actualPrefix) = some f1
            ∧ f.count q ≤ f1.count q)
      ∧ (∀ t k x, w.sharedFrames t k = some x →
          ((w.svgs q).cacheAll = true
            ∨ ((w.svgs q).actualPrefix = resolvePrefix env w q a
              ∧ w.framesValue q (w.svgs q).actualPrefix ≠ 0)
            ∨ w.framesValue q (w.svgs q).actualPrefix = 0
            ∨ ∃ f, w.fd (w.framesValue q (w.svgs q).actualPrefix) = some f
                ∧ (f.deref q).1 = false) →
          wf.sharedFrames t k = some x
            ∨ (t = (w.svgs q).theme ∧ ∃ (b : Nat) (s : QSize), k = cacheKey env b s.width s.height
                (w.svgs q).scaleFactor (w.svgs q).devicePixelRatio
                (resolvePrefix env w q a) (w.svgs q).imagePath))
      ∧ (∀ t k x, wf.sharedFrames t k = some x →
          w.sharedFrames t k = some x ∨ (w.fd x = none ∧ ∃ f2, wf.fd x = some f2)) := by
  obtain ⟨w1, hw1, hst⟩ := setElementPrefix_stages env q a w wf h
  have h1q : w1.svgs q = { w.svgs q with
      actualPrefix := resolvePrefix env w q a, requestedPrefix := a } := by
    rw [hw1]; simp
  have h1fd : ∀ x, w1.fd x = w.fd x := by
    intro x; rw [hw1]; simp
  have h1sh : w1.sharedFrames = w.sharedFrames := by rw [hw1]; simp
  rcases hst with ⟨hpx, hold, hwf⟩ | ⟨hearly, w2, w4, hs2, hs3, hwf⟩
  · subst hwf
    have hcont : QHash.contains (w.svgs q).frames (resolvePrefix env w q a) = true := by
      rw [← hpx]
      simp only [World.framesValue] at hold
      cases hv : QHash.value (w.svgs q).frames (w.svgs q).actualPrefix with
      | none => rw [hv] at hold; simp at hold
      | some x => simp [QHash.contains, hv]
    refine ⟨fun x f hf _ => ⟨f, by rw [h1fd]; exact hf, fun _ _ => rfl, le_refl _⟩,
      fun f hf _ => ⟨f, by rw [h1fd]; exact hf, fun _ _ => rfl, by omega, fun h2 => by omega⟩,
      fun hc _ _ => absurd (hcont.symm.trans hc) (by simp),
      fun _ hne _ => absurd hpx.symm hne,
      fun t k x hk _ => Or.inl (by rw [h1sh]; exact hk),
      fun t k x hk => Or.inl (by rw [h1sh] at hk; exact hk)⟩
  · -- the second stage
    have s2 : (∀ x f, w.fd x = some f → ∃ f2, w2.fd x = some f2
          ∧ (∀ c, c ≠ q → QHash.value f2.references c = QHash.value f.references c)
          ∧ f.count q ≤ f2.count q)
        ∧ (QHash.contains (w.svgs q).frames (resolvePrefix env w q a) = false →
            w.fd (w2.framesValue q (resolvePrefix env w q a)) = none →
            ∃ f2, w2.fd (w2.framesValue q (resolvePrefix env w q a)) = some f2
              ∧ f2.references = [(q, 1)])
        ∧ (QHash.contains (w.svgs q).frames (resolvePrefix env w q a) = false →
            ∀ f, w.fd (w2.framesValue q (resolvePrefix env w q a)) = some f →
            ∃ f2, w2.fd (w2.framesValue q (resolvePrefix env w q a)) = some f2
              ∧ f2.count q = f.count q + 1)
        ∧ (∀ t k x, w.sharedFrames t k = some x →
            w2.sharedFrames t k = some x
              ∨ (t = (w.svgs q).theme ∧ ∃ (b : Nat) (s : QSize), k = cacheKey env b s.width s.height
                  (w.svgs q).scaleFactor (w.svgs q).devicePixelRatio
                  (resolvePrefix env w q a) (w.svgs q).imagePath))
        ∧ (∀ t k x, w2.sharedFrames t k = some x →
            w.sharedFrames t k = some x ∨ (w.fd x = none ∧ (∃ f2, w2.fd x = some f2)
              ∧ x ≠ w.framesValue q (w.svgs q).actualPrefix))
        ∧ (w2.svgs q).actualPrefix = resolvePrefix env w q a
        ∧ (w2.svgs q).cacheAll = (w.svgs q).cacheAll := by
      rcases hs2 with ⟨hc, h2⟩ | ⟨hc, h2⟩
      · subst h2
        refine ⟨fun x f hf => ⟨f, by rw [h1fd]; exact hf, fun _ _ => rfl, le_refl _⟩,
          fun hc2 => ?_, fun hc2 => ?_, fun t k x hk => Or.inl (by rw [h1sh]; exact hk),
          fun t k x hk => Or.inl (by rw [h1sh] at hk; exact hk),
          by rw [h1q], by rw [h1q]⟩
        · rw [hc] at hc2
          exact absurd hc2 (by simp)
        · rw [hc] at hc2
          exact absurd hc2 (by simp)
      · obtain ⟨p2, f2, e1, e2, e3, e4, e7⟩ :=
          setElementPrefixCreate_effects env q _ w1 w2 h2
        have hfv : w2.framesValue q (resolvePrefix env w q a) = p2 := by
          simp only [World.framesValue, e1]
          rw [World.framesInsert_svgs_self, h1q]
          simp [QHash.value_insert_self]
        refine ⟨fun x f hf => ?_, fun _ hnone => ?_, fun _ f hf => ?_,
          fun t k x hk => ?_, fun t k x hk => ?_, ?_, ?_⟩
        · by_cases hx : x = p2
          · subst hx
            rcases e4 with ⟨nf, hnf, hq, -⟩ | ⟨hn, -⟩
            · rw [h1fd, hf] at hnf
              simp only [Option.some.injEq] at hnf
              subst hnf
              refine ⟨f2, e3, fun c hc2 => ?_, ?_⟩
              · rw [hq.1, FrameData.value_ref_ne f q c hc2]
              · rw [FrameData.count_congr _ _ q hq.1, FrameData.count_ref]
                omega
            · rw [h1fd, hf] at hn
              simp at hn
          · have := e2 x hx
            rw [h1fd, hf] at this
            obtain ⟨b, hb, hr⟩ := this.of_some
            exact ⟨b, hb, fun c _ => by rw [hr.1], by rw [FrameData.count_congr _ _ q hr.1]⟩
        · rw [hfv] at hnone ⊢
          rcases e4 with ⟨nf, hnf, -, -⟩ | ⟨-, hr, -⟩
          · rw [h1fd, hnone] at hnf
            simp at hnf
          · exact ⟨f2, e3, hr⟩
        · rw [hfv] at hf ⊢
          rcases e4 with ⟨nf, hnf, hq, -⟩ | ⟨hn, -⟩
          · rw [h1fd, hf] at hnf
            simp only [Option.some.injEq] at hnf
            subst hnf
            exact ⟨f2, e3, by rw [FrameData.count_congr _ _ q hq.1, FrameData.count_ref]⟩
          · rw [h1fd, hf] at hn
            simp at hn
        · rcases e4 with ⟨nf, -, -, hs⟩ | ⟨-, -, hs | hs⟩
          · left; rw [hs, h1sh]; exact hk
          · left; rw [hs, h1sh]; exact hk
          · rw [hs, World.sharedInsert_apply]
            by_cases hkey : t = (w1.svgs q).theme
                ∧ k = keyOf env w1 q f2.enabledBorders f2.frameSize
            · right
              refine ⟨by rw [hkey.1, h1q], f2.enabledBorders, f2.frameSize, ?_⟩
              rw [hkey.2, keyOf, h1q]
            · left
              rw [if_neg hkey, h1sh]
              exact hk
        · rcases e4 with ⟨nf, -, -, hs⟩ | ⟨hn, -, hs | hs⟩
          · left; rw [hs, h1sh] at hk; exact hk
          · left; rw [hs, h1sh] at hk; exact hk
          · rw [hs, World.sharedInsert_apply] at hk
            by_cases hkey : t = (w1.svgs q).theme
                ∧ k = keyOf env w1 q f2.enabledBorders f2.frameSize
            · rw [if_pos hkey] at hk
              simp only [Option.some.injEq] at hk
              subst hk
              right
              refine ⟨by rw [← h1fd]; exact hn, ⟨f2, e3⟩, fun hc2 => ?_⟩
              by_cases h0 : w.framesValue q (w.svgs q).actualPrefix = 0
              · rw [h0] at hc2
                exact World.fd_ne_zero e3 hc2
              · obtain ⟨f0, hf0⟩ := e7 h0
                rw [← hc2, hn] at hf0
                simp at hf0
            · left
              rw [if_neg hkey, h1sh] at hk
              exact hk
        · rw [e1, World.framesInsert_actualPrefix, h1q]
        · rw [e1, World.framesInsert_svgs_self, h1q]
    obtain ⟨s2heap, s2new, s2same, s2reg, s2regc, s2px, s2ca⟩ := s2
    -- the third stage
    have hne_of : w.framesValue q (w.svgs q).actualPrefix ≠ 0 →
        resolvePrefix env w q a ≠ (w.svgs q).actualPrefix :=
      fun h0 hc => hearly ⟨hc.symm, h0⟩
    subst hwf
    simp only [World.setSvg_fd, World.setSvg_sharedFrames]
    have hfvf : ∀ w5 : World, (w5.setSvg q { w5.svgs q with
        location := Location.Floating }).framesValue q (resolvePrefix env w q a)
        = w5.framesValue q (resolvePrefix env w q a) := by
      intro w5
      simp [World.framesValue]
    rw [hfvf]
    rcases hs3 with ⟨hca, h4⟩ | ⟨hca, h0, h4⟩ | ⟨hca, h0, h4⟩
    · subst h4
      refine ⟨fun x f hf _ => s2heap x f hf, fun f hf _ => ?_,
        fun hc _ hn => s2new hc hn, fun _ _ _ f hf _ => ?_, fun t k x hk _ => s2reg t k x hk,
        fun t k x hk => ?_⟩
      rotate_left 2
      · rcases s2regc t k x hk with h6 | ⟨h6, h7, -⟩
        · exact Or.inl h6
        · exact Or.inr ⟨h6, h7⟩
      · obtain ⟨f1, e1, e2, e3⟩ := s2heap _ f hf
        exact ⟨f1, e1, e2, by omega, fun _ => by omega⟩
      · obtain ⟨f1, e1, -, e3⟩ := s2heap _ f hf
        exact ⟨f1, e1, e3⟩
    · subst h4
      simp only [World.framesRemove_fd, World.framesRemove_sharedFrames]
      rw [s2ca] at hca
      refine ⟨fun x f hf _ => s2heap x f hf, fun f hf _ => ?_,
        fun hc hne hn => ?_, fun _ _ _ f hf _ => ?_, fun t k x hk _ => s2reg t k x hk,
        fun t k x hk => ?_⟩
      · obtain ⟨f1, e1, e2, e3⟩ := s2heap _ f hf
        exact ⟨f1, e1, e2, by omega, fun _ => by omega⟩
      rotate_left
      · obtain ⟨f1, e1, -, e3⟩ := s2heap _ f hf
        exact ⟨f1, e1, e3⟩
      · rcases s2regc t k x hk with h6 | ⟨h6, h7, -⟩
        · exact Or.inl h6
        · exact Or.inr ⟨h6, h7⟩
      · have hne : resolvePrefix env w q a ≠ (w.svgs q).actualPrefix := by
          rcases hne with hne | hne
          · exact hne
          · rw [hne] at hca
            exact absurd hca (by simp)
        have : (w2.framesRemove q (w.svgs q).actualPrefix).framesValue q
            (resolvePrefix env w q a) = w2.framesValue q (resolvePrefix env w q a) := by
          simp only [World.framesValue, World.framesRemove_svgs_self]
          rw [QHash.value_remove_ne _ _ _ hne]
        rw [this] at hn ⊢
        exact s2new hc hn
    · obtain ⟨r, hr, -⟩ := Option.bind_eq_some.1 h4
      obtain ⟨g, hg⟩ := World.deref_live _ _ _ _ hr
      obtain ⟨r1, r2, r3⟩ := setElementPrefix_release env q _ _ _ w4 g hg h4
      rw [World.framesRemove_fd] at hg
      rw [s2ca] at hca
      have hfv4 : w4.framesValue q (resolvePrefix env w q a)
          = w2.framesValue q (resolvePrefix env w q a) := by
        simp only [World.framesValue, r1, World.framesRemove_svgs_self]
        rw [QHash.value_remove_ne _ _ _ (hne_of h0)]
      have hother : ∀ x f2, x ≠ w.framesValue q (w.svgs q).actualPrefix →
          w2.fd x = some f2 → ∃ f4, w4.fd x = some f4 ∧ f4.references = f2.references := by
        intro x f2 hx hf2
        have := r2 x hx
        rw [World.framesRemove_fd, hf2] at this
        obtain ⟨b, hb, hq⟩ := this.of_some
        exact ⟨b, hb, hq.1⟩
      have hkeep : ∀ f, w.fd (w.framesValue q (w.svgs q).actualPrefix) = some f →
          (f.deref q).1 = false → (g.deref q).1 = false
            ∧ (∀ c, c ≠ q → QHash.value g.references c = QHash.value f.references c)
            ∧ f.count q ≤ g.count q := by
        intro f hf hd
        obtain ⟨f2, e1, e2, e3⟩ := s2heap _ f hf
        rw [hg] at e1
        simp only [Option.some.injEq] at e1
        subst e1
        refine ⟨?_, e2, e3⟩
        rw [FrameData.deref_keeps_iff] at hd ⊢
        rcases hd with hd | ⟨c, n, hc, hv⟩
        · left; omega
        · right
          exact ⟨c, n, hc, by rw [e2 c hc]; exact hv⟩
      refine ⟨fun x f hf hx => ?_, fun f hf hd => ?_, fun hc hne hn => ?_,
        fun hc _ hsame f hf h1 => ?_, fun t k x hk hcond => ?_, fun t k x hk => ?_⟩
      · rcases hx with hx | hx | hx
        · obtain ⟨f2, e1, e2, e3⟩ := s2heap x f hf
          obtain ⟨f4, g1, g2⟩ := hother x f2 hx e1
          exact ⟨f4, g1, fun c hc => by rw [g2]; exact e2 c hc,
            by rw [FrameData.count_congr _ _ q g2]; exact e3⟩
        · rw [hx] at hca
          exact absurd hca (by simp)
        · exact absurd hx hearly
      · obtain ⟨k1, k2, k3⟩ := hkeep f hf hd
        rcases r3 with ⟨-, r4, -⟩ | ⟨r4, -⟩
        · refine ⟨_, r4, fun c hc => ?_, ?_, fun h2 => ?_⟩
          · rw [FrameData.value_deref_ne g q c hc]
            exact k2 c hc
          · have := (FrameData.count_deref g q).1
            omega
          · exact (FrameData.count_deref g q).2 (by omega)
        · rw [k1] at r4
          exact absurd r4 (by simp)
      · rw [hfv4] at hn ⊢
        obtain ⟨f2, e1, e2⟩ := s2new hc hn
        have hx : w2.framesValue q (resolvePrefix env w q a)
            ≠ w.framesValue q (w.svgs q).actualPrefix := by
          intro hc2
          obtain ⟨f0, hf0⟩ : ∃ f0, w.fd (w.framesValue q (w.svgs q).actualPrefix) = some f0 := by
            rcases hs2 with ⟨hc3, -⟩ | ⟨-, h2⟩
            · rw [hc3] at hc
              exact absurd hc (by simp)
            · obtain ⟨_, _, _, _, _, _, e7⟩ := setElementPrefixCreate_effects env q _ w1 w2 h2
              obtain ⟨f0, hf0⟩ := e7 h0
              exact ⟨f0, by rw [← h1fd]; exact hf0⟩
          rw [hc2, hf0] at hn
          simp at hn
        obtain ⟨f4, g1, g2⟩ := hother _ f2 hx e1
        exact ⟨f4, g1, by rw [g2]; exact e2⟩
      · rw [hfv4] at hsame
        have hf' := hf
        rw [← hsame] at hf'
        obtain ⟨f2, e1, e2⟩ := s2same hc f hf'
        rw [hsame, hg] at e1
        simp only [Option.some.injEq] at e1
        subst e1
        have hk1 : (g.deref q).1 = false := by
          rw [FrameData.deref_keeps_iff]
          left; omega
        rcases r3 with ⟨-, r4, -⟩ | ⟨r4, -⟩
        · refine ⟨_, r4, ?_⟩
          have := (FrameData.count_deref g q).1
          omega
        · rw [hk1] at r4
          exact absurd r4 (by simp)
      · rcases hcond with hc | hc | hc | ⟨f, hf, hd⟩
        · rw [hc] at hca
          exact absurd hca (by simp)
        · exact absurd hc hearly
        · exact absurd hc h0
        · obtain ⟨k1, -, -⟩ := hkeep f hf hd
          rcases r3 with ⟨-, -, r5⟩ | ⟨r4, -⟩
          · rw [r5, World.framesRemove_sharedFrames]
            exact s2reg t k x hk
          · rw [k1] at r4
            exact absurd r4 (by simp)
      · have hk2 : w2.sharedFrames t k = some x := by
          rcases r3 with ⟨-, -, r5⟩ | ⟨-, -, k5, -, r5⟩
          · rw [r5, World.framesRemove_sharedFrames] at hk
            exact hk
          · rw [r5, World.sharedRemove_apply] at hk
            split at hk
            · simp at hk
            · rw [World.framesRemove_sharedFrames] at hk
              exact hk
        rcases s2regc t k x hk2 with h6 | ⟨h6, ⟨f2, h7⟩, h8⟩
        · exact Or.inl h6
        · obtain ⟨f4, g1, -⟩ := hother x f2 h8 h7
          exact Or.inr ⟨h6, f4, g1⟩

end Plasma
namespace Plasma

/-- Cache keys of one consumer state that carry different prefixes are different, whatever
the borders and the size. -/
theorem cacheKey_prefix_inj (env : Env) (b b2 : Nat) (w w2 h h2 : Int) (s d : ℚ)
    (p p2 x : String)
    (hk : cacheKey env b w h s d p x = cacheKey env b2 w2 h2 s d p2 x) : p = p2 := by
  obtain ⟨e1, e2, e3⟩ := cacheKey_head env b b2 w w2 h h2 s s d d p p2 x x hk
  subst e1 e2 e3
  exact (cacheKey_components env b b w w h h s s d d p p2 x x).2.2.2.1.1 hk

theorem twoConsumers_reachable (env : Env) : Reachable env [2, 1] twoConsumers :=
  Reachable.construct [1] (construct 1 blankSvg World.empty) 2 blankSvg
    (Reachable.construct [] World.empty 1 blankSvg Reachable.init (by simp)) (by simp)

theorem sharedSizedWorld_reachable : Reachable sizedEnv [2, 1] sharedSizedWorld :=
  Reachable.resizeFrame [2, 1] _ _ 2 size200
    (Reachable.setImagePath [2, 1] _ _ 2 "bg"
      (Reachable.resizeFrame [2, 1] _ _ 1 size200
        (Reachable.setImagePath [2, 1] _ _ 1 "bg" (twoConsumers_reachable sizedEnv) (by simp)
          (Option.eq_some_getD _ World.empty (by decide)))
        (by simp) (Option.eq_some_getD _ World.empty (by decide)))
      (by simp) (Option.eq_some_getD _ World.empty (by decide)))
    (by simp) (Option.eq_some_getD _ World.empty (by decide))

theorem sharedSizedWorld_inv : Inv sizedEnv [2, 1] sharedSizedWorld :=
  Reachable.inv sizedEnv sizedEnv_natural [2, 1] sharedSizedWorld sharedSizedWorld_reachable

/-- In a reachable state the registry entries of the FrameData that a consumer holds are
under keys computed for that consumer. -/
theorem Inv.entry_keys {env : Env} {qs : List SvgId} {w : World} (hinv : Inv env qs w)
    {q : SvgId} (hq : q ∈ qs) (p : Ptr) (hp : w.framesValue q (w.svgs q).actualPrefix = p) :
    ∀ t k, w.sharedFrames t k = some p →
      ∃ (b : Nat) (s : QSize), k = keyOf env w q b s := by
  intro t k hk
  obtain ⟨p1, fd1, hold, -, -, -, hfv, -⟩ := hinv.holds hq
  rw [hp] at hfv
  subst hfv
  obtain ⟨fd, -, -, -, -, hkey⟩ := hinv.registered t k _ hk
  exact ⟨fd.enabledBorders, fd.frameSize, hkey q hq hold⟩

end Plasma
namespace Plasma

/-! ## What `resizeFrame` leaves alone -/

/-- `adoptShared` changes the consumer's collection under the active prefix only, and
leaves every FrameData but the released one alive, with the counts of the other consumers
unchanged and the count of the caller not lowered. -/
theorem adoptShared_others (q : SvgId) (fd newFd : Ptr) (oldKey : String) (v v1 : World)
    (h : adoptShared q fd newFd oldKey v = some v1) :
    (v1.svgs q).cacheAll = (v.svgs q).cacheAll
      ∧ (v1.svgs q).actualPrefix = (v.svgs q).actualPrefix
      ∧ (∀ k, k ≠ (v.svgs q).actualPrefix →
          QHash.value (v1.svgs q).frames k = QHash.value (v.svgs q).frames k)
      ∧ (∀ x f, x ≠ fd → v.fd x = some f → ∃ f1, v1.fd x = some f1
          ∧ (∀ c, c ≠ q → QHash.value f1.references c = QHash.value f.references c)
          ∧ f.count q ≤ f1.count q) := by
  unfold adoptShared at h
  obtain ⟨w1, hw1, h2⟩ := Option.bind_eq_some.1 h
  obtain ⟨nf, hnf, hw1'⟩ := Option.bind_eq_some.1 hw1
  simp only [Option.some.injEq] at hw1'
  subst hw1'
  dsimp only at h2
  obtain ⟨r, hr, h3⟩ := Option.bind_eq_some.1 h2
  obtain ⟨old, hold⟩ := World.deref_live _ _ _ _ hr
  rw [World.deref_eq _ _ _ old hold] at hr
  simp only [Option.some.injEq] at hr
  subst hr
  have hsv : ∀ v2 : World, v2.svgs = ((v.setFd newFd (nf.ref q)).framesInsert q
      ((v.setFd newFd (nf.ref q)).svgs q).actualPrefix newFd).svgs →
      (v2.svgs q).cacheAll = (v.svgs q).cacheAll
      ∧ (v2.svgs q).actualPrefix = (v.svgs q).actualPrefix
      ∧ (∀ k, k ≠ (v.svgs q).actualPrefix →
          QHash.value (v2.svgs q).frames k = QHash.value (v.svgs q).frames k) := by
    intro v2 he
    rw [he, World.framesInsert_svgs_self]
    refine ⟨by simp, by simp, fun k hk => ?_⟩
    simp only [World.setFd_svgs]
    exact QHash.value_insert_ne _ _ _ _ hk
  have hheap : ∀ x f, x ≠ fd → v.fd x = some f →
      ∃ f1, (((v.setFd newFd (nf.ref q)).framesInsert q
          ((v.setFd newFd (nf.ref q)).svgs q).actualPrefix newFd).setFd fd
          (old.deref q).2).fd x = some f1
        ∧ (∀ c, c ≠ q → QHash.value f1.references c = QHash.value f.references c)
        ∧ f.count q ≤ f1.count q := by
    intro x f hx hf
    rw [World.fd_setFd_ne _ _ _ _ hx, World.framesInsert_fd]
    by_cases hxn : x = newFd
    · subst hxn
      rw [hf] at hnf
      simp only [Option.some.injEq] at hnf
      subst hnf
      refine ⟨_, World.fd_setFd_self v x f _ hf, fun c hc => FrameData.value_ref_ne f q c hc, ?_⟩
      rw [FrameData.count_ref]
      omega
    · rw [World.fd_setFd_ne _ _ _ _ hxn]
      exact ⟨f, hf, fun _ _ => rfl, le_refl _⟩
  cases hb : (old.deref q).1 with
  | false =>
    simp only [hb, Bool.false_eq_true, if_false, Option.some.injEq] at h3
    obtain ⟨a1, a2, a3⟩ := hsv v1 (by rw [← h3]; simp)
    refine ⟨a1, a2, a3, ?_⟩
    rw [← h3]
    exact hheap
  | true =>
    simp only [hb, if_true] at h3
    have h6 := World.fd_setFd_self _ fd old (old.deref q).2 hold
    rw [h6] at h3
    simp only [Option.some_bind] at h3
    obtain ⟨w5, hd, d1, -, -, d4⟩ := World.delete_spec
      ((((v.setFd newFd (nf.ref q)).framesInsert q
          ((v.setFd newFd (nf.ref q)).svgs q).actualPrefix newFd).setFd fd
          (old.deref q).2).sharedRemove (old.deref q).2.theme oldKey) fd (old.deref q).2
      (by simpa using h6) ((FrameData.deref_last_iff old q).1 hb)
    rw [hd] at h3
    simp only [Option.some.injEq] at h3
    subst h3
    obtain ⟨a1, a2, a3⟩ := hsv w5 (by rw [d1]; simp)
    refine ⟨a1, a2, a3, fun x f hx hf => ?_⟩
    rw [d4 x hx, World.sharedRemove_fd]
    exact hheap x f hx hf

/-- `detachOrCopy` changes the consumer's collection under the active prefix only and
leaves every FrameData but the given one as it is; the pointer it returns is the given
one or a fresh object, and is alive. -/
theorem detachOrCopy_others (q : SvgId) (fd : Ptr) (oldKey : String) (v : World)
    (r : Ptr × World) (h : detachOrCopy q fd oldKey v = some r) :
    (r.2.svgs q).cacheAll = (v.svgs q).cacheAll
      ∧ (r.2.svgs q).actualPrefix = (v.svgs q).actualPrefix
      ∧ (∀ k, k ≠ (v.svgs q).actualPrefix →
          QHash.value (r.2.svgs q).frames k = QHash.value (v.svgs q).frames k)
      ∧ (∀ x, x ≠ fd → x ≠ r.1 → r.2.fd x = v.fd x)
      ∧ ((r.1 = fd ∧ r.2.framesValue q (v.svgs q).actualPrefix
              = v.framesValue q (v.svgs q).actualPrefix)
        ∨ (v.fd r.1 = none ∧ r.2.framesValue q (v.svgs q).actualPrefix = r.1))
      ∧ (∃ f, r.2.fd r.1 = some f) := by
  unfold detachOrCopy at h
  obtain ⟨old, hold, h2⟩ := Option.bind_eq_some.1 h
  by_cases hc : old.refcount = 1
  · simp only [hc, if_true, Option.some.injEq] at h2
    subst h2
    refine ⟨by simp, by simp, fun k _ => by simp, fun x _ _ => by simp,
      Or.inl ⟨rfl, by simp⟩, ?_⟩
    exact ⟨old, by simpa using hold⟩
  · simp only [hc, if_false] at h2
    rw [World.deref_eq v fd q old hold] at h2
    simp only [Option.some_bind] at h2
    rw [World.fd_setFd_self v fd old _ hold] at h2
    simp only [Option.some_bind, Option.some.injEq] at h2
    subst h2
    refine ⟨?_, ?_, fun k hk => ?_, fun x hx hx2 => ?_,
      Or.inr ⟨?_, by simp [World.framesInsert_framesValue_self, World.alloc_svgs]⟩, ?_⟩
    · rw [World.framesInsert_svgs_self]
      simp [World.alloc_svgs]
    · simp [World.alloc_svgs]
    · rw [World.framesInsert_svgs_self]
      simp only [World.alloc_svgs, World.setFd_svgs]
      exact QHash.value_insert_ne _ _ _ _ hk
    · simp only [World.framesInsert_fd]
      rw [World.fd_alloc_ne _ _ x hx2, World.fd_setFd_ne _ _ _ _ hx]
    · have := World.fd_alloc_fresh (v.setFd fd (old.deref q).2) ((old.deref q).2.copy q)
      by_cases hx : ((v.setFd fd (old.deref q).2).alloc ((old.deref q).2.copy q)).1 = fd
      · rw [hx, World.fd_setFd_self v fd old _ hold] at this
        simp at this
      · rw [World.fd_setFd_ne _ _ _ _ hx] at this
        exact this
    · simp only [World.framesInsert_fd]
      exact ⟨_, World.fd_alloc_new _ _⟩

/-- `resizeFrame` changes the consumer's collection under the active prefix only, and
leaves every FrameData but the active one alive, with the counts of the other consumers
unchanged and the count of the caller not lowered. -/
theorem resizeFrame_others (env : Env) (q : SvgId) (size : QSizeF) (w w1 : World)
    (h : resizeFrame env q size w = some w1) :
    (w1.svgs q).cacheAll = (w.svgs q).cacheAll
      ∧ (w1.svgs q).actualPrefix = (w.svgs q).actualPrefix
      ∧ (∀ k, k ≠ (w.svgs q).actualPrefix →
          QHash.value (w1.svgs q).frames k = QHash.value (w.svgs q).frames k)
      ∧ (∀ x f, x ≠ w.framesValue q (w.svgs q).actualPrefix → w.fd x = some f →
          ∃ f1, w1.fd x = some f1
            ∧ (∀ c, c ≠ q → QHash.value f1.references c = QHash.value f.references c)
            ∧ f.count q ≤ f1.count q) := by
  have hsame : ∀ v : World, v = w1 → v = w →
      (w1.svgs q).cacheAll = (w.svgs q).cacheAll
      ∧ (w1.svgs q).actualPrefix = (w.svgs q).actualPrefix
      ∧ (∀ k, k ≠ (w.svgs q).actualPrefix →
          QHash.value (w1.svgs q).frames k = QHash.value (w.svgs q).frames k)
      ∧ (∀ x f, x ≠ w.framesValue q (w.svgs q).actualPrefix → w.fd x = some f →
          ∃ f1, w1.fd x = some f1
            ∧ (∀ c, c ≠ q → QHash.value f1.references c = QHash.value f.references c)
            ∧ f.count q ≤ f1.count q) := by
    intro v h1 h2
    rw [← h1, h2]
    exact ⟨rfl, rfl, fun _ _ => rfl, fun x f _ hf => ⟨f, hf, fun _ _ => rfl, le_refl _⟩⟩
  unfold resizeFrame at h
  by_cases hpath : (w.svgs q).imagePath.isEmpty = true
  · rw [if_pos hpath] at h
    exact hsame w (Option.some.inj h) rfl
  rw [if_neg hpath] at h
  by_cases hsize : size.isEmpty = true
  · rw [if_pos hsize] at h
    exact hsame w (Option.some.inj h) rfl
  rw [if_neg hsize] at h
  dsimp only at h
  obtain ⟨f0, hf0, h2⟩ := Option.bind_eq_some.1 h
  by_cases heq : size.fuzzyEq f0.frameSize = true
  · rw [if_pos heq] at h2
    exact hsame w (Option.some.inj h2) rfl
  rw [if_neg heq] at h2
  obtain ⟨k, hk, h3⟩ := Option.bind_eq_some.1 h2
  have hs : size.isEmpty = false := by
    cases hb : size.isEmpty with
    | false => rfl
    | true => exact absurd hb hsize
  obtain ⟨hq, -⟩ := resizeFrameKeys_spec env q _ size w k.2 k.1.1 k.1.2 hs hk
  have hlive : ∀ x f, w.fd x = some f → ∃ f', k.2.fd x = some f'
      ∧ f'.references = f.references := by
    intro x f hf
    obtain ⟨b, hb, hr⟩ := QuietFd.some_of_quiet hq hf
    exact ⟨b, hb, hr.1⟩
  have hksv : k.2.svgs q = w.svgs q := by rw [hq.1]
  by_cases hnew : k.2.sharedValue (k.2.svgs q).theme k.1.2 ≠ 0
  · rw [if_pos hnew] at h3
    obtain ⟨a1, a2, a3, a4⟩ := adoptShared_others q _ _ _ k.2 w1 h3
    rw [hksv] at a1 a2 a3
    refine ⟨a1, a2, a3, fun x f hx hf => ?_⟩
    obtain ⟨f', hf', hr⟩ := hlive x f hf
    obtain ⟨f1, e1, e2, e3⟩ := a4 x f' hx hf'
    exact ⟨f1, e1, fun c hc => by rw [e2 c hc, hr],
      by rw [← FrameData.count_congr f f' q hr]; exact e3⟩
  · rw [if_neg hnew] at h3
    obtain ⟨r, hr, h4⟩ := Option.bind_eq_some.1 h3
    obtain ⟨w5, hu, h5⟩ := Option.bind_eq_some.1 h4
    obtain ⟨f5, hf5, h6⟩ := Option.bind_eq_some.1 h5
    simp only [Option.some.injEq] at h6
    obtain ⟨d1, d2, d3, d4, d5, -⟩ := detachOrCopy_others q _ _ k.2 r hr
    rw [hksv] at d1 d2 d3
    have hq5 := updateSizes_quiet env q r.2 w5 hu
    have hsv1 : w1.svgs q = r.2.svgs q := by
      rw [← h6]
      simp [hq5.1]
    refine ⟨by rw [hsv1, d1], by rw [hsv1, d2], fun k2 hk2 => by rw [hsv1, d3 k2 hk2],
      fun x f hx hf => ?_⟩
    obtain ⟨f', hf', hrf⟩ := hlive x f hf
    have hxr : x ≠ r.1 := by
      intro hc
      rcases d5 with ⟨d5, -⟩ | ⟨d5, -⟩
      · exact hx (hc.trans d5)
      · rw [← hc, hf'] at d5
        simp at d5
    have h7 : r.2.fd x = some f' := by rw [d4 x hx hxr]; exact hf'
    obtain ⟨b, hb, hrb⟩ := QuietFd.some_of_quiet hq5 h7
    refine ⟨b, ?_, fun c _ => by rw [hrb.1, hrf],
      by rw [FrameData.count_congr f' b q hrb.1, FrameData.count_congr f f' q hrf]⟩
    rw [← h6, World.sharedInsert_fd, World.fd_setFd_ne _ _ _ _ hxr]
    exact hb

end Plasma
namespace Plasma

/-! ## Termination of `resizeFrame` -/

theorem resizeFrameKeys_total (env : Env) (q : SvgId) (size : QSizeF) (w : World)
    (f : FrameData) (hf : w.fd (w.active q) = some f) (hs : size.isEmpty = false) :
    ∃ k, resizeFrameKeys env q (w.active q) size w = some k := by
  unfold resizeFrameKeys
  obtain ⟨k1, hk1⟩ := cacheId_total env q (w.active q) (w.svgs q).actualPrefix w f hf
    (Or.inr ⟨f, hf⟩)
  obtain ⟨f1, hf1⟩ := Quiet.live (cacheId_quiet env q _ _ w k1.2 k1.1 hk1) ⟨f, hf⟩
  simp only [hk1, Option.some_bind, hf1]
  have hg := World.fd_setFd_self k1.2 (w.active q) f1 { f1 with frameSize := size.toSize } hf1
  rw [cacheId_valid env q (w.active q) _ _ _ hg (QSizeF.toSize_isValid size hs)]
  simp only [Option.some_bind, hg]
  exact ⟨_, rfl⟩

theorem World.delete_total (w : World) (p : Ptr) (h : ∃ f, w.fd p = some f) :
    ∃ w1, w.delete p = some w1 := by
  obtain ⟨f, hf⟩ := h
  simp only [World.delete, hf]
  exact ⟨_, rfl⟩

theorem adoptShared_total (q : SvgId) (fd newFd : Ptr) (oldKey : String) (v : World)
    (hfd : ∃ f, v.fd fd = some f) (hnew : ∃ g, v.fd newFd = some g) :
    ∃ v1, adoptShared q fd newFd oldKey v = some v1 := by
  obtain ⟨g, hg⟩ := hnew
  unfold adoptShared
  rw [World.ref_eq v newFd q g hg]
  simp only [Option.some_bind]
  obtain ⟨old, hold⟩ : ∃ old, ((v.setFd newFd (g.ref q)).framesInsert q
      ((v.setFd newFd (g.ref q)).svgs q).actualPrefix newFd).fd fd = some old := by
    rw [World.framesInsert_fd]
    exact World.live_setFd v newFd fd _ hfd
  rw [World.deref_eq _ fd q old hold]
  simp only [Option.some_bind]
  cases hb : (old.deref q).1 with
  | false =>
    simp only [Bool.false_eq_true, if_false]
    exact ⟨_, rfl⟩
  | true =>
    simp only [if_true]
    rw [World.fd_setFd_self _ fd old _ hold]
    simp only [Option.some_bind]
    apply World.delete_total
    rw [World.sharedRemove_fd]
    exact ⟨_, World.fd_setFd_self _ fd old _ hold⟩

theorem detachOrCopy_total (q : SvgId) (fd : Ptr) (oldKey : String) (v : World)
    (hfd : ∃ f, v.fd fd = some f) : ∃ r, detachOrCopy q fd oldKey v = some r := by
  obtain ⟨old, hold⟩ := hfd
  unfold detachOrCopy
  simp only [hold, Option.some_bind]
  by_cases hc : old.refcount = 1
  · rw [if_pos hc]
    exact ⟨_, rfl⟩
  · rw [if_neg hc, World.deref_eq v fd q old hold]
    simp only [Option.some_bind]
    rw [World.fd_setFd_self v fd old _ hold]
    simp only [Option.some_bind]
    exact ⟨_, rfl⟩

/-- `resizeFrame` returns whenever the consumer's active FrameData is alive and the
registry of its theme points to live FrameData only. -/
theorem resizeFrame_total (env : Env) (q : SvgId) (size : QSizeF) (w : World)
    (hact : ∃ f, w.fd (w.active q) = some f)
    (hreg : ∀ k x, w.sharedFrames (w.svgs q).theme k = some x → ∃ g, w.fd x = some g) :
    ∃ w1, resizeFrame env q size w = some w1 := by
  obtain ⟨f0, hf0⟩ := hact
  unfold resizeFrame
  by_cases hpath : (w.svgs q).imagePath.isEmpty = true
  · rw [if_pos hpath]
    exact ⟨_, rfl⟩
  rw [if_neg hpath]
  by_cases hsize : size.isEmpty = true
  · rw [if_pos hsize]
    exact ⟨_, rfl⟩
  rw [if_neg hsize]
  dsimp only
  have hf0' : w.fd (w.framesValue q (w.svgs q).actualPrefix) = some f0 := hf0
  rw [hf0']
  simp only [Option.some_bind]
  by_cases heq : size.fuzzyEq f0.frameSize = true
  · rw [if_pos heq]
    exact ⟨_, rfl⟩
  rw [if_neg heq]
  have hs : size.isEmpty = false := by
    cases hb : size.isEmpty with
    | false => rfl
    | true => exact absurd hb hsize
  obtain ⟨k, hk⟩ := resizeFrameKeys_total env q size w f0 hf0 hs
  have hk' : resizeFrameKeys env q (w.framesValue q (w.svgs q).actualPrefix) size w
      = some k := hk
  rw [hk']
  simp only [Option.some_bind]
  obtain ⟨hq, -⟩ := resizeFrameKeys_spec env q _ size w k.2 k.1.1 k.1.2 hs hk
  have hfdk : ∃ f, k.2.fd (w.framesValue q (w.svgs q).actualPrefix) = some f :=
    Quiet.live hq ⟨f0, hf0'⟩
  by_cases hnew : k.2.sharedValue (k.2.svgs q).theme k.1.2 ≠ 0
  · rw [if_pos hnew]
    apply adoptShared_total _ _ _ _ _ hfdk
    have hnew2 := hnew
    rw [hq.1] at hnew2 ⊢
    have h1 := World.sharedValue_ne_zero k.2 _ _ hnew2
    rw [hq.2.1] at h1
    exact Quiet.live hq (hreg _ _ h1)
  · rw [if_neg hnew]
    obtain ⟨r, hr⟩ := detachOrCopy_total q _ k.1.1 k.2 hfdk
    rw [hr]
    simp only [Option.some_bind]
    obtain ⟨-, d2, -, -, d5, d6⟩ := detachOrCopy_others q _ _ k.2 r hr
    have hact5 : ∃ f, r.2.fd (r.2.active q) = some f := by
      rw [World.active, d2]
      rcases d5 with ⟨d5, d7⟩ | ⟨-, d7⟩
      · have h9 : k.2.framesValue q (k.2.svgs q).actualPrefix
            = w.framesValue q (w.svgs q).actualPrefix := by
          simp [World.framesValue, hq.1]
        rw [d7, h9, ← d5]
        exact d6
      · rw [d7]
        exact d6
    obtain ⟨w5, hu⟩ := updateSizes_total env q r.2 hact5
    obtain ⟨f5, hf5⟩ := Quiet.live (updateSizes_quiet env q r.2 w5 hu) d6
    rw [hu]
    simp only [Option.some_bind, hf5]
    exact ⟨_, rfl⟩

end Plasma
namespace Plasma

/-! ## Cache-all mode -/

theorem setCacheAllRenderedFrames_on (env : Env) (q : SvgId) (w : World) :
    setCacheAllRenderedFrames env q true w
      = some (w.setSvg q { w.svgs q with cacheAll := true }) := by
  simp [setCacheAllRenderedFrames]

theorem cacheAllWorld_eq :
    cacheAllWorld = registeredWorld.setSvg 1 { registeredWorld.svgs 1 with cacheAll := true } := by
  simp [cacheAllWorld, setCacheAllRenderedFrames_on]

theorem cacheAllWorld_frames_live :
    ∀ k x, QHash.value (cacheAllWorld.svgs 1).frames k = some x →
      ∃ g, cacheAllWorld.fd x = some g := by
  intro k x hk
  rw [cacheAllWorld_eq] at hk ⊢
  simp only [World.setSvg_svgs_self, World.setSvg_fd] at hk ⊢
  exact registeredWorld_inv.frames_live (by simp) k x hk

theorem cacheAllWorld_registry_live :
    ∀ t k x, cacheAllWorld.sharedFrames t k = some x → ∃ g, cacheAllWorld.fd x = some g := by
  intro t k x hk
  rw [cacheAllWorld_eq] at hk ⊢
  simp only [World.setSvg_sharedFrames, World.setSvg_fd] at hk ⊢
  exact registeredWorld_inv.registry_live t k x hk

end Plasma
namespace Plasma

/-! ## Counting the entries of a collection -/

theorem QHash.mem_of_value {K V : Type} [DecidableEq K] (h : List (K × V)) (k : K) (v : V)
    (hv : QHash.value h k = some v) : (k, v) ∈ h := by
  induction h with
  | nil => simp [QHash.value] at hv
  | cons a t ih =>
    obtain ⟨a1, a2⟩ := a
    simp only [QHash.value] at hv
    split at hv
    · rename_i hk
      simp only [Option.some.injEq] at hv
      simp [hk, hv]
    · exact List.mem_cons_of_mem _ (ih hv)

/-- The entries with the value `y`, counted before and after `remove`. -/
theorem QHash.count_remove {K V : Type} [DecidableEq K] [DecidableEq V] (h : List (K × V))
    (k : K) (y : V) (hn : (h.map Prod.fst).Nodup) :
    (h.filter fun e => decide (e.2 = y)).length
      = ((QHash.remove h k).filter fun e => decide (e.2 = y)).length
        + (if QHash.value h k = some y then 1 else 0) := by
  induction h with
  | nil => simp [QHash.remove, QHash.value]
  | cons a t ih =>
    obtain ⟨a1, a2⟩ := a
    simp only [List.map_cons, List.nodup_cons] at hn
    have ih2 := ih hn.2
    by_cases hk : a1 = k
    · subst hk
      have hnot : QHash.value t a1 = none := by
        cases hv : QHash.value t a1 with
        | none => rfl
        | some v =>
          exfalso
          exact hn.1 (List.mem_map.2 ⟨(a1, v), QHash.mem_of_value t a1 v hv, rfl⟩)
      have hrem : QHash.remove t a1 = t := by
        simp only [QHash.remove, List.filter_eq_self]
        intro e he
        simp only [ne_eq, decide_not, Bool.not_eq_true', decide_eq_false_iff_not]
        intro hc
        exact hn.1 (List.mem_map.2 ⟨e, he, hc⟩)
      have hrem2 : QHash.remove ((a1, a2) :: t) a1 = t := by
        simp only [QHash.remove, List.filter_cons, ne_eq, not_true_eq_false, decide_False,
          Bool.false_eq_true, if_false]
        exact hrem
      rw [hrem2]
      simp only [QHash.value, if_true, Option.some.injEq, List.filter_cons]
      by_cases hy : a2 = y
      · simp [hy]
      · simp [hy]
    · have hrem2 : QHash.remove ((a1, a2) :: t) k = (a1, a2) :: QHash.remove t k := by
        simp [QHash.remove, List.filter_cons, hk]
      rw [hrem2]
      simp only [QHash.value, hk, if_false, List.filter_cons]
      by_cases hy : a2 = y
      · simp only [hy, decide_True, if_true, List.length_cons]
        rw [ih2]
        omega
      · simp only [hy, decide_False, Bool.false_eq_true, if_false]
        exact ih2

theorem World.holdCount_congr (w w2 : World) (c : SvgId) (p : Ptr)
    (h : (w2.svgs c).frames = (w.svgs c).frames) : w2.holdCount c p = w.holdCount c p := by
  simp [World.holdCount, h]

theorem World.holdCount_pos_iff (w : World) (c : SvgId) (p : Ptr) :
    0 < w.holdCount c p ↔ ∃ k, (k, p) ∈ (w.svgs c).frames := by
  simp only [World.holdCount, List.length_pos_iff_exists_mem, List.mem_filter,
    decide_eq_true_eq]
  constructor
  · rintro ⟨⟨k, x⟩, he, hx⟩
    simp only at hx
    subst hx
    exact ⟨k, he⟩
  · rintro ⟨k, hk⟩
    exact ⟨(k, p), hk, rfl⟩

theorem storedEntry_natCast (n : Nat) :
    storedEntry (n : Int) = (if n = 0 then none else some (n : Int)) := by
  simp only [storedEntry]
  by_cases h : n = 0
  · simp [h]
  · have : ¬ ((n : Int) ≤ 0) := by omega
    simp [h, this]

/-- Exact accounting, said with `Counted`. -/
theorem Accounted.iff_counted (w : World) :
    Accounted w ↔ ((∀ c, ((w.svgs c).frames.map Prod.fst).Nodup)
      ∧ Counted w (fun c p => (w.holdCount c p : Int))) := by
  constructor
  · intro h
    refine ⟨h.keys, fun c p => by simp, fun p f c hf => ?_, fun p c hp => ?_⟩
    · rw [h.counts p f c hf, storedEntry_natCast]
    · by_contra hne
      have hpos : 0 < w.holdCount c p := by
        simp only [Nat.cast_eq_zero] at hne
        omega
      obtain ⟨k, hk⟩ := (World.holdCount_pos_iff w c p).1 hpos
      obtain ⟨f, hf⟩ := h.live c k p (QHash.value_of_mem _ k p (h.keys c) hk)
      rw [hp] at hf
      simp at hf
  · rintro ⟨hk, hc⟩
    refine ⟨hk, fun c k x hv => ?_, fun p f c hf => ?_⟩
    · cases hx : w.fd x with
      | some f => exact ⟨f, rfl⟩
      | none =>
        exfalso
        have h0 := hc.dead x c hx
        have hpos : 0 < w.holdCount c x :=
          (World.holdCount_pos_iff w c x).2 ⟨k, QHash.mem_of_value _ k x hv⟩
        simp only [Nat.cast_eq_zero] at h0
        omega
    · rw [hc.counts p f c hf, storedEntry_natCast]

end Plasma
namespace Plasma

/-! ## The stored counts under the primitive steps -/

theorem Counted.of_refs {w w2 : World} {T : SvgId → Ptr → Int} (h : Counted w T)
    (hr : ∀ x, (w2.fd x).map (fun f => f.references) = (w.fd x).map (fun f => f.references)) :
    Counted w2 T := by
  refine ⟨h.nonneg, fun p f c hf => ?_, fun p c hp => ?_⟩
  · have h1 := hr p
    rw [hf] at h1
    cases hw : w.fd p with
    | none => rw [hw] at h1; simp at h1
    | some g =>
      rw [hw] at h1
      simp only [Option.map_some', Option.some.injEq] at h1
      rw [h1]
      exact h.counts p g c hw
  · have h1 := hr p
    rw [hp] at h1
    cases hw : w.fd p with
    | none => exact h.dead p c hw
    | some g => rw [hw] at h1; simp at h1

theorem Counted.of_fd {w w2 : World} {T : SvgId → Ptr → Int} (h : Counted w T)
    (hr : ∀ x, w2.fd x = w.fd x) : Counted w2 T :=
  h.of_refs (fun x => by rw [hr x])

theorem Counted.of_quiet {w w2 : World} {T : SvgId → Ptr → Int} (h : Counted w T)
    (hq : Quiet w w2) : Counted w2 T := by
  refine h.of_refs (fun x => ?_)
  have h1 := hq.2.2 x
  cases hw : w.fd x with
  | none =>
    cases hw2 : w2.fd x with
    | none => rfl
    | some g => rw [hw, hw2] at h1; exact h1.elim
  | some f =>
    cases hw2 : w2.fd x with
    | none => rw [hw, hw2] at h1; exact h1.elim
    | some g =>
      rw [hw, hw2] at h1
      simp only [Option.map_some', Option.some.injEq]
      exact h1.1

theorem Counted.congr {w : World} {T T2 : SvgId → Ptr → Int} (h : Counted w T)
    (he : ∀ c p, T2 c p = T c p) : Counted w T2 := by
  refine ⟨fun c p => ?_, fun p f c hf => ?_, fun p c hp => ?_⟩
  · rw [he]; exact h.nonneg c p
  · rw [he]; exact h.counts p f c hf
  · rw [he]; exact h.dead p c hp

theorem Counted.set_fields {w : World} {T : SvgId → Ptr → Int} (h : Counted w T) (p : Ptr)
    (f f2 : FrameData) (hf : w.fd p = some f) (hr : f2.references = f.references) :
    Counted (w.setFd p f2) T := by
  refine h.of_refs (fun x => ?_)
  by_cases hx : x = p
  · subst hx
    rw [World.fd_setFd_self w x f f2 hf, hf]
    simp [hr]
  · rw [World.fd_setFd_ne w p x f2 hx]

theorem Counted.count_eq {w : World} {T : SvgId → Ptr → Int} (h : Counted w T) (p : Ptr)
    (f : FrameData) (c : SvgId) (hf : w.fd p = some f) : f.count c = T c p := by
  have h1 := h.counts p f c hf
  have h2 := h.nonneg c p
  simp only [storedEntry] at h1
  by_cases h0 : T c p ≤ 0
  · rw [if_pos h0] at h1
    rw [FrameData.count_of_none f c h1]
    omega
  · rw [if_neg h0] at h1
    exact FrameData.count_of_value f c _ h1

/-- The call `p->ref (q)` adds one to the stored count of `q` on `p`. -/
theorem Counted.ref_one {w : World} {T : SvgId → Ptr → Int} (h : Counted w T) (p : Ptr)
    (f : FrameData) (q : SvgId) (hf : w.fd p = some f) :
    Counted (w.setFd p (f.ref q)) (bump T q p 1) := by
  refine ⟨fun c x => ?_, fun x g c hg => ?_, fun x c hx => ?_⟩
  · have := h.nonneg c x
    simp only [bump]
    split <;> omega
  · by_cases hxp : x = p
    · subst hxp
      rw [World.fd_setFd_self w x f _ hf] at hg
      simp only [Option.some.injEq] at hg
      subst hg
      by_cases hc : c = q
      · subst hc
        rw [FrameData.value_ref_self, h.count_eq x f c hf]
        have := h.nonneg c x
        simp only [bump, and_self, if_true, storedEntry]
        rw [if_neg (by omega)]
      · rw [FrameData.value_ref_ne f q c hc, h.counts x f c hf]
        simp [bump, hc]
    · rw [World.fd_setFd_ne w p x _ hxp] at hg
      rw [h.counts x g c hg]
      simp [bump, hxp]
  · have hne : x ≠ p := by
      intro he
      subst he
      rw [World.fd_setFd_self w x f _ hf] at hx
      simp at hx
    rw [World.fd_setFd_ne w p x _ hne] at hx
    simp only [bump, hne, and_false, if_false]
    exact h.dead x c hx

/-- The call `p->deref (q)` takes one from the stored count of `q` on `p`. -/
theorem Counted.deref_one {w : World} {T : SvgId → Ptr → Int} (h : Counted w T) (p : Ptr)
    (f : FrameData) (q : SvgId) (hf : w.fd p = some f) (hpos : 1 ≤ T q p) :
    Counted (w.setFd p (f.deref q).2) (bump T q p (-1)) := by
  refine ⟨fun c x => ?_, fun x g c hg => ?_, fun x c hx => ?_⟩
  · have := h.nonneg c x
    simp only [bump]
    split
    · rename_i hh
      rw [hh.1, hh.2]
      omega
    · omega
  · by_cases hxp : x = p
    · subst hxp
      rw [World.fd_setFd_self w x f _ hf] at hg
      simp only [Option.some.injEq] at hg
      subst hg
      by_cases hc : c = q
      · subst hc
        rw [(FrameData.deref_facts f c).1, h.count_eq x f c hf]
        simp only [bump, and_self, if_true, storedEntry]
        by_cases h1 : T c x - 1 < 1
        · rw [if_pos h1, if_pos (by omega)]
        · rw [if_neg h1, if_neg (by omega)]
          rfl
      · rw [FrameData.value_deref_ne f q c hc, h.counts x f c hf]
        simp [bump, hc]
    · rw [World.fd_setFd_ne w p x _ hxp] at hg
      rw [h.counts x g c hg]
      simp [bump, hxp]
  · have hne : x ≠ p := by
      intro he
      subst he
      rw [World.fd_setFd_self w x f _ hf] at hx
      simp at hx
    rw [World.fd_setFd_ne w p x _ hne] at hx
    simp only [bump, hne, and_false, if_false]
    exact h.dead x c hx

/-- A live FrameData with an empty reference set is counted by nobody. -/
theorem Counted.zero_of_empty {w : World} {T : SvgId → Ptr → Int} (h : Counted w T) (p : Ptr)
    (f : FrameData) (hf : w.fd p = some f) (he : f.references = []) (c : SvgId) :
    T c p = 0 := by
  have h1 := h.counts p f c hf
  have h2 := h.nonneg c p
  rw [he] at h1
  simp only [QHash.value, storedEntry] at h1
  by_cases h0 : T c p ≤ 0
  · omega
  · rw [if_neg h0] at h1
    simp at h1

/-- The operator `new` with a reference set that holds `q` once. -/
theorem Counted.alloc_one {w : World} {T : SvgId → Ptr → Int} (h : Counted w T) (f0 : FrameData)
    (q : SvgId) (hr : f0.references = [(q, 1)]) :
    Counted (w.alloc f0).2 (bump T q (w.alloc f0).1 1) := by
  have hfresh := World.fd_alloc_fresh w f0
  refine ⟨fun c x => ?_, fun x g c hg => ?_, fun x c hx => ?_⟩
  · have := h.nonneg c x
    simp only [bump]
    split <;> omega
  · by_cases hxp : x = (w.alloc f0).1
    · rw [hxp, World.fd_alloc_new] at hg
      simp only [Option.some.injEq] at hg
      subst hg
      have h0 := h.dead _ c hfresh
      rw [hxp, hr]
      by_cases hc : c = q
      · subst hc
        simp only [bump, and_self, if_true, h0, QHash.value, storedEntry]
        rfl
      · have hc2 : ¬ (q = c) := fun e => hc e.symm
        simp only [bump, hc, false_and, if_false, h0, QHash.value, hc2, storedEntry]
        rfl
    · rw [World.fd_alloc_ne w f0 x hxp] at hg
      rw [h.counts x g c hg]
      simp [bump, hxp]
  · have hne : x ≠ (w.alloc f0).1 := by
      intro he
      rw [he, World.fd_alloc_new] at hx
      simp at hx
    rw [World.fd_alloc_ne w f0 x hne] at hx
    simp only [bump, hne, and_false, if_false]
    exact h.dead x c hx

/-- The operator `delete` on a FrameData with an empty reference set. -/
theorem Counted.delete_empty {w w1 : World} {T : SvgId → Ptr → Int} (h : Counted w T) (p : Ptr)
    (f : FrameData) (hf : w.fd p = some f) (he : f.references = [])
    (hd : w.delete p = some w1) :
    Counted w1 T ∧ w1.svgs = w.svgs ∧ w1.sharedFrames = w.sharedFrames := by
  obtain ⟨w2, h2, hsv, hsh, hp, hx⟩ := World.delete_spec w p f hf he
  rw [hd] at h2
  simp only [Option.some.injEq] at h2
  subst h2
  refine ⟨⟨h.nonneg, fun x g c hg => ?_, fun x c hn => ?_⟩, hsv, hsh⟩
  · by_cases hxp : x = p
    · rw [hxp, hp] at hg
      simp at hg
    · rw [hx x hxp] at hg
      exact h.counts x g c hg
  · by_cases hxp : x = p
    · rw [hxp]
      exact h.zero_of_empty p f hf he c
    · rw [hx x hxp] at hn
      exact h.dead x c hn

/-! ## The held counts under the collection steps -/

theorem World.holdCount_framesRemove (w : World) (q : SvgId) (k : String) (c : SvgId) (p : Ptr)
    (hn : ((w.svgs q).frames.map Prod.fst).Nodup) :
    (w.holdCount c p : Int)
      = ((w.framesRemove q k).holdCount c p : Int)
        + (if c = q ∧ QHash.value (w.svgs q).frames k = some p then 1 else 0) := by
  by_cases hc : c = q
  · subst hc
    have h1 := QHash.count_remove (w.svgs c).frames k p hn
    simp only [World.holdCount, World.framesRemove_svgs_self, true_and]
    rw [h1]
    split <;> simp
  · simp only [World.holdCount, World.framesRemove_svgs_ne w q c k hc, hc, false_and, if_false,
      add_zero]

theorem World.holdCount_framesInsert (w : World) (q : SvgId) (k : String) (x : Ptr) (c : SvgId)
    (p : Ptr) (hn : ((w.svgs q).frames.map Prod.fst).Nodup) :
    ((w.framesInsert q k x).holdCount c p : Int)
        + (if c = q ∧ QHash.value (w.svgs q).frames k = some p then 1 else 0)
      = (w.holdCount c p : Int) + (if c = q ∧ x = p then 1 else 0) := by
  by_cases hc : c = q
  · subst hc
    have h1 := QHash.count_remove (w.svgs c).frames k p hn
    simp only [World.holdCount, World.framesInsert_svgs_self, true_and, QHash.insert,
      List.filter_cons]
    rw [h1]
    by_cases hx : x = p
    · simp only [hx, decide_True, if_true, List.length_cons]
      split <;> simp
    · simp only [hx, decide_False, Bool.false_eq_true, if_false]
      split <;> simp
  · simp only [World.holdCount, World.framesInsert_svgs_ne w q c k x hc, hc, false_and,
      if_false, add_zero]

end Plasma
namespace Plasma

/-! ## FrameData that stay -/

theorem Kept.same (w : World) : Kept w w :=
  fun _ g h => ⟨g, h, rfl, rfl, fun _ => rfl⟩

theorem Kept.chain {a b c : World} (h1 : Kept a b) (h2 : Kept b c) : Kept a c := by
  intro x g hg
  obtain ⟨g1, hg1, t1, b1, s1⟩ := h1 x g hg
  obtain ⟨g2, hg2, t2, b2, s2⟩ := h2 x g1 hg1
  refine ⟨g2, hg2, t2.trans t1, b2.trans b1, fun hv => ?_⟩
  have e1 := s1 hv
  rw [s2 (by rw [e1]; exact hv), e1]

theorem Kept.of_fd_eq {w w2 : World} (h : ∀ x, w2.fd x = w.fd x) : Kept w w2 :=
  fun x g hg => ⟨g, by rw [h x]; exact hg, rfl, rfl, fun _ => rfl⟩

theorem Kept.quiet_step {w w2 : World} (h : Quiet w w2) : Kept w w2 := by
  intro x g hg
  obtain ⟨b, hb, hq⟩ := QuietFd.some_of_quiet h hg
  exact ⟨b, hb, hq.2.1, hq.2.2.1, hq.2.2.2⟩

theorem Kept.set_step (w : World) (p : Ptr) (f f2 : FrameData) (hf : w.fd p = some f)
    (ht : f2.theme = f.theme) (hb : f2.enabledBorders = f.enabledBorders)
    (hs : f2.frameSize = f.frameSize) : Kept w (w.setFd p f2) := by
  intro x g hg
  by_cases hx : x = p
  · subst hx
    rw [hf] at hg
    simp only [Option.some.injEq] at hg
    subst hg
    exact ⟨f2, World.fd_setFd_self w x f f2 hf, ht, hb, fun _ => hs⟩
  · exact ⟨g, by rw [World.fd_setFd_ne w p x f2 hx]; exact hg, rfl, rfl, fun _ => rfl⟩

theorem Kept.stays_live {w w2 : World} (h : Kept w w2) {x : Ptr} (hx : ∃ f, w.fd x = some f) :
    ∃ f, w2.fd x = some f := by
  obtain ⟨f, hf⟩ := hx
  obtain ⟨g, hg, _⟩ := h x f hf
  exact ⟨g, hg⟩

/-! ## One round of the loop of `clearCache` -/

theorem clearCacheStep_spec (env : Env) (q : SvgId) (frame : Ptr) (key : String) (p : Ptr)
    (w : World) (T : SvgId → Ptr → Int) (f : FrameData)
    (hc : Counted w T) (hp : w.fd p = some f) (hne : frame ≠ p) (hT : 1 ≤ T q p)
    (ha : f.frameSize.isValid = true ∨ ∃ g, w.fd (w.active q) = some g) :
    ∃ w1, clearCacheStep env q frame key p w = some w1
      ∧ Counted w1 (bump T q p (-1))
      ∧ w1.svgs = (w.framesRemove q key).svgs
      ∧ Kept w w1
      ∧ (∀ t k, w1.sharedFrames t k = w.sharedFrames t k ∨ w1.sharedFrames t k = none)
      ∧ ((f.deref q).1 = true → f.frameSize.isValid = true →
          w1.sharedFrames f.theme (cacheKey env f.enabledBorders f.frameSize.width
            f.frameSize.height (w.svgs q).scaleFactor (w.svgs q).devicePixelRatio key
            (w.svgs q).imagePath) = none) := by
  have h2 : (w.setFd p (f.deref q).2).fd p = some (f.deref q).2 :=
    World.fd_setFd_self w p f _ hp
  have hc2 := hc.deref_one p f q hp hT
  have hk2 : Kept w (w.setFd p (f.deref q).2) :=
    Kept.set_step w p f _ hp (FrameData.deref_theme f q).1 (FrameData.deref_theme f q).2.1
      (FrameData.deref_theme f q).2.2
  unfold clearCacheStep
  rw [if_neg hne, World.deref_eq w p q f hp]
  simp only [Option.some_bind]
  by_cases hl : (f.deref q).1 = true
  · have ha2 : (f.deref q).2.frameSize.isValid = true
        ∨ ∃ g, (w.setFd p (f.deref q).2).fd ((w.setFd p (f.deref q).2).active q) = some g := by
      rcases ha with ha | ha
      · left
        rw [(FrameData.deref_theme f q).2.2]
        exact ha
      · right
        have : (w.setFd p (f.deref q).2).active q = w.active q := by
          simp [World.active]
        rw [this]
        exact World.live_setFd w p _ _ ha
    obtain ⟨k, hk⟩ := cacheId_total env q p key _ _ h2 ha2
    obtain ⟨k1, k2⟩ := k
    obtain ⟨hq, f0, f1, hf0, hf1, hsz, hkey⟩ := cacheId_spec env q p key _ _ _ hk
    rw [h2] at hf0
    simp only [Option.some.injEq] at hf0
    subst hf0
    have hqf := (QuietFd.some_of_quiet hq h2)
    obtain ⟨b, hb, hqb⟩ := hqf
    rw [hf1] at hb
    simp only [Option.some.injEq] at hb
    subst hb
    simp only [hl, if_true, hk, Option.some_bind, hf1]
    refine ⟨_, rfl, ?_, ?_, ?_, ?_, ?_⟩
    · refine Counted.of_fd ?_ (fun x => World.framesRemove_fd _ q key x)
      refine Counted.set_fields ?_ p f1 _ (by simpa using hf1) rfl
      exact Counted.of_fd (hc2.of_quiet hq) (fun x => World.sharedRemove_fd _ _ _ x)
    · have e1 : k2.svgs = w.svgs := by rw [hq.1]; simp
      simp [World.framesRemove, World.setSvg, e1]
    · refine Kept.chain hk2 (Kept.chain (Kept.quiet_step hq) ?_)
      refine Kept.chain (Kept.of_fd_eq (fun x => World.sharedRemove_fd _ _ _ x) :
        Kept k2 (k2.sharedRemove f1.theme k1)) ?_
      refine Kept.chain (Kept.set_step _ p f1 { f1 with cachedBackground := none }
        (by simpa using hf1) rfl rfl rfl) ?_
      exact Kept.of_fd_eq (fun x => World.framesRemove_fd _ q key x)
    · intro t k
      have e1 : k2.sharedFrames = w.sharedFrames := by rw [hq.2.1]; simp
      simp only [World.framesRemove_sharedFrames, World.setFd_sharedFrames]
      by_cases htk : t = f1.theme ∧ k = k1
      · right
        rw [htk.1, htk.2]
        exact World.sharedRemove_value_self _ _ _
      · left
        rw [World.sharedRemove_apply, e1]
        simp [htk]
    · intro _ hv
      have e2 : f1.frameSize = f.frameSize := by
        rw [hsz, if_pos (by rw [(FrameData.deref_theme f q).2.2]; exact hv)]
        exact (FrameData.deref_theme f q).2.2
      have e3 : f1.enabledBorders = f.enabledBorders :=
        hqb.2.2.1.trans (FrameData.deref_theme f q).2.1
      have e4 : f1.theme = f.theme := hqb.2.1.trans (FrameData.deref_theme f q).1
      simp only [World.framesRemove_sharedFrames, World.setFd_sharedFrames]
      rw [← e4, ← e3, ← e2]
      have e5 : (w.setFd p (f.deref q).2).svgs q = w.svgs q := by simp
      rw [e5] at hkey
      rw [← hkey]
      exact World.sharedRemove_value_self _ _ _
  · simp only [hl, Bool.false_eq_true, if_false, Option.some_bind]
    refine ⟨_, rfl, ?_, ?_, ?_, ?_, ?_⟩
    · exact Counted.of_fd hc2 (fun x => World.framesRemove_fd _ q key x)
    · simp [World.framesRemove, World.setSvg]
    · exact Kept.chain hk2 (Kept.of_fd_eq (fun x => World.framesRemove_fd _ q key x))
    · intro t k
      left
      simp
    · intro h
      exact h.elim

end Plasma
namespace Plasma

/-! ## The loop of `clearCache` -/

theorem Counted.deref_last {w : World} {T : SvgId → Ptr → Int} (h : Counted w T) (p : Ptr)
    (f : FrameData) (q : SvgId) (hf : w.fd p = some f) (h1 : T q p = 1)
    (h0 : ∀ c, c ≠ q → T c p = 0) : (f.deref q).1 = true := by
  rw [FrameData.deref_last_iff]
  have hc2 := h.deref_one p f q hf (by omega)
  have hv : ∀ c, QHash.value (f.deref q).2.references c = none := by
    intro c
    rw [hc2.counts p _ c (World.fd_setFd_self w p f _ hf)]
    by_cases hc : c = q
    · subst hc
      simp [bump, storedEntry, h1]
    · simp [bump, storedEntry, hc, h0 c hc]
  cases hl : (f.deref q).2.references with
  | nil => rfl
  | cons a t =>
    exfalso
    have := hv a.1
    rw [hl] at this
    simp [QHash.value] at this

theorem staleEntries_cons_same (frame : Ptr) (k : String) (l : List (String × Ptr)) :
    staleEntries frame ((k, frame) :: l) = staleEntries frame l := by
  simp [staleEntries]

theorem staleEntries_cons_other (frame : Ptr) (k : String) (p : Ptr) (l : List (String × Ptr))
    (h : p ≠ frame) : staleEntries frame ((k, p) :: l) = (k, p) :: staleEntries frame l := by
  simp [staleEntries, h]

theorem staleEntries_subset (frame : Ptr) (l : List (String × Ptr)) (e : String × Ptr)
    (h : e ∈ staleEntries frame l) : e ∈ l ∧ e.2 ≠ frame := by
  simpa [staleEntries] using h

theorem entryCount_cons (k : String) (p x : Ptr) (l : List (String × Ptr)) :
    entryCount ((k, p) :: l) x = entryCount l x + (if p = x then 1 else 0) := by
  by_cases h : p = x
  · simp [entryCount, h]
  · simp [entryCount, h]

theorem entryCount_pos (l : List (String × Ptr)) (e : String × Ptr) (h : e ∈ l) :
    0 < entryCount l e.2 := by
  simp only [entryCount, List.length_pos_iff_exists_mem, List.mem_filter, decide_eq_true_eq]
  exact ⟨e, h, rfl⟩

theorem clearCacheLoop_spec (env : Env) (q : SvgId) (frame : Ptr) :
    ∀ (l : List (String × Ptr)) (w : World) (T : SvgId → Ptr → Int),
      Counted w T →
      (∀ e, e ∈ l → e.2 ≠ frame → ∃ f, w.fd e.2 = some f) →
      (∃ g, w.fd frame = some g) →
      w.active q = frame →
      (w.svgs q).actualPrefix ∉ (staleEntries frame l).map Prod.fst →
      (∀ x, (entryCount (staleEntries frame l) x : Int) ≤ T q x) →
      ∃ w1, clearCacheLoop env q frame l w = some w1
        ∧ Counted w1 (fun c x =>
            T c x - (if c = q then (entryCount (staleEntries frame l) x : Int) else 0))
        ∧ (w1.svgs q = { w.svgs q with frames := (w1.svgs q).frames }
          ∧ (w1.svgs q).frames = (w.svgs q).frames.filter
            (fun e => decide (e.1 ∉ (staleEntries frame l).map Prod.fst)))
        ∧ (∀ c, c ≠ q → w1.svgs c = w.svgs c)
        ∧ Kept w w1
        ∧ (∀ t k, w1.sharedFrames t k = w.sharedFrames t k ∨ w1.sharedFrames t k = none)
        ∧ (∀ e f, e ∈ l → e.2 ≠ frame → w.fd e.2 = some f → f.frameSize.isValid = true →
            T q e.2 = 1 → (∀ c, c ≠ q → T c e.2 = 0) →
            w1.sharedFrames f.theme (cacheKey env f.enabledBorders f.frameSize.width
              f.frameSize.height (w.svgs q).scaleFactor (w.svgs q).devicePixelRatio e.1
              (w.svgs q).imagePath) = none) := by
  intro l
  induction l with
  | nil =>
    intro w T hc _ _ _ _ _
    refine ⟨w, rfl, hc.congr (fun c x => by simp [staleEntries, entryCount]), ?_,
      fun _ _ => rfl, Kept.same w, fun _ _ => Or.inl rfl, ?_⟩
    · simp [staleEntries]
    · intro e f he
      simp at he
  | cons a rest ih =>
    obtain ⟨k, p⟩ := a
    intro w T hc hlive hfr hact hkey hcnt
    by_cases hp : p = frame
    · subst hp
      rw [staleEntries_cons_same] at hkey hcnt
      obtain ⟨w1, h1, h2, h3, h4, h5, h6, h7⟩ := ih w T hc
        (fun e he => hlive e (List.mem_cons_of_mem _ he)) hfr hact hkey hcnt
      refine ⟨w1, ?_, ?_, ?_, h4, h5, h6, ?_⟩
      · simp only [clearCacheLoop, clearCacheStep, if_true, Option.some_bind]
        exact h1
      · rw [staleEntries_cons_same]
        exact h2
      · rw [staleEntries_cons_same]
        exact h3
      · intro e f he hne
        rcases List.mem_cons.1 he with he | he
        · rw [he] at hne
          exact absurd rfl hne
        · exact h7 e f he hne
    · have hpf : frame ≠ p := fun e => hp e.symm
      rw [staleEntries_cons_other frame k p rest hp] at hkey hcnt
      obtain ⟨f, hf⟩ := hlive (k, p) (List.mem_cons_self _ _) hp
      have hT : 1 ≤ T q p := by
        have := hcnt p
        rw [entryCount_cons] at this
        simp only [if_true, Nat.cast_add, Nat.cast_one] at this
        omega
      obtain ⟨w1, s1, s2, s3, s4, s5, s6⟩ := clearCacheStep_spec env q frame k p w T f hc hf hpf
        hT (Or.inr (by rw [hact]; exact hfr))
      have hkne : (w.svgs q).actualPrefix ≠ k := by
        intro e
        apply hkey
        simp [e]
      have hsq : w1.svgs q = { w.svgs q with frames := QHash.remove (w.svgs q).frames k } := by
        rw [s3]
        exact World.framesRemove_svgs_self w q k
      have hso : ∀ c, c ≠ q → w1.svgs c = w.svgs c := by
        intro c hcq
        rw [s3]
        exact World.framesRemove_svgs_ne w q c k hcq
      have hact1 : w1.active q = frame := by
        rw [← hact]
        simp only [World.active, World.framesValue, hsq]
        rw [QHash.value_remove_ne _ _ _ hkne]
      have hkey1 : (w1.svgs q).actualPrefix ∉ (staleEntries frame rest).map Prod.fst := by
        rw [hsq]
        intro hm
        apply hkey
        exact List.mem_cons_of_mem _ hm
      have hcnt1 : ∀ x, (entryCount (staleEntries frame rest) x : Int) ≤ bump T q p (-1) q x := by
        intro x
        have := hcnt x
        rw [entryCount_cons] at this
        by_cases hx : x = p
        · subst hx
          simp only [bump, and_self, if_true]
          simp only [if_true, Nat.cast_add, Nat.cast_one] at this
          omega
        · have hx2 : ¬ (p = x) := fun e => hx e.symm
          simp only [bump, hx, and_false, if_false]
          simp only [hx2, if_false, Nat.add_zero] at this
          exact this
      obtain ⟨w2, h1, h2, h3, h4, h5, h6, h7⟩ := ih w1 (bump T q p (-1)) s2
        (fun e he hne => Kept.stays_live s4 (hlive e (List.mem_cons_of_mem _ he) hne))
        (Kept.stays_live s4 hfr) hact1 hkey1 hcnt1
      refine ⟨w2, ?_, ?_, ?_, ?_, Kept.chain s4 h5, ?_, ?_⟩
      · simp only [clearCacheLoop, s1, Option.some_bind]
        exact h1
      · refine h2.congr (fun c x => ?_)
        rw [staleEntries_cons_other frame k p rest hp, entryCount_cons]
        by_cases hc1 : c = q
        · by_cases hx : x = p
          · subst hc1 hx
            simp only [bump, and_self, if_true, Nat.cast_add, Nat.cast_one]
            omega
          · have hx2 : ¬ (p = x) := fun e => hx e.symm
            simp [bump, hc1, hx, hx2]
        · simp [bump, hc1]
      · refine ⟨?_, ?_⟩
        · rw [h3.1, hsq]
        rw [h3.2, hsq, staleEntries_cons_other frame k p rest hp]
        simp only [QHash.remove, List.filter_filter, List.map_cons, List.mem_cons, not_or]
        apply List.filter_congr
        intro e _
        by_cases h1 : e.1 = k
        · simp [h1]
        · simp [h1]
      · intro c hcq
        rw [h4 c hcq, hso c hcq]
      · intro t k2
        rcases h6 t k2 with h | h
        · rcases s5 t k2 with h8 | h8
          · left
            rw [h, h8]
          · right
            rw [h, h8]
        · right
          exact h
      · intro e g he hne hg hv hT1 hT0
        rcases List.mem_cons.1 he with he1 | he1
        · subst he1
          simp only at hg hT1 hT0 ⊢
          rw [hf] at hg
          simp only [Option.some.injEq] at hg
          subst hg
          have hlast := hc.deref_last p f q hf hT1 hT0
          have h8 := s6 hlast hv
          rcases h6 f.theme (cacheKey env f.enabledBorders f.frameSize.width
              f.frameSize.height (w.svgs q).scaleFactor (w.svgs q).devicePixelRatio k
              (w.svgs q).imagePath) with h | h
          · rw [h, h8]
          · exact h
        · have hep : e.2 ≠ p := by
            intro hh
            have := hcnt p
            rw [entryCount_cons] at this
            have hpos : 0 < entryCount (staleEntries frame rest) p := by
              have hm : e ∈ staleEntries frame rest := by
                simp only [staleEntries, List.mem_filter, decide_eq_true_eq]
                exact ⟨he1, hne⟩
              have := entryCount_pos _ e hm
              rw [hh] at this
              exact this
            rw [← hh] at this hpos
            simp only [if_true, Nat.cast_add, Nat.cast_one] at this
            omega
          obtain ⟨g1, hg1, ht1, hb1, hs1⟩ := s4 e.2 g hg
          have h9 := h7 e g1 he1 hne hg1 (by rw [hs1 hv]; exact hv)
            (by simp only [bump, hep, and_false, if_false]; exact hT1)
            (fun c hcq => by simp only [bump, hcq, false_and, if_false]; exact hT0 c hcq)
          rw [ht1, hb1, hs1 hv, hsq] at h9
          exact h9

end Plasma
namespace Plasma

/-! ## `clearCache` -/

theorem entryCount_split (frame : Ptr) (l : List (String × Ptr)) (x : Ptr) :
    entryCount l x
      = entryCount (l.filter fun e => decide (e.2 = frame)) x
        + entryCount (staleEntries frame l) x := by
  induction l with
  | nil => simp [entryCount, staleEntries]
  | cons a t ih =>
    obtain ⟨k, p⟩ := a
    rw [entryCount_cons, ih]
    by_cases hp : p = frame
    · subst hp
      rw [staleEntries_cons_same]
      simp only [List.filter_cons, decide_True, if_true]
      rw [entryCount_cons]
      omega
    · rw [staleEntries_cons_other frame k p t hp]
      simp only [List.filter_cons, hp, decide_False, Bool.false_eq_true, if_false]
      rw [entryCount_cons]
      omega

theorem World.holdCount_eq (w : World) (c : SvgId) (p : Ptr) :
    w.holdCount c p = entryCount (w.svgs c).frames p := rfl

theorem QHash.nodup_filter {K V : Type} (h : List (K × V)) (P : K × V → Bool)
    (hn : (h.map Prod.fst).Nodup) : ((h.filter P).map Prod.fst).Nodup :=
  hn.sublist ((List.filter_sublist h).map Prod.fst)

/-- The statement of `clearCache` on a state with exact accounting whose active prefix
has the entry `pa`. -/
theorem clearCache_spec (env : Env) (q : SvgId) (w : World) (pa : Ptr) (hacc : Accounted w)
    (hact : QHash.value (w.svgs q).frames (w.svgs q).actualPrefix = some pa) :
    ∃ w1, clearCache env q w = some w1
      ∧ Accounted w1
      ∧ (w1.svgs q = { w.svgs q with frames := (w1.svgs q).frames }
        ∧ (w1.svgs q).frames = (w.svgs q).frames.filter (fun e => decide (e.2 = pa)))
      ∧ (∀ c, c ≠ q → w1.svgs c = w.svgs c)
      ∧ Kept w w1
      ∧ (∀ t k, w1.sharedFrames t k = w.sharedFrames t k ∨ w1.sharedFrames t k = none)
      ∧ (∀ k x f, QHash.value (w.svgs q).frames k = some x → x ≠ pa → w.fd x = some f →
          f.frameSize.isValid = true → w.holdCount q x = 1 →
          (∀ c, c ≠ q → w.holdCount c x = 0) →
          w1.sharedFrames f.theme (cacheKey env f.enabledBorders f.frameSize.width
            f.frameSize.height (w.svgs q).scaleFactor (w.svgs q).devicePixelRatio k
            (w.svgs q).imagePath) = none) := by
  obtain ⟨hkeys, hcnt⟩ := (Accounted.iff_counted w).1 hacc
  have hcon : QHash.contains (w.svgs q).frames (w.svgs q).actualPrefix = true := by
    simp [QHash.contains, hact]
  have hfv : w.framesValue q (w.svgs q).actualPrefix = pa := by
    simp [World.framesValue, hact]
  have hstale : ∀ e, e ∈ staleEntries pa (w.svgs q).frames → e ∈ (w.svgs q).frames ∧ e.2 ≠ pa :=
    fun e he => staleEntries_subset pa _ e he
  obtain ⟨w1, h1, h2, h3, h4, h5, h6, h7⟩ := clearCacheLoop_spec env q pa (w.svgs q).frames w
    (fun c p => (w.holdCount c p : Int)) hcnt
    (fun e he _ => hacc.live q e.1 e.2 (QHash.value_of_mem _ e.1 e.2 (hkeys q) he))
    (hacc.live q _ pa hact) hfv
    (by
      intro hm
      obtain ⟨e, he, hek⟩ := List.mem_map.1 hm
      obtain ⟨he1, he2⟩ := hstale e he
      have := QHash.value_of_mem _ e.1 e.2 (hkeys q) he1
      rw [hek, hact] at this
      simp only [Option.some.injEq] at this
      exact he2 this.symm)
    (by
      intro x
      have := entryCount_split pa (w.svgs q).frames x
      show (entryCount (staleEntries pa (w.svgs q).frames) x : Int)
        ≤ (entryCount (w.svgs q).frames x : Int)
      omega)
  have hfr : (w1.svgs q).frames = (w.svgs q).frames.filter (fun e => decide (e.2 = pa)) := by
    rw [h3.2]
    apply List.filter_congr
    intro e he
    by_cases hp : e.2 = pa
    · simp only [hp, decide_True, decide_eq_true_eq]
      intro hm
      obtain ⟨e2, he2, hek⟩ := List.mem_map.1 hm
      obtain ⟨hm2, hne2⟩ := hstale e2 he2
      have v1 := QHash.value_of_mem _ e2.1 e2.2 (hkeys q) hm2
      have v2 := QHash.value_of_mem _ e.1 e.2 (hkeys q) he
      rw [hek, v2] at v1
      simp only [Option.some.injEq] at v1
      exact hne2 (v1.symm.trans hp)
    · simp only [hp, decide_False, decide_eq_false_iff_not, not_not]
      exact List.mem_map.2 ⟨e, by simp [staleEntries, he, hp], rfl⟩
  refine ⟨w1, ?_, ?_, ⟨h3.1, hfr⟩, h4, h5, h6, ?_⟩
  · unfold clearCache
    simp only [hcon, if_true, hfv]
    exact h1
  · refine (Accounted.iff_counted w1).2 ⟨fun c => ?_, h2.congr (fun c x => ?_)⟩
    · by_cases hc : c = q
      · rw [hc, hfr]
        exact QHash.nodup_filter _ _ (hkeys q)
      · rw [h4 c hc]
        exact hkeys c
    · by_cases hc : c = q
      · subst hc
        have := entryCount_split pa (w.svgs c).frames x
        simp only [World.holdCount_eq, hfr, if_true]
        omega
      · simp only [World.holdCount_eq, h4 c hc, hc, if_false, sub_zero]
  · intro k x f hv hne hf hval hh1 hh0
    exact h7 (k, x) f (QHash.mem_of_value _ k x hv) hne hf hval (by simp [hh1])
      (fun c hc => by simp [hh0 c hc])

end Plasma
namespace Plasma

/-! ## Steps described cell by cell -/

theorem QuietFd.refs_eq {a b : Option FrameData} (h : QuietFd a b) :
    b.map (fun f => f.references) = a.map (fun f => f.references) := by
  cases a with
  | none =>
    cases b with
    | none => rfl
    | some g => exact h.elim
  | some f =>
    cases b with
    | none => exact h.elim
    | some g =>
      simp only [Option.map_some', Option.some.injEq]
      exact h.1

theorem Counted.by_ref_at {v v4 : World} {T : SvgId → Ptr → Int} (h : Counted v T) (q : SvgId)
    (p : Ptr) (nf f2 : FrameData) (hnf : v.fd p = some nf) (hf2 : v4.fd p = some f2)
    (hr : f2.references = (nf.ref q).references)
    (ho : ∀ x, x ≠ p → (v4.fd x).map (fun f => f.references)
      = (v.fd x).map (fun f => f.references)) :
    Counted v4 (bump T q p 1) := by
  refine (h.ref_one p nf q hnf).of_refs (fun x => ?_)
  by_cases hx : x = p
  · rw [hx, hf2, World.fd_setFd_self v p nf _ hnf]
    simp [hr]
  · rw [ho x hx, World.fd_setFd_ne v p x _ hx]

theorem Counted.by_deref_at {v v4 : World} {T : SvgId → Ptr → Int} (h : Counted v T)
    (q : SvgId) (p : Ptr) (f f2 : FrameData) (hf : v.fd p = some f) (hf2 : v4.fd p = some f2)
    (hr : f2.references = (f.deref q).2.references) (hT : 1 ≤ T q p)
    (ho : ∀ x, x ≠ p → (v4.fd x).map (fun f => f.references)
      = (v.fd x).map (fun f => f.references)) :
    Counted v4 (bump T q p (-1)) := by
  refine (h.deref_one p f q hf hT).of_refs (fun x => ?_)
  by_cases hx : x = p
  · rw [hx, hf2, World.fd_setFd_self v p f _ hf]
    simp [hr]
  · rw [ho x hx, World.fd_setFd_ne v p x _ hx]

theorem Counted.by_delete_at {v v4 : World} {T : SvgId → Ptr → Int} (h : Counted v T)
    (q : SvgId) (p : Ptr) (f : FrameData) (hf : v.fd p = some f) (hf2 : v4.fd p = none)
    (hl : (f.deref q).1 = true) (hT : 1 ≤ T q p)
    (ho : ∀ x, x ≠ p → (v4.fd x).map (fun f => f.references)
      = (v.fd x).map (fun f => f.references)) :
    Counted v4 (bump T q p (-1)) := by
  have h2 := h.deref_one p f q hf hT
  have hz := h2.zero_of_empty p _ (World.fd_setFd_self v p f _ hf)
    ((FrameData.deref_last_iff f q).1 hl)
  refine ⟨h2.nonneg, fun x g c hg => ?_, fun x c hx => ?_⟩
  · by_cases hxp : x = p
    · rw [hxp, hf2] at hg
      simp at hg
    · have h3 := ho x hxp
      rw [hg] at h3
      cases hv : v.fd x with
      | none => rw [hv] at h3; simp at h3
      | some g0 =>
        rw [hv] at h3
        simp only [Option.map_some', Option.some.injEq] at h3
        rw [h3]
        exact h2.counts x g0 c (by rw [World.fd_setFd_ne v p x _ hxp]; exact hv)
  · by_cases hxp : x = p
    · rw [hxp]
      exact hz c
    · have h3 := ho x hxp
      rw [hx] at h3
      cases hv : v.fd x with
      | none => exact h2.dead x c (by rw [World.fd_setFd_ne v p x _ hxp]; exact hv)
      | some g0 => rw [hv] at h3; simp at h3

theorem Counted.by_alloc_at {v v4 : World} {T : SvgId → Ptr → Int} (h : Counted v T)
    (q : SvgId) (p : Ptr) (f2 : FrameData) (hn : v.fd p = none) (hf2 : v4.fd p = some f2)
    (hr : f2.references = [(q, 1)])
    (ho : ∀ x, x ≠ p → (v4.fd x).map (fun f => f.references)
      = (v.fd x).map (fun f => f.references)) :
    Counted v4 (bump T q p 1) := by
  refine ⟨fun c x => ?_, fun x g c hg => ?_, fun x c hx => ?_⟩
  · have := h.nonneg c x
    simp only [bump]
    split <;> omega
  · by_cases hxp : x = p
    · rw [hxp, hf2] at hg
      simp only [Option.some.injEq] at hg
      subst hg
      have h0 := h.dead p c hn
      rw [hxp, hr]
      by_cases hc : c = q
      · subst hc
        simp only [bump, and_self, if_true, h0, QHash.value, storedEntry]
        rfl
      · have hc2 : ¬ (q = c) := fun e => hc e.symm
        simp only [bump, hc, false_and, if_false, h0, QHash.value, hc2, storedEntry]
        rfl
    · have h3 := ho x hxp
      rw [hg] at h3
      cases hv : v.fd x with
      | none => rw [hv] at h3; simp at h3
      | some g0 =>
        rw [hv] at h3
        simp only [Option.map_some', Option.some.injEq] at h3
        rw [h3, h.counts x g0 c hv]
        simp [bump, hxp]
  · have hne : x ≠ p := by
      intro he
      rw [he, hf2] at hx
      simp at hx
    have h3 := ho x hne
    rw [hx] at h3
    simp only [bump, hne, and_false, if_false]
    cases hv : v.fd x with
    | none => exact h.dead x c hv
    | some g0 => rw [hv] at h3; simp at h3

/-! ## Counting after `insert` and `remove` -/

theorem entryCount_remove (h : List (String × Ptr)) (k : String) (y : Ptr)
    (hn : (h.map Prod.fst).Nodup) :
    entryCount h y
      = entryCount (QHash.remove h k) y + (if QHash.value h k = some y then 1 else 0) :=
  QHash.count_remove h k y hn

theorem entryCount_insert (h : List (String × Ptr)) (k : String) (x y : Ptr)
    (hn : (h.map Prod.fst).Nodup) :
    entryCount (QHash.insert h k x) y + (if QHash.value h k = some y then 1 else 0)
      = entryCount h y + (if x = y then 1 else 0) := by
  have h1 := entryCount_remove h k y hn
  simp only [QHash.insert]
  rw [entryCount_cons, h1]
  omega

/-! ## Exact accounting from the stored counts -/

theorem Accounted.of_counted {w : World} {T : SvgId → Ptr → Int}
    (hk : ∀ c, ((w.svgs c).frames.map Prod.fst).Nodup) (hc : Counted w T)
    (hT : ∀ c x, (entryCount (w.svgs c).frames x : Int) = T c x) : Accounted w :=
  (Accounted.iff_counted w).2 ⟨hk, hc.congr (fun c x => hT c x)⟩

theorem Accounted.counted {w : World} (h : Accounted w) :
    Counted w (fun c x => (entryCount (w.svgs c).frames x : Int)) :=
  ((Accounted.iff_counted w).1 h).2

theorem Accounted.transfer {w w2 : World} (h : Accounted w)
    (hs : ∀ c, (w2.svgs c).frames = (w.svgs c).frames)
    (hr : ∀ x, (w2.fd x).map (fun f => f.references) = (w.fd x).map (fun f => f.references)) :
    Accounted w2 := by
  refine Accounted.of_counted (fun c => by rw [hs c]; exact h.keys c) (h.counted.of_refs hr)
    (fun c x => by rw [hs c])

theorem Accounted.after_quiet {w w2 : World} (h : Accounted w) (hq : Quiet w w2) :
    Accounted w2 :=
  h.transfer (fun c => by rw [hq.1]) (fun x => QuietFd.refs_eq (hq.2.2 x))

theorem ActiveHeld.carry {w w2 : World} {q : SvgId} (h : ActiveHeld w q)
    (hf : (w2.svgs q).frames = (w.svgs q).frames)
    (hp : (w2.svgs q).actualPrefix = (w.svgs q).actualPrefix) : ActiveHeld w2 q := by
  obtain ⟨p, hp1⟩ := h
  exact ⟨p, by rw [hf, hp]; exact hp1⟩

theorem ActiveHeld.active_live {w : World} {q : SvgId} (h : ActiveHeld w q) (ha : Accounted w) :
    ∃ g, w.fd (w.active q) = some g ∧ w.active q ≠ 0
      ∧ QHash.value (w.svgs q).frames (w.svgs q).actualPrefix = some (w.active q) := by
  obtain ⟨p, hp⟩ := h
  obtain ⟨g, hg⟩ := ha.live q _ p hp
  have e : w.active q = p := by simp [World.active, World.framesValue, hp]
  rw [e]
  exact ⟨g, hg, World.fd_ne_zero hg, hp⟩

end Plasma
namespace Plasma

/-! ## `setElementPrefix` keeps the accounting exact -/

theorem setElementPrefixCreate_sound (env : Env) (q : SvgId) (old : Ptr) (v v4 : World)
    (hacc : Accounted v)
    (hnc : QHash.value (v.svgs q).frames (v.svgs q).actualPrefix = none)
    (h : setElementPrefixCreate env q old v = some v4) :
    Accounted v4
      ∧ ∃ p2, v4.svgs = (v.framesInsert q (v.svgs q).actualPrefix p2).svgs := by
  obtain ⟨p2, f2, hsv, hoth, hf2, hcase, _⟩ := setElementPrefixCreate_effects env q old v v4 h
  have ho : ∀ x, x ≠ p2 → (v4.fd x).map (fun f => f.references)
      = (v.fd x).map (fun f => f.references) := fun x hx => QuietFd.refs_eq (hoth x hx)
  have hcnt : Counted v4 (bump (fun c x => (entryCount (v.svgs c).frames x : Int)) q p2 1) := by
    rcases hcase with ⟨nf, hnf, hq, _⟩ | ⟨hn, hr, _⟩
    · exact hacc.counted.by_ref_at q p2 nf f2 hnf hf2 hq.1 ho
    · exact hacc.counted.by_alloc_at q p2 f2 hn hf2 hr ho
  refine ⟨Accounted.of_counted (fun c => ?_) hcnt (fun c x => ?_), p2, hsv⟩
  · rw [hsv]
    by_cases hc : c = q
    · rw [hc, World.framesInsert_svgs_self]
      exact QHash.nodup_insert _ _ _ (hacc.keys q)
    · rw [World.framesInsert_svgs_ne _ _ _ _ _ hc]
      exact hacc.keys c
  · rw [hsv]
    by_cases hc : c = q
    · subst hc
      rw [World.framesInsert_svgs_self]
      have := entryCount_insert (v.svgs c).frames (v.svgs c).actualPrefix p2 x (hacc.keys c)
      rw [hnc] at this
      simp only [if_false, Nat.add_zero, reduceCtorEq] at this
      simp only [this, bump, true_and]
      by_cases hx : x = p2
      · simp [hx]
      · have hx2 : ¬ (p2 = x) := fun e => hx e.symm
        simp [hx, hx2]
    · rw [World.framesInsert_svgs_ne _ _ _ _ _ hc]
      simp [bump, hc]

theorem setElementPrefix_release_sound (env : Env) (q : SvgId) (p : Ptr) (oldPrefix : String)
    (v v2 : World) (hacc : Accounted v)
    (hv : QHash.value (v.svgs q).frames oldPrefix = some p)
    (h : (((v.framesRemove q oldPrefix).deref p q).bind fun r =>
        if r.1 = true then
          (cacheId env q p oldPrefix r.2).bind fun k =>
            (k.2.fd p).bind fun fd => (k.2.sharedRemove fd.theme k.1).delete p
        else some r.2) = some v2) :
    Accounted v2 ∧ v2.svgs = (v.framesRemove q oldPrefix).svgs := by
  obtain ⟨f, hf⟩ := hacc.live q oldPrefix p hv
  have hf1 : (v.framesRemove q oldPrefix).fd p = some f := by
    rw [World.framesRemove_fd]
    exact hf
  obtain ⟨hsv, hoth, hcase⟩ := setElementPrefix_release env q p oldPrefix _ v2 f hf1 h
  have ho : ∀ x, x ≠ p → (v2.fd x).map (fun f => f.references)
      = ((v.framesRemove q oldPrefix).fd x).map (fun f => f.references) :=
    fun x hx => QuietFd.refs_eq (hoth x hx)
  have hc1 : Counted (v.framesRemove q oldPrefix)
      (fun c x => (entryCount (v.svgs c).frames x : Int)) :=
    hacc.counted.of_fd (fun x => World.framesRemove_fd v q oldPrefix x)
  have hT : (1 : Int) ≤ (entryCount (v.svgs q).frames p : Int) := by
    have := entryCount_pos _ (oldPrefix, p) (QHash.mem_of_value _ _ _ hv)
    simp only at this
    omega
  have hcnt : Counted v2
      (bump (fun c x => (entryCount (v.svgs c).frames x : Int)) q p (-1)) := by
    rcases hcase with ⟨_, hp2, _⟩ | ⟨hl, hp2, _⟩
    · exact hc1.by_deref_at q p f _ hf1 hp2 rfl hT ho
    · exact hc1.by_delete_at q p f hf1 hp2 hl hT ho
  refine ⟨Accounted.of_counted (fun c => ?_) hcnt (fun c x => ?_), hsv⟩
  · rw [hsv]
    by_cases hc : c = q
    · rw [hc, World.framesRemove_svgs_self]
      exact QHash.nodup_remove _ _ (hacc.keys q)
    · rw [World.framesRemove_svgs_ne _ _ _ _ hc]
      exact hacc.keys c
  · rw [hsv]
    by_cases hc : c = q
    · subst hc
      rw [World.framesRemove_svgs_self]
      have := entryCount_remove (v.svgs c).frames oldPrefix x (hacc.keys c)
      rw [hv] at this
      simp only [bump, true_and]
      by_cases hx : x = p
      · subst hx
        simp only [if_true, Nat.cast_add, Nat.cast_one] at this ⊢
        omega
      · have hx2 : ¬ (p = x) := fun e => hx e.symm
        simp only [Option.some.injEq, hx2, if_false, Nat.add_zero] at this
        simp [hx, this]
    · rw [World.framesRemove_svgs_ne _ _ _ _ hc]
      simp [bump, hc]

theorem setElementPrefix_sound (env : Env) (q : SvgId) (a : String) (w wf : World)
    (hacc : Accounted w) (hact : ActiveHeld w q)
    (h : setElementPrefix env q a w = some wf) :
    Accounted wf ∧ ActiveHeld wf q ∧ (∀ c, c ≠ q → wf.svgs c = w.svgs c) := by
  obtain ⟨g, hg, hne0, hval⟩ := hact.active_live hacc
  simp only [World.active] at hg hne0 hval
  obtain ⟨w1, hw1, hcase⟩ := setElementPrefix_stages env q a w wf h
  have hs1q : w1.svgs q = { w.svgs q with
      actualPrefix := resolvePrefix env w q a, requestedPrefix := a } := by
    rw [hw1]
    exact World.setSvg_svgs_self _ _ _
  have hs1o : ∀ c, c ≠ q → w1.svgs c = w.svgs c := by
    intro c hc
    rw [hw1]
    exact World.setSvg_svgs_ne _ _ _ _ hc
  have hfr1 : ∀ c, (w1.svgs c).frames = (w.svgs c).frames := by
    intro c
    by_cases hc : c = q
    · rw [hc, hs1q]
    · rw [hs1o c hc]
  have hfd1 : ∀ x, w1.fd x = w.fd x := by
    intro x
    rw [hw1]
    cases x <;> rfl
  have hacc1 : Accounted w1 := hacc.transfer hfr1 (fun x => by rw [hfd1 x])
  rcases hcase with ⟨hpx, _, hwf⟩ | ⟨hnot, w2, w4, hcreate, hrel, hwf⟩
  · subst hwf
    refine ⟨hacc1, ⟨w.framesValue q (w.svgs q).actualPrefix, ?_⟩, hs1o⟩
    rw [hs1q]
    simp only
    rw [← hpx]
    exact hval
  · have hpne : (w.svgs q).actualPrefix ≠ resolvePrefix env w q a := fun e => hnot ⟨e, hne0⟩
    have h2 : Accounted w2 ∧ (∀ c, c ≠ q → w2.svgs c = w.svgs c)
        ∧ (w2.svgs q).actualPrefix = resolvePrefix env w q a
        ∧ (∃ p2, QHash.value (w2.svgs q).frames (resolvePrefix env w q a) = some p2)
        ∧ QHash.value (w2.svgs q).frames (w.svgs q).actualPrefix
            = some (w.framesValue q (w.svgs q).actualPrefix) := by
      rcases hcreate with ⟨hcon, e2⟩ | ⟨hcon, hcr⟩
      · subst e2
        refine ⟨hacc1, hs1o, by rw [hs1q], ?_, by rw [hfr1]; exact hval⟩
        rw [hfr1]
        simp only [QHash.contains] at hcon
        exact Option.isSome_iff_exists.1 hcon
      · have hnc : QHash.value (w1.svgs q).frames (w1.svgs q).actualPrefix = none := by
          rw [hfr1, hs1q]
          simp only [QHash.contains] at hcon
          cases hh : QHash.value (w.svgs q).frames (resolvePrefix env w q a) with
          | none => rfl
          | some y => rw [hh] at hcon; simp at hcon
        obtain ⟨ha2, p2, hsv⟩ := setElementPrefixCreate_sound env q _ w1 w2 hacc1 hnc hcr
        have hpx1 : (w1.svgs q).actualPrefix = resolvePrefix env w q a := by rw [hs1q]
        refine ⟨ha2, fun c hc => ?_, ?_, ⟨p2, ?_⟩, ?_⟩
        · rw [hsv, World.framesInsert_svgs_ne _ _ _ _ _ hc, hs1o c hc]
        · rw [hsv, World.framesInsert_svgs_self, hs1q]
        · rw [hsv, World.framesInsert_svgs_self, hpx1]
          exact QHash.value_insert_self _ _ _
        · rw [hsv, World.framesInsert_svgs_self, hpx1]
          simp only
          rw [QHash.value_insert_ne _ _ _ _ hpne, hfr1]
          exact hval
    obtain ⟨ha2, ho2, hp2, ⟨p2, hv2⟩, hold2⟩ := h2
    have h4 : Accounted w4 ∧ (∀ c, c ≠ q → w4.svgs c = w.svgs c)
        ∧ (w4.svgs q).actualPrefix = resolvePrefix env w q a
        ∧ (∃ p2, QHash.value (w4.svgs q).frames (resolvePrefix env w q a) = some p2) := by
      rcases hrel with ⟨_, e4⟩ | ⟨_, h0, _⟩ | ⟨_, _, hr⟩
      · subst e4
        exact ⟨ha2, ho2, hp2, p2, hv2⟩
      · exact absurd h0 hne0
      · obtain ⟨ha4, hsv⟩ := setElementPrefix_release_sound env q _ _ w2 w4 ha2 hold2 hr
        refine ⟨ha4, fun c hc => ?_, ?_, ⟨p2, ?_⟩⟩
        · rw [hsv, World.framesRemove_svgs_ne _ _ _ _ hc, ho2 c hc]
        · rw [hsv, World.framesRemove_svgs_self, ← hp2]
        · rw [hsv, World.framesRemove_svgs_self]
          simp only
          rw [QHash.value_remove_ne _ _ _ (fun e => hpne e.symm)]
          exact hv2
    obtain ⟨ha4, ho4, hp4, ⟨p4, hv4⟩⟩ := h4
    have hsq : wf.svgs q = { w4.svgs q with location := Location.Floating } := by
      rw [hwf]
      exact World.setSvg_svgs_self _ _ _
    have hso : ∀ c, c ≠ q → wf.svgs c = w4.svgs c := by
      intro c hc
      rw [hwf]
      exact World.setSvg_svgs_ne _ _ _ _ hc
    have hfr : ∀ c, (wf.svgs c).frames = (w4.svgs c).frames := by
      intro c
      by_cases hc : c = q
      · rw [hc, hsq]
      · rw [hso c hc]
    have hfd : ∀ x, wf.fd x = w4.fd x := by
      intro x
      rw [hwf]
      cases x <;> rfl
    refine ⟨ha4.transfer hfr (fun x => by rw [hfd x]), ⟨p4, ?_⟩, fun c hc => ?_⟩
    · rw [hfr, hsq]
      simp only
      rw [hp4]
      exact hv4
    · rw [hso c hc, ho4 c hc]

end Plasma
namespace Plasma

/-! ## Replacing and adding an entry -/

theorem bump_apply (T : SvgId → Ptr → Int) (c : SvgId) (p : Ptr) (n : Int) (c2 : SvgId)
    (p2 : Ptr) : bump T c p n c2 p2 = T c2 p2 + (if c2 = c ∧ p2 = p then n else 0) := by
  simp only [bump]
  split <;> simp

theorem Accounted.replace_entry {v v1 : World} {T : SvgId → Ptr → Int} (hacc : Accounted v)
    (q : SvgId) (k : String) (fd newFd : Ptr)
    (hv : QHash.value (v.svgs q).frames k = some fd)
    (hs : v1.svgs = (v.framesInsert q k newFd).svgs) (hc : Counted v1 T)
    (hT : ∀ c x, T c x = (entryCount (v.svgs c).frames x : Int)
      + (if c = q ∧ x = newFd then 1 else 0) - (if c = q ∧ x = fd then 1 else 0)) :
    Accounted v1 := by
  refine Accounted.of_counted (fun c => ?_) hc (fun c x => ?_)
  · rw [hs]
    by_cases hcq : c = q
    · rw [hcq, World.framesInsert_svgs_self]
      exact QHash.nodup_insert _ _ _ (hacc.keys q)
    · rw [World.framesInsert_svgs_ne _ _ _ _ _ hcq]
      exact hacc.keys c
  · rw [hs, hT c x]
    by_cases hcq : c = q
    · subst hcq
      rw [World.framesInsert_svgs_self]
      have := entryCount_insert (v.svgs c).frames k newFd x (hacc.keys c)
      rw [hv] at this
      simp only [Option.some.injEq] at this
      simp only [true_and]
      by_cases h1 : x = newFd <;> by_cases h2 : x = fd
      · have e1 : newFd = x := h1.symm
        have e2 : fd = x := h2.symm
        simp only [e1, e2, if_true] at this ⊢
        omega
      · have e1 : newFd = x := h1.symm
        have e2 : ¬ (fd = x) := fun e => h2 e.symm
        simp only [e1, e2, h2, if_true, if_false] at this ⊢
        omega
      · have e1 : ¬ (newFd = x) := fun e => h1 e.symm
        have e2 : fd = x := h2.symm
        simp only [e1, e2, h1, if_true, if_false] at this ⊢
        omega
      · have e1 : ¬ (newFd = x) := fun e => h1 e.symm
        have e2 : ¬ (fd = x) := fun e => h2 e.symm
        simp only [e1, e2, h1, h2, if_false] at this ⊢
        omega
    · rw [World.framesInsert_svgs_ne _ _ _ _ _ hcq]
      simp [hcq]

theorem Accounted.add_entry {v v1 : World} {T : SvgId → Ptr → Int} (hacc : Accounted v)
    (q : SvgId) (k : String) (p2 : Ptr)
    (hv : QHash.value (v.svgs q).frames k = none)
    (hs : v1.svgs = (v.framesInsert q k p2).svgs) (hc : Counted v1 T)
    (hT : ∀ c x, T c x = (entryCount (v.svgs c).frames x : Int)
      + (if c = q ∧ x = p2 then 1 else 0)) :
    Accounted v1 := by
  refine Accounted.of_counted (fun c => ?_) hc (fun c x => ?_)
  · rw [hs]
    by_cases hcq : c = q
    · rw [hcq, World.framesInsert_svgs_self]
      exact QHash.nodup_insert _ _ _ (hacc.keys q)
    · rw [World.framesInsert_svgs_ne _ _ _ _ _ hcq]
      exact hacc.keys c
  · rw [hs, hT c x]
    by_cases hcq : c = q
    · subst hcq
      rw [World.framesInsert_svgs_self]
      have := entryCount_insert (v.svgs c).frames k p2 x (hacc.keys c)
      rw [hv] at this
      simp only [reduceCtorEq, if_false, Nat.add_zero] at this
      simp only [true_and, this]
      by_cases h1 : x = p2
      · simp [h1]
      · have e1 : ¬ (p2 = x) := fun e => h1 e.symm
        simp [h1, e1]
    · rw [World.framesInsert_svgs_ne _ _ _ _ _ hcq]
      simp [hcq]

theorem ActiveHeld.of_insert {v v1 : World} (q : SvgId) (p : Ptr)
    (hs : v1.svgs = (v.framesInsert q (v.svgs q).actualPrefix p).svgs) :
    ActiveHeld v1 q ∧ (∀ c, c ≠ q → v1.svgs c = v.svgs c)
      ∧ (v1.svgs q).actualPrefix = (v.svgs q).actualPrefix
      ∧ QHash.value (v1.svgs q).frames (v1.svgs q).actualPrefix = some p := by
  have e : (v1.svgs q).actualPrefix = (v.svgs q).actualPrefix := by
    rw [hs, World.framesInsert_svgs_self]
  have e2 : QHash.value (v1.svgs q).frames (v1.svgs q).actualPrefix = some p := by
    rw [e, hs, World.framesInsert_svgs_self]
    exact QHash.value_insert_self _ _ _
  exact ⟨⟨p, e2⟩, fun c hc => by rw [hs, World.framesInsert_svgs_ne _ _ _ _ _ hc], e, e2⟩

/-! ## `adoptShared` and `detachOrCopy` -/

theorem adoptShared_sound (q : SvgId) (fd newFd : Ptr) (oldKey : String) (v v1 : World)
    (hacc : Accounted v)
    (hv : QHash.value (v.svgs q).frames (v.svgs q).actualPrefix = some fd)
    (h : adoptShared q fd newFd oldKey v = some v1) :
    Accounted v1 ∧ v1.svgs = (v.framesInsert q (v.svgs q).actualPrefix newFd).svgs := by
  unfold adoptShared at h
  obtain ⟨w1, hw1, h2⟩ := Option.bind_eq_some.1 h
  obtain ⟨nf, hnf, hw1'⟩ := Option.bind_eq_some.1 hw1
  simp only [Option.some.injEq] at hw1'
  subst hw1'
  dsimp only at h2
  obtain ⟨r, hr, h3⟩ := Option.bind_eq_some.1 h2
  obtain ⟨old, hold⟩ := World.deref_live _ _ _ _ hr
  rw [World.deref_eq _ _ _ old hold] at hr
  simp only [Option.some.injEq] at hr
  subst hr
  have hT0 : (1 : Int) ≤ (entryCount (v.svgs q).frames fd : Int) := by
    have := entryCount_pos _ ((v.svgs q).actualPrefix, fd) (QHash.mem_of_value _ _ _ hv)
    simp only at this
    omega
  have c1 := hacc.counted.ref_one newFd nf q hnf
  have c2 : Counted ((v.setFd newFd (nf.ref q)).framesInsert q
      ((v.setFd newFd (nf.ref q)).svgs q).actualPrefix newFd) _ :=
    c1.of_fd (fun x => World.framesInsert_fd _ _ _ _ x)
  have c3 := c2.deref_one fd old q hold (by
    simp only [bump]
    split <;> omega)
  have hT : ∀ c x, bump (bump (fun c x => (entryCount (v.svgs c).frames x : Int)) q newFd 1)
      q fd (-1) c x = (entryCount (v.svgs c).frames x : Int)
      + (if c = q ∧ x = newFd then 1 else 0) - (if c = q ∧ x = fd then 1 else 0) := by
    intro c x
    rw [bump_apply, bump_apply]
    split_ifs <;> omega
  cases hb : (old.deref q).1 with
  | false =>
    simp only [hb, Bool.false_eq_true, if_false, Option.some.injEq] at h3
    subst h3
    have hs : (((v.setFd newFd (nf.ref q)).framesInsert q
        ((v.setFd newFd (nf.ref q)).svgs q).actualPrefix newFd).setFd fd (old.deref q).2).svgs
        = (v.framesInsert q (v.svgs q).actualPrefix newFd).svgs := by
      simp [World.framesInsert, World.setSvg]
    exact ⟨hacc.replace_entry q _ fd newFd hv hs c3 hT, hs⟩
  | true =>
    simp only [hb, if_true] at h3
    have h6 := World.fd_setFd_self _ fd old (old.deref q).2 hold
    rw [h6] at h3
    simp only [Option.some_bind] at h3
    have c4 : Counted ((((v.setFd newFd (nf.ref q)).framesInsert q
        ((v.setFd newFd (nf.ref q)).svgs q).actualPrefix newFd).setFd fd
        (old.deref q).2).sharedRemove (old.deref q).2.theme oldKey) _ :=
      c3.of_fd (fun x => World.sharedRemove_fd _ _ _ x)
    obtain ⟨c5, d1, _⟩ := c4.delete_empty fd (old.deref q).2 (by simpa using h6)
      ((FrameData.deref_last_iff old q).1 hb) h3
    have hs : v1.svgs = (v.framesInsert q (v.svgs q).actualPrefix newFd).svgs := by
      rw [d1]
      simp [World.framesInsert, World.setSvg]
    exact ⟨hacc.replace_entry q _ fd newFd hv hs c5 hT, hs⟩

theorem detachOrCopy_sound (q : SvgId) (fd : Ptr) (oldKey : String) (v : World)
    (r : Ptr × World) (hacc : Accounted v)
    (hv : QHash.value (v.svgs q).frames (v.svgs q).actualPrefix = some fd)
    (h : detachOrCopy q fd oldKey v = some r) :
    Accounted r.2 ∧ (r.2.svgs q).actualPrefix = (v.svgs q).actualPrefix
      ∧ QHash.value (r.2.svgs q).frames (v.svgs q).actualPrefix = some r.1
      ∧ (∀ c, c ≠ q → r.2.svgs c = v.svgs c)
      ∧ ∃ f, r.2.fd r.1 = some f := by
  unfold detachOrCopy at h
  obtain ⟨old, hold, h2⟩ := Option.bind_eq_some.1 h
  by_cases hc : old.refcount = 1
  · simp only [hc, if_true, Option.some.injEq] at h2
    subst h2
    exact ⟨hacc.transfer (fun c => by simp) (fun x => by simp), by simp, by simpa using hv,
      fun c _ => by simp, old, by simpa using hold⟩
  · simp only [hc, if_false] at h2
    rw [World.deref_eq v fd q old hold] at h2
    simp only [Option.some_bind] at h2
    rw [World.fd_setFd_self v fd old _ hold] at h2
    simp only [Option.some_bind, Option.some.injEq] at h2
    subst h2
    have hT0 : (1 : Int) ≤ (entryCount (v.svgs q).frames fd : Int) := by
      have := entryCount_pos _ ((v.svgs q).actualPrefix, fd) (QHash.mem_of_value _ _ _ hv)
      simp only at this
      omega
    have c1 := hacc.counted.deref_one fd old q hold hT0
    have c2 := c1.alloc_one ((old.deref q).2.copy q) q rfl
    have c3 : Counted (((v.setFd fd (old.deref q).2).alloc ((old.deref q).2.copy q)).2.framesInsert
        q ((((v.setFd fd (old.deref q).2).alloc ((old.deref q).2.copy q)).2.svgs q).actualPrefix)
        ((v.setFd fd (old.deref q).2).alloc ((old.deref q).2.copy q)).1) _ :=
      c2.of_fd (fun x => World.framesInsert_fd _ _ _ _ x)
    have hs : (((v.setFd fd (old.deref q).2).alloc ((old.deref q).2.copy q)).2.framesInsert
        q ((((v.setFd fd (old.deref q).2).alloc ((old.deref q).2.copy q)).2.svgs q).actualPrefix)
        ((v.setFd fd (old.deref q).2).alloc ((old.deref q).2.copy q)).1).svgs
        = (v.framesInsert q (v.svgs q).actualPrefix
            ((v.setFd fd (old.deref q).2).alloc ((old.deref q).2.copy q)).1).svgs := by
      simp [World.framesInsert, World.setSvg, World.alloc_svgs]
    obtain ⟨_, a2, a3, a4⟩ := ActiveHeld.of_insert q _ hs
    rw [a3] at a4
    refine ⟨hacc.replace_entry q _ fd _ hv hs c3 (fun c x => ?_), a3, a4, a2, ?_⟩
    · rw [bump_apply, bump_apply]
      split_ifs <;> omega
    · simp only [World.framesInsert_fd]
      exact ⟨_, World.fd_alloc_new _ _⟩

end Plasma
namespace Plasma

/-! ## The operations keep the accounting exact and the active entry in place -/

theorem Quiet.sound {w w1 : World} (hq : Quiet w w1) (q : SvgId) (hacc : Accounted w)
    (hact : ActiveHeld w q) :
    Accounted w1 ∧ ActiveHeld w1 q ∧ (∀ c, c ≠ q → w1.svgs c = w.svgs c) :=
  ⟨hacc.after_quiet hq, hact.carry (by rw [hq.1]) (by rw [hq.1]), fun c _ => by rw [hq.1]⟩

theorem clearCache_sound (env : Env) (q : SvgId) (w w1 : World) (hacc : Accounted w)
    (hact : ActiveHeld w q) (h : clearCache env q w = some w1) :
    Accounted w1 ∧ ActiveHeld w1 q ∧ (∀ c, c ≠ q → w1.svgs c = w.svgs c) := by
  obtain ⟨pa, hpa⟩ := hact
  obtain ⟨w2, h2, a1, ⟨a2, a3⟩, a4, _⟩ := clearCache_spec env q w pa hacc hpa
  rw [h] at h2
  simp only [Option.some.injEq] at h2
  subst h2
  refine ⟨a1, ⟨pa, ?_⟩, a4⟩
  have hpx : (w1.svgs q).actualPrefix = (w.svgs q).actualPrefix := by rw [a2]
  rw [hpx]
  apply QHash.value_of_mem _ _ _ (a1.keys q)
  rw [a3]
  simp only [List.mem_filter, decide_True, and_true]
  exact QHash.mem_of_value _ _ _ hpa

theorem updateSizes_sound (env : Env) (q : SvgId) (w w1 : World) (hacc : Accounted w)
    (hact : ActiveHeld w q) (h : updateSizes env q w = some w1) :
    Accounted w1 ∧ ActiveHeld w1 q ∧ (∀ c, c ≠ q → w1.svgs c = w.svgs c) :=
  (updateSizes_quiet env q w w1 h).sound q hacc hact

theorem updateNeeded_sound (env : Env) (q : SvgId) (w w1 : World) (hacc : Accounted w)
    (hact : ActiveHeld w q) (h : updateNeeded env q w = some w1) :
    Accounted w1 ∧ ActiveHeld w1 q ∧ (∀ c, c ≠ q → w1.svgs c = w.svgs c) := by
  unfold updateNeeded at h
  obtain ⟨v1, h1, h2⟩ := Option.bind_eq_some.1 h
  obtain ⟨v2, h3, h4⟩ := Option.bind_eq_some.1 h2
  obtain ⟨a1, a2, a3⟩ := setElementPrefix_sound env q _ w v1 hacc hact h1
  obtain ⟨b1, b2, b3⟩ := clearCache_sound env q v1 v2 a1 a2 h3
  obtain ⟨c1, c2, c3⟩ := updateSizes_sound env q v2 w1 b1 b2 h4
  exact ⟨c1, c2, fun c hc => by rw [c3 c hc, b3 c hc, a3 c hc]⟩

theorem updateAndSignalSizes_sound (env : Env) (q : SvgId) (w w1 : World) (hacc : Accounted w)
    (hact : ActiveHeld w q) (h : updateAndSignalSizes env q w = some w1) :
    Accounted w1 ∧ ActiveHeld w1 q ∧ (∀ c, c ≠ q → w1.svgs c = w.svgs c) := by
  unfold updateAndSignalSizes at h
  obtain ⟨v1, h1, h2⟩ := Option.bind_eq_some.1 h
  obtain ⟨a1, a2, a3⟩ := updateSizes_sound env q w v1 hacc hact h1
  obtain ⟨b1, b2, b3⟩ := updateNeeded_sound env q v1 w1 a1 a2 h2
  exact ⟨b1, b2, fun c hc => by rw [b3 c hc, a3 c hc]⟩

theorem setElementPrefixLocation_sound (env : Env) (q : SvgId) (l : Location) (w w1 : World)
    (hacc : Accounted w) (hact : ActiveHeld w q)
    (h : setElementPrefixLocation env q l w = some w1) :
    Accounted w1 ∧ ActiveHeld w1 q ∧ (∀ c, c ≠ q → w1.svgs c = w.svgs c) := by
  unfold setElementPrefixLocation at h
  obtain ⟨v1, h1, h2⟩ := Option.bind_eq_some.1 h
  simp only [Option.some.injEq] at h2
  have hs : ∃ a, setElementPrefix env q a w = some v1 := by
    cases l <;> exact ⟨_, h1⟩
  obtain ⟨a, ha⟩ := hs
  obtain ⟨a1, a2, a3⟩ := setElementPrefix_sound env q a w v1 hacc hact ha
  subst h2
  refine ⟨a1.transfer (fun c => ?_) (fun x => by simp), a2.carry (by simp) (by simp),
    fun c hc => ?_⟩
  · by_cases hc : c = q
    · rw [hc]; simp
    · rw [World.setSvg_svgs_ne _ _ _ _ hc]
  · rw [World.setSvg_svgs_ne _ _ _ _ hc, a3 c hc]

theorem World.value_active (w : World) (q : SvgId) (hacc : Accounted w) (hact : ActiveHeld w q) :
    QHash.value (w.svgs q).frames (w.svgs q).actualPrefix
      = some (w.framesValue q (w.svgs q).actualPrefix) :=
  (hact.active_live hacc).choose_spec.2.2

theorem Accounted.set_cell {w : World} (hacc : Accounted w) (p : Ptr) (f f2 : FrameData)
    (hf : w.fd p = some f) (hr : f2.references = f.references) : Accounted (w.setFd p f2) := by
  refine hacc.transfer (fun c => by simp) (fun x => ?_)
  by_cases hx : x = p
  · rw [hx, World.fd_setFd_self w p f f2 hf, hf]
    simp [hr]
  · rw [World.fd_setFd_ne w p x f2 hx]

theorem setEnabledBorders_sound (env : Env) (q : SvgId) (borders : Nat) (w w1 : World)
    (hacc : Accounted w) (hact : ActiveHeld w q)
    (h : setEnabledBorders env q borders w = some w1) :
    Accounted w1 ∧ ActiveHeld w1 q ∧ (∀ c, c ≠ q → w1.svgs c = w.svgs c) := by
  have hval := World.value_active w q hacc hact
  unfold setEnabledBorders at h
  obtain ⟨f0, hf0, h2⟩ := Option.bind_eq_some.1 h
  by_cases hb : borders = f0.enabledBorders
  · simp only [hb, if_true, Option.some.injEq] at h2
    subst h2
    exact ⟨hacc, hact, fun _ _ => rfl⟩
  · simp only [hb, if_false] at h2
    obtain ⟨k, hk, h3⟩ := Option.bind_eq_some.1 h2
    obtain ⟨⟨k1, k2⟩, v⟩ := k
    obtain ⟨hq, _⟩ := setEnabledBordersKeys_spec env q _ borders w v k1 k2 hk
    have haccv := hacc.after_quiet hq
    have hvalv : QHash.value (v.svgs q).frames (v.svgs q).actualPrefix
        = some (w.framesValue q (w.svgs q).actualPrefix) := by
      rw [hq.1]
      exact hval
    dsimp only at h3
    by_cases hn : v.sharedValue (v.svgs q).theme k2 = 0
    · simp only [hn, ne_eq, not_true_eq_false, if_false] at h3
      obtain ⟨r, hr, h4⟩ := Option.bind_eq_some.1 h3
      obtain ⟨f, hf, h5⟩ := Option.bind_eq_some.1 h4
      obtain ⟨a1, a2, a3, a4, _⟩ := detachOrCopy_sound q _ k1 v r haccv hvalv hr
      have b1 := a1.set_cell r.1 f { f with enabledBorders := borders } hf rfl
      have b2 : ActiveHeld (r.2.setFd r.1 { f with enabledBorders := borders }) q :=
        ⟨r.1, by simp only [World.setFd_svgs]; rw [a2]; exact a3⟩
      obtain ⟨c1, c2, c3⟩ := updateAndSignalSizes_sound env q _ w1 b1 b2 h5
      refine ⟨c1, c2, fun c hc => ?_⟩
      rw [c3 c hc]
      simp only [World.setFd_svgs]
      rw [a4 c hc, hq.1]
    · simp only [ne_eq, hn, not_false_eq_true, if_true] at h3
      obtain ⟨a1, a2⟩ := adoptShared_sound q _ _ k1 v w1 haccv hvalv h3
      obtain ⟨b1, b2, _⟩ := ActiveHeld.of_insert q _ a2
      exact ⟨a1, b1, fun c hc => by rw [b2 c hc, hq.1]⟩

theorem resizeFrame_sound (env : Env) (q : SvgId) (size : QSizeF) (w w1 : World)
    (hacc : Accounted w) (hact : ActiveHeld w q)
    (h : resizeFrame env q size w = some w1) :
    Accounted w1 ∧ ActiveHeld w1 q ∧ (∀ c, c ≠ q → w1.svgs c = w.svgs c) := by
  have hval := World.value_active w q hacc hact
  unfold resizeFrame at h
  by_cases hp : (w.svgs q).imagePath.isEmpty = true
  · simp only [hp, if_true, Option.some.injEq] at h
    subst h
    exact ⟨hacc, hact, fun _ _ => rfl⟩
  simp only [hp, Bool.false_eq_true, if_false] at h
  by_cases hs : size.isEmpty = true
  · simp only [hs, if_true, Option.some.injEq] at h
    subst h
    exact ⟨hacc, hact, fun _ _ => rfl⟩
  simp only [hs, Bool.false_eq_true, if_false] at h
  obtain ⟨f0, hf0, h2⟩ := Option.bind_eq_some.1 h
  by_cases hb : size.fuzzyEq f0.frameSize = true
  · simp only [hb, if_true, Option.some.injEq] at h2
    subst h2
    exact ⟨hacc, hact, fun _ _ => rfl⟩
  · simp only [hb, Bool.false_eq_true, if_false] at h2
    obtain ⟨k, hk, h3⟩ := Option.bind_eq_some.1 h2
    obtain ⟨⟨k1, k2⟩, v⟩ := k
    obtain ⟨hq, _⟩ := resizeFrameKeys_spec env q _ size w v k1 k2 (by simpa using hs) hk
    have haccv := hacc.after_quiet hq
    have hvalv : QHash.value (v.svgs q).frames (v.svgs q).actualPrefix
        = some (w.framesValue q (w.svgs q).actualPrefix) := by
      rw [hq.1]
      exact hval
    dsimp only at h3
    by_cases hn : v.sharedValue (v.svgs q).theme k2 = 0
    · simp only [hn, ne_eq, not_true_eq_false, if_false] at h3
      obtain ⟨r, hr, h4⟩ := Option.bind_eq_some.1 h3
      obtain ⟨v1, hv1, h5⟩ := Option.bind_eq_some.1 h4
      obtain ⟨f, hf, h6⟩ := Option.bind_eq_some.1 h5
      simp only [Option.some.injEq] at h6
      obtain ⟨a1, a2, a3, a4, _⟩ := detachOrCopy_sound q _ k1 v r haccv hvalv hr
      have hq2 := updateSizes_quiet env q r.2 v1 hv1
      have b1 := (a1.after_quiet hq2).set_cell r.1 f
        { f with frameSize := size.toSize, theme := (v1.svgs q).theme } hf rfl
      subst h6
      refine ⟨b1.transfer (fun c => by simp) (fun x => by simp), ⟨r.1, ?_⟩, fun c hc => ?_⟩
      · simp only [World.sharedInsert_svgs, World.setFd_svgs]
        rw [hq2.1, a2]
        exact a3
      · simp only [World.sharedInsert_svgs, World.setFd_svgs]
        rw [hq2.1, a4 c hc, hq.1]
    · simp only [ne_eq, hn, not_false_eq_true, if_true] at h3
      obtain ⟨a1, a2⟩ := adoptShared_sound q _ _ k1 v w1 haccv hvalv h3
      obtain ⟨b1, b2, _⟩ := ActiveHeld.of_insert q _ a2
      exact ⟨a1, b1, fun c hc => by rw [b2 c hc, hq.1]⟩

theorem setCacheAllRenderedFrames_sound (env : Env) (q : SvgId) (cache : Bool) (w w1 : World)
    (hacc : Accounted w) (hact : ActiveHeld w q)
    (h : setCacheAllRenderedFrames env q cache w = some w1) :
    Accounted w1 ∧ ActiveHeld w1 q ∧ (∀ c, c ≠ q → w1.svgs c = w.svgs c) := by
  unfold setCacheAllRenderedFrames at h
  obtain ⟨v1, h1, h2⟩ := Option.bind_eq_some.1 h
  simp only [Option.some.injEq] at h2
  have h3 : Accounted v1 ∧ ActiveHeld v1 q ∧ (∀ c, c ≠ q → v1.svgs c = w.svgs c) := by
    by_cases hc : ((w.svgs q).cacheAll && !cache) = true
    · rw [if_pos hc] at h1
      exact clearCache_sound env q w v1 hacc hact h1
    · rw [if_neg hc] at h1
      simp only [Option.some.injEq] at h1
      subst h1
      exact ⟨hacc, hact, fun _ _ => rfl⟩
  obtain ⟨a1, a2, a3⟩ := h3
  subst h2
  refine ⟨a1.transfer (fun c => ?_) (fun x => by simp), a2.carry (by simp) (by simp),
    fun c hc => ?_⟩
  · by_cases hc : c = q
    · rw [hc]; simp
    · rw [World.setSvg_svgs_ne _ _ _ _ hc]
  · rw [World.setSvg_svgs_ne _ _ _ _ hc, a3 c hc]

end Plasma
namespace Plasma

/-! ## `setImagePath` keeps the accounting exact -/

theorem Accounted.replace_frames {v v1 : World} {T : SvgId → Ptr → Int} (hacc : Accounted v)
    (q : SvgId) (k : String) (fd newFd : Ptr)
    (hv : QHash.value (v.svgs q).frames k = some fd)
    (hsq : (v1.svgs q).frames = QHash.insert (v.svgs q).frames k newFd)
    (hso : ∀ c, c ≠ q → (v1.svgs c).frames = (v.svgs c).frames) (hc : Counted v1 T)
    (hT : ∀ c x, T c x = (entryCount (v.svgs c).frames x : Int)
      + (if c = q ∧ x = newFd then 1 else 0) - (if c = q ∧ x = fd then 1 else 0)) :
    Accounted v1 := by
  refine Accounted.of_counted (fun c => ?_) hc (fun c x => ?_)
  · by_cases hcq : c = q
    · rw [hcq, hsq]
      exact QHash.nodup_insert _ _ _ (hacc.keys q)
    · rw [hso c hcq]
      exact hacc.keys c
  · rw [hT c x]
    by_cases hcq : c = q
    · subst hcq
      rw [hsq]
      have := entryCount_insert (v.svgs c).frames k newFd x (hacc.keys c)
      rw [hv] at this
      simp only [Option.some.injEq] at this
      simp only [true_and]
      have e1 : (newFd = x) = (x = newFd) := propext ⟨Eq.symm, Eq.symm⟩
      have e2 : (fd = x) = (x = fd) := propext ⟨Eq.symm, Eq.symm⟩
      simp only [e1, e2] at this
      split_ifs at this ⊢ <;> omega
    · rw [hso c hcq]
      simp [hcq]

theorem Svg_setImagePath_frames (env : Env) (q : SvgId) (path : String) (w : World) (c : SvgId) :
    ((Svg_setImagePath env q path w).svgs c).frames = (w.svgs c).frames
      ∧ ((Svg_setImagePath env q path w).svgs c).actualPrefix = (w.svgs c).actualPrefix
      ∧ (c ≠ q → (Svg_setImagePath env q path w).svgs c = w.svgs c) := by
  unfold Svg_setImagePath
  by_cases hc : c = q
  · subst hc
    simp
  · simp [World.setSvg_svgs_ne _ _ _ _ hc, hc]

theorem Svg_setImagePath_fd (env : Env) (q : SvgId) (path : String) (w : World) (x : Ptr) :
    (Svg_setImagePath env q path w).fd x = w.fd x := by
  unfold Svg_setImagePath
  simp

theorem setImagePath_sound (env : Env) (q : SvgId) (path : String) (w wf : World)
    (hacc : Accounted w) (hact : ActiveHeld w q)
    (h : setImagePath env q path w = some wf) :
    Accounted wf ∧ ActiveHeld wf q ∧ (∀ c, c ≠ q → wf.svgs c = w.svgs c) := by
  unfold setImagePath at h
  by_cases hp : path = (w.svgs q).imagePath
  · simp only [hp, if_true, Option.some.injEq] at h
    subst h
    exact ⟨hacc, hact, fun _ _ => rfl⟩
  simp only [hp, if_false] at h
  obtain ⟨w1, hw1, h2⟩ := Option.bind_eq_some.1 h
  obtain ⟨acc1, act1, oth1⟩ := clearCache_sound env q w w1 hacc hact hw1
  have hval1 := World.value_active w1 q acc1 act1
  obtain ⟨f0, hf0, h3⟩ := Option.bind_eq_some.1 h2
  obtain ⟨a, ha, h4⟩ := Option.bind_eq_some.1 h3
  obtain ⟨b, hb, h5⟩ := Option.bind_eq_some.1 h4
  have hne0 : w1.framesValue q (w1.svgs q).actualPrefix ≠ 0 := World.fd_ne_zero hf0
  -- the state after the middle part
  have hmid : Accounted b.2 ∧ ActiveHeld b.2 q ∧ (∀ c, c ≠ q → b.2.svgs c = w1.svgs c)
      ∧ (b.1.2 = true → ∃ f, b.2.fd b.1.1 = some f) := by
    by_cases hr : f0.refcount = 1
    · simp only [hr, if_true] at ha
      obtain ⟨k, hk, h6⟩ := Option.bind_eq_some.1 ha
      obtain ⟨f1, hf1, h7⟩ := Option.bind_eq_some.1 h6
      simp only [Option.some.injEq] at h7
      subst h7
      have hq := cacheId_quiet env q _ _ w1 k.2 k.1 hk
      simp only [hne0, if_false, Option.some.injEq] at hb
      subst hb
      dsimp only
      obtain ⟨b1, b2, b3⟩ := hq.sound q acc1 act1
      refine ⟨b1.transfer (fun c => ?_) (fun x => ?_), b2.carry ?_ ?_, fun c hc => ?_, fun _ => ?_⟩
      · rw [(Svg_setImagePath_frames env q path _ c).1]
        simp
      · rw [Svg_setImagePath_fd]
        simp
      · rw [(Svg_setImagePath_frames env q path _ q).1]
        simp
      · rw [(Svg_setImagePath_frames env q path _ q).2.1]
        simp
      · rw [(Svg_setImagePath_frames env q path _ c).2.2 hc]
        simp only [World.sharedRemove_svgs]
        exact b3 c hc
      · rw [Svg_setImagePath_fd]
        exact ⟨f1, by simpa using hf1⟩
    · simp only [hr, if_false] at ha
      rw [World.deref_eq w1 _ q f0 hf0] at ha
      simp only [Option.some_bind, Option.some.injEq] at ha
      subst ha
      simp only [if_true] at hb
      obtain ⟨k, hk, h6⟩ := Option.bind_eq_some.1 hb
      have hq := cacheId_quiet env q _ _ _ k.2 k.1 hk
      have hT0 : (1 : Int) ≤ (entryCount (w1.svgs q).frames
          (w1.framesValue q (w1.svgs q).actualPrefix) : Int) := by
        have := entryCount_pos _ ((w1.svgs q).actualPrefix,
          w1.framesValue q (w1.svgs q).actualPrefix) (QHash.mem_of_value _ _ _ hval1)
        simp only at this
        omega
      have c1 := acc1.counted.deref_one _ f0 q hf0 hT0
      have c2 : Counted (Svg_setImagePath env q path
          (w1.setFd (w1.framesValue q (w1.svgs q).actualPrefix) (f0.deref q).2)) _ :=
        c1.of_fd (fun x => Svg_setImagePath_fd env q path _ x)
      have c3 := c2.of_quiet hq
      have hks : ∀ c, (k.2.svgs c).frames = (w1.svgs c).frames
          ∧ (k.2.svgs c).actualPrefix = (w1.svgs c).actualPrefix
          ∧ (c ≠ q → k.2.svgs c = w1.svgs c) := by
        intro c
        rw [hq.1]
        have := Svg_setImagePath_frames env q path
          (w1.setFd (w1.framesValue q (w1.svgs q).actualPrefix) (f0.deref q).2) c
        simpa using this
      have hpx : ((Svg_setImagePath env q path
          (w1.setFd (w1.framesValue q (w1.svgs q).actualPrefix) (f0.deref q).2)).svgs q).actualPrefix
          = (w1.svgs q).actualPrefix := by
        have := (Svg_setImagePath_frames env q path
          (w1.setFd (w1.framesValue q (w1.svgs q).actualPrefix) (f0.deref q).2) q).2.1
        simpa using this
      rw [hpx] at h6
      by_cases hfound : k.2.sharedValue (k.2.svgs q).theme k.1 = 0
      · simp only [hfound, ne_eq, not_true_eq_false, if_false] at h6
        obtain ⟨old, hold, h7⟩ := Option.bind_eq_some.1 h6
        simp only [Option.some.injEq] at h7
        subst h7
        dsimp only
        have c4 := c3.alloc_one (old.copy q) q rfl
        have hsq : (((k.2.alloc (old.copy q)).2.framesInsert q (w1.svgs q).actualPrefix
            (k.2.alloc (old.copy q)).1).svgs q).frames
            = QHash.insert (w1.svgs q).frames (w1.svgs q).actualPrefix
              (k.2.alloc (old.copy q)).1 := by
          rw [World.framesInsert_svgs_self]
          simp only [World.alloc_svgs]
          rw [(hks q).1]
        have hso : ∀ c, c ≠ q → ((k.2.alloc (old.copy q)).2.framesInsert q
            (w1.svgs q).actualPrefix (k.2.alloc (old.copy q)).1).svgs c = w1.svgs c := by
          intro c hc
          rw [World.framesInsert_svgs_ne _ _ _ _ _ hc]
          simp only [World.alloc_svgs]
          exact (hks c).2.2 hc
        refine ⟨acc1.replace_frames q _ _ _ hval1 hsq (fun c hc => by rw [hso c hc])
          (c4.of_fd (fun x => World.framesInsert_fd _ _ _ _ x)) (fun c x => ?_),
          ⟨(k.2.alloc (old.copy q)).1, ?_⟩, hso,
          fun _ => ⟨old.copy q, by simp only [World.framesInsert_fd]; exact World.fd_alloc_new _ _⟩⟩
        · rw [bump_apply, bump_apply]
          split_ifs <;> omega
        · rw [hsq, World.framesInsert_svgs_self]
          simp only [World.alloc_svgs]
          rw [(hks q).2.1]
          exact QHash.value_insert_self _ _ _
      · simp only [ne_eq, hfound, not_false_eq_true, if_true] at h6
        obtain ⟨w3, hw3, h7⟩ := Option.bind_eq_some.1 h6
        obtain ⟨nf, hnf, hw3'⟩ := Option.bind_eq_some.1 hw3
        simp only [Option.some.injEq] at hw3' h7
        subst hw3'
        subst h7
        dsimp only
        have c4 := c3.ref_one _ nf q hnf
        have hsq : (((k.2.setFd (k.2.sharedValue (k.2.svgs q).theme k.1) (nf.ref q)).framesInsert q
            (w1.svgs q).actualPrefix (k.2.sharedValue (k.2.svgs q).theme k.1)).svgs q).frames
            = QHash.insert (w1.svgs q).frames (w1.svgs q).actualPrefix
              (k.2.sharedValue (k.2.svgs q).theme k.1) := by
          rw [World.framesInsert_svgs_self]
          simp only [World.setFd_svgs]
          rw [(hks q).1]
        have hso : ∀ c, c ≠ q → ((k.2.setFd (k.2.sharedValue (k.2.svgs q).theme k.1)
            (nf.ref q)).framesInsert q (w1.svgs q).actualPrefix
            (k.2.sharedValue (k.2.svgs q).theme k.1)).svgs c = w1.svgs c := by
          intro c hc
          rw [World.framesInsert_svgs_ne _ _ _ _ _ hc]
          simp only [World.setFd_svgs]
          exact (hks c).2.2 hc
        refine ⟨acc1.replace_frames q _ _ _ hval1 hsq (fun c hc => by rw [hso c hc])
          (c4.of_fd (fun x => World.framesInsert_fd _ _ _ _ x)) (fun c x => ?_),
          ⟨k.2.sharedValue (k.2.svgs q).theme k.1, ?_⟩, hso,
          fun hh => by simp at hh⟩
        · rw [bump_apply, bump_apply]
          split_ifs <;> omega
        · rw [hsq, World.framesInsert_svgs_self]
          simp only [World.setFd_svgs]
          rw [(hks q).2.1]
          exact QHash.value_insert_self _ _ _
  obtain ⟨accb, actb, othb, hlive⟩ := hmid
  by_cases hflag : b.1.2 = true
  · simp only [hflag, if_true] at h5
    obtain ⟨k, hk, h6⟩ := Option.bind_eq_some.1 h5
    obtain ⟨f, hf, h7⟩ := Option.bind_eq_some.1 h6
    have hq := cacheId_quiet env q _ _ _ k.2 k.1 hk
    obtain ⟨b1, b2, b3⟩ := hq.sound q accb actb
    have b4 : Accounted ((k.2.sharedInsert (k.2.svgs q).theme k.1 b.1.1).setFd b.1.1
        { f with theme := (k.2.svgs q).theme }) :=
      Accounted.set_cell (b1.transfer (fun c => by simp) (fun x => by simp)) b.1.1 f _
        (by simpa using hf) rfl
    have b5 : ActiveHeld ((k.2.sharedInsert (k.2.svgs q).theme k.1 b.1.1).setFd b.1.1
        { f with theme := (k.2.svgs q).theme }) q := b2.carry (by simp) (by simp)
    obtain ⟨c1, c2, c3⟩ := updateAndSignalSizes_sound env q _ wf b4 b5 h7
    refine ⟨c1, c2, fun c hc => ?_⟩
    rw [c3 c hc]
    simp only [World.setFd_svgs, World.sharedInsert_svgs]
    rw [b3 c hc, othb c hc, oth1 c hc]
  · simp only [hflag, Bool.false_eq_true, if_false] at h5
    obtain ⟨c1, c2, c3⟩ := updateNeeded_sound env q _ wf accb actb h5
    exact ⟨c1, c2, fun c hc => by rw [c3 c hc, othb c hc, oth1 c hc]⟩

end Plasma
namespace Plasma

/-! ## The raster functions -/

theorem Grown.start {q : SvgId} {w : World} (hacc : Accounted w) (hact : ActiveHeld w q) :
    Grown q w w :=
  ⟨hacc, hact, fun _ _ => rfl, fun _ _ h => h⟩

theorem Grown.after {q : SvgId} {a b c : World} (h1 : Grown q a b) (h2 : Grown q b c) :
    Grown q a c :=
  ⟨h2.1, h2.2.1, fun x hx => by rw [h2.2.2.1 x hx, h1.2.2.1 x hx],
    fun k x h => h2.2.2.2 k x (h1.2.2.2 k x h)⟩

theorem Grown.by_quiet {q : SvgId} {w w1 : World} (hacc : Accounted w) (hact : ActiveHeld w q)
    (hq : Quiet w w1) : Grown q w w1 := by
  obtain ⟨a1, a2, a3⟩ := hq.sound q hacc hact
  exact ⟨a1, a2, a3, fun k x h => by rw [hq.1]; exact h⟩

theorem Grown.of_cell {q : SvgId} {w : World} (hacc : Accounted w) (hact : ActiveHeld w q)
    (p : Ptr) (f f2 : FrameData) (hf : w.fd p = some f) (hr : f2.references = f.references) :
    Grown q w (w.setFd p f2) :=
  ⟨hacc.set_cell p f f2 hf hr, hact.carry (by simp) (by simp), fun _ _ => by simp,
    fun k x h => by simpa using h⟩

theorem cacheFrame_quiet (env : Env) (q : SvgId) (px : String) (bg ov : QPixmap)
    (w w1 : World) (h : cacheFrame env q px bg ov w = some w1) : Quiet w w1 := by
  unfold cacheFrame at h
  by_cases h1 : (!(w.svgs q).usingRenderingCache) = true
  · rw [if_pos h1] at h
    simp only [Option.some.injEq] at h
    subst h
    exact Quiet.world_refl w
  rw [if_neg h1] at h
  dsimp only at h
  by_cases h2 : w.framesValue q px = 0
  · rw [if_pos h2] at h
    simp only [Option.some.injEq] at h
    subst h
    exact Quiet.world_refl w
  rw [if_neg h2] at h
  obtain ⟨k, hk, h3⟩ := Option.bind_eq_some.1 h
  simp only [Option.some.injEq] at h3
  have hq := cacheId_quiet env q _ _ w k.2 k.1 hk
  subst h3
  refine ⟨hq.1, hq.2.1, fun x => ?_⟩
  have : ∀ (v : World) (pc : ThemeId → String → Option QPixmap) (y : Ptr),
      World.fd { v with pixmapCache := pc } y = v.fd y := by
    intro v pc y
    cases y <;> rfl
  rw [this]
  exact hq.2.2 x

theorem overlayPlacement_quiet (env : Env) (q : SvgId) (frame : Ptr) (w : World)
    (r : ((Int × Int) × QSize) × World) (h : overlayPlacement env q frame w = some r) :
    Quiet w r.2 := by
  unfold overlayPlacement at h
  dsimp only at h
  obtain ⟨f, hf, h1⟩ := Option.bind_eq_some.1 h
  split at h1
  · simp only [Option.some.injEq] at h1
    subst h1
    exact Quiet.world_refl w
  split at h1
  · simp only [Option.some.injEq] at h1
    subst h1
    exact Quiet.world_refl w
  split at h1
  · obtain ⟨s, hs, h2⟩ := Option.bind_eq_some.1 h1
    simp only [Option.some.injEq] at h2
    subst h2
    exact frameSize_quiet env q frame w s.2 s.1 hs
  · obtain ⟨a, ha, h2⟩ := Option.bind_eq_some.1 h1
    obtain ⟨b, hb, h3⟩ := Option.bind_eq_some.1 h2
    simp only [Option.some.injEq] at h3
    subst h3
    have qa : Quiet w a.2 := by
      split at ha
      · obtain ⟨s, hs, h4⟩ := Option.bind_eq_some.1 ha
        simp only [Option.some.injEq] at h4
        subst h4
        exact frameSize_quiet env q frame w s.2 s.1 hs
      · simp only [Option.some.injEq] at ha
        subst ha
        exact Quiet.world_refl w
    have qb : Quiet a.2 b.2 := by
      split at hb
      · obtain ⟨s, hs, h4⟩ := Option.bind_eq_some.1 hb
        simp only [Option.some.injEq] at h4
        subst h4
        exact frameSize_quiet env q frame a.2 s.2 s.1 hs
      · simp only [Option.some.injEq] at hb
        subst hb
        exact Quiet.world_refl a.2
    exact Quiet.world_trans qa qb

theorem generateFrameBackground_grown (env : Env) (q : SvgId)
    (mask : World → Option (QPixmap × World))
    (hmask : ∀ v r, Accounted v → ActiveHeld v q → mask v = some r → Grown q v r.2)
    (frame : Ptr) (w w1 : World) (hacc : Accounted w) (hact : ActiveHeld w q)
    (h : generateFrameBackground env q mask frame w = some w1) : Grown q w w1 := by
  unfold generateFrameBackground at h
  obtain ⟨r, hr, h1⟩ := Option.bind_eq_some.1 h
  have hq := frameSize_quiet env q frame w r.2 r.1 hr
  have g1 := Grown.by_quiet hacc hact hq
  dsimp only at h1
  split at h1
  · simp only [Option.some.injEq] at h1
    subst h1
    exact g1
  split at h1
  · simp only [Option.some.injEq] at h1
    subst h1
    exact g1
  obtain ⟨f, hf, h2⟩ := Option.bind_eq_some.1 h1
  have g2 := Grown.of_cell g1.1 g1.2.1 frame f
    { f with cachedBackground := QPixmap.ofSize (r.1.scaled (r.2.svgs q).devicePixelRatio) }
    hf rfl
  split at h2
  · obtain ⟨m, hm, h3⟩ := Option.bind_eq_some.1 h2
    simp only [Option.some.injEq] at h3
    subst h3
    exact g1.after (g2.after (hmask _ m g2.1 g2.2.1 hm))
  · simp only [Option.some.injEq] at h2
    subst h2
    exact g1.after g2

theorem generateBackground_grown (env : Env) (q : SvgId)
    (mask : World → Option (QPixmap × World))
    (hmask : ∀ v r, Accounted v → ActiveHeld v q → mask v = some r → Grown q v r.2)
    (frame : Ptr) (w w1 : World) (hacc : Accounted w) (hact : ActiveHeld w q)
    (h : generateBackground env q mask frame w = some w1) : Grown q w w1 := by
  unfold generateBackground at h
  obtain ⟨f0, hf0, h1⟩ := Option.bind_eq_some.1 h
  split at h1
  · simp only [Option.some.injEq] at h1
    subst h1
    exact Grown.start hacc hact
  dsimp only at h1
  obtain ⟨k, hk, h2⟩ := Option.bind_eq_some.1 h1
  have g1 := Grown.by_quiet hacc hact (cacheId_quiet env q _ _ w k.2 k.1 hk)
  obtain ⟨f1, hf1, h3⟩ := Option.bind_eq_some.1 h2
  obtain ⟨w2, hw2, h4⟩ := Option.bind_eq_some.1 h3
  obtain ⟨ov, hov, h5⟩ := Option.bind_eq_some.1 h4
  have g3 : ∀ (hit : Option QPixmap),
      (if (!(hit.getD none).isSome) = true then
        generateFrameBackground env q mask frame
          (match hit with
            | some pix => k.2.setFd frame { f1 with cachedBackground := pix }
            | none => k.2)
      else some (match hit with
            | some pix => k.2.setFd frame { f1 with cachedBackground := pix }
            | none => k.2)) = some w2 → Grown q k.2 w2 := by
    intro hit hh
    cases hit with
    | none =>
      simp only [Option.getD_none, Option.isSome_none, Bool.not_false, if_true] at hh
      exact generateFrameBackground_grown env q mask hmask frame _ w2 g1.1 g1.2.1 hh
    | some pix =>
      have g2 := Grown.of_cell g1.1 g1.2.1 frame f1 { f1 with cachedBackground := pix } hf1 rfl
      simp only [Option.getD_some] at hh
      split at hh
      · exact g2.after (generateFrameBackground_grown env q mask hmask frame _ w2 g2.1 g2.2.1 hh)
      · simp only [Option.some.injEq] at hh
        subst hh
        exact g2
  have g3 := g3 _ hw2
  have g4 : ∀ (cond : Bool) (oh : QPixmap),
      (if cond = true then
        (overlayPlacement env q frame w2).bind fun o => (mask o.2).bind fun m => some (m.1, m.2)
      else some (oh, w2)) = some ov → Grown q w2 ov.2 := by
    intro cond oh hh
    cases cond with
    | true =>
      simp only [if_true] at hh
      obtain ⟨o, ho, h6⟩ := Option.bind_eq_some.1 hh
      obtain ⟨m, hm, h7⟩ := Option.bind_eq_some.1 h6
      simp only [Option.some.injEq] at h7
      subst h7
      have g5 := Grown.by_quiet g3.1 g3.2.1 (overlayPlacement_quiet env q frame w2 o ho)
      exact g5.after (hmask _ m g5.1 g5.2.1 hm)
    | false =>
      simp only [Bool.false_eq_true, if_false, Option.some.injEq] at hh
      subst hh
      exact Grown.start g3.1 g3.2.1
  have g4 := g4 _ _ hov
  have g5 := g1.after (g3.after g4)
  have g6 : ∀ (cond : Bool) (o2 : QPixmap),
      (if cond = true then
        (ov.2.fd frame).bind fun f2 =>
          cacheFrame env q (ov.2.svgs q).actualPrefix f2.cachedBackground o2 ov.2
      else some ov.2) = some w1 → Grown q w w1 := by
    intro cond o2 hh
    cases cond with
    | true =>
      simp only [if_true] at hh
      obtain ⟨f2, hf2, h6⟩ := Option.bind_eq_some.1 hh
      exact g5.after (Grown.by_quiet g5.1 g5.2.1 (cacheFrame_quiet env q _ _ _ _ w1 h6))
    | false =>
      simp only [Bool.false_eq_true, if_false, Option.some.injEq] at hh
      subst hh
      exact g5
  exact g6 _ _ h5

end Plasma
namespace Plasma

/-! ## `alphaMask` -/

theorem Accounted.add_frames {v v1 : World} {T : SvgId → Ptr → Int} (hacc : Accounted v)
    (q : SvgId) (k : String) (p2 : Ptr)
    (hv : QHash.value (v.svgs q).frames k = none)
    (hsq : (v1.svgs q).frames = QHash.insert (v.svgs q).frames k p2)
    (hso : ∀ c, c ≠ q → (v1.svgs c).frames = (v.svgs c).frames) (hc : Counted v1 T)
    (hT : ∀ c x, T c x = (entryCount (v.svgs c).frames x : Int)
      + (if c = q ∧ x = p2 then 1 else 0)) :
    Accounted v1 := by
  refine Accounted.of_counted (fun c => ?_) hc (fun c x => ?_)
  · by_cases hcq : c = q
    · rw [hcq, hsq]
      exact QHash.nodup_insert _ _ _ (hacc.keys q)
    · rw [hso c hcq]
      exact hacc.keys c
  · rw [hT c x]
    by_cases hcq : c = q
    · subst hcq
      rw [hsq]
      have := entryCount_insert (v.svgs c).frames k p2 x (hacc.keys c)
      rw [hv] at this
      simp only [reduceCtorEq, if_false, Nat.add_zero] at this
      have e1 : (p2 = x) = (x = p2) := propext ⟨Eq.symm, Eq.symm⟩
      simp only [e1] at this
      simp only [true_and, this]
      split_ifs <;> simp
    · rw [hso c hcq]
      simp [hcq]

theorem Grown.by_same {q : SvgId} {w w1 : World} (hacc : Accounted w) (hact : ActiveHeld w q)
    (hs : w1.svgs = w.svgs) (hfd : ∀ x, w1.fd x = w.fd x) : Grown q w w1 :=
  ⟨hacc.transfer (fun c => by rw [hs]) (fun x => by rw [hfd x]),
    hact.carry (by rw [hs]) (by rw [hs]), fun _ _ => by rw [hs], fun k x h => by rw [hs]; exact h⟩

theorem alphaMaskBranch_grown (env : Env) (q : SvgId) (gen : Ptr → World → Option World)
    (hgen : ∀ p v v1, Accounted v → ActiveHeld v q → gen p v = some v1 → Grown q v v1)
    (frame : Ptr) (w : World) (r : QPixmap × World) (hacc : Accounted w)
    (hact : ActiveHeld w q) (h : alphaMaskBranch env q gen frame w = some r) :
    Grown q w r.2 := by
  unfold alphaMaskBranch at h
  dsimp only at h
  obtain ⟨w1, hw1, h2⟩ := Option.bind_eq_some.1 h
  have hs0q : ((w.setSvg q { w.svgs q with
      actualPrefix := "mask-" ++ (w.svgs q).actualPrefix }).svgs q)
      = { w.svgs q with actualPrefix := "mask-" ++ (w.svgs q).actualPrefix } :=
    World.setSvg_svgs_self _ _ _
  have hs0o : ∀ c, c ≠ q → (w.setSvg q { w.svgs q with
      actualPrefix := "mask-" ++ (w.svgs q).actualPrefix }).svgs c = w.svgs c :=
    fun c hc => World.setSvg_svgs_ne _ _ _ _ hc
  have hfr0 : ∀ c, ((w.setSvg q { w.svgs q with
      actualPrefix := "mask-" ++ (w.svgs q).actualPrefix }).svgs c).frames
      = (w.svgs c).frames := by
    intro c
    by_cases hc : c = q
    · rw [hc, hs0q]
    · rw [hs0o c hc]
  have hacc0 : Accounted (w.setSvg q { w.svgs q with
      actualPrefix := "mask-" ++ (w.svgs q).actualPrefix }) :=
    hacc.transfer hfr0 (fun x => by simp)
  have g1 : Grown q w w1
      ∧ (w1.svgs q).actualPrefix = "mask-" ++ (w.svgs q).actualPrefix := by
    rw [hs0q] at hw1
    simp only at hw1
    by_cases hcon : QHash.contains (w.svgs q).frames ("mask-" ++ (w.svgs q).actualPrefix) = true
    · simp only [hcon, Bool.not_true, Bool.false_eq_true, if_false, Option.some.injEq] at hw1
      subst hw1
      refine ⟨⟨hacc0, ?_, hs0o, fun k x hh => by rw [hfr0]; exact hh⟩, by rw [hs0q]⟩
      obtain ⟨p, hp⟩ := Option.isSome_iff_exists.1 hcon
      exact ⟨p, by rw [hfr0, hs0q]; exact hp⟩
    · have hnone : QHash.value (w.svgs q).frames ("mask-" ++ (w.svgs q).actualPrefix) = none := by
        cases hh : QHash.value (w.svgs q).frames ("mask-" ++ (w.svgs q).actualPrefix) with
        | none => rfl
        | some y =>
          exfalso
          apply hcon
          simp [QHash.contains, hh]
      simp only [hcon, Bool.not_false, if_true] at hw1
      obtain ⟨k, hk, h3⟩ := Option.bind_eq_some.1 hw1
      have hq := cacheId_quiet env q _ _ _ k.2 k.1 hk
      obtain ⟨m, hm, h4⟩ := Option.bind_eq_some.1 h3
      obtain ⟨f, hf, h5⟩ := Option.bind_eq_some.1 h4
      obtain ⟨mf, hmf, h6⟩ := Option.bind_eq_some.1 h5
      have hq2 := updateSizes_quiet env q _ w1 h6
      have ck : Counted k.2 (fun c x => (entryCount (w.svgs c).frames x : Int)) :=
        (hacc.counted.of_fd (fun x => by simp)).of_quiet hq
      have cm : Counted m.2 (bump (fun c x => (entryCount (w.svgs c).frames x : Int)) q m.1 1)
          ∧ m.2.svgs = k.2.svgs := by
        split at hm
        · obtain ⟨v1, hv1, h7⟩ := Option.bind_eq_some.1 hm
          obtain ⟨nf, hnf, hv1'⟩ := Option.bind_eq_some.1 hv1
          simp only [Option.some.injEq] at hv1' h7
          subst hv1'
          subst h7
          exact ⟨ck.ref_one _ nf q hnf, by simp⟩
        · obtain ⟨f1, hf1, h7⟩ := Option.bind_eq_some.1 hm
          obtain ⟨nf, hnf, h8⟩ := Option.bind_eq_some.1 h7
          simp only [Option.some.injEq] at h8
          subst h8
          refine ⟨?_, by simp [World.alloc_svgs]⟩
          dsimp only
          refine Counted.set_fields (w := (k.2.alloc (f1.copy q)).2.sharedInsert
            (k.2.svgs q).theme k.1 (k.2.alloc (f1.copy q)).1) ?_ _ nf _ (by simpa using hnf) rfl
          exact (ck.alloc_one (f1.copy q) q rfl).of_fd (fun x => by simp)
      obtain ⟨cm1, cm2⟩ := cm
      have c1 : Counted w1 (bump (fun c x => (entryCount (w.svgs c).frames x : Int)) q m.1 1) := by
        refine Counted.of_quiet ?_ hq2
        refine Counted.of_fd ?_ (fun x => World.framesInsert_fd _ _ _ _ x)
        exact cm1.set_fields m.1 mf _ hmf rfl
      have hsv : w1.svgs = ((w.setSvg q { w.svgs q with
          actualPrefix := "mask-" ++ (w.svgs q).actualPrefix }).framesInsert q
          ("mask-" ++ (w.svgs q).actualPrefix) m.1).svgs := by
        rw [hq2.1]
        simp only [World.framesInsert, World.setSvg, World.setFd_svgs, cm2, hq.1]
      have hsq : (w1.svgs q).frames
          = QHash.insert (w.svgs q).frames ("mask-" ++ (w.svgs q).actualPrefix) m.1 := by
        rw [hsv, World.framesInsert_svgs_self, hs0q]
      have hso : ∀ c, c ≠ q → w1.svgs c = w.svgs c := by
        intro c hc
        rw [hsv, World.framesInsert_svgs_ne _ _ _ _ _ hc, hs0o c hc]
      have hpx : (w1.svgs q).actualPrefix = "mask-" ++ (w.svgs q).actualPrefix := by
        rw [hsv, World.framesInsert_svgs_self, hs0q]
      refine ⟨⟨hacc.add_frames q _ m.1 hnone hsq (fun c hc => by rw [hso c hc]) c1
        (fun c x => by rw [bump_apply]), ⟨m.1, ?_⟩, hso, fun k2 x hh => ?_⟩, hpx⟩
      · rw [hpx, hsq]
        exact QHash.value_insert_self _ _ _
      · rw [hsq]
        by_cases hk2 : k2 = "mask-" ++ (w.svgs q).actualPrefix
        · rw [hk2, hnone] at hh
          simp at hh
        · rw [QHash.value_insert_ne _ _ _ _ hk2]
          exact hh
  obtain ⟨g1, hpx1⟩ := g1
  obtain ⟨f, hf, h3⟩ := Option.bind_eq_some.1 h2
  obtain ⟨mf, hmf, h4⟩ := Option.bind_eq_some.1 h3
  obtain ⟨t, ht, h5⟩ := Option.bind_eq_some.1 h4
  obtain ⟨w5, hw5, h6⟩ := Option.bind_eq_some.1 h5
  obtain ⟨mf4, hmf4, h7⟩ := Option.bind_eq_some.1 h6
  have g2 := g1.after (Grown.of_cell g1.1 g1.2.1 _ mf { mf with enabledBorders := f.enabledBorders }
    hmf rfl)
  have g3 : Grown q w t.2 := by
    split at ht
    · simp only [Option.some.injEq] at ht
      subst ht
      exact g2
    · obtain ⟨s, hs, h8⟩ := Option.bind_eq_some.1 ht
      obtain ⟨mf1, _, h9⟩ := Option.bind_eq_some.1 h8
      simp only [Option.some.injEq] at h9
      subst h9
      exact g2.after (Grown.by_quiet g2.1 g2.2.1 (frameSize_quiet env q frame _ s.2 s.1 hs))
  have g5 : Grown q w w5 := by
    split at hw5
    · obtain ⟨k1, hk1, h8⟩ := Option.bind_eq_some.1 hw5
      obtain ⟨s, hs, h9⟩ := Option.bind_eq_some.1 h8
      obtain ⟨mf2, hmf2, h10⟩ := Option.bind_eq_some.1 h9
      obtain ⟨k2, hk2, h11⟩ := Option.bind_eq_some.1 h10
      obtain ⟨mf3, hmf3, h12⟩ := Option.bind_eq_some.1 h11
      have a1 := g3.after (Grown.by_quiet g3.1 g3.2.1 (cacheId_quiet env q _ _ _ k1.2 k1.1 hk1))
      have a2 := a1.after (Grown.by_quiet a1.1 a1.2.1 (frameSize_quiet env q frame _ s.2 s.1 hs))
      have a3 := a2.after (Grown.of_cell a2.1 a2.2.1 _ mf2 { mf2 with frameSize := s.1 } hmf2 rfl)
      have a4 := a3.after (Grown.by_quiet a3.1 a3.2.1 (cacheId_quiet env q _ _ _ k2.2 k2.1 hk2))
      have a5 : ∀ v : World, v.svgs = k2.2.svgs → (∀ x, v.fd x = k2.2.fd x) →
          ∀ g, v.fd (w1.framesValue q ("mask-" ++ (w.svgs q).actualPrefix)) = some g →
          gen (w1.framesValue q ("mask-" ++ (w.svgs q).actualPrefix))
            (v.setFd (w1.framesValue q ("mask-" ++ (w.svgs q).actualPrefix))
              { g with cachedBackground := none }) = some w5 → Grown q w w5 := by
        intro v hvs hvf g hg hh
        have b1 := a4.after (Grown.by_same a4.1 a4.2.1 hvs hvf)
        have b2 := b1.after (Grown.of_cell b1.1 b1.2.1 _ g { g with cachedBackground := none }
          hg rfl)
        exact b2.after (hgen _ _ w5 b2.1 b2.2.1 hh)
      exact a5 _ (by split <;> simp) (fun x => by split <;> simp) mf3 hmf3 h12
    · simp only [Option.some.injEq] at hw5
      subst hw5
      exact g3
  split at h7
  · simp only [Option.some.injEq] at h7
    subst h7
    exact g5
  · simp only [Option.some.injEq] at h7
    subst h7
    obtain ⟨pa, hpa⟩ := hact
    refine ⟨g5.1.transfer (fun c => ?_) (fun x => by simp), ⟨pa, ?_⟩, fun c hc => ?_,
      fun k x hh => ?_⟩
    · by_cases hc : c = q
      · rw [hc]; simp
      · rw [World.setSvg_svgs_ne _ _ _ _ hc]
    · simp only [World.setSvg_svgs_self]
      exact g5.2.2.2 _ _ hpa
    · rw [World.setSvg_svgs_ne _ _ _ _ hc]
      exact g5.2.2.1 c hc
    · simp only [World.setSvg_svgs_self]
      exact g5.2.2.2 _ _ hh

theorem alphaMask_grown (env : Env) (q : SvgId) :
    ∀ (fuel : Nat) (w : World) (r : QPixmap × World), Accounted w → ActiveHeld w q →
      alphaMask env q fuel w = some r → Grown q w r.2 := by
  intro fuel
  induction fuel with
  | zero =>
    intro w r _ _ h
    simp [alphaMask] at h
  | succ n ih =>
    intro w r hacc hact h
    have hgen : ∀ p v v1, Accounted v → ActiveHeld v q →
        generateBackground env q (alphaMask env q n) p v = some v1 → Grown q v v1 :=
      fun p v v1 ha hb hh => generateBackground_grown env q _ (fun v r => ih v r) p v v1 ha hb hh
    simp only [alphaMask] at h
    split at h
    · exact alphaMaskBranch_grown env q _ hgen _ w r hacc hact h
    · obtain ⟨f, hf, h2⟩ := Option.bind_eq_some.1 h
      obtain ⟨w1, hw1, h3⟩ := Option.bind_eq_some.1 h2
      obtain ⟨f1, hf1, h4⟩ := Option.bind_eq_some.1 h3
      simp only [Option.some.injEq] at h4
      subst h4
      split at hw1
      · exact hgen _ w w1 hacc hact hw1
      · simp only [Option.some.injEq] at hw1
        subst hw1
        exact Grown.start hacc hact

theorem framePixmap_grown (env : Env) (q : SvgId) (fuel : Nat) (w : World)
    (r : QPixmap × World) (hacc : Accounted w) (hact : ActiveHeld w q)
    (h : framePixmap env q fuel w = some r) : Grown q w r.2 := by
  unfold framePixmap at h
  obtain ⟨f, hf, h2⟩ := Option.bind_eq_some.1 h
  obtain ⟨w1, hw1, h3⟩ := Option.bind_eq_some.1 h2
  obtain ⟨f1, hf1, h4⟩ := Option.bind_eq_some.1 h3
  simp only [Option.some.injEq] at h4
  subst h4
  split at hw1
  · exact generateBackground_grown env q _ (fun v r => alphaMask_grown env q fuel v r) _ w w1
      hacc hact hw1
  · simp only [Option.some.injEq] at hw1
    subst hw1
    exact Grown.start hacc hact

end Plasma
namespace Plasma

/-! ## Every reached state is sound -/

theorem Sound.at_start : Sound [] World.empty := by
  refine ⟨⟨fun c => by simp [World.empty, blankSvg], fun c k x h => ?_, fun p f c h => ?_⟩,
    fun q hq => by simp at hq, fun c _ => rfl⟩
  · simp [World.empty, blankSvg, QHash.value] at h
  · cases p with
    | zero => simp [World.fd] at h
    | succ n => simp [World.fd, World.empty] at h

theorem Sound.after_step {qs : List SvgId} {w w1 : World} {q : SvgId} (h : Sound qs w) (hq : q ∈ qs)
    (hs : Accounted w → ActiveHeld w q →
      Accounted w1 ∧ ActiveHeld w1 q ∧ (∀ c, c ≠ q → w1.svgs c = w.svgs c)) :
    Sound qs w1 := by
  obtain ⟨a1, a2, a3⟩ := hs h.1 (h.2.1 q hq)
  refine ⟨a1, fun c hc => ?_, fun c hc => ?_⟩
  · by_cases hcq : c = q
    · rw [hcq]
      exact a2
    · exact (h.2.1 c hc).carry (by rw [a3 c hcq]) (by rw [a3 c hcq])
  · have hcq : c ≠ q := fun e => hc (e ▸ hq)
    rw [a3 c hcq]
    exact h.2.2 c hc

theorem Sound.grown_step {qs : List SvgId} {w w1 : World} {q : SvgId} (h : Sound qs w)
    (hq : q ∈ qs) (hs : Accounted w → ActiveHeld w q → Grown q w w1) : Sound qs w1 :=
  h.after_step hq (fun a b => ⟨(hs a b).1, (hs a b).2.1, (hs a b).2.2.1⟩)

theorem Sound.after_construct (qs : List SvgId) (w : World) (q : SvgId) (svg : FrameSvg)
    (h : Sound qs w) (hq : q ∉ qs) : Sound (q :: qs) (construct q svg w) := by
  have hempty := h.2.2 q hq
  have hsq : (construct q svg w).svgs q = { svg with
      actualPrefix := "", requestedPrefix := "", location := Location.Floating,
      frames := [("", (w.alloc (FrameData.create q "" svg.devicePixelRatio)).1)],
      cacheAll := false } := by
    simp [construct]
  have hso : ∀ c, c ≠ q → (construct q svg w).svgs c = w.svgs c := by
    intro c hc
    simp only [construct]
    rw [World.setSvg_svgs_ne _ _ _ _ hc, World.alloc_svgs]
  have c1 := h.1.counted.alloc_one (FrameData.create q "" svg.devicePixelRatio) q rfl
  have c2 : Counted (construct q svg w) _ := c1.of_fd (fun x => by simp [construct])
  refine ⟨Accounted.of_counted (fun c => ?_) c2 (fun c x => ?_), fun c hc => ?_, fun c hc => ?_⟩
  · by_cases hcq : c = q
    · rw [hcq, hsq]
      simp
    · rw [hso c hcq]
      exact h.1.keys c
  · rw [bump_apply]
    by_cases hcq : c = q
    · subst hcq
      rw [hsq, hempty]
      simp only [entryCount, List.filter_cons, List.filter_nil, List.length_nil, true_and,
        Nat.cast_zero, zero_add]
      by_cases hx : (w.alloc (FrameData.create c "" svg.devicePixelRatio)).1 = x
      · simp [hx]
      · have hx2 : ¬ (x = (w.alloc (FrameData.create c "" svg.devicePixelRatio)).1) :=
          fun e => hx e.symm
        simp [hx, hx2]
    · rw [hso c hcq]
      simp [hcq]
  · by_cases hcq : c = q
    · rw [hcq]
      exact ⟨(w.alloc (FrameData.create q "" svg.devicePixelRatio)).1, by
        rw [hsq]
        simp [QHash.value]⟩
    · have hc2 : c ∈ qs := by
        rcases List.mem_cons.1 hc with e | e
        · exact absurd e hcq
        · exact e
      exact (h.2.1 c hc2).carry (by rw [hso c hcq]) (by rw [hso c hcq])
  · have hcq : c ≠ q := fun e => hc (by rw [e]; exact List.mem_cons_self _ _)
    rw [hso c hcq]
    exact h.2.2 c (fun e => hc (List.mem_cons_of_mem _ e))

theorem Reached.is_sound (env : Env) (qs : List SvgId) (w : World) (h : Reached env qs w) :
    Sound qs w := by
  induction h with
  | init => exact Sound.at_start
  | construct qs w q svg _ hq ih => exact Sound.after_construct qs w q svg ih hq
  | setImagePath qs w w1 q path _ hq h ih =>
    exact ih.after_step hq (fun a b => setImagePath_sound env q path w w1 a b h)
  | setElementPrefix qs w w1 q p _ hq h ih =>
    exact ih.after_step hq (fun a b => setElementPrefix_sound env q p w w1 a b h)
  | setElementPrefixLocation qs w w1 q l _ hq h ih =>
    exact ih.after_step hq (fun a b => setElementPrefixLocation_sound env q l w w1 a b h)
  | setEnabledBorders qs w w1 q borders _ hq h ih =>
    exact ih.after_step hq (fun a b => setEnabledBorders_sound env q borders w w1 a b h)
  | resizeFrame qs w w1 q size _ hq h ih =>
    exact ih.after_step hq (fun a b => resizeFrame_sound env q size w w1 a b h)
  | clearCache qs w w1 q _ hq h ih =>
    exact ih.after_step hq (fun a b => clearCache_sound env q w w1 a b h)
  | setCacheAllRenderedFrames qs w w1 q cache _ hq h ih =>
    exact ih.after_step hq (fun a b => setCacheAllRenderedFrames_sound env q cache w w1 a b h)
  | alphaMask qs w q fuel r _ hq h ih =>
    exact ih.grown_step hq (fun a b => alphaMask_grown env q fuel w r a b h)
  | framePixmap qs w q fuel r _ hq h ih =>
    exact ih.grown_step hq (fun a b => framePixmap_grown env q fuel w r a b h)

end Plasma
namespace Plasma

/-! ## Reached example states -/

theorem Reached.of_reachable {env : Env} {qs : List SvgId} {w : World}
    (h : Reachable env qs w) : Reached env qs w := by
  induction h with
  | init => exact Reached.init
  | construct qs w q svg _ hq ih => exact Reached.construct qs w q svg ih hq
  | setImagePath qs w w1 q path _ hq h ih => exact Reached.setImagePath qs w w1 q path ih hq h
  | setElementPrefix qs w w1 q p _ hq h ih => exact Reached.setElementPrefix qs w w1 q p ih hq h
  | setElementPrefixLocation qs w w1 q l _ hq h ih =>
    exact Reached.setElementPrefixLocation qs w w1 q l ih hq h
  | setEnabledBorders qs w w1 q borders _ hq h ih =>
    exact Reached.setEnabledBorders qs w w1 q borders ih hq h
  | resizeFrame qs w w1 q size _ hq h ih => exact Reached.resizeFrame qs w w1 q size ih hq h
  | clearCache qs w w1 q _ hq h ih => exact Reached.clearCache qs w w1 q ih hq h

theorem cacheAllWorld_reached : Reached sizedEnv [1] cacheAllWorld :=
  Reached.setCacheAllRenderedFrames [1] registeredWorld cacheAllWorld 1 true
    (Reached.of_reachable registeredWorld_reachable) (by simp)
    (Option.eq_some_getD _ World.empty (by decide))

theorem visitedWorld_reached : Reached sizedEnv [1] visitedWorld :=
  Reached.setElementPrefix [1] _ _ 1 ""
    (Reached.setElementPrefix [1] _ _ 1 "north" cacheAllWorld_reached (by simp)
      (Option.eq_some_getD _ World.empty (by decide)))
    (by simp) (Option.eq_some_getD _ World.empty (by decide))

theorem maskedWorld_reached : Reached sizedEnv [1] maskedWorld :=
  Reached.alphaMask [1] registeredWorld 1 8 _ (Reached.of_reachable registeredWorld_reachable)
    (by simp) (Option.eq_some_getD _ (none, World.empty) (by decide))

theorem visitedWorld_accounted : Accounted visitedWorld :=
  (Reached.is_sound sizedEnv [1] visitedWorld visitedWorld_reached).1

theorem registeredWorld_accounted : Accounted registeredWorld :=
  (Reached.is_sound sizedEnv [1] registeredWorld
    (Reached.of_reachable registeredWorld_reachable)).1

theorem cacheAllWorld_accounted : Accounted cacheAllWorld :=
  (Reached.is_sound sizedEnv [1] cacheAllWorld cacheAllWorld_reached).1

theorem ActiveLive.of_held {w : World} {q : SvgId} (hacc : Accounted w) (hact : ActiveHeld w q) :
    ActiveLive w q := by
  obtain ⟨p, hp⟩ := hact
  obtain ⟨f, hf⟩ := hacc.live q _ p hp
  exact ⟨p, f, hp, World.fd_ne_zero hf, hf⟩

end Plasma
namespace Plasma

/-! ## Counts after `clearCache` -/

theorem entryCount_filter_same (l : List (String × Ptr)) (pa : Ptr) :
    entryCount (l.filter fun e => decide (e.2 = pa)) pa = entryCount l pa := by
  simp [entryCount, List.filter_filter]

theorem entryCount_filter_other (l : List (String × Ptr)) (pa x : Ptr) (h : x ≠ pa) :
    entryCount (l.filter fun e => decide (e.2 = pa)) x = 0 := by
  simp only [entryCount, List.filter_filter, List.length_eq_zero, List.filter_eq_nil_iff,
    Bool.and_eq_true, decide_eq_true_eq, not_and]
  intro e _ h1 h2
  exact h (h1.symm.trans h2)

theorem Accounted.count_held {w : World} (hacc : Accounted w) (p : Ptr) (f : FrameData)
    (c : SvgId) (hf : w.fd p = some f) : f.count c = (w.holdCount c p : Int) := by
  have h := hacc.counts p f c hf
  by_cases h0 : w.holdCount c p = 0
  · rw [if_pos h0] at h
    rw [FrameData.count_of_none f c h, h0]
    rfl
  · rw [if_neg h0] at h
    exact FrameData.count_of_value f c _ h

theorem Accounted.held_of_value {w : World} (hacc : Accounted w) (p : Ptr) (f : FrameData)
    (c : SvgId) (hf : w.fd p = some f) :
    (QHash.value f.references c = none → w.holdCount c p = 0)
      ∧ (QHash.value f.references c = some 1 → w.holdCount c p = 1) := by
  have h := hacc.counts p f c hf
  by_cases h0 : w.holdCount c p = 0
  · rw [if_pos h0] at h
    refine ⟨fun _ => h0, fun h1 => ?_⟩
    rw [h] at h1
    simp at h1
  · rw [if_neg h0] at h
    refine ⟨fun h1 => ?_, fun h1 => ?_⟩
    · rw [h] at h1
      simp at h1
    · rw [h] at h1
      simp only [Option.some.injEq] at h1
      exact_mod_cast h1

theorem cacheAllWorld_held : ActiveHeld cacheAllWorld 1 :=
  (Reached.is_sound sizedEnv [1] cacheAllWorld cacheAllWorld_reached).2.1 1 (by simp)

end Plasma

namespace Plasma

/-! ## The cells that `clearCache` and the size signal touch -/

/-- `frameSize` writes to the FrameData it is called for and to the active one only. -/
theorem frameSize_cells (env : Env) (q : SvgId) (p : Ptr) (w : World) (r : QSize × World)
    (h : frameSize env q p w = some r) :
    ∀ x, x ≠ p → x ≠ w.active q → r.2.fd x = w.fd x := by
  intro x hxp hxa
  cases hf : w.fd p with
  | none => simp [frameSize, hf] at h
  | some fd =>
    by_cases hv : fd.frameSize.isValid = true
    · rw [frameSize_valid env q p w fd hf hv] at h
      simp only [Option.some.injEq] at h
      rw [← h]
    · simp only [frameSize, hf, Option.some_bind, hv, Bool.false_eq_true, if_false] at h
      cases hu : updateSizes env q w with
      | none => simp [hu] at h
      | some w1 =>
        obtain ⟨f0, hf0, hw⟩ := updateSizes_spec env q w w1 hu
        simp only [hu, Option.some_bind] at h
        cases hf1 : w1.fd p with
        | none => simp [hf1] at h
        | some f1 =>
          simp only [hf1, Option.some_bind, Option.some.injEq] at h
          rw [← h]
          simp only
          rw [World.fd_setFd_ne _ _ _ _ hxp, hw]
          exact World.fd_setFd_ne _ _ _ _ hxa

/-- `cacheId` writes to the FrameData it is called for and to the active one only. -/
theorem cacheId_cells (env : Env) (q : SvgId) (p : Ptr) (px : String) (w : World)
    (k : String × World) (h : cacheId env q p px w = some k) :
    ∀ x, x ≠ p → x ≠ w.active q → k.2.fd x = w.fd x := by
  simp only [cacheId, Option.bind_eq_some] at h
  obtain ⟨r, hr, f, -, he⟩ := h
  simp only [Option.some.injEq] at he
  rw [← he]
  exact frameSize_cells env q p w r hr

/-- One round of the loop of `clearCache` on an entry that is not the active FrameData:
the round returns; the FrameData of the entry loses one reference of `q` and nothing else
when other references remain; the active FrameData keeps reference set, theme, borders
and a valid frame size; every other cell is untouched. -/
theorem clearCacheStep_cells (env : Env) (q : SvgId) (frame : Ptr) (key : String) (p : Ptr)
    (w : World) (f : FrameData) (hp : w.fd p = some f) (hne : frame ≠ p)
    (hact : w.active q = frame) (ha : ∃ g, w.fd frame = some g) :
    ∃ w1, clearCacheStep env q frame key p w = some w1
      ∧ w1.svgs = (w.framesRemove q key).svgs
      ∧ Kept w w1
      ∧ QuietFd (w.fd frame) (w1.fd frame)
      ∧ (∀ x, x ≠ p → x ≠ frame → w1.fd x = w.fd x)
      ∧ ((f.deref q).1 = false → w1.fd p = some (f.deref q).2) := by
  have h2 : (w.setFd p (f.deref q).2).fd p = some (f.deref q).2 :=
    World.fd_setFd_self w p f _ hp
  have hk2 : Kept w (w.setFd p (f.deref q).2) :=
    Kept.set_step w p f _ hp (FrameData.deref_theme f q).1 (FrameData.deref_theme f q).2.1
      (FrameData.deref_theme f q).2.2
  have hact2 : (w.setFd p (f.deref q).2).active q = frame := by
    rw [← hact]
    simp [World.active]
  unfold clearCacheStep
  rw [if_neg hne, World.deref_eq w p q f hp]
  simp only [Option.some_bind]
  by_cases hl : (f.deref q).1 = true
  · have ha2 : (f.deref q).2.frameSize.isValid = true
        ∨ ∃ g, (w.setFd p (f.deref q).2).fd ((w.setFd p (f.deref q).2).active q) = some g := by
      right
      rw [hact2]
      exact World.live_setFd w p _ _ ha
    obtain ⟨k, hk⟩ := cacheId_total env q p key _ _ h2 ha2
    have hcells := cacheId_cells env q p key _ k hk
    obtain ⟨k1, k2⟩ := k
    obtain ⟨hq, f0, f1, hf0, hf1, hsz, hkey⟩ := cacheId_spec env q p key _ _ _ hk
    simp only [hl, if_true, hk, Option.some_bind, hf1]
    refine ⟨_, rfl, ?_, ?_, ?_, ?_, ?_⟩
    · have e1 : k2.svgs = w.svgs := by rw [hq.1]; simp
      simp [World.framesRemove, World.setSvg, e1]
    · refine Kept.chain hk2 (Kept.chain (Kept.quiet_step hq) ?_)
      refine Kept.chain (Kept.of_fd_eq (fun x => World.sharedRemove_fd _ _ _ x) :
        Kept k2 (k2.sharedRemove f1.theme k1)) ?_
      refine Kept.chain (Kept.set_step _ p f1 { f1 with cachedBackground := none }
        (by simpa using hf1) rfl rfl rfl) ?_
      exact Kept.of_fd_eq (fun x => World.framesRemove_fd _ q key x)
    · rw [World.framesRemove_fd, World.fd_setFd_ne _ _ _ _ hne, World.sharedRemove_fd]
      have := hq.2.2 frame
      rw [World.fd_setFd_ne _ _ _ _ hne] at this
      exact this
    · intro x hxp hxf
      rw [World.framesRemove_fd, World.fd_setFd_ne _ _ _ _ hxp, World.sharedRemove_fd]
      have := hcells x hxp (by rw [hact2]; exact hxf)
      simp only at this
      rw [this, World.fd_setFd_ne _ _ _ _ hxp]
    · intro h
      exact absurd h (by simp)
  · simp only [hl, Bool.false_eq_true, if_false, Option.some_bind]
    refine ⟨_, rfl, ?_, ?_, ?_, ?_, ?_⟩
    · simp [World.framesRemove, World.setSvg]
    · exact Kept.chain hk2 (Kept.of_fd_eq (fun x => World.framesRemove_fd _ q key x))
    · rw [World.framesRemove_fd, World.fd_setFd_ne _ _ _ _ hne]
      exact QuietFd.cell_refl _
    · intro x hxp _
      rw [World.framesRemove_fd, World.fd_setFd_ne _ _ _ _ hxp]
    · intro _
      rw [World.framesRemove_fd]
      exact h2

theorem FrameData.deref_fields (f : FrameData) (q : SvgId) :
    ({ (f.deref q).2 with references := f.references } : FrameData) = f := rfl

theorem FrameData.fields_chain {a b c : FrameData}
    (h1 : ({ b with references := a.references } : FrameData) = a)
    (h2 : ({ c with references := b.references } : FrameData) = b) :
    ({ c with references := a.references } : FrameData) = a := by
  cases a
  cases b
  cases c
  simp only [FrameData.mk.injEq] at h1 h2 ⊢
  simp_all

/-- The loop of `clearCache` on a collection of live FrameData: it returns; the active
prefix keeps its FrameData, which keeps reference set, theme, borders and a valid frame
size; a FrameData that another consumer holds too keeps every field but the reference
set, in which only the count of `q` changes. -/
theorem clearCacheLoop_cells (env : Env) (q : SvgId) (frame : Ptr) :
    ∀ (l : List (String × Ptr)) (w : World),
      (∀ e, e ∈ l → e.2 ≠ frame → ∃ f, w.fd e.2 = some f) →
      (∃ g, w.fd frame = some g) →
      w.active q = frame →
      (w.svgs q).actualPrefix ∉ (staleEntries frame l).map Prod.fst →
      ∃ w1, clearCacheLoop env q frame l w = some w1
        ∧ w1.active q = frame
        ∧ w1.svgs q = { w.svgs q with frames := (w1.svgs q).frames }
        ∧ (∀ c, c ≠ q → w1.svgs c = w.svgs c)
        ∧ QuietFd (w.fd frame) (w1.fd frame)
        ∧ (∀ x f, x ≠ frame → w.fd x = some f →
            (∃ c, c ≠ q ∧ (QHash.value f.references c).isSome = true) →
            ∃ f1, w1.fd x = some f1
              ∧ ({ f1 with references := f.references } : FrameData) = f
              ∧ ∀ c, c ≠ q → QHash.value f1.references c = QHash.value f.references c) := by
  intro l
  induction l with
  | nil =>
    intro w _ _ hact _
    exact ⟨w, rfl, hact, rfl, fun _ _ => rfl, QuietFd.cell_refl _,
      fun x f _ hf _ => ⟨f, hf, rfl, fun _ _ => rfl⟩⟩
  | cons a rest ih =>
    obtain ⟨k, p⟩ := a
    intro w hlive hfr hact hkey
    by_cases hp : p = frame
    · subst hp
      rw [staleEntries_cons_same] at hkey
      obtain ⟨w1, h1, h2⟩ := ih w (fun e he => hlive e (List.mem_cons_of_mem _ he)) hfr hact hkey
      refine ⟨w1, ?_, h2⟩
      simp only [clearCacheLoop, clearCacheStep, if_true, Option.some_bind]
      exact h1
    · have hpf : frame ≠ p := fun e => hp e.symm
      rw [staleEntries_cons_other frame k p rest hp] at hkey
      obtain ⟨f, hf⟩ := hlive (k, p) (List.mem_cons_self _ _) hp
      obtain ⟨w1, s1, s3, s4, s5, s6, s7⟩ :=
        clearCacheStep_cells env q frame k p w f hf hpf hact hfr
      have hkne : (w.svgs q).actualPrefix ≠ k := by
        intro e
        apply hkey
        simp [e]
      have hsq : w1.svgs q = { w.svgs q with frames := QHash.remove (w.svgs q).frames k } := by
        rw [s3]
        exact World.framesRemove_svgs_self w q k
      have hso : ∀ c, c ≠ q → w1.svgs c = w.svgs c := by
        intro c hcq
        rw [s3]
        exact World.framesRemove_svgs_ne w q c k hcq
      have hact1 : w1.active q = frame := by
        rw [← hact]
        simp only [World.active, World.framesValue, hsq]
        rw [QHash.value_remove_ne _ _ _ hkne]
      have hkey1 : (w1.svgs q).actualPrefix ∉ (staleEntries frame rest).map Prod.fst := by
        rw [hsq]
        intro hm
        apply hkey
        exact List.mem_cons_of_mem _ hm
      obtain ⟨w2, h1, h2, h3, h4, h5, h6⟩ := ih w1
        (fun e he hne => Kept.stays_live s4 (hlive e (List.mem_cons_of_mem _ he) hne))
        (Kept.stays_live s4 hfr) hact1 hkey1
      refine ⟨w2, ?_, h2, ?_, ?_, QuietFd.cell_trans s5 h5, ?_⟩
      · simp only [clearCacheLoop, s1, Option.some_bind]
        exact h1
      · rw [h3, hsq]
      · intro c hcq
        rw [h4 c hcq, hso c hcq]
      · intro x g hx hg hoth
        obtain ⟨c0, hc0, hc0v⟩ := hoth
        by_cases hxp : x = p
        · subst hxp
          rw [hf] at hg
          simp only [Option.some.injEq] at hg
          subst hg
          have hnl := FrameData.deref_not_last f q c0 hc0 hc0v
          have hd := (FrameData.deref_facts f q).2.1
          obtain ⟨f2, e1, e2, e3⟩ := h6 x (f.deref q).2 hx (s7 hnl)
            ⟨c0, hc0, by rw [hd c0 hc0]; exact hc0v⟩
          exact ⟨f2, e1, FrameData.fields_chain (FrameData.deref_fields f q) e2,
            fun c hc => (e3 c hc).trans (hd c hc)⟩
        · exact h6 x g hx (by rw [s6 x hxp hx]; exact hg) ⟨c0, hc0, hc0v⟩

/-- `clearCache` on a consumer whose collection names no prefix twice and holds live
FrameData only: it returns; the active prefix keeps its FrameData, which keeps reference
set, theme, borders and a valid frame size; a FrameData that another consumer holds too
keeps every field but the reference set, in which only the count of `q` changes. -/
theorem clearCache_cells (env : Env) (q : SvgId) (w : World) (pa : Ptr)
    (hkeys : ((w.svgs q).frames.map Prod.fst).Nodup)
    (hlive : ∀ e, e ∈ (w.svgs q).frames → ∃ f, w.fd e.2 = some f)
    (hact : QHash.value (w.svgs q).frames (w.svgs q).actualPrefix = some pa) :
    ∃ w1, clearCache env q w = some w1
      ∧ w1.active q = pa
      ∧ w1.svgs q = { w.svgs q with frames := (w1.svgs q).frames }
      ∧ (∀ c, c ≠ q → w1.svgs c = w.svgs c)
      ∧ QuietFd (w.fd pa) (w1.fd pa)
      ∧ (∀ x f, x ≠ pa → w.fd x = some f →
          (∃ c, c ≠ q ∧ (QHash.value f.references c).isSome = true) →
          ∃ f1, w1.fd x = some f1
            ∧ ({ f1 with references := f.references } : FrameData) = f
            ∧ ∀ c, c ≠ q → QHash.value f1.references c = QHash.value f.references c) := by
  have hcon : QHash.contains (w.svgs q).frames (w.svgs q).actualPrefix = true := by
    simp [QHash.contains, hact]
  have hfv : w.framesValue q (w.svgs q).actualPrefix = pa := by
    simp [World.framesValue, hact]
  obtain ⟨w1, h1, h2⟩ := clearCacheLoop_cells env q pa (w.svgs q).frames w
    (fun e he _ => hlive e he)
    (hlive (_, pa) (QHash.mem_of_value _ _ pa hact)) hfv
    (by
      intro hm
      obtain ⟨e, he, hek⟩ := List.mem_map.1 hm
      obtain ⟨he1, he2⟩ := staleEntries_subset pa _ e he
      have := QHash.value_of_mem _ e.1 e.2 hkeys he1
      rw [hek, hact] at this
      simp only [Option.some.injEq] at this
      exact he2 this.symm)
  refine ⟨w1, ?_, h2⟩
  unfold clearCache
  simp only [hcon, if_true, hfv]
  exact h1

/-- `setElementPrefix` with the requested prefix again is a no-op when that prefix
resolves to the active one and the active prefix has a FrameData. -/
theorem setElementPrefix_resolved (env : Env) (q : SvgId) (w : World)
    (hres : resolvePrefix env w q (w.svgs q).requestedPrefix = (w.svgs q).actualPrefix)
    (hp : w.active q ≠ 0) :
    setElementPrefix env q (w.svgs q).requestedPrefix w = some w := by
  have hv : w.framesValue q (w.svgs q).actualPrefix ≠ 0 := hp
  unfold setElementPrefix
  simp only [hres]
  have he : ∀ c : FrameSvg,
      ({ c with actualPrefix := c.actualPrefix, requestedPrefix := c.requestedPrefix } :
        FrameSvg) = c := fun _ => rfl
  simp only [he, World.setSvg_same, ne_eq, hv, not_false_eq_true, and_self, if_true]

/-- The slot `updateNeeded` on a consumer whose requested prefix resolves to the active
one: it returns; the active prefix keeps its FrameData, which keeps reference set, theme,
borders and a valid frame size; a FrameData that another consumer holds too keeps every
field but the reference set, in which only the count of `q` changes. -/
theorem updateNeeded_cells (env : Env) (q : SvgId) (w : World) (pa : Ptr)
    (hres : resolvePrefix env w q (w.svgs q).requestedPrefix = (w.svgs q).actualPrefix)
    (hkeys : ((w.svgs q).frames.map Prod.fst).Nodup)
    (hlive : ∀ e, e ∈ (w.svgs q).frames → ∃ f, w.fd e.2 = some f)
    (hact : QHash.value (w.svgs q).frames (w.svgs q).actualPrefix = some pa) :
    ∃ w1, updateNeeded env q w = some w1
      ∧ w1.active q = pa
      ∧ (∀ c, c ≠ q → w1.svgs c = w.svgs c)
      ∧ QuietFd (w.fd pa) (w1.fd pa)
      ∧ (∀ x f, x ≠ pa → w.fd x = some f →
          (∃ c, c ≠ q ∧ (QHash.value f.references c).isSome = true) →
          ∃ f1, w1.fd x = some f1
            ∧ ({ f1 with references := f.references } : FrameData) = f
            ∧ ∀ c, c ≠ q → QHash.value f1.references c = QHash.value f.references c) := by
  have hfv : w.active q = pa := by
    simp [World.active, World.framesValue, hact]
  obtain ⟨fa, hfa⟩ := hlive (_, pa) (QHash.mem_of_value _ _ pa hact)
  obtain ⟨w1, h1, h2, h3, h4, h5, h6⟩ := clearCache_cells env q w pa hkeys hlive hact
  obtain ⟨f1, hf1, hq1⟩ := QuietFd.of_some (by rw [hfa] at h5; exact h5)
  have hu := updateSizes_eq env q w1 f1 (by
    have : w1.framesValue q (w1.svgs q).actualPrefix = pa := h2
    rw [this]
    exact hf1)
  have hfv1 : w1.framesValue q (w1.svgs q).actualPrefix = pa := h2
  rw [hfv1] at hu
  have hfa : w.fd pa = some fa := hfa
  refine ⟨w1.setFd pa (updatedSizes env (w1.svgs q) f1), ?_, ?_, ?_, ?_, ?_⟩
  · unfold updateNeeded
    rw [setElementPrefix_resolved env q w hres (by rw [hfv]; exact World.fd_ne_zero hfa)]
    simp only [Option.some_bind, h1]
    exact hu
  · show (w1.setFd pa _).framesValue q ((w1.setFd pa _).svgs q).actualPrefix = pa
    simp only [World.setFd_svgs, World.setFd_framesValue]
    exact hfv1
  · intro c hc
    rw [World.setFd_svgs]
    exact h4 c hc
  · rw [World.fd_setFd_self w1 pa f1 _ hf1, hfa]
    exact ⟨hq1.1, hq1.2.1, hq1.2.2.1, hq1.2.2.2⟩
  · intro x f hx hf hoth
    obtain ⟨g, hg, e2, e3⟩ := h6 x f hx hf hoth
    exact ⟨g, by rw [World.fd_setFd_ne _ _ _ _ hx]; exact hg, e2, e3⟩

/-- `updateAndSignalSizes` on a consumer whose requested prefix resolves to the active
one: it returns; the active prefix keeps its FrameData, which keeps reference set, theme,
borders and a valid frame size; a FrameData that another consumer holds too keeps every
field but the reference set, in which only the count of `q` changes. -/
theorem updateAndSignalSizes_cells (env : Env) (q : SvgId) (w : World) (pa : Ptr)
    (hres : resolvePrefix env w q (w.svgs q).requestedPrefix = (w.svgs q).actualPrefix)
    (hkeys : ((w.svgs q).frames.map Prod.fst).Nodup)
    (hlive : ∀ e, e ∈ (w.svgs q).frames → ∃ f, w.fd e.2 = some f)
    (hact : QHash.value (w.svgs q).frames (w.svgs q).actualPrefix = some pa) :
    ∃ w1, updateAndSignalSizes env q w = some w1
      ∧ w1.active q = pa
      ∧ (∀ c, c ≠ q → w1.svgs c = w.svgs c)
      ∧ QuietFd (w.fd pa) (w1.fd pa)
      ∧ (∀ x f, x ≠ pa → w.fd x = some f →
          (∃ c, c ≠ q ∧ (QHash.value f.references c).isSome = true) →
          ∃ f1, w1.fd x = some f1
            ∧ ({ f1 with references := f.references } : FrameData) = f
            ∧ ∀ c, c ≠ q → QHash.value f1.references c = QHash.value f.references c) := by
  have hfv : w.framesValue q (w.svgs q).actualPrefix = pa := by
    simp [World.framesValue, hact]
  obtain ⟨fa, hfa⟩ := hlive (_, pa) (QHash.mem_of_value _ _ pa hact)
  have hfa : w.fd pa = some fa := hfa
  have hu := updateSizes_eq env q w fa (by rw [hfv]; exact hfa)
  rw [hfv] at hu
  obtain ⟨w1, h1, h2, h3, h4, h5⟩ := updateNeeded_cells env q
    (w.setFd pa (updatedSizes env (w.svgs q) fa)) pa
    (by
      rw [resolvePrefix_congr env w _ q _ (by simp)]
      simpa using hres)
    (by simpa using hkeys)
    (fun e he => World.live_setFd w pa e.2 _ (hlive e (by simpa using he)))
    (by simpa using hact)
  refine ⟨w1, ?_, h2, ?_, ?_, ?_⟩
  · unfold updateAndSignalSizes emitRepaintNeeded
    rw [hu]
    simp only [Option.some_bind]
    exact h1
  · intro c hc
    rw [h3 c hc, World.setFd_svgs]
  · have e1 : QuietFd (w.fd pa) ((w.setFd pa (updatedSizes env (w.svgs q) fa)).fd pa) := by
      rw [World.fd_setFd_self w pa fa _ hfa, hfa]
      exact ⟨rfl, rfl, rfl, fun _ => rfl⟩
    exact QuietFd.cell_trans e1 h4
  · intro x f hx hf hoth
    exact h5 x f hx (by rw [World.fd_setFd_ne _ _ _ _ hx]; exact hf) hoth

end Plasma

namespace Plasma

/-! ## `setEnabledBorders` on a steady consumer -/

theorem World.value_of_active (w : World) (q : SvgId) (fd : FrameData)
    (h : w.fd (w.active q) = some fd) :
    QHash.value (w.svgs q).frames (w.svgs q).actualPrefix = some (w.active q) := by
  cases hv : QHash.value (w.svgs q).frames (w.svgs q).actualPrefix with
  | none =>
    have : w.active q = 0 := by simp [World.active, World.framesValue, hv]
    rw [this] at h
    simp [World.fd] at h
  | some p => simp [World.active, World.framesValue, hv]

theorem Steady.entries_live {env : Env} {w : World} {q : SvgId} (h : Steady env w q) :
    ∀ e, e ∈ (w.svgs q).frames → ∃ f, w.fd e.2 = some f :=
  fun e he => Option.isSome_iff_exists.mp (h.2.2 e he)

theorem resolvePrefix_of_eq (env : Env) (w w2 : World) (q : SvgId) (p : String)
    (h1 : (w2.svgs q).theme = (w.svgs q).theme)
    (h2 : (w2.svgs q).imagePath = (w.svgs q).imagePath) :
    resolvePrefix env w2 q p = resolvePrefix env w q p := by
  simp [resolvePrefix, hasElement, h1, h2]

/-- `setEnabledBorders` by the only holder of a FrameData, with nothing registered under
the new key, on a steady consumer: the FrameData is kept and carries the new borders. -/
theorem setEnabledBorders_sole_steady (env : Env) (q : SvgId) (borders : Nat) (w : World)
    (fd : FrameData) (hs : Steady env w q) (hfd : w.fd (w.active q) = some fd)
    (hv : fd.frameSize.isValid = true) (hne : borders ≠ fd.enabledBorders)
    (hsole : fd.refcount = 1)
    (hreg : w.sharedValue (w.svgs q).theme (keyOf env w q borders fd.frameSize) = 0) :
    ∃ (w1 : World) (fd1 : FrameData), setEnabledBorders env q borders w = some w1
      ∧ w1.active q = w.active q ∧ w1.fd (w.active q) = some fd1
      ∧ fd1.enabledBorders = borders ∧ fd1.frameSize = fd.frameSize
      ∧ fd1.references = fd.references := by
  have hact := World.value_of_active w q fd hfd
  have hfd0 : w.fd (w.framesValue q (w.svgs q).actualPrefix) = some fd := hfd
  unfold keyOf at hreg
  obtain ⟨w1, h1, h2, -, h4, -⟩ := updateAndSignalSizes_cells env q
    ((w.sharedRemove fd.theme
        (cacheKey env fd.enabledBorders fd.frameSize.width fd.frameSize.height
          (w.svgs q).scaleFactor (w.svgs q).devicePixelRatio (w.svgs q).actualPrefix
          (w.svgs q).imagePath)).setFd (w.active q) { fd with enabledBorders := borders })
    (w.active q)
    (by
      rw [resolvePrefix_of_eq env w _ q _ (by simp) (by simp)]
      simpa using hs.1)
    (by simpa using hs.2.1)
    (fun e he => World.live_setFd _ _ e.2 _ (by
      rw [World.sharedRemove_fd]
      exact hs.entries_live e (by simpa using he)))
    (by simpa using hact)
  rw [World.fd_setFd_self _ _ fd _ (by simpa using hfd)] at h4
  obtain ⟨fd1, hf1, hq1⟩ := QuietFd.of_some h4
  refine ⟨w1, fd1, ?_, h2, hf1, hq1.2.2.1, hq1.2.2.2 hv, hq1.1⟩
  unfold setEnabledBorders
  simp only [hfd0, Option.some_bind, hne, if_false]
  rw [setEnabledBordersKeys_valid env q _ borders w fd hfd0 hv]
  simp only [Option.some_bind, hreg, ne_eq, not_true_eq_false, if_false]
  simp only [detachOrCopy, hfd0, Option.some_bind, hsole, if_true, World.sharedRemove_fd]
  exact h1

/-- `setEnabledBorders` on a FrameData that other consumers hold too: the consumer
continues with the FrameData registered under the new key, or, when there is none and the
consumer is steady, with a copy. -/
theorem setEnabledBorders_shared_steady (env : Env) (q : SvgId) (borders : Nat) (w : World)
    (fd : FrameData) (hfd : w.fd (w.active q) = some fd)
    (hv : fd.frameSize.isValid = true) (hne : borders ≠ fd.enabledBorders)
    (hcount : 1 < fd.refcount) (other : SvgId) (hother : other ≠ q)
    (href : (QHash.value fd.references other).isSome = true)
    (hreg : w.sharedValue (w.svgs q).theme (keyOf env w q borders fd.frameSize) ≠ w.active q)
    (hcase : (w.sharedValue (w.svgs q).theme (keyOf env w q borders fd.frameSize) = 0
        ∧ Steady env w q)
      ∨ (w.fd (w.sharedValue (w.svgs q).theme
          (keyOf env w q borders fd.frameSize))).isSome = true) :
    ∃ (w1 : World) (fd1 : FrameData), setEnabledBorders env q borders w = some w1
      ∧ w1.active q ≠ w.active q ∧ w1.fd (w.active q) = some fd1
      ∧ ({ fd1 with references := fd.references } : FrameData) = fd
      ∧ (∀ c : SvgId, c ≠ q → QHash.value fd1.references c = QHash.value fd.references c)
      ∧ ∀ c : SvgId, c ≠ q → w1.svgs c = w.svgs c := by
  have hfd0 : w.fd (w.framesValue q (w.svgs q).actualPrefix) = some fd := hfd
  have hnl := FrameData.deref_not_last fd q other hother href
  have hd := (FrameData.deref_facts fd q).2.1
  unfold keyOf at hreg hcase
  by_cases h0 : w.sharedValue (w.svgs q).theme
      (cacheKey env borders fd.frameSize.width fd.frameSize.height
        (w.svgs q).scaleFactor (w.svgs q).devicePixelRatio (w.svgs q).actualPrefix
        (w.svgs q).imagePath) = 0
  · have hs : Steady env w q := by
      rcases hcase with h | h
      · exact h.2
      · rw [h0] at h
        simp [World.fd] at h
    have hnew : (((w.setFd (w.active q) (fd.deref q).2).alloc
        (fd.copy q)).2.framesInsert q (w.svgs q).actualPrefix (w.heap.length + 1)).fd
        (w.heap.length + 1) = some (fd.copy q) := by
      rw [World.framesInsert_fd]
      have := World.fd_alloc_new (w.setFd (w.active q) (fd.deref q).2) (fd.copy q)
      rw [World.alloc_fst, World.setFd_heap_length] at this
      exact this
    have hold := World.fd_alloc_old (w.setFd (w.active q) (fd.deref q).2) (fd.copy q)
      (fd.deref q).2 _ (World.fd_setFd_self w _ fd _ hfd)
    rw [World.alloc_fst, World.setFd_heap_length] at hold
    have hsq : ((((w.setFd (w.active q) (fd.deref q).2).alloc
        (fd.copy q)).2.framesInsert q (w.svgs q).actualPrefix (w.heap.length + 1)).setFd
        (w.heap.length + 1) { fd.copy q with enabledBorders := borders }).svgs q
        = { w.svgs q with
            frames := (QHash.insert (w.svgs q).frames (w.svgs q).actualPrefix
              (w.heap.length + 1)) } := by
      rw [World.setFd_svgs, World.framesInsert_svgs_self, World.alloc_svgs, World.setFd_svgs]
    obtain ⟨w1, h1, h2, h3, -, h5⟩ := updateAndSignalSizes_cells env q
      ((((w.setFd (w.active q) (fd.deref q).2).alloc
        (fd.copy q)).2.framesInsert q (w.svgs q).actualPrefix (w.heap.length + 1)).setFd
        (w.heap.length + 1) { fd.copy q with enabledBorders := borders })
      (w.heap.length + 1)
      (by
        rw [resolvePrefix_of_eq env w _ q _ (by rw [hsq]) (by rw [hsq]), hsq]
        exact hs.1)
      (by
        rw [hsq]
        exact QHash.nodup_insert _ _ _ hs.2.1)
      (by
        intro e he
        rw [hsq] at he
        simp only [QHash.insert, List.mem_cons] at he
        apply World.live_setFd
        rw [World.framesInsert_fd]
        rcases he with he | he
        · rw [he]
          have := World.fd_alloc_new (w.setFd (w.active q) (fd.deref q).2) (fd.copy q)
          rw [World.alloc_fst, World.setFd_heap_length] at this
          exact ⟨_, this⟩
        · have hm : e ∈ (w.svgs q).frames := by
            simp only [QHash.remove, List.mem_filter] at he
            exact he.1
          obtain ⟨g, hg⟩ := World.live_setFd w (w.active q) e.2 (fd.deref q).2 (hs.entries_live e hm)
          exact ⟨g, (World.fd_alloc_old _ (fd.copy q) g e.2 hg).1⟩)
      (by
        rw [hsq]
        exact QHash.value_insert_self _ _ _)
    have hp1 : ((((w.setFd (w.active q) (fd.deref q).2).alloc
        (fd.copy q)).2.framesInsert q (w.svgs q).actualPrefix (w.heap.length + 1)).setFd
        (w.heap.length + 1) { fd.copy q with enabledBorders := borders }).fd (w.active q)
        = some (fd.deref q).2 := by
      rw [World.fd_setFd_ne _ _ _ _ hold.2, World.framesInsert_fd]
      exact hold.1
    obtain ⟨fd1, e1, e2, e3⟩ := h5 (w.active q) (fd.deref q).2 hold.2 hp1
      ⟨other, hother, by rw [hd other hother]; exact href⟩
    refine ⟨w1, fd1, ?_, ?_, e1, FrameData.fields_chain (FrameData.deref_fields fd q) e2,
      fun c hc => (e3 c hc).trans (hd c hc), ?_⟩
    · unfold setEnabledBorders
      simp only [hfd0, Option.some_bind, hne, if_false]
      rw [setEnabledBordersKeys_valid env q _ borders w fd hfd0 hv]
      simp only [Option.some_bind, h0, ne_eq, not_true_eq_false, if_false]
      rw [detachOrCopy_copy q _ _ w fd hfd0 (by omega)]
      simp only [Option.some_bind]
      have hnew0 := hnew
      simp only [World.active] at hnew0
      simp only [hnew0, Option.some_bind]
      exact h1
    · rw [h2]
      exact fun h => hold.2 h.symm
    · intro c hc
      rw [h3 c hc, World.setFd_svgs, World.framesInsert_svgs_ne _ _ _ _ _ hc, World.alloc_svgs,
        World.setFd_svgs]
  · have hl : (w.fd (w.sharedValue (w.svgs q).theme
        (cacheKey env borders fd.frameSize.width fd.frameSize.height
          (w.svgs q).scaleFactor (w.svgs q).devicePixelRatio (w.svgs q).actualPrefix
          (w.svgs q).imagePath))).isSome = true := by
      rcases hcase with h | h
      · exact absurd h.1 h0
      · exact h
    obtain ⟨nf, hnf⟩ := Option.isSome_iff_exists.mp hl
    obtain ⟨n, hn⟩ : ∃ n, n = w.sharedValue (w.svgs q).theme
        (cacheKey env borders fd.frameSize.width fd.frameSize.height
          (w.svgs q).scaleFactor (w.svgs q).devicePixelRatio (w.svgs q).actualPrefix
          (w.svgs q).imagePath) := ⟨_, rfl⟩
    rw [← hn] at hreg h0 hnf
    refine ⟨((w.setFd n (nf.ref q)).framesInsert q (w.svgs q).actualPrefix n).setFd
      (w.active q) (fd.deref q).2, (fd.deref q).2, ?_, ?_, ?_, rfl, hd, ?_⟩
    · unfold setEnabledBorders
      simp only [hfd0, Option.some_bind, hne, if_false]
      rw [setEnabledBordersKeys_valid env q _ borders w fd hfd0 hv]
      simp only [Option.some_bind, ← hn, ne_eq, h0, not_false_eq_true, if_true]
      exact adoptShared_keep q _ _ _ w fd nf hfd0 hnf hreg hnl
    · simp only [World.active, World.setFd_svgs, World.setFd_framesValue,
        World.framesInsert_actualPrefix]
      rw [World.framesInsert_framesValue_self]
      exact hreg
    · exact World.fd_setFd_self _ _ fd _ (by
        rw [World.framesInsert_fd, World.fd_setFd_ne w _ _ _ (fun h => hreg h.symm)]
        exact hfd)
    · intro c hc
      simp only [World.setFd_svgs]
      rw [World.framesInsert_svgs_ne _ _ _ _ _ hc, World.setFd_svgs]

end Plasma

namespace Plasma

/-! ## `alphaMask` leaves the frame it masks alone -/

theorem OnlyCell.unchanged {p : Ptr} {w : World} (h : ∃ g, w.fd p = some g) : OnlyCell p w w :=
  ⟨rfl, fun _ _ => rfl, h⟩

theorem OnlyCell.followed {p : Ptr} {a b c : World} (h1 : OnlyCell p a b) (h2 : OnlyCell p b c) :
    OnlyCell p a c :=
  ⟨h2.1.trans h1.1, fun x hx => (h2.2.1 x hx).trans (h1.2.1 x hx), h2.2.2⟩

theorem OnlyCell.write (w : World) (p : Ptr) (g g2 : FrameData) (h : w.fd p = some g) :
    OnlyCell p w (w.setFd p g2) :=
  ⟨by simp, fun x hx => World.fd_setFd_ne w p x g2 hx, ⟨g2, World.fd_setFd_self w p g g2 h⟩⟩

/-- `cacheFrame` for a prefix whose FrameData has a valid frame size writes to the pixmap
cache only. -/
theorem cacheFrame_cells (env : Env) (q : SvgId) (px : String) (bg ov : QPixmap) (w : World)
    (p : Ptr) (g : FrameData) (hp : w.framesValue q px = p) (hg : w.fd p = some g)
    (hv : g.frameSize.isValid = true) :
    ∃ w1, cacheFrame env q px bg ov w = some w1 ∧ OnlyCell p w w1 := by
  unfold cacheFrame
  by_cases h1 : (!(w.svgs q).usingRenderingCache) = true
  · rw [if_pos h1]
    exact ⟨w, rfl, OnlyCell.unchanged ⟨g, hg⟩⟩
  rw [if_neg h1]
  dsimp only
  by_cases h2 : w.framesValue q px = 0
  · rw [if_pos h2]
    exact ⟨w, rfl, OnlyCell.unchanged ⟨g, hg⟩⟩
  rw [if_neg h2, hp, cacheId_valid env q p px w g hg hv]
  simp only [Option.some_bind]
  refine ⟨_, rfl, rfl, fun x _ => ?_, ⟨g, ?_⟩⟩
  · cases x <;> rfl
  · rw [← hg]
    cases p <;> rfl

/-- `alphaMask` on a consumer whose active FrameData has a raster and whose theme has no
mask for the active prefix returns at once. -/
theorem alphaMask_without_mask (env : Env) (q : SvgId) (fuel : Nat) (w : World) (p : Ptr)
    (g : FrameData) (hact : w.framesValue q (w.svgs q).actualPrefix = p)
    (hg : w.fd p = some g) (hr : g.cachedBackground.isSome = true)
    (hnest : hasElement env w q ("mask-" ++ (w.svgs q).actualPrefix ++ "center") = false) :
    alphaMask env q (fuel + 1) w = some (g.cachedBackground, w) := by
  have hn : g.cachedBackground.isNone = false := by
    cases hc : g.cachedBackground with
    | none => rw [hc] at hr; simp at hr
    | some _ => rfl
  simp only [alphaMask, hnest, hact, hg, Option.some_bind, hn, Bool.false_eq_true, if_false]

/-- `generateFrameBackground` for the active FrameData of a consumer whose theme has no
mask for the active prefix, with `alphaMask` as the painter: it returns and writes to
that FrameData only. -/
theorem generateFrameBackground_cells (env : Env) (q : SvgId) (fuel : Nat) (p : Ptr)
    (w : World) (g : FrameData) (hact : w.framesValue q (w.svgs q).actualPrefix = p)
    (hg : w.fd p = some g) (hv : g.frameSize.isValid = true)
    (hw : 1 ≤ (g.frameSize.scaled (w.svgs q).devicePixelRatio).width)
    (hh : 1 ≤ (g.frameSize.scaled (w.svgs q).devicePixelRatio).height)
    (hnest : hasElement env w q ("mask-" ++ (w.svgs q).actualPrefix ++ "center") = false) :
    ∃ w1 g1, generateFrameBackground env q (alphaMask env q (fuel + 1)) p w = some w1
      ∧ OnlyCell p w w1 ∧ w1.fd p = some g1 ∧ g1.frameSize = g.frameSize := by
  have hfs := frameSize_valid env q p w g hg hv
  have hval : (g.frameSize.scaled (w.svgs q).devicePixelRatio).isValid = true := by
    simp only [QSize.isValid, Bool.and_eq_true, decide_eq_true_eq]
    omega
  unfold generateFrameBackground
  simp only [hfs, Option.some_bind]
  by_cases hbig : (g.frameSize.scaled (w.svgs q).devicePixelRatio).width ≥ MAX_FRAME_SIZE
      ∨ (g.frameSize.scaled (w.svgs q).devicePixelRatio).height ≥ MAX_FRAME_SIZE
  · refine ⟨w, g, ?_, OnlyCell.unchanged ⟨g, hg⟩, hg, rfl⟩
    simp [hval, hbig]
  · have hpix : QPixmap.ofSize (g.frameSize.scaled (w.svgs q).devicePixelRatio)
        = some (g.frameSize.scaled (w.svgs q).devicePixelRatio) := by
      simp only [QPixmap.ofSize]
      rw [if_neg]
      omega
    simp only [hval, hbig, hg, hpix, Bool.not_true, Bool.false_eq_true, if_false,
      Option.some_bind]
    by_cases hc : g.composeOverBorder = true
    · rw [if_pos hc]
      rw [alphaMask_without_mask env q fuel _ p
        { g with cachedBackground := some (g.frameSize.scaled (w.svgs q).devicePixelRatio) }
        (by simpa using hact) (World.fd_setFd_self w p g _ hg) rfl
        (by simpa [hasElement] using hnest)]
      exact ⟨_, _, rfl, OnlyCell.write w p g _ hg, World.fd_setFd_self w p g _ hg, rfl⟩
    · rw [if_neg hc]
      exact ⟨_, _, rfl, OnlyCell.write w p g _ hg, World.fd_setFd_self w p g _ hg, rfl⟩

/-- `generateBackground` for the active FrameData of a consumer whose active prefix is a
mask prefix and whose theme has no mask for it, with `alphaMask` as the painter: it
returns and writes to that FrameData only. -/
theorem generateBackground_cells (env : Env) (q : SvgId) (fuel : Nat) (p : Ptr)
    (w : World) (g : FrameData) (hact : w.framesValue q (w.svgs q).actualPrefix = p)
    (hg : w.fd p = some g) (hv : g.frameSize.isValid = true)
    (hw : 1 ≤ (g.frameSize.scaled (w.svgs q).devicePixelRatio).width)
    (hh : 1 ≤ (g.frameSize.scaled (w.svgs q).devicePixelRatio).height)
    (hnest : hasElement env w q ("mask-" ++ (w.svgs q).actualPrefix ++ "center") = false)
    (hpx : "mask-".data.isPrefixOf (w.svgs q).actualPrefix.data = true) :
    ∃ w1, generateBackground env q (alphaMask env q (fuel + 1)) p w = some w1
      ∧ OnlyCell p w w1 := by
  unfold generateBackground
  simp only [hg, Option.some_bind]
  by_cases h0 : (g.cachedBackground.isSome
      || !hasElementPrefix env w q (w.svgs q).requestedPrefix) = true
  · rw [if_pos h0]
    exact ⟨w, rfl, OnlyCell.unchanged ⟨g, hg⟩⟩
  rw [if_neg h0, cacheId_valid env q p _ w g hg hv]
  simp only [Option.some_bind, hg, hpx, Bool.not_true, Bool.false_and, Bool.and_false,
    Bool.false_eq_true, if_false]
  cases hhit : (if (w.svgs q).usingRenderingCache = true then
      w.pixmapCache (w.svgs q).theme (cacheKey env g.enabledBorders g.frameSize.width
        g.frameSize.height (w.svgs q).scaleFactor (w.svgs q).devicePixelRatio
        (w.svgs q).actualPrefix (w.svgs q).imagePath) else none) with
  | none =>
    simp only [Option.getD_none, Option.isSome_none, Bool.not_false, if_true]
    obtain ⟨w1, g1, h1, o1, hg1, hs1⟩ :=
      generateFrameBackground_cells env q fuel p w g hact hg hv hw hh hnest
    simp only [h1, Option.some_bind, hg1]
    obtain ⟨w2, h2, o2⟩ := cacheFrame_cells env q (w1.svgs q).actualPrefix g1.cachedBackground
      (if false = true then none else none) w1 p g1
      (by simp only [World.framesValue, o1.1]; exact hact) hg1 (by rw [hs1]; exact hv)
    exact ⟨w2, h2, o1.followed o2⟩
  | some pix =>
    simp only [Option.getD_some]
    have hset := World.fd_setFd_self w p g { g with cachedBackground := pix } hg
    have o0 : OnlyCell p w (w.setFd p { g with cachedBackground := pix }) :=
      OnlyCell.write w p g _ hg
    cases hpix : pix with
    | some sz =>
      simp only [Option.isSome_some, Bool.not_true, Bool.false_eq_true, if_false,
        Option.some_bind]
      rw [← hpix]
      exact ⟨_, rfl, o0⟩
    | none =>
      simp only [Option.isSome_none, Bool.not_false, if_true]
      obtain ⟨w1, g1, h1, o1, hg1, hs1⟩ := generateFrameBackground_cells env q fuel p
        (w.setFd p { g with cachedBackground := none }) { g with cachedBackground := none }
        (by simpa using hact) (by rw [← hpix]; exact hset) hv (by simpa using hw)
        (by simpa using hh) (by simpa [hasElement] using hnest)
      simp only [h1, Option.some_bind, hg1]
      obtain ⟨w2, h2, o2⟩ := cacheFrame_cells env q (w1.svgs q).actualPrefix
        g1.cachedBackground (if false = true then none else none) w1 p g1
        (by simp only [World.framesValue, o1.1, World.setFd_svgs]; exact hact) hg1
        (by rw [hs1]; exact hv)
      refine ⟨w2, h2, ?_⟩
      rw [← hpix] at o1
      exact o0.followed (o1.followed o2)

theorem Option.bind_total {α β : Type} {o : Option α} {R : α → Option β} (P : α → Prop)
    {Q : β → Prop} (h1 : ∃ a, o = some a ∧ P a) (h2 : ∀ a, P a → ∃ b, R a = some b ∧ Q b) :
    ∃ b, o.bind R = some b ∧ Q b := by
  obtain ⟨a, ha, hp⟩ := h1
  rw [ha]
  exact h2 a hp

theorem maskPrefix_isPrefixOf (px : String) :
    "mask-".data.isPrefixOf ("mask-" ++ px).data = true := by
  rw [String.data_append]
  simp [List.isPrefixOf]

end Plasma

namespace Plasma

/-- The mask branch of `alphaMask` for the FrameData `frame`, when the theme has no
mask for the mask prefix and the candidate for the mask FrameData is a live object other
than `frame`, or there is none: the branch returns and leaves the FrameData at `frame`
as it was. -/
theorem alphaMaskBranch_cells (env : Env) (q : SvgId) (fuel : Nat) (frame : Ptr) (w : World)
    (f : FrameData) (hf : w.fd frame = some f) (hv : f.frameSize.isValid = true)
    (hw : 1 ≤ (f.frameSize.scaled (w.svgs q).devicePixelRatio).width)
    (hh : 1 ≤ (f.frameSize.scaled (w.svgs q).devicePixelRatio).height)
    (hnest : hasElement env w q
      ("mask-" ++ ("mask-" ++ (w.svgs q).actualPrefix) ++ "center") = false)
    (hcand : (QHash.contains (w.svgs q).frames ("mask-" ++ (w.svgs q).actualPrefix) = false
        ∧ maskCandidate env w q f = 0)
      ∨ (maskCandidate env w q f ≠ frame ∧ (w.fd (maskCandidate env w q f)).isSome = true)) :
    ∃ m, alphaMaskBranch env q (generateBackground env q (alphaMask env q (fuel + 1))) frame w
        = some m ∧ m.2.fd frame = some f := by
  unfold alphaMaskBranch
  dsimp only
  generalize hw0 : w.setSvg q { w.svgs q with
    actualPrefix := "mask-" ++ (w.svgs q).actualPrefix } = w0
  have h0q : w0.svgs q = { w.svgs q with
      actualPrefix := "mask-" ++ (w.svgs q).actualPrefix } := by
    rw [← hw0]; simp
  have h0fd : ∀ x, w0.fd x = w.fd x := by
    intro x; rw [← hw0]; simp
  have h0sh : w0.sharedFrames = w.sharedFrames := by
    rw [← hw0]; simp
  refine Option.bind_total
    (fun w1 => w1.svgs q = { w.svgs q with
        actualPrefix := "mask-" ++ (w.svgs q).actualPrefix, frames := (w1.svgs q).frames }
      ∧ w1.fd frame = some f
      ∧ w1.framesValue q ("mask-" ++ (w.svgs q).actualPrefix) ≠ frame
      ∧ ∃ mf, w1.fd (w1.framesValue q ("mask-" ++ (w.svgs q).actualPrefix)) = some mf) ?_ ?_
  · have h0fr : (w0.svgs q).frames = (w.svgs q).frames := by rw [h0q]
    cases hval : QHash.value (w.svgs q).frames ("mask-" ++ (w.svgs q).actualPrefix) with
    | some mp =>
      have hcon : QHash.contains (w.svgs q).frames ("mask-" ++ (w.svgs q).actualPrefix)
          = true := by simp [QHash.contains, hval]
      have hmc : maskCandidate env w q f = mp := by simp [maskCandidate, hval]
      rw [hmc] at hcand
      have hc2 : mp ≠ frame ∧ (w.fd mp).isSome = true := by
        rcases hcand with h | h
        · rw [hcon] at h
          exact absurd h.1 (by simp)
        · exact h
      obtain ⟨mf, hmf⟩ := Option.isSome_iff_exists.mp hc2.2
      have hfv : w0.framesValue q ("mask-" ++ (w.svgs q).actualPrefix) = mp := by
        simp [World.framesValue, h0fr, hval]
      refine ⟨w0, ?_, ?_, ?_, ?_, ⟨mf, ?_⟩⟩
      · rw [h0fr, hcon]
        rfl
      · rw [h0q]
      · rw [h0fd]
        exact hf
      · rw [hfv]
        exact hc2.1
      · rw [hfv, h0fd]
        exact hmf
    | none =>
      have hcon : QHash.contains (w.svgs q).frames ("mask-" ++ (w.svgs q).actualPrefix)
          = false := by simp [QHash.contains, hval]
      rw [h0fr, hcon]
      simp only [Bool.not_false, if_true]
      rw [cacheId_valid env q frame _ w0 f (by rw [h0fd]; exact hf) hv]
      simp only [Option.some_bind]
      have hmc : maskCandidate env w q f = w0.sharedValue (w0.svgs q).theme
          (cacheKey env f.enabledBorders f.frameSize.width f.frameSize.height
            (w0.svgs q).scaleFactor (w0.svgs q).devicePixelRatio
            ("mask-" ++ (w.svgs q).actualPrefix) (w0.svgs q).imagePath) := by
        simp [maskCandidate, hval, World.sharedValue, h0sh, h0q]
      rw [hmc] at hcand
      generalize w0.sharedValue (w0.svgs q).theme
          (cacheKey env f.enabledBorders f.frameSize.width f.frameSize.height
            (w0.svgs q).scaleFactor (w0.svgs q).devicePixelRatio
            ("mask-" ++ (w.svgs q).actualPrefix) (w0.svgs q).imagePath) = found at hcand ⊢
      generalize cacheKey env f.enabledBorders f.frameSize.width f.frameSize.height
            (w0.svgs q).scaleFactor (w0.svgs q).devicePixelRatio
            ("mask-" ++ (w.svgs q).actualPrefix) (w0.svgs q).imagePath = key
      refine Option.bind_total
        (fun m => m.1 ≠ frame ∧ m.2.fd frame = some f ∧ (∃ nf, m.2.fd m.1 = some nf)
          ∧ m.2.svgs q = w0.svgs q) ?_ ?_
      · by_cases hz : found = 0
        · rw [if_neg (by simp [hz])]
          rw [h0fd frame, hf]
          simp only [Option.some_bind]
          have hnew := World.fd_alloc_new w0 (f.copy q)
          have hold := World.fd_alloc_old w0 (f.copy q) f frame (by rw [h0fd]; exact hf)
          rw [hnew]
          simp only [Option.some_bind]
          refine ⟨_, rfl, fun e => hold.2 e.symm, ?_, ?_, ?_⟩
          · rw [World.fd_setFd_ne _ _ _ _ hold.2, World.sharedInsert_fd]
            exact hold.1
          · exact ⟨_, World.fd_setFd_self _ _ (f.copy q) _
              ((World.sharedInsert_fd _ _ _ _ _).trans hnew)⟩
          · simp [World.alloc_svgs]
        · have hc2 : found ≠ frame ∧ (w.fd found).isSome = true := by
            rcases hcand with h | h
            · exact absurd h.2 hz
            · exact h
          obtain ⟨nf, hnf⟩ := Option.isSome_iff_exists.mp hc2.2
          rw [if_pos hz, World.ref_eq w0 found q nf (by rw [h0fd]; exact hnf)]
          simp only [Option.some_bind]
          refine ⟨_, rfl, hc2.1, ?_, ?_, ?_⟩
          · rw [World.fd_setFd_ne _ _ _ _ (fun e => hc2.1 e.symm), h0fd]
            exact hf
          · exact ⟨_, World.fd_setFd_self _ _ nf _ (by rw [h0fd]; exact hnf)⟩
          · simp
      · intro m hm
        obtain ⟨m1, m2, ⟨nf, m3⟩, m4⟩ := hm
        simp only [m2, m3, Option.some_bind]
        have hx : ((m.2.setFd m.1 { nf with enabledBorders := f.enabledBorders }).framesInsert
            q ("mask-" ++ (w.svgs q).actualPrefix) m.1).svgs q
            = { w0.svgs q with
                frames := (QHash.insert (w0.svgs q).frames
                  ("mask-" ++ (w.svgs q).actualPrefix) m.1) } := by
          rw [World.framesInsert_svgs_self, World.setFd_svgs, m4]
        have hxv : ((m.2.setFd m.1 { nf with enabledBorders := f.enabledBorders }).framesInsert
            q ("mask-" ++ (w.svgs q).actualPrefix) m.1).framesValue q
            (((m.2.setFd m.1 { nf with enabledBorders := f.enabledBorders }).framesInsert
              q ("mask-" ++ (w.svgs q).actualPrefix) m.1).svgs q).actualPrefix = m.1 := by
          rw [hx, h0q]
          exact World.framesInsert_framesValue_self _ _ _ _
        have hxf : ((m.2.setFd m.1 { nf with enabledBorders := f.enabledBorders }).framesInsert
            q ("mask-" ++ (w.svgs q).actualPrefix) m.1).fd m.1
            = some { nf with enabledBorders := f.enabledBorders } := by
          rw [World.framesInsert_fd]
          exact World.fd_setFd_self _ _ nf _ m3
        rw [updateSizes_eq env q _ _ (by rw [hxv]; exact hxf), hxv]
        refine ⟨_, rfl, ?_, ?_, ?_, ?_⟩
        · rw [World.setFd_svgs, hx, h0q]
        · rw [World.fd_setFd_ne _ _ _ _ (fun e => m1 e.symm), World.framesInsert_fd,
            World.fd_setFd_ne _ _ _ _ (fun e => m1 e.symm)]
          exact m2
        · rw [World.setFd_framesValue, World.framesInsert_framesValue_self]
          exact m1
        · rw [World.setFd_framesValue, World.framesInsert_framesValue_self]
          exact ⟨_, World.fd_setFd_self _ _ _ _ hxf⟩
  · intro w1 hP
    obtain ⟨p1, p2, p3, mf, p4⟩ := hP
    generalize hmp : w1.framesValue q ("mask-" ++ (w.svgs q).actualPrefix) = mp at p3 p4 ⊢
    simp only [p2, p4, Option.some_bind]
    generalize hw2 : w1.setFd mp { mf with enabledBorders := f.enabledBorders } = w2
    have h2s : w2.svgs = w1.svgs := by rw [← hw2]; simp
    have h2f : w2.fd frame = some f := by
      rw [← hw2, World.fd_setFd_ne _ _ _ _ (fun e => p3 e.symm)]
      exact p2
    have h2m : ∃ g, w2.fd mp = some g := ⟨_, by rw [← hw2]; exact World.fd_setFd_self _ _ mf _ p4⟩
    have hpre : ∀ v : World, v.svgs = w1.svgs →
        (v.svgs q).actualPrefix = "mask-" ++ (w.svgs q).actualPrefix
          ∧ v.framesValue q (v.svgs q).actualPrefix = mp
          ∧ (v.svgs q).devicePixelRatio = (w.svgs q).devicePixelRatio
          ∧ hasElement env v q ("mask-" ++ (v.svgs q).actualPrefix ++ "center") = false := by
      intro v hvs
      have e1 : (v.svgs q).actualPrefix = "mask-" ++ (w.svgs q).actualPrefix := by
        rw [hvs, p1]
      refine ⟨e1, ?_, by rw [hvs, p1], ?_⟩
      · rw [e1]
        simp only [World.framesValue, hvs]
        exact hmp
      · rw [e1]
        have e2 : (v.svgs q).theme = (w.svgs q).theme := by rw [hvs, p1]
        have e3 : (v.svgs q).imagePath = (w.svgs q).imagePath := by rw [hvs, p1]
        simp only [hasElement, e2, e3]
        exact hnest
    refine Option.bind_total (fun t => t.2 = w2) ?_ ?_
    · by_cases hn : Option.isNone mf.cachedBackground = true
      · rw [if_pos hn]
        exact ⟨_, rfl, rfl⟩
      · rw [if_neg hn, frameSize_valid env q frame w2 f h2f hv]
        obtain ⟨g, hg⟩ := h2m
        simp only [Option.some_bind, hg]
        exact ⟨_, rfl, rfl⟩
    · intro t ht
      obtain ⟨tb, tw⟩ := t
      simp only at ht
      subst ht
      simp only
      refine Option.bind_total (fun w5 => OnlyCell mp tw w5) ?_ ?_
      · cases tb with
        | false =>
          simp only [Bool.false_eq_true, if_false]
          exact ⟨_, rfl, OnlyCell.unchanged h2m⟩
        | true =>
          simp only [if_true]
          refine Option.bind_total (fun k1 => OnlyCell mp tw k1.2) ?_ ?_
          · obtain ⟨g, hg⟩ := h2m
            have hact2 : tw.active q = mp := (hpre tw h2s).2.1
            obtain ⟨k, hk⟩ := cacheId_total env q mp ("mask-" ++ (w.svgs q).actualPrefix) tw g hg
              (Or.inr ⟨g, by rw [hact2]; exact hg⟩)
            have hq := cacheId_quiet env q mp _ tw k.2 k.1 hk
            refine ⟨k, hk, hq.1, fun x hx => ?_, Quiet.live hq ⟨g, hg⟩⟩
            exact cacheId_cells env q mp _ tw k hk x hx (by rw [hact2]; exact hx)
          · intro k1 hk1
            have hkf : k1.2.fd frame = some f := by
              rw [hk1.2.1 frame (fun e => p3 e.symm)]
              exact h2f
            obtain ⟨mf2, hmf2⟩ := hk1.2.2
            rw [frameSize_valid env q frame k1.2 f hkf hv]
            simp only [Option.some_bind, hmf2]
            obtain ⟨g3, hg3, hg3s⟩ : ∃ g3 : FrameData,
                g3 = { mf2 with frameSize := f.frameSize } ∧ g3.frameSize = f.frameSize :=
              ⟨_, rfl, rfl⟩
            rw [← hg3]
            have h3m := World.fd_setFd_self k1.2 mp mf2 g3 hmf2
            rw [cacheId_valid env q mp _ _ _ h3m (by rw [hg3s]; exact hv)]
            simp only [Option.some_bind]
            have final : ∀ G0 : World, (∀ x, G0.fd x = (k1.2.setFd mp g3).fd x) →
                G0.svgs = k1.2.svgs →
                ∃ b, ((G0.fd mp).bind fun mf3 =>
                    generateBackground env q (alphaMask env q (fuel + 1)) mp
                      (G0.setFd mp { mf3 with cachedBackground := none })) = some b
                  ∧ OnlyCell mp tw b := by
              intro G0 hfd hsv
              have hG0 : G0.fd mp = some g3 := by
                rw [hfd mp]
                exact h3m
              simp only [hG0, Option.some_bind]
              have hGs : (G0.setFd mp { g3 with cachedBackground := none }).svgs = w1.svgs := by
                rw [World.setFd_svgs, hsv, hk1.1, h2s]
              obtain ⟨e1, e2, e3, e4⟩ := hpre _ hGs
              obtain ⟨b, hb, ob⟩ := generateBackground_cells env q fuel mp
                (G0.setFd mp { g3 with cachedBackground := none })
                { g3 with cachedBackground := none } e2
                (World.fd_setFd_self _ _ _ _ hG0) (by simpa [hg3s] using hv)
                (by rw [e3]; simpa [hg3s] using hw) (by rw [e3]; simpa [hg3s] using hh)
                e4 (by rw [e1]; exact maskPrefix_isPrefixOf _)
              refine ⟨b, hb, ?_⟩
              refine hk1.followed (OnlyCell.followed ?_ ob)
              refine ⟨by rw [World.setFd_svgs, hsv], fun x hx => ?_,
                ⟨_, World.fd_setFd_self _ _ _ _ hG0⟩⟩
              rw [World.fd_setFd_ne _ _ _ _ hx, hfd x, World.fd_setFd_ne _ _ _ _ hx]
            by_cases hreg : ((k1.2.setFd mp g3).sharedFrames
                ((k1.2.setFd mp g3).svgs q).theme k1.1).isSome = true
            · rw [if_pos hreg]
              exact final _ (fun x => by simp) (by simp)
            · rw [if_neg hreg]
              exact final _ (fun x => rfl) (by simp)
      · intro w5 h5
        obtain ⟨mf4, hmf4⟩ := h5.2.2
        have h5f : w5.fd frame = some f := by
          rw [h5.2.1 frame (fun e => p3 e.symm)]
          exact h2f
        simp only [hmf4, Option.some_bind]
        by_cases hb : (tb && Option.isNone mf4.cachedBackground) = true
        · rw [if_pos hb]
          exact ⟨_, rfl, h5f⟩
        · rw [if_neg hb]
          refine ⟨_, rfl, ?_⟩
          rw [World.setSvg_fd]
          exact h5f

/-- `alphaMask` on a consumer whose active FrameData `frame` has a raster, when the theme
has no mask for the mask prefix and the candidate for the mask FrameData is a live object
other than `frame`, or there is none: the call returns and leaves the FrameData at
`frame` as it was. -/
theorem alphaMask_leaves_frame (env : Env) (q : SvgId) (fuel : Nat) (frame : Ptr) (w : World)
    (f : FrameData) (hact : w.framesValue q (w.svgs q).actualPrefix = frame)
    (hf : w.fd frame = some f) (hv : f.frameSize.isValid = true)
    (hr : f.cachedBackground.isSome = true)
    (hw : 1 ≤ (f.frameSize.scaled (w.svgs q).devicePixelRatio).width)
    (hh : 1 ≤ (f.frameSize.scaled (w.svgs q).devicePixelRatio).height)
    (hnest : hasElement env w q
      ("mask-" ++ ("mask-" ++ (w.svgs q).actualPrefix) ++ "center") = false)
    (hcand : (QHash.contains (w.svgs q).frames ("mask-" ++ (w.svgs q).actualPrefix) = false
        ∧ maskCandidate env w q f = 0)
      ∨ (maskCandidate env w q f ≠ frame ∧ (w.fd (maskCandidate env w q f)).isSome = true)) :
    ∃ m, alphaMask env q (fuel + 2) w = some m ∧ m.2.fd frame = some f := by
  by_cases hm : hasElement env w q ("mask-" ++ (w.svgs q).actualPrefix ++ "center") = true
  · obtain ⟨m, h1, h2⟩ := alphaMaskBranch_cells env q fuel frame w f hf hv hw hh hnest hcand
    refine ⟨m, ?_, h2⟩
    rw [alphaMask]
    simp only [hm, if_true, hact]
    exact h1
  · refine ⟨_, alphaMask_without_mask env q (fuel + 1) w frame f hact hf hr (by simpa using hm),
      hf⟩

end Plasma

namespace Plasma

/-! ## The claims -/

/-- C8: `FrameData::deref (consumer)` lowers that consumer's count by one and removes the
consumer from the reference set exactly when the lowered count is below one; the entry of
every other consumer and every other field stay as they were; the result is true exactly
when the reference set is empty afterwards. -/
theorem deref_contract (fd : FrameData) (svg : SvgId) :
    QHash.value (fd.deref svg).2.references svg
        = (if fd.count svg - 1 < 1 then none else some (fd.count svg - 1))
      ∧ (∀ other : SvgId, other ≠ svg →
          QHash.value (fd.deref svg).2.references other = QHash.value fd.references other)
      ∧ ((fd.deref svg).1 = true ↔ (fd.deref svg).2.references = [])
      ∧ { (fd.deref svg).2 with references := fd.references } = fd :=
  ⟨(FrameData.deref_facts fd svg).1, (FrameData.deref_facts fd svg).2.1,
    (FrameData.deref_facts fd svg).2.2, rfl⟩

/-- C9, counterexample: two consumers that differ in the scale factor only (1000000 and
1000001) get the same key from `cacheId`, because `QString::number` writes both scale
factors as `1e+06`. -/
theorem cacheId_scale_factor_collision :
    (scaledWorld.svgs 1).scaleFactor ≠ (scaledWorld.svgs 2).scaleFactor
      ∧ (cacheId exampleEnv 1 1 "" scaledWorld).map (fun r => r.1)
          = some "15_100_100_1e+06_1__bg"
      ∧ (cacheId exampleEnv 2 2 "" scaledWorld).map (fun r => r.1)
          = some "15_100_100_1e+06_1__bg" := by
  decide

/-- C9 (amended): the key that `cacheId` returns is a function of the borders and the
frame size the FrameData has after the call, the consumer's scale factor, device pixel
ratio and image path, and the prefix, whatever the consumer.  Two keys whose inputs differ
only in the borders, only in the width, only in the height, only in the prefix or only in
the image path are different; two keys whose inputs differ only in the scale factor, or
only in the device pixel ratio, are different exactly when `QString::number` writes the
two values differently. -/
theorem cacheId_key_components (env : Env) (q : SvgId) (p : Ptr) (px : String)
    (w w1 : World) (k : String) (h : cacheId env q p px w = some (k, w1)) :
    (∃ fd1 : FrameData, w1.fd p = some fd1
        ∧ k = cacheKey env fd1.enabledBorders fd1.frameSize.width fd1.frameSize.height
            (w.svgs q).scaleFactor (w.svgs q).devicePixelRatio px (w.svgs q).imagePath)
      ∧ ∀ (b b2 : Nat) (wd wd2 ht ht2 : Int) (s s2 d d2 : ℚ) (x x2 path path2 : String),
        (cacheKey env b wd ht s d x path = cacheKey env b2 wd ht s d x path ↔ b = b2)
        ∧ (cacheKey env b wd ht s d x path = cacheKey env b wd2 ht s d x path ↔ wd = wd2)
        ∧ (cacheKey env b wd ht s d x path = cacheKey env b wd ht2 s d x path ↔ ht = ht2)
        ∧ (cacheKey env b wd ht s d x path = cacheKey env b wd ht s d x2 path ↔ x = x2)
        ∧ (cacheKey env b wd ht s d x path = cacheKey env b wd ht s d x path2
            ↔ path = path2)
        ∧ (cacheKey env b wd ht s d x path = cacheKey env b wd ht s2 d x path
            ↔ env.numberReal s = env.numberReal s2)
        ∧ (cacheKey env b wd ht s d x path = cacheKey env b wd ht s d2 x path
            ↔ env.numberReal d = env.numberReal d2) := by
  obtain ⟨fd, fd1, -, h1, -, -, -, -, h2⟩ := cacheId_eq_cacheKey env q p px w w1 k h
  exact ⟨⟨fd1, h1, h2⟩, fun b b2 wd wd2 ht ht2 s s2 d d2 x x2 path path2 =>
    cacheKey_components env b b2 wd wd2 ht ht2 s s2 d d2 x x2 path path2⟩

/-- C9, witness: `cacheId` for consumer 1 of `soloWorld`. -/
theorem cacheId_key_components_witness :
    cacheId exampleEnv 1 1 "" soloWorld = some ("15_100_100_1_1__bg", soloWorld)
      ∧ ∃ fd1 : FrameData, soloWorld.fd 1 = some fd1
        ∧ "15_100_100_1_1__bg" = cacheKey exampleEnv fd1.enabledBorders fd1.frameSize.width
            fd1.frameSize.height (soloWorld.svgs 1).scaleFactor
            (soloWorld.svgs 1).devicePixelRatio "" (soloWorld.svgs 1).imagePath :=
  ⟨cacheId_valid exampleEnv 1 1 "" soloWorld (soloWorld.get 1) (by decide) (by decide),
    (cacheId_key_components exampleEnv 1 1 "" soloWorld soloWorld "15_100_100_1_1__bg"
      (cacheId_valid exampleEnv 1 1 "" soloWorld (soloWorld.get 1) (by decide)
        (by decide))).1⟩

/-- C10, counterexample: a fresh consumer whose `Svg` has the size 50 x 50 calls
`setEnabledBorders (TopBorder)`.  On entry its FrameData has the frame size (-1, -1);
once both keys are computed the frame size is 50 x 50, written by `frameSize` on behalf
of `cacheId`. -/
theorem keys_disturb_unsized_frame :
    (freshSizedWorld.fd 1).map (fun f => f.frameSize) = some { width := -1, height := -1 }
      ∧ ((setEnabledBordersKeys exampleEnv 1 1 TopBorder freshSizedWorld).bind
          fun r => (r.2.fd 1).map fun f => f.frameSize) = some { width := 50, height := 50 }
      ∧ (setEnabledBordersKeys exampleEnv 1 1 TopBorder freshSizedWorld).map (fun r => r.1)
          = some ("15_50_50_1_1__", "1_50_50_1_1__") := by
  decide

/-- C10 (amended): for a FrameData whose frame size is valid on entry, computing the old
and the new cache key in `setEnabledBorders` and in `resizeFrame` (there for a non-empty
size that rounds to dimensions within the range of `int`) leaves the whole state as it was
on entry, so frame size, enabled borders, margins and cached raster of the FrameData keep
their values. -/
theorem keys_leave_sized_frame (env : Env) (q : SvgId) (p : Ptr) (w : World)
    (fd : FrameData) (hfd : w.fd p = some fd) (hv : fd.frameSize.isValid = true) :
    (∀ borders : Nat, setEnabledBordersKeys env q p borders w
        = some ((keyOf env w q fd.enabledBorders fd.frameSize,
            keyOf env w q borders fd.frameSize), w))
      ∧ ∀ size : QSizeF, size.isEmpty = false → size.fitsInt = true →
        resizeFrameKeys env q p size w
          = some ((keyOf env w q fd.enabledBorders fd.frameSize,
              keyOf env w q fd.enabledBorders size.toSize), w) :=
  ⟨fun borders => setEnabledBordersKeys_valid env q p borders w fd hfd hv,
    fun size hs _ => resizeFrameKeys_valid env q p size w fd hfd hv hs⟩

/-- C10, witness: the key computation for consumer 1 of `soloWorld`. -/
theorem keys_leave_sized_frame_witness :
    setEnabledBordersKeys exampleEnv 1 1 TopBorder soloWorld
        = some ((keyOf exampleEnv soloWorld 1 (soloWorld.get 1).enabledBorders
            (soloWorld.get 1).frameSize,
          keyOf exampleEnv soloWorld 1 TopBorder (soloWorld.get 1).frameSize), soloWorld)
      ∧ resizeFrameKeys exampleEnv 1 1 size200 soloWorld
        = some ((keyOf exampleEnv soloWorld 1 (soloWorld.get 1).enabledBorders
            (soloWorld.get 1).frameSize,
          keyOf exampleEnv soloWorld 1 (soloWorld.get 1).enabledBorders size200.toSize),
          soloWorld) :=
  ⟨(keys_leave_sized_frame exampleEnv 1 1 soloWorld (soloWorld.get 1) (by decide)
      (by decide)).1 TopBorder,
    (keys_leave_sized_frame exampleEnv 1 1 soloWorld (soloWorld.get 1) (by decide)
      (by decide)).2 size200 (by decide) (by decide)⟩

end Plasma

namespace Plasma

/-- C4, counterexample: consumer 2 is the only holder of its FrameData (pointer 2,
reference count 1) and calls `resizeFrame (200 x 200)`, a size under which consumer 1 has
registered its FrameData.  The call changes the size, but the active FrameData of
consumer 2 is afterwards the object at pointer 1, not the one it held before.  And in
`earlyReturnWorld`, where `alphaMask ()` left the prefix `mask-` active, consumer 1 is the
only holder of its active FrameData (pointer 3) and nothing is registered under the new
key: `setEnabledBorders (TopBorder)` ends with the slot `updateNeeded`, which returns to
the requested prefix, so that the active FrameData is afterwards the object at pointer 1
and the collection has no entry for the object at pointer 3 any more. -/
theorem sole_owner_switches_to_registered :
    ((run [setImagePath exampleEnv 1 "bg", resizeFrame exampleEnv 1 size200,
          setImagePath exampleEnv 2 "bg"] twoConsumers).map
        (fun w => (w.active 2, (w.fd 2).map FrameData.view))
        = some (2, some
            { borders := 15, size := { width := 100, height := 100 },
              references := [(2, 1)] })
      ∧ (run [setImagePath exampleEnv 1 "bg", resizeFrame exampleEnv 1 size200,
          setImagePath exampleEnv 2 "bg", resizeFrame exampleEnv 2 size200] twoConsumers).map
        (fun w => (w.active 2, (w.fd 2).map FrameData.view)) = some (1, none))
      ∧ (earlyReturnWorld.active 1 = 3
        ∧ (earlyReturnWorld.fd 3).map (fun f => f.references) = some [(1, 1)]
        ∧ resolvePrefix exampleEnv earlyReturnWorld 1 (earlyReturnWorld.svgs 1).requestedPrefix
            ≠ (earlyReturnWorld.svgs 1).actualPrefix
        ∧ earlyReturnWorld.sharedValue (earlyReturnWorld.svgs 1).theme
            (keyOf exampleEnv earlyReturnWorld 1 TopBorder (earlyReturnWorld.get 3).frameSize)
            = 0
        ∧ (setEnabledBorders exampleEnv 1 TopBorder earlyReturnWorld).map
            (fun w => (w.active 1, (w.svgs 1).frames)) = some (1, [("", 1)])) :=
  ⟨by decide, by decide⟩

/-- C4 (amended): a consumer is the only holder of its active FrameData (reference count
1), whose frame size is valid, and the registry of the consumer's theme has no FrameData
under the new cache key.  Then `setEnabledBorders (borders)` with borders other than the
current ones, on a steady consumer (its requested prefix resolves to its active prefix,
and its collection, of any number of entries, holds live FrameData only), and
`resizeFrame (size)` with a non-empty size other than the current one that rounds to
dimensions within the range of `int` (image path not empty) mutate the FrameData in
place: the active FrameData after the call is the same object, it carries the new
borders, respectively the new size rounded, and its reference set is as before. -/
theorem sole_owner_mutates_in_place (env : Env) (q : SvgId) (w : World) (fd : FrameData)
    (hfd : w.fd (w.active q) = some fd) (hv : fd.frameSize.isValid = true)
    (hsole : fd.refcount = 1) :
    (∀ borders : Nat, Steady env w q → borders ≠ fd.enabledBorders →
        w.sharedValue (w.svgs q).theme (keyOf env w q borders fd.frameSize) = 0 →
        ∃ (w1 : World) (fd1 : FrameData), setEnabledBorders env q borders w = some w1
          ∧ w1.active q = w.active q ∧ w1.fd (w.active q) = some fd1
          ∧ fd1.enabledBorders = borders ∧ fd1.frameSize = fd.frameSize
          ∧ fd1.references = fd.references)
      ∧ ∀ size : QSizeF, (w.svgs q).imagePath.isEmpty = false → size.isEmpty = false →
        size.fitsInt = true → size.fuzzyEq fd.frameSize = false →
        w.sharedValue (w.svgs q).theme (keyOf env w q fd.enabledBorders size.toSize) = 0 →
        ∃ (w1 : World) (fd1 : FrameData), resizeFrame env q size w = some w1
          ∧ w1.active q = w.active q ∧ w1.fd (w.active q) = some fd1
          ∧ fd1.enabledBorders = fd.enabledBorders ∧ fd1.frameSize = size.toSize
          ∧ fd1.references = fd.references := by
  constructor
  · intro borders hs hne hreg
    exact setEnabledBorders_sole_steady env q borders w fd hs hfd hv hne hsole hreg
  · intro size hpath hsize _ hne hreg
    refine ⟨_,
      { updatedSizes env (w.svgs q) fd with frameSize := size.toSize, theme := (w.svgs q).theme },
      resizeFrame_sole env q size w (w.active q) fd rfl hfd hv hpath hsize hne hsole hreg,
      ?_, ?_, rfl, rfl, rfl⟩
    · simp [World.active]
    · simp only [World.sharedInsert_fd]
      exact World.fd_setFd_self _ _ fd _ (by simpa using hfd)

/-- C4, witness: consumer 1 of `cachingWorld`, in cache-all mode with the FrameData 1
under the default prefix and the FrameData 3 under `north-`, is the only holder of the
FrameData 1; it changes its borders to `TopBorder`, and resizes to 200 x 200. -/
theorem sole_owner_mutates_in_place_witness :
    (cachingWorld.svgs 1).frames = [("north-", 3), ("", 1)]
      ∧ (∃ (w1 : World) (fd1 : FrameData), setEnabledBorders exampleEnv 1 TopBorder
          cachingWorld = some w1 ∧ w1.active 1 = cachingWorld.active 1
        ∧ w1.fd (cachingWorld.active 1) = some fd1
        ∧ fd1.enabledBorders = TopBorder ∧ fd1.frameSize = (cachingWorld.get 1).frameSize
        ∧ fd1.references = (cachingWorld.get 1).references)
      ∧ ∃ (w1 : World) (fd1 : FrameData), resizeFrame exampleEnv 1 size200 cachingWorld
          = some w1
        ∧ w1.active 1 = cachingWorld.active 1 ∧ w1.fd (cachingWorld.active 1) = some fd1
        ∧ fd1.enabledBorders = (cachingWorld.get 1).enabledBorders
        ∧ fd1.frameSize = size200.toSize
        ∧ fd1.references = (cachingWorld.get 1).references :=
  ⟨by decide,
    (sole_owner_mutates_in_place exampleEnv 1 cachingWorld (cachingWorld.get 1) (by decide)
      (by decide) (by decide)).1 TopBorder ⟨by decide, by decide, by decide⟩ (by decide)
      (by decide),
    (sole_owner_mutates_in_place exampleEnv 1 cachingWorld (cachingWorld.get 1) (by decide)
      (by decide) (by decide)).2 size200 (by decide) (by decide) (by decide) (by decide)
      (by decide)⟩

/-- C3, counterexample: in `sharedWorld` the active FrameData of consumer 2 (pointer 1) is
also referenced by consumer 1.  Consumer 2 calls `setEnabledBorders` with the borders the
FrameData already has, or `resizeFrame` with 200.25 x 200, which rounds to the size the
FrameData already has: after either call consumer 2 still holds the object at pointer 1. -/
theorem shared_frame_kept_when_nothing_changes :
    (sharedWorld.active 2, (sharedWorld.fd 1).map FrameData.view)
        = (1, some
            { borders := 15, size := { width := 200, height := 200 },
              references := [(2, 1), (1, 1)] })
      ∧ (setEnabledBorders exampleEnv 2 AllBorders sharedWorld).map (fun w => w.active 2)
        = some 1
      ∧ size200Quarter.fuzzyEq { width := 200, height := 200 } = false
      ∧ (resizeFrame exampleEnv 2 size200Quarter sharedWorld).map (fun w => w.active 2)
        = some 1 := by
  decide

/-- C3 (amended): a consumer's active FrameData has a valid frame size and is also
referenced by another consumer (reference count above 1).  The consumer calls
`setEnabledBorders` with borders other than the current ones, or `resizeFrame` with a
non-empty size other than the current one that rounds to dimensions within the range of
`int` (image path not empty).  The registry holds under the new key a live FrameData other
than the original, or nothing; when it holds nothing, the consumer that calls
`setEnabledBorders` is steady (its requested prefix resolves to its active prefix, and its
collection, of any number of entries, holds live FrameData only).  Then the call returns
and the consumer ends up with a FrameData object distinct from the original; the original
keeps every field but the reference set, so its frame size, enabled borders and margins
are unchanged; the reference entries of all other consumers in the original, and the
state of all other consumers, are unchanged. -/
theorem shared_frame_copy_on_write (env : Env) (q other : SvgId) (w : World)
    (fd : FrameData) (hfd : w.fd (w.active q) = some fd)
    (hv : fd.frameSize.isValid = true) (hcount : 1 < fd.refcount) (hother : other ≠ q)
    (href : (QHash.value fd.references other).isSome = true) :
    (∀ borders : Nat, borders ≠ fd.enabledBorders →
        w.sharedValue (w.svgs q).theme (keyOf env w q borders fd.frameSize) ≠ w.active q →
        ((w.sharedValue (w.svgs q).theme (keyOf env w q borders fd.frameSize) = 0
            ∧ Steady env w q)
          ∨ (w.fd (w.sharedValue (w.svgs q).theme
              (keyOf env w q borders fd.frameSize))).isSome = true) →
        ∃ (w1 : World) (fd1 : FrameData), setEnabledBorders env q borders w = some w1
          ∧ w1.active q ≠ w.active q ∧ w1.fd (w.active q) = some fd1
          ∧ { fd1 with references := fd.references } = fd
          ∧ (∀ c : SvgId, c ≠ q →
              QHash.value fd1.references c = QHash.value fd.references c)
          ∧ ∀ c : SvgId, c ≠ q → w1.svgs c = w.svgs c)
      ∧ ∀ size : QSizeF, (w.svgs q).imagePath.isEmpty = false → size.isEmpty = false →
        size.fitsInt = true → size.fuzzyEq fd.frameSize = false →
        w.sharedValue (w.svgs q).theme (keyOf env w q fd.enabledBorders size.toSize)
          ≠ w.active q →
        (w.sharedValue (w.svgs q).theme (keyOf env w q fd.enabledBorders size.toSize) = 0
          ∨ (w.fd (w.sharedValue (w.svgs q).theme
              (keyOf env w q fd.enabledBorders size.toSize))).isSome = true) →
        ∃ (w1 : World) (fd1 : FrameData), resizeFrame env q size w = some w1
          ∧ w1.active q ≠ w.active q ∧ w1.fd (w.active q) = some fd1
          ∧ { fd1 with references := fd.references } = fd
          ∧ (∀ c : SvgId, c ≠ q →
              QHash.value fd1.references c = QHash.value fd.references c)
          ∧ ∀ c : SvgId, c ≠ q → w1.svgs c = w.svgs c := by
  constructor
  · intro borders hne hreg hcase
    exact setEnabledBorders_shared_steady env q borders w fd hfd hv hne hcount other hother
      href hreg hcase
  · intro size hpath hsize _ hne hreg hlive
    obtain ⟨w1, h1, h2, h3, h4⟩ := resizeFrame_shared env q size w (w.active q) fd rfl hfd hv
      hpath hsize hne hcount other hother href hreg hlive
    exact ⟨w1, _, h1, h2, h3, rfl, (FrameData.deref_facts fd q).2.1, h4⟩

/-- C3, witness: consumer 2 of `sharedCachingWorld`, in cache-all mode with two entries in
its collection, whose active FrameData (pointer 1) consumer 1 holds too, changes its
borders to `TopBorder`, and resizes to 300 x 300. -/
theorem shared_frame_copy_on_write_witness :
    (sharedCachingWorld.svgs 2).frames = [("north-", 3), ("", 1)]
      ∧ (∃ (w1 : World) (fd1 : FrameData), setEnabledBorders exampleEnv 2 TopBorder
          sharedCachingWorld = some w1 ∧ w1.active 2 ≠ sharedCachingWorld.active 2
        ∧ w1.fd (sharedCachingWorld.active 2) = some fd1
        ∧ { fd1 with references := (sharedCachingWorld.get 1).references }
            = sharedCachingWorld.get 1
        ∧ (∀ c : SvgId, c ≠ 2 → QHash.value fd1.references c
            = QHash.value (sharedCachingWorld.get 1).references c)
        ∧ ∀ c : SvgId, c ≠ 2 → w1.svgs c = sharedCachingWorld.svgs c)
      ∧ ∃ (w1 : World) (fd1 : FrameData), resizeFrame exampleEnv 2 size300
          sharedCachingWorld = some w1 ∧ w1.active 2 ≠ sharedCachingWorld.active 2
        ∧ w1.fd (sharedCachingWorld.active 2) = some fd1
        ∧ { fd1 with references := (sharedCachingWorld.get 1).references }
            = sharedCachingWorld.get 1
        ∧ (∀ c : SvgId, c ≠ 2 → QHash.value fd1.references c
            = QHash.value (sharedCachingWorld.get 1).references c)
        ∧ ∀ c : SvgId, c ≠ 2 → w1.svgs c = sharedCachingWorld.svgs c :=
  ⟨by decide,
    (shared_frame_copy_on_write exampleEnv 2 1 sharedCachingWorld (sharedCachingWorld.get 1)
      (by decide) (by decide) (by decide) (by decide) (by decide)).1 TopBorder (by decide)
      (by decide) (Or.inl ⟨by decide, by decide, by decide, by decide⟩),
    (shared_frame_copy_on_write exampleEnv 2 1 sharedCachingWorld (sharedCachingWorld.get 1)
      (by decide) (by decide) (by decide) (by decide) (by decide)).2 size300 (by decide)
      (by decide) (by decide) (by decide) (by decide) (by decide)⟩

end Plasma

namespace Plasma

/-- C1, the code at the failing inputs.  First: two fresh consumers on one theme both call
`setImagePath ("bg")`; they hold FrameData with the same configuration at the distinct
pointers 1 and 2, each with reference count 1, and the registry entry of the first was
overwritten by the second.  Second: both consumers call `setImagePath ("bg")`,
`resizeFrame (200 x 200)` and `setEnabledBorders (TopBorder)` in this order; again they
hold equal configurations in the distinct objects 1 and 2. -/
theorem identical_requests_not_shared :
    (run [setImagePath exampleEnv 1 "bg", setImagePath exampleEnv 2 "bg"] twoConsumers).map
        (fun w => ((w.active 1, w.active 2), (w.fd 1).map FrameData.view,
          (w.fd 2).map FrameData.view, w.sharedFrames 1 "15_100_100_1_1__bg"))
        = some ((1, 2),
            some
              { borders := 15, size := { width := 100, height := 100 },
                references := [(1, 1)] },
            some
              { borders := 15, size := { width := 100, height := 100 },
                references := [(2, 1)] },
            some 2)
      ∧ (run [setImagePath exampleEnv 1 "bg", resizeFrame exampleEnv 1 size200,
          setEnabledBorders exampleEnv 1 TopBorder, setImagePath exampleEnv 2 "bg",
          resizeFrame exampleEnv 2 size200, setEnabledBorders exampleEnv 2 TopBorder]
          twoConsumers).map
        (fun w => ((w.active 1, w.active 2), (w.fd 1).map FrameData.view,
          (w.fd 2).map FrameData.view))
        = some ((1, 2),
            some
              { borders := 1, size := { width := 200, height := 200 },
                references := [(1, 1)] },
            some
              { borders := 1, size := { width := 200, height := 200 },
                references := [(2, 1)] }) := by
  decide

/-- C2, the code at the failing input.  After both consumers called
`setImagePath ("bg")` the registry maps the key `15_100_100_1_1__bg` to the FrameData of
consumer 2 (pointer 2).  Consumer 1 then calls `resizeFrame (200 x 200)`, or releases its
FrameData through `setElementPrefix ("north")`: in both cases the entry of that key is
gone although consumer 2 still references and holds the FrameData at pointer 2. -/
theorem foreign_registry_entry_removed :
    (run [setImagePath exampleEnv 1 "bg", setImagePath exampleEnv 2 "bg"] twoConsumers).map
        (fun w => (w.sharedFrames 1 "15_100_100_1_1__bg", (w.fd 2).map FrameData.view))
        = some (some 2, some
            { borders := 15, size := { width := 100, height := 100 },
              references := [(2, 1)] })
      ∧ (run [setImagePath exampleEnv 1 "bg", setImagePath exampleEnv 2 "bg",
          resizeFrame exampleEnv 1 size200] twoConsumers).map
        (fun w => ((w.sharedFrames 1 "15_100_100_1_1__bg", w.active 2),
          (w.fd 2).map FrameData.view))
        = some ((none, 2), some
            { borders := 15, size := { width := 100, height := 100 },
              references := [(2, 1)] })
      ∧ (run [setImagePath exampleEnv 1 "bg", setImagePath exampleEnv 2 "bg",
          setElementPrefix exampleEnv 1 "north"] twoConsumers).map
        (fun w => ((w.sharedFrames 1 "15_100_100_1_1__bg", w.active 2),
          (w.fd 2).map FrameData.view, (w.fd 1).map FrameData.view))
        = some ((none, 2), some
            { borders := 15, size := { width := 100, height := 100 },
              references := [(2, 1)] }, none) := by
  decide

/-- C6, the code at the failing input.  Both consumers set the image `bg`, resize to
200 x 200 and call `alphaMask ()`: they share the mask FrameData at pointer 3, of frame
size 200 x 200 and reference count 2.  Consumer 1 then resizes to 300 x 300 and calls
`alphaMask ()` again: the FrameData at pointer 3 now has the frame size 300 x 300, still
with both consumers in its reference set and still the mask FrameData of consumer 2,
whose own frame (pointer 1) is 200 x 200. -/
theorem alphaMask_resizes_shared_mask :
    (run [setImagePath exampleEnv 1 "bg", resizeFrame exampleEnv 1 size200,
          callAlphaMask exampleEnv 1, setImagePath exampleEnv 2 "bg",
          resizeFrame exampleEnv 2 size200, callAlphaMask exampleEnv 2,
          resizeFrame exampleEnv 1 size300] twoConsumers).map
        (fun w => ((w.fd 3).map FrameData.view,
          (w.framesValue 1 "mask-", w.framesValue 2 "mask-")))
        = some (some
            { borders := 15, size := { width := 200, height := 200 },
              references := [(2, 1), (1, 1)] }, (3, 3))
      ∧ (run [setImagePath exampleEnv 1 "bg", resizeFrame exampleEnv 1 size200,
          callAlphaMask exampleEnv 1, setImagePath exampleEnv 2 "bg",
          resizeFrame exampleEnv 2 size200, callAlphaMask exampleEnv 2,
          resizeFrame exampleEnv 1 size300, callAlphaMask exampleEnv 1] twoConsumers).map
        (fun w => ((w.fd 3).map FrameData.view,
          (w.framesValue 1 "mask-", w.framesValue 2 "mask-"),
          (w.fd (w.active 2)).map fun f => f.frameSize))
        = some (some
            { borders := 15, size := { width := 300, height := 300 },
              references := [(2, 1), (1, 1)] }, (3, 3),
            some { width := 200, height := 200 }) := by
  decide

/-- C7, the code at the failing input.  Consumer 1, sole owner of its FrameData, calls
`setEnabledBorders (TopBorder)` after `setImagePath ("bg")`: the FrameData carries the new
borders, the old key is gone from the registry, and the new key `1_100_100_1_1__bg` has no
entry.  The same consumer calling `resizeFrame (200 x 200)` instead finds its FrameData
registered under the new key `15_200_200_1_1__bg`. -/
theorem setEnabledBorders_does_not_register :
    (run [setImagePath exampleEnv 1 "bg", setEnabledBorders exampleEnv 1 TopBorder]
        twoConsumers).map
        (fun w => ((w.active 1, (w.fd 1).map FrameData.view),
          (w.sharedFrames 1 "15_100_100_1_1__bg", w.sharedFrames 1 "1_100_100_1_1__bg")))
        = some ((1, some
            { borders := 1, size := { width := 100, height := 100 },
              references := [(1, 1)] }), (none, none))
      ∧ (run [setImagePath exampleEnv 1 "bg", resizeFrame exampleEnv 1 size200]
        twoConsumers).map
        (fun w => ((w.active 1, (w.fd 1).map FrameData.view),
          (w.sharedFrames 1 "15_100_100_1_1__bg", w.sharedFrames 1 "15_200_200_1_1__bg")))
        = some ((1, some
            { borders := 15, size := { width := 200, height := 200 },
              references := [(1, 1)] }), (none, some 1)) := by
  decide

end Plasma
namespace Plasma

end Plasma
namespace Plasma

/-- C11 as stated fails.  In `negativeRatioWorld` the frame size 100 x 100 is valid and
the pixel size is -100 x -100: generation is skipped at the validity check and the raster
stays null although neither pixel dimension reaches 100000.  In `zeroRatioWorld` the
pixel size is 0 x 0: it passes both checks, and the raster, a pixmap of an empty size,
is null all the same. -/
theorem raster_null_below_bound :
    ((negativeRatioWorld.get 1).frameSize.isValid = true
      ∧ (negativeRatioWorld.get 1).cachedBackground = none
      ∧ ((negativeRatioWorld.get 1).frameSize.scaled (-1)).width = -100
      ∧ ((negativeRatioWorld.get 1).frameSize.scaled (-1)).height = -100
      ∧ (generateFrameBackground exampleEnv 1 (alphaMask exampleEnv 1 8) 1
          negativeRatioWorld).map (fun w => w.raster 1) = some (some none))
      ∧ ((zeroRatioWorld.get 1).frameSize.isValid = true
        ∧ (zeroRatioWorld.get 1).cachedBackground = none
        ∧ ((zeroRatioWorld.get 1).frameSize.scaled 0).width = 0
        ∧ ((zeroRatioWorld.get 1).frameSize.scaled 0).height = 0
        ∧ (generateFrameBackground exampleEnv 1 (alphaMask exampleEnv 1 8) 1
            zeroRatioWorld).map (fun w => w.raster 1) = some (some none)) := by
  decide

/-- What `generateFrameBackground` does with any painter `mask` for a FrameData of valid
frame size without a raster: it skips generation for an invalid or oversized pixel size;
for a pixel size of at least 1 x 1 it returns with the raster null exactly when the size
reaches the bound, provided that the one call of the painter, made for a FrameData that
composes over its border, returns and leaves the new raster in place. -/
theorem generateFrameBackground_outcome (env : Env) (q : SvgId)
    (mask : World → Option (QPixmap × World)) (frame : Ptr) (w : World) (f : FrameData)
    (hf : w.fd frame = some f) (hv : f.frameSize.isValid = true)
    (hnull : f.cachedBackground = none) :
    ((f.frameSize.scaled (w.svgs q).devicePixelRatio).isValid = false
        ∨ (f.frameSize.scaled (w.svgs q).devicePixelRatio).width ≥ MAX_FRAME_SIZE
        ∨ (f.frameSize.scaled (w.svgs q).devicePixelRatio).height ≥ MAX_FRAME_SIZE →
      generateFrameBackground env q mask frame w = some w)
    ∧ (1 ≤ (f.frameSize.scaled (w.svgs q).devicePixelRatio).width →
        1 ≤ (f.frameSize.scaled (w.svgs q).devicePixelRatio).height →
        (f.composeOverBorder = true →
          (f.frameSize.scaled (w.svgs q).devicePixelRatio).width < MAX_FRAME_SIZE →
          (f.frameSize.scaled (w.svgs q).devicePixelRatio).height < MAX_FRAME_SIZE →
          (mask (w.setFd frame { f with
              cachedBackground := some (f.frameSize.scaled (w.svgs q).devicePixelRatio) })).map
            (fun m => m.2.raster frame)
            = some (some (some (f.frameSize.scaled (w.svgs q).devicePixelRatio)))) →
        ∃ w1 f1, generateFrameBackground env q mask frame w = some w1
          ∧ w1.fd frame = some f1
          ∧ (f1.cachedBackground = none ↔
              ((f.frameSize.scaled (w.svgs q).devicePixelRatio).width ≥ MAX_FRAME_SIZE
                ∨ (f.frameSize.scaled (w.svgs q).devicePixelRatio).height ≥ MAX_FRAME_SIZE))
          ∧ (f1.cachedBackground ≠ none → f1.cachedBackground
              = some (f.frameSize.scaled (w.svgs q).devicePixelRatio))) := by
  have hfs := frameSize_valid env q frame w f hf hv
  constructor
  · intro h
    unfold generateFrameBackground
    simp only [hfs, Option.some_bind]
    rcases h with h | h | h
    · simp [h]
    · by_cases hval : (f.frameSize.scaled (w.svgs q).devicePixelRatio).isValid = true
      · simp [hval, h]
      · simp [hval]
    · by_cases hval : (f.frameSize.scaled (w.svgs q).devicePixelRatio).isValid = true
      · simp [hval, h]
      · simp [hval]
  · intro hw hh hmask
    have hval : (f.frameSize.scaled (w.svgs q).devicePixelRatio).isValid = true := by
      simp only [QSize.isValid, Bool.and_eq_true, decide_eq_true_eq]
      omega
    by_cases hbig : (f.frameSize.scaled (w.svgs q).devicePixelRatio).width ≥ MAX_FRAME_SIZE
        ∨ (f.frameSize.scaled (w.svgs q).devicePixelRatio).height ≥ MAX_FRAME_SIZE
    · refine ⟨w, f, ?_, hf, ?_, ?_⟩
      · unfold generateFrameBackground
        simp only [hfs, Option.some_bind]
        simp [hval, hbig]
      · simp [hnull, hbig]
      · intro hc
        exact absurd hnull hc
    · have hpix : QPixmap.ofSize (f.frameSize.scaled (w.svgs q).devicePixelRatio)
          = some (f.frameSize.scaled (w.svgs q).devicePixelRatio) := by
        simp only [QPixmap.ofSize]
        rw [if_neg]
        omega
      have hset : ∀ pm : QPixmap, (w.setFd frame { f with cachedBackground := pm }).fd frame
          = some { f with cachedBackground := pm } :=
        fun pm => World.fd_setFd_self w frame f _ hf
      have hset := hset (QPixmap.ofSize (f.frameSize.scaled (w.svgs q).devicePixelRatio))
      rw [hpix] at hset
      by_cases hc : f.composeOverBorder = true
      · have hm := hmask hc (by omega) (by omega)
        obtain ⟨m, hm1, hm2⟩ := Option.map_eq_some'.1 hm
        simp only [World.raster] at hm2
        obtain ⟨fm, hm3, hm4⟩ := Option.map_eq_some'.1 hm2
        refine ⟨m.2, fm, ?_, hm3, ?_, ?_⟩
        · unfold generateFrameBackground
          simp only [hfs, Option.some_bind]
          simp only [hval, hbig, hf, hpix, Bool.not_true, Bool.false_eq_true, if_false, Option.some_bind]
          rw [if_pos hc, hm1]
          rfl
        · rw [hm4]
          simp [hbig]
        · intro _
          rw [hm4]
      · refine ⟨_, _, ?_, hset, ?_, ?_⟩
        · unfold generateFrameBackground
          simp only [hfs, Option.some_bind]
          simp only [hval, hbig, hf, hpix, Bool.not_true, Bool.false_eq_true, if_false, Option.some_bind]
          rw [if_neg hc]
        · simp [hbig]
        · intro _
          rfl

/-- C11 (amended): the FrameData has a valid frame size and no raster, and `size` is its
pixel size, the frame size scaled by the device pixel ratio.  When `size` is invalid, or
its width or height is at least 100000, `generateFrameBackground` returns without
changing anything, so the raster stays null.  When both dimensions of `size` are at least
1, and, in case the FrameData composes over its border and `size` is below the bound, the
call `alphaMask ()` that `paintCenter` makes on the state with the new raster returns and
leaves that raster in place, then `generateFrameBackground` returns, and the raster is
null afterwards if and only if the width or the height of `size` is at least 100000;
otherwise it is a raster of the size `size`.  With `alphaMask` itself as the painter the
condition holds, and so does the conclusion, for the active FrameData of a consumer when
the theme has no mask for the mask prefix and the FrameData that `alphaMask` takes as the
mask is a live object other than the frame, or there is none yet. -/
theorem generateFrameBackground_size_bound (env : Env) (q : SvgId)
    (mask : World → Option (QPixmap × World)) (frame : Ptr) (w : World) (f : FrameData)
    (hf : w.fd frame = some f) (hv : f.frameSize.isValid = true)
    (hnull : f.cachedBackground = none) :
    ((f.frameSize.scaled (w.svgs q).devicePixelRatio).isValid = false
        ∨ (f.frameSize.scaled (w.svgs q).devicePixelRatio).width ≥ MAX_FRAME_SIZE
        ∨ (f.frameSize.scaled (w.svgs q).devicePixelRatio).height ≥ MAX_FRAME_SIZE →
      generateFrameBackground env q mask frame w = some w)
    ∧ (1 ≤ (f.frameSize.scaled (w.svgs q).devicePixelRatio).width →
        1 ≤ (f.frameSize.scaled (w.svgs q).devicePixelRatio).height →
        (f.composeOverBorder = true →
          (f.frameSize.scaled (w.svgs q).devicePixelRatio).width < MAX_FRAME_SIZE →
          (f.frameSize.scaled (w.svgs q).devicePixelRatio).height < MAX_FRAME_SIZE →
          (mask (w.setFd frame { f with
              cachedBackground := some (f.frameSize.scaled (w.svgs q).devicePixelRatio) })).map
            (fun m => m.2.raster frame)
            = some (some (some (f.frameSize.scaled (w.svgs q).devicePixelRatio)))) →
        ∃ w1 f1, generateFrameBackground env q mask frame w = some w1
          ∧ w1.fd frame = some f1
          ∧ (f1.cachedBackground = none ↔
              ((f.frameSize.scaled (w.svgs q).devicePixelRatio).width ≥ MAX_FRAME_SIZE
                ∨ (f.frameSize.scaled (w.svgs q).devicePixelRatio).height ≥ MAX_FRAME_SIZE))
          ∧ (f1.cachedBackground ≠ none → f1.cachedBackground
              = some (f.frameSize.scaled (w.svgs q).devicePixelRatio)))
    ∧ (∀ fuel : Nat, w.framesValue q (w.svgs q).actualPrefix = frame →
        1 ≤ (f.frameSize.scaled (w.svgs q).devicePixelRatio).width →
        1 ≤ (f.frameSize.scaled (w.svgs q).devicePixelRatio).height →
        hasElement env w q ("mask-" ++ ("mask-" ++ (w.svgs q).actualPrefix) ++ "center")
          = false →
        ((QHash.contains (w.svgs q).frames ("mask-" ++ (w.svgs q).actualPrefix) = false
            ∧ maskCandidate env w q f = 0)
          ∨ (maskCandidate env w q f ≠ frame
            ∧ (w.fd (maskCandidate env w q f)).isSome = true)) →
        ∃ w1 f1, generateFrameBackground env q (alphaMask env q (fuel + 2)) frame w = some w1
          ∧ w1.fd frame = some f1
          ∧ (f1.cachedBackground = none ↔
              ((f.frameSize.scaled (w.svgs q).devicePixelRatio).width ≥ MAX_FRAME_SIZE
                ∨ (f.frameSize.scaled (w.svgs q).devicePixelRatio).height ≥ MAX_FRAME_SIZE))
          ∧ (f1.cachedBackground ≠ none → f1.cachedBackground
              = some (f.frameSize.scaled (w.svgs q).devicePixelRatio))) := by
  refine ⟨(generateFrameBackground_outcome env q mask frame w f hf hv hnull).1,
    (generateFrameBackground_outcome env q mask frame w f hf hv hnull).2, ?_⟩
  intro fuel hact hw hh hnest hcand
  refine (generateFrameBackground_outcome env q (alphaMask env q (fuel + 2)) frame w f hf hv
    hnull).2 hw hh (fun _ _ _ => ?_)
  have hmc : maskCandidate env (w.setFd frame { f with
      cachedBackground := some (f.frameSize.scaled (w.svgs q).devicePixelRatio) }) q
      { f with cachedBackground := some (f.frameSize.scaled (w.svgs q).devicePixelRatio) }
      = maskCandidate env w q f := by
    simp [maskCandidate]
  obtain ⟨m, h1, h2⟩ := alphaMask_leaves_frame env q fuel frame
    (w.setFd frame { f with
      cachedBackground := some (f.frameSize.scaled (w.svgs q).devicePixelRatio) })
    { f with cachedBackground := some (f.frameSize.scaled (w.svgs q).devicePixelRatio) }
    (by simpa using hact) (World.fd_setFd_self w frame f _ hf) hv rfl
    (by simpa using hw) (by simpa using hh) (by simpa [hasElement] using hnest)
    (by
      rw [hmc]
      rcases hcand with h | h
      · left
        simpa using h
      · right
        refine ⟨h.1, ?_⟩
        rw [World.fd_setFd_ne _ _ _ _ h.1]
        exact h.2)
  rw [h1]
  simp [World.raster, h2]

/-- C11, witness: consumer 1 of `composeWorld`, whose FrameData (frame size 100 x 100,
device pixel ratio 1) composes over its border, with `alphaMask` itself as the painter:
it makes the mask FrameData and leaves the raster of the frame in place. -/
theorem generateFrameBackground_size_bound_witness :
    (composeWorld.get 1).composeOverBorder = true
      ∧ ∃ w1 f1, generateFrameBackground composeEnv 1 (alphaMask composeEnv 1 2) 1
          composeWorld = some w1
        ∧ w1.fd 1 = some f1
        ∧ (f1.cachedBackground = none ↔
            (((composeWorld.get 1).frameSize.scaled
                (composeWorld.svgs 1).devicePixelRatio).width ≥ MAX_FRAME_SIZE
              ∨ ((composeWorld.get 1).frameSize.scaled
                (composeWorld.svgs 1).devicePixelRatio).height ≥ MAX_FRAME_SIZE))
        ∧ (f1.cachedBackground ≠ none → f1.cachedBackground
            = some ((composeWorld.get 1).frameSize.scaled
                (composeWorld.svgs 1).devicePixelRatio)) :=
  ⟨by decide,
    (generateFrameBackground_size_bound composeEnv 1 (alphaMask composeEnv 1 8) 1
      composeWorld (composeWorld.get 1) (by decide) (by decide) (by decide)).2.2 0 (by decide)
      (by decide) (by decide) (by decide) (Or.inl ⟨by decide, by decide⟩)⟩

end Plasma
namespace Plasma

/-- C12 as stated fails: consumer 1 of `soloWorld` resizes its frame to 100000 x 100.
The key for that size is not in the registry before the call and maps to the consumer's
FrameData after it. -/
theorem resizeFrame_registers_oversized :
    MAX_FRAME_SIZE ≤ oversizedSize.toSize.width
      ∧ soloWorld.sharedFrames (soloWorld.svgs 1).theme "15_100000_100_1_1__bg" = none
      ∧ (resizeFrame exampleEnv 1 oversizedSize soloWorld).map
          (fun w => w.sharedFrames (soloWorld.svgs 1).theme "15_100000_100_1_1__bg")
        = some (some 1) := by
  decide

/-- C12 (amended): `resizeFrame` does not compare the size with `MAX_FRAME_SIZE`.  For a
consumer with an image path that is the sole owner of its active FrameData (of valid frame
size), a call with a non-empty size that rounds to dimensions within the range of `int`,
at or above `MAX_FRAME_SIZE` or not, different from the current one and with no registry
entry under its key, returns; afterwards the registry maps the key of the new size to the
FrameData, and the FrameData has the new size. -/
theorem resizeFrame_registers_any_size (env : Env) (q : SvgId) (size : QSizeF) (w : World)
    (p : Ptr) (fd : FrameData)
    (hp : w.framesValue q (w.svgs q).actualPrefix = p) (hfd : w.fd p = some fd)
    (hv : fd.frameSize.isValid = true)
    (hpath : (w.svgs q).imagePath.isEmpty = false) (hsize : size.isEmpty = false)
    (_hfit : size.fitsInt = true)
    (hne : size.fuzzyEq fd.frameSize = false) (hsole : fd.refcount = 1)
    (hreg : w.sharedValue (w.svgs q).theme (keyOf env w q fd.enabledBorders size.toSize) = 0) :
    ∃ w1 f1, resizeFrame env q size w = some w1
      ∧ w1.sharedFrames (w.svgs q).theme (keyOf env w q fd.enabledBorders size.toSize)
          = some p
      ∧ w1.fd p = some f1 ∧ f1.frameSize = size.toSize := by
  refine ⟨_, { updatedSizes env (w.svgs q) fd with
      frameSize := size.toSize, theme := (w.svgs q).theme },
    resizeFrame_sole env q size w p fd hp hfd hv hpath hsize hne hsole hreg, ?_, ?_, rfl⟩
  · simp [World.sharedInsert, tableSet, keyOf]
  · rw [World.sharedInsert_fd]
    exact World.fd_setFd_self _ _ fd _ (by simpa using hfd)

/-- C12, witness: consumer 1 of `soloWorld` and the size 100000 x 100, whose width is at
the bound and within the range of `int`. -/
theorem resizeFrame_registers_any_size_witness :
    MAX_FRAME_SIZE ≤ oversizedSize.toSize.width
      ∧ ∃ w1 f1, resizeFrame exampleEnv 1 oversizedSize soloWorld = some w1
        ∧ w1.sharedFrames (soloWorld.svgs 1).theme
            (keyOf exampleEnv soloWorld 1 (soloWorld.get 1).enabledBorders
              oversizedSize.toSize)
            = some 1
        ∧ w1.fd 1 = some f1 ∧ f1.frameSize = oversizedSize.toSize :=
  ⟨by decide,
    resizeFrame_registers_any_size exampleEnv 1 oversizedSize soloWorld 1 (soloWorld.get 1)
      (by decide) (by decide) (by decide) (by decide) (by decide) (by decide) (by decide)
      (by decide) (by decide)⟩

end Plasma
namespace Plasma

/-- C13: `resizeFrame` called with an empty size (width <= 0 or height <= 0) returns
without changing anything: the state after the call is the state before it, so the
consumer's collection, the frame size of the active FrameData, every reference count and
the Shared Frame Registry are the same. -/
theorem resizeFrame_empty_size_noop (env : Env) (q : SvgId) (size : QSizeF) (w : World)
    (h : size.width ≤ 0 ∨ size.height ≤ 0) :
    resizeFrame env q size w = some w
      ∧ ∀ w1, resizeFrame env q size w = some w1 →
          w1.svgs = w.svgs ∧ w1.heap = w.heap ∧ w1.sharedFrames = w.sharedFrames := by
  have he : size.isEmpty = true := by
    simp only [QSizeF.isEmpty, Bool.or_eq_true, decide_eq_true_eq]
    rcases h with h | h
    · exact Or.inl (Rat.num_nonpos.2 h)
    · exact Or.inr (Rat.num_nonpos.2 h)
  have hr : resizeFrame env q size w = some w := by
    unfold resizeFrame
    simp [he]
  refine ⟨hr, ?_⟩
  intro w1 h1
  rw [hr] at h1
  simp only [Option.some.injEq] at h1
  subst h1
  exact ⟨rfl, rfl, rfl⟩

/-- C13, witness: consumer 2 of `sharedWorld` asks for the size 0 x 200. -/
theorem resizeFrame_empty_size_noop_witness :
    resizeFrame exampleEnv 2 { width := 0, height := 200 } sharedWorld = some sharedWorld
      ∧ ∀ w1, resizeFrame exampleEnv 2 { width := 0, height := 200 } sharedWorld = some w1 →
          w1.svgs = sharedWorld.svgs ∧ w1.heap = sharedWorld.heap
            ∧ w1.sharedFrames = sharedWorld.sharedFrames :=
  resizeFrame_empty_size_noop exampleEnv 2 { width := 0, height := 200 } sharedWorld
    (Or.inl (le_refl 0))

end Plasma
namespace Plasma

/-- C14: whenever `setElementPrefix (p)` returns, `prefix ()` returns `p` afterwards and
`actualPrefix ()` is `p` followed by a dash when `p` is not empty and the theme has the
element `p-center`, and is empty otherwise; and the call does return when the consumer's
collection and the registry of its theme point to live FrameData only. -/
theorem setElementPrefix_sets_prefixes (env : Env) (q : SvgId) (p : String) (w : World) :
    (∀ w1, setElementPrefix env q p w = some w1 →
        requestedPrefixOf w1 q = p
        ∧ FrameSvg_actualPrefix w1 q
            = (if p ≠ "" ∧ hasElement env w q (p ++ "-center") = true then p ++ "-" else ""))
      ∧ ((∀ k x, QHash.value (w.svgs q).frames k = some x → ∃ f, w.fd x = some f) →
          (∀ k x, w.sharedFrames (w.svgs q).theme k = some x → ∃ f, w.fd x = some f) →
          ∃ w1, setElementPrefix env q p w = some w1) := by
  refine ⟨fun w1 h => ?_, fun hframes hreg => setElementPrefix_total env q p w hframes hreg⟩
  obtain ⟨h1, h2, -⟩ := setElementPrefix_record env q p w w1 h
  refine ⟨h1, ?_⟩
  rw [FrameSvg_actualPrefix, h2, resolvePrefix]
  by_cases he : hasElement env w q (p ++ "-center") = true
  · by_cases hp : p = ""
    · subst hp
      have : ("" : String).isEmpty = true := rfl
      simp [he, this]
    · have : p.isEmpty = false := by
        cases hpe : p.isEmpty with
        | false => rfl
        | true => exact absurd ((String.isEmpty_iff p).1 hpe) hp
      simp [he, hp, this]
  · simp [he]

/-- C14, witness: consumer 1 of `registeredWorld` asks for the prefix `north`, for which
the theme has a center element. -/
theorem setElementPrefix_sets_prefixes_witness :
    ∃ w1, setElementPrefix sizedEnv 1 "north" registeredWorld = some w1
      ∧ requestedPrefixOf w1 1 = "north" ∧ FrameSvg_actualPrefix w1 1 = "north-" :=
  have hall := setElementPrefix_sets_prefixes sizedEnv 1 "north" registeredWorld
  have hret := hall.2 (registeredWorld_inv.frames_live (by simp))
    (registeredWorld_inv.registry_live _)
  hret.elim fun w1 h1 => ⟨w1, h1, (hall.1 w1 h1).1, by
    rw [(hall.1 w1 h1).2]
    decide⟩

end Plasma
namespace Plasma

/-- C15: a consumer whose active FrameData is `p` calls `setElementPrefix` (its collection
and the registry of its theme point to live FrameData only, and `p` is registered under
keys computed for this consumer only).  The call returns.  If `p` is deleted, or one of
its registry entries no longer maps to it, then the reference set of `p` was empty after
one release by the caller.  If the caller is counted at least twice in the reference set
(it holds `p` under another prefix too) or another consumer is in it, `p` stays alive
with the entries of the other consumers unchanged, the caller still counted when it was
counted twice, and every registry entry of `p` still in place. -/
theorem setElementPrefix_releases_once (env : Env) (q : SvgId) (a : String) (w : World)
    (p : Ptr) (f : FrameData)
    (hp : w.framesValue q (w.svgs q).actualPrefix = p) (hf : w.fd p = some f)
    (hframes : ∀ k x, QHash.value (w.svgs q).frames k = some x → ∃ g, w.fd x = some g)
    (hreg : ∀ k x, w.sharedFrames (w.svgs q).theme k = some x → ∃ g, w.fd x = some g)
    (hkey : ∀ t k, w.sharedFrames t k = some p →
      ∃ (b : Nat) (s : QSize), k = keyOf env w q b s) :
    ∃ w1, setElementPrefix env q a w = some w1
      ∧ (w1.fd p = none → (f.deref q).1 = true)
      ∧ (∀ t k, w.sharedFrames t k = some p → w1.sharedFrames t k ≠ some p →
          (f.deref q).1 = true)
      ∧ ((2 ≤ f.count q ∨ ∃ c n, c ≠ q ∧ QHash.value f.references c = some n) →
          ∃ f1, w1.fd p = some f1
            ∧ (∀ c, c ≠ q → QHash.value f1.references c = QHash.value f.references c)
            ∧ (2 ≤ f.count q → 1 ≤ f1.count q)
            ∧ ∀ t k, w.sharedFrames t k = some p → w1.sharedFrames t k = some p) := by
  obtain ⟨w1, h⟩ := setElementPrefix_total env q a w hframes hreg
  obtain ⟨-, g2, -, -, g5, -⟩ := setElementPrefix_heap env q a w w1 h
  rw [hp] at g2 g5
  have hp0 : p ≠ 0 := World.fd_ne_zero hf
  have hkeepreg : (f.deref q).1 = false →
      ∀ t k, w.sharedFrames t k = some p → w1.sharedFrames t k = some p := by
    intro hd t k hk
    rcases g5 t k p hk (Or.inr (Or.inr (Or.inr ⟨f, hf, hd⟩))) with h5 | ⟨-, b, s, h5⟩
    · exact h5
    · obtain ⟨b2, s2, h6⟩ := hkey t k hk
      rw [h6, keyOf] at h5
      have hpx := cacheKey_prefix_inj env _ _ _ _ _ _ _ _ _ _ _ h5
      obtain ⟨v1, hv1, hst⟩ := setElementPrefix_stages env q a w w1 h
      rcases hst with ⟨-, -, hwf⟩ | ⟨hearly, -⟩
      · rw [hwf, hv1]
        simpa using hk
      · rw [hp] at hearly
        exact absurd ⟨hpx, hp0⟩ hearly
  refine ⟨w1, h, fun hnone => ?_, fun t k hk hne => ?_, fun hc => ?_⟩
  · cases hd : (f.deref q).1 with
    | true => rfl
    | false =>
      obtain ⟨f1, e1, -⟩ := g2 f hf hd
      rw [e1] at hnone
      simp at hnone
  · cases hd : (f.deref q).1 with
    | true => rfl
    | false => exact absurd (hkeepreg hd t k hk) hne
  · have hd : (f.deref q).1 = false := (FrameData.deref_keeps_iff f q).2 hc
    obtain ⟨f1, e1, e2, -, e4⟩ := g2 f hf hd
    exact ⟨f1, e1, e2, e4, hkeepreg hd⟩

/-- C15, witness: consumers 1 and 2 of `sharedSizedWorld` hold the FrameData at pointer 1;
consumer 1 switches to the prefix `north`.  The FrameData stays alive, consumer 2 is
still counted once, and the registry entry is in place. -/
theorem setElementPrefix_releases_once_witness :
    ∃ w1 f1, setElementPrefix sizedEnv 1 "north" sharedSizedWorld = some w1
      ∧ w1.fd 1 = some f1
      ∧ QHash.value f1.references 2 = some 1
      ∧ w1.sharedFrames 1 "15_200_200_1_1__bg" = some 1 :=
  have hall := setElementPrefix_releases_once sizedEnv 1 "north" sharedSizedWorld 1
    (sharedSizedWorld.get 1) (by decide) (by decide)
    (sharedSizedWorld_inv.frames_live (by simp)) (sharedSizedWorld_inv.registry_live _)
    (sharedSizedWorld_inv.entry_keys (by simp) 1 (by decide))
  hall.elim fun w1 h1 =>
    (h1.2.2.2 (Or.inr ⟨2, 1, by decide, by decide⟩)).elim fun f1 h2 =>
      ⟨w1, f1, h1.1, h2.1, (h2.2.1 2 (by decide)).trans (by decide),
        h2.2.2.2 1 "15_200_200_1_1__bg" (by decide)⟩

end Plasma
namespace Plasma

/-- C16 as stated fails.  In `cachingWorld` consumer 1 has cache-all mode on and holds the
FrameData 3 for the visited prefix `north`.  A call of `setEnabledBorders`, and a call of
`setImagePath`, removes that entry from the collection and the consumer from the
reference set of the FrameData, although the user never called `clearCache`. -/
theorem cacheAll_entry_dropped :
    (cachingWorld.svgs 1).cacheAll = true
      ∧ QHash.value (cachingWorld.svgs 1).frames "north-" = some 3
      ∧ (cachingWorld.get 3).references = [(1, 1)]
      ∧ (setEnabledBorders exampleEnv 1 TopBorder cachingWorld).map
          (fun w => ((w.svgs 1).cacheAll, QHash.value (w.svgs 1).frames "north-",
            (w.get 3).references)) = some (true, none, [])
      ∧ (setImagePath exampleEnv 1 "other" cachingWorld).map
          (fun w => ((w.svgs 1).cacheAll, QHash.value (w.svgs 1).frames "north-",
            (w.get 3).references)) = some (true, none, []) := by
  decide

/-- C16 (amended): a consumer has cache-all mode on, and its collection and the registry
point to live FrameData only.  Every call of `setElementPrefix` returns, leaves cache-all
mode on and keeps every entry of the collection, pointing to the same FrameData, which
stays alive with the count of the consumer not lowered; the collection and the registry
point to live FrameData afterwards too, and the active prefix has an entry.  Every call of
`resizeFrame` (the active FrameData being alive) returns, leaves cache-all mode on and
keeps every entry of the collection but the one of the active prefix; a kept FrameData
other than the active one stays alive with the count of the consumer not lowered. -/
theorem cacheAll_retains_frames (env : Env) (q : SvgId) (w : World)
    (hca : (w.svgs q).cacheAll = true)
    (hframes : ∀ k x, QHash.value (w.svgs q).frames k = some x → ∃ g, w.fd x = some g)
    (hreg : ∀ t k x, w.sharedFrames t k = some x → ∃ g, w.fd x = some g) :
    (∀ a, ∃ w1, setElementPrefix env q a w = some w1
        ∧ (w1.svgs q).cacheAll = true
        ∧ FrameSvg_actualPrefix w1 q = resolvePrefix env w q a
        ∧ (∀ k x, QHash.value (w.svgs q).frames k = some x →
            QHash.value (w1.svgs q).frames k = some x
              ∧ ∀ f, w.fd x = some f → ∃ f1, w1.fd x = some f1 ∧ f.count q ≤ f1.count q)
        ∧ (∀ k x, QHash.value (w1.svgs q).frames k = some x → ∃ g, w1.fd x = some g)
        ∧ (∀ t k x, w1.sharedFrames t k = some x → ∃ g, w1.fd x = some g)
        ∧ (∃ g, w1.fd (w1.active q) = some g))
      ∧ (∀ size, (∃ g, w.fd (w.active q) = some g) →
          ∃ w1, resizeFrame env q size w = some w1
            ∧ (w1.svgs q).cacheAll = true
            ∧ FrameSvg_actualPrefix w1 q = FrameSvg_actualPrefix w q
            ∧ ∀ k x, k ≠ FrameSvg_actualPrefix w q →
                QHash.value (w.svgs q).frames k = some x →
                QHash.value (w1.svgs q).frames k = some x
                  ∧ (x ≠ w.active q → ∀ f, w.fd x = some f →
                      ∃ f1, w1.fd x = some f1 ∧ f.count q ≤ f1.count q)) := by
  constructor
  · intro a
    obtain ⟨w1, h⟩ := setElementPrefix_total env q a w hframes (hreg _)
    obtain ⟨-, r2, r3, -, F2, hF2, hfr⟩ := setElementPrefix_record env q a w w1 h
    obtain ⟨g1, -, g3, -, -, g6⟩ := setElementPrefix_heap env q a w w1 h
    rw [if_pos (Or.inl hca)] at hfr
    have hlive : ∀ x, (∃ f, w.fd x = some f) → ∃ g, w1.fd x = some g := by
      intro x hx
      obtain ⟨f, hf⟩ := hx
      obtain ⟨f1, e1, -⟩ := g1 x f hf (Or.inr (Or.inl hca))
      exact ⟨f1, e1⟩
    have hkeep : ∀ k x, QHash.value (w.svgs q).frames k = some x →
        QHash.value (w1.svgs q).frames k = some x := by
      intro k x hk
      rcases hF2 with ⟨-, hF⟩ | ⟨hc, p2, -, hF⟩
      · rw [hfr, hF]
        exact hk
      · have hkr : k ≠ resolvePrefix env w q a := by
          intro hc2
          rw [hc2] at hk
          simp [QHash.contains, hk] at hc
        rw [hfr, hF, QHash.value_insert_ne _ _ _ _ hkr]
        exact hk
    have hframes1 : ∀ k x, QHash.value (w1.svgs q).frames k = some x →
        ∃ g, w1.fd x = some g := by
      intro k x hk
      rcases hF2 with ⟨-, hF⟩ | ⟨hc, p2, -, hF⟩
      · rw [hfr, hF] at hk
        exact hlive x (hframes k x hk)
      · by_cases hkr : k = resolvePrefix env w q a
        · have hv : w1.framesValue q (resolvePrefix env w q a) = x := by
            simp only [World.framesValue]
            rw [← hkr, hk]
            rfl
          rw [hv] at g3
          cases hw : w.fd x with
          | none =>
            obtain ⟨f2, e1, -⟩ := g3 hc (Or.inr hca) hw
            exact ⟨f2, e1⟩
          | some f => exact hlive x ⟨f, hw⟩
        · rw [hfr, hF, QHash.value_insert_ne _ _ _ _ hkr] at hk
          exact hlive x (hframes k x hk)
    refine ⟨w1, h, by rw [r3, hca], r2, fun k x hk => ⟨hkeep k x hk, fun f hf => ?_⟩,
      hframes1, fun t k x hk => ?_, ?_⟩
    · obtain ⟨f1, e1, -, e3⟩ := g1 x f hf (Or.inr (Or.inl hca))
      exact ⟨f1, e1, e3⟩
    · rcases g6 t k x hk with h6 | ⟨-, h6⟩
      · exact hlive x (hreg t k x h6)
      · exact h6
    · have hsome : ∃ x, QHash.value (w1.svgs q).frames (resolvePrefix env w q a) = some x := by
        rcases hF2 with ⟨hc, hF⟩ | ⟨-, p2, -, hF⟩
        · rw [hfr, hF]
          exact Option.isSome_iff_exists.1 hc
        · rw [hfr, hF]
          exact ⟨p2, QHash.value_insert_self _ _ _⟩
      obtain ⟨x, hx⟩ := hsome
      have : w1.active q = x := by
        simp [World.active, World.framesValue, r2, hx]
      rw [this]
      exact hframes1 _ x hx
  · intro size hact
    obtain ⟨w1, h⟩ := resizeFrame_total env q size w hact (hreg _)
    obtain ⟨a1, a2, a3, a4⟩ := resizeFrame_others env q size w w1 h
    refine ⟨w1, h, by rw [a1, hca], a2, fun k x hk hv => ⟨by rw [a3 k hk]; exact hv,
      fun hx f hf => ?_⟩⟩
    obtain ⟨f1, e1, -, e3⟩ := a4 x f hx hf
    exact ⟨f1, e1, e3⟩

/-- C16, witness: consumer 1 of `cacheAllWorld` visits the prefix `north` and then resizes
its frame to 200 x 200; its entry for the default prefix, the FrameData 1, is kept by
both calls. -/
theorem cacheAll_retains_frames_witness :
    ∃ w1 w2, setElementPrefix sizedEnv 1 "north" cacheAllWorld = some w1
      ∧ resizeFrame sizedEnv 1 size200 w1 = some w2
      ∧ QHash.value (w1.svgs 1).frames "" = some 1
      ∧ QHash.value (w2.svgs 1).frames "" = some 1
      ∧ (w2.svgs 1).cacheAll = true :=
  have h0 := cacheAll_retains_frames sizedEnv 1 cacheAllWorld (by decide)
    cacheAllWorld_frames_live cacheAllWorld_registry_live
  (h0.1 "north").elim fun w1 h1 =>
    have hk1 : QHash.value (w1.svgs 1).frames "" = some 1 :=
      (h1.2.2.2.1 "" 1 (by decide)).1
    have h2 := cacheAll_retains_frames sizedEnv 1 w1 h1.2.1 h1.2.2.2.2.1 h1.2.2.2.2.2.1
    (h2.2 size200 h1.2.2.2.2.2.2).elim fun w2 h3 =>
      ⟨w1, w2, h1.1, h3.1, hk1,
        (h3.2.2.2 "" 1 (by rw [h1.2.2.1]; decide) hk1).1, h3.2.1⟩

end Plasma
namespace Plasma

/-- C17: with cache-all mode off, a consumer whose collection holds exactly one FrameData,
under its active prefix, calls `setElementPrefix (a)` (the registry of its theme pointing
to live FrameData only).  The call returns; afterwards the collection holds exactly one
entry again, under the new active prefix, which is the one `a` resolves to; cache-all
mode is still off; and the FrameData of that entry is alive when the consumer was counted
in the reference set of the one it held. -/
theorem setElementPrefix_keeps_single (env : Env) (q : SvgId) (a : String) (w : World)
    (p : Ptr) (f : FrameData)
    (hold : (w.svgs q).frames = [(FrameSvg_actualPrefix w q, p)])
    (hca : (w.svgs q).cacheAll = false) (hf : w.fd p = some f)
    (hreg : ∀ k x, w.sharedFrames (w.svgs q).theme k = some x → ∃ g, w.fd x = some g) :
    ∃ w1 p2, setElementPrefix env q a w = some w1
      ∧ FrameSvg_actualPrefix w1 q = resolvePrefix env w q a
      ∧ (w1.svgs q).frames = [(FrameSvg_actualPrefix w1 q, p2)]
      ∧ (w1.svgs q).cacheAll = false
      ∧ (1 ≤ f.count q → ∃ f2, w1.fd p2 = some f2) := by
  rw [FrameSvg_actualPrefix] at hold
  have hfv : w.framesValue q (w.svgs q).actualPrefix = p := framesValue_of_single w q _ p hold
  have hp0 : p ≠ 0 := World.fd_ne_zero hf
  have hframes : ∀ k x, QHash.value (w.svgs q).frames k = some x → ∃ g, w.fd x = some g := by
    intro k x hk
    rw [hold] at hk
    simp only [QHash.value] at hk
    split at hk
    · simp only [Option.some.injEq] at hk
      subst hk
      exact ⟨f, hf⟩
    · simp at hk
  obtain ⟨w1, h⟩ := setElementPrefix_total env q a w hframes hreg
  obtain ⟨-, r2, r3, -, F2, hF2, hfr⟩ := setElementPrefix_record env q a w w1 h
  obtain ⟨g1, -, g3, g4, -⟩ := setElementPrefix_heap env q a w w1 h
  rw [hfv] at hfr g1 g4
  by_cases hpx : (w.svgs q).actualPrefix = resolvePrefix env w q a
  · -- the prefix stays
    have hc : QHash.contains (w.svgs q).frames (resolvePrefix env w q a) = true := by
      rw [hold, ← hpx]
      simp [QHash.contains, QHash.value]
    rcases hF2 with ⟨-, hF⟩ | ⟨hc2, -⟩
    · rw [if_pos (Or.inr ⟨hpx, hp0⟩), hF, hold, hpx] at hfr
      refine ⟨w1, p, h, r2, by simp only [FrameSvg_actualPrefix, r2]; exact hfr,
        by rw [r3, hca], fun _ => ?_⟩
      obtain ⟨f1, e1, -⟩ := g1 p f hf (Or.inr (Or.inr ⟨hpx, hp0⟩))
      exact ⟨f1, e1⟩
    · rw [hc] at hc2
      exact absurd hc2 (by simp)
  · -- the prefix changes
    have hne : resolvePrefix env w q a ≠ (w.svgs q).actualPrefix := fun hc => hpx hc.symm
    have hc : QHash.contains (w.svgs q).frames (resolvePrefix env w q a) = false := by
      rw [hold]
      simp [QHash.contains, QHash.value, hpx]
    rcases hF2 with ⟨hc2, -⟩ | ⟨-, p2, -, hF⟩
    · rw [hc] at hc2
      exact absurd hc2 (by simp)
    · have hfr2 : (w1.svgs q).frames = [(resolvePrefix env w q a, p2)] := by
        rw [hfr, if_neg (by simp [hca, hpx]), hF, hold]
        simp [QHash.insert, QHash.remove, hpx, hne]
      have hv1 : w1.framesValue q (resolvePrefix env w q a) = p2 := by
        simp [World.framesValue, hfr2, QHash.value]
      rw [hv1] at g3 g4
      refine ⟨w1, p2, h, r2, by simp only [FrameSvg_actualPrefix, r2]; exact hfr2,
        by rw [r3, hca], fun hcount => ?_⟩
      cases hw2 : w.fd p2 with
      | none =>
        obtain ⟨f2, e1, -⟩ := g3 hc (Or.inl hne) hw2
        exact ⟨f2, e1⟩
      | some f0 =>
        by_cases hp2 : p2 = p
        · subst hp2
          obtain ⟨f1, e1, -⟩ := g4 hc hne rfl f hf hcount
          exact ⟨f1, e1⟩
        · obtain ⟨f1, e1, -⟩ := g1 p2 f0 hw2 (Or.inl hp2)
          exact ⟨f1, e1⟩

/-- C17, witness: consumer 1 of `registeredWorld`, which holds the FrameData at pointer 1
under the default prefix, switches to the prefix `north`. -/
theorem setElementPrefix_keeps_single_witness :
    ∃ w1 p2, setElementPrefix sizedEnv 1 "north" registeredWorld = some w1
      ∧ FrameSvg_actualPrefix w1 1 = resolvePrefix sizedEnv registeredWorld 1 "north"
      ∧ (w1.svgs 1).frames = [(FrameSvg_actualPrefix w1 1, p2)]
      ∧ (w1.svgs 1).cacheAll = false
      ∧ (1 ≤ (registeredWorld.get 1).count 1 → ∃ f2, w1.fd p2 = some f2) :=
  setElementPrefix_keeps_single sizedEnv 1 "north" registeredWorld 1 (registeredWorld.get 1)
    (by decide) (by decide) (by decide) (registeredWorld_inv.registry_live _)

end Plasma
namespace Plasma

/-- C18: when `setElementPrefix (p)` resolves to the effective prefix that is already the
current one and the consumer has a FrameData for it, the call returns right after storing
the requested prefix: every FrameData (so every reference count), the prefix-to-FrameData
collection of every consumer, the effective prefix and the Shared Frame Registry are
unchanged. -/
theorem setElementPrefix_same_prefix_noop (env : Env) (q : SvgId) (p : String) (w : World)
    (hres : resolvePrefix env w q p = (w.svgs q).actualPrefix)
    (hhas : w.framesValue q (w.svgs q).actualPrefix ≠ 0) :
    ∃ w1, setElementPrefix env q p w = some w1
      ∧ w1.heap = w.heap ∧ w1.sharedFrames = w.sharedFrames
      ∧ (∀ c, (w1.svgs c).frames = (w.svgs c).frames)
      ∧ (w1.svgs q).actualPrefix = (w.svgs q).actualPrefix
      ∧ (w1.svgs q).requestedPrefix = p := by
  refine ⟨w.setSvg q { w.svgs q with
    actualPrefix := resolvePrefix env w q p, requestedPrefix := p }, ?_, rfl, rfl, ?_, ?_, ?_⟩
  · have key : ∀ c1 : FrameSvg, c1.frames = (w.svgs q).frames →
        (w.setSvg q c1).framesValue q (w.svgs q).actualPrefix
          = w.framesValue q (w.svgs q).actualPrefix := by
      intro c1 h1
      simp [World.framesValue, h1]
    unfold setElementPrefix
    simp only [World.setSvg_svgs_self, hres]
    rw [key { w.svgs q with actualPrefix := (w.svgs q).actualPrefix, requestedPrefix := p }
      rfl]
    simp [hhas]
  · intro c
    by_cases hc : c = q
    · subst hc
      simp
    · rw [World.setSvg_svgs_ne _ _ _ _ hc]
  · simp [hres]
  · simp

/-- C18, witness: consumer 1 of `soloWorld`, whose effective prefix is the default one,
requests the prefix `south`, which the theme does not have. -/
theorem setElementPrefix_same_prefix_noop_witness :
    ∃ w1, setElementPrefix exampleEnv 1 "south" soloWorld = some w1
      ∧ w1.heap = soloWorld.heap ∧ w1.sharedFrames = soloWorld.sharedFrames
      ∧ (∀ c, (w1.svgs c).frames = (soloWorld.svgs c).frames)
      ∧ (w1.svgs 1).actualPrefix = (soloWorld.svgs 1).actualPrefix
      ∧ (w1.svgs 1).requestedPrefix = "south" :=
  setElementPrefix_same_prefix_noop exampleEnv 1 "south" soloWorld (by decide) (by decide)

end Plasma
namespace Plasma

/-- C19: after `updateSizes`, for each edge: `fixedMarginSize` is 0 when the
no-border-padding hint is set (with or without the prefix); otherwise it is the extent of
the margin hint element of the edge when the theme has it (height for top and bottom,
width for left and right), and the extent of the border element itself when it has not;
`marginSize` returns the same value whenever the border of the edge is enabled. -/
theorem fixedMarginSize_after_updateSizes (env : Env) (q : SvgId) (w : World)
    (f : FrameData) (hf : w.fd (w.active q) = some f) :
    ∃ w1, updateSizes env q w = some w1 ∧ ∀ e : MarginEdge,
      fixedMarginSize w1 q e = some
        (if hasElement env w q "hint-no-border-padding"
            || hasElement env w q ((w.svgs q).actualPrefix ++ "hint-no-border-padding") then 0
         else if hasElement env w q ((w.svgs q).actualPrefix ++ e.hint) then
           e.extentOf (elementSize env w q ((w.svgs q).actualPrefix ++ e.hint))
         else e.extentOf (elementSize env w q ((w.svgs q).actualPrefix ++ e.element)))
      ∧ (hasBorder f.enabledBorders e.border = true →
          marginSize w1 q e = fixedMarginSize w1 q e) := by
  have hf' : w.fd (w.framesValue q (w.svgs q).actualPrefix) = some f := hf
  refine ⟨_, updateSizes_eq env q w f hf', ?_⟩
  intro e
  have h1 : (w.setFd (w.framesValue q (w.svgs q).actualPrefix)
      (updatedSizes env (w.svgs q) f)).fd (w.framesValue q (w.svgs q).actualPrefix)
      = some (updatedSizes env (w.svgs q) f) := World.fd_setFd_self w _ f _ hf'
  constructor
  · simp only [fixedMarginSize, World.setFd_framesValue, World.setFd_svgs, h1,
      Option.some_bind]
    cases e <;>
      simp only [updatedSizes, hasElement, elementSize, MarginEdge.hint, MarginEdge.element,
        MarginEdge.extentOf] <;>
      split <;> simp_all
  · intro hb
    simp only [fixedMarginSize, marginSize, World.setFd_framesValue, World.setFd_svgs, h1,
      Option.some_bind]
    cases e <;>
      simp only [MarginEdge.border] at hb <;>
      simp [updatedSizes, hb]

/-- C19, witness: consumer 1 of `soloWorld`, whose theme has borders of extent 5 and no
margin hints. -/
theorem fixedMarginSize_after_updateSizes_witness :
    ∃ w1, updateSizes exampleEnv 1 soloWorld = some w1 ∧ ∀ e : MarginEdge,
      fixedMarginSize w1 1 e = some
        (if hasElement exampleEnv soloWorld 1 "hint-no-border-padding"
            || hasElement exampleEnv soloWorld 1
                ((soloWorld.svgs 1).actualPrefix ++ "hint-no-border-padding") then 0
         else if hasElement exampleEnv soloWorld 1 ((soloWorld.svgs 1).actualPrefix ++ e.hint)
         then e.extentOf (elementSize exampleEnv soloWorld 1
           ((soloWorld.svgs 1).actualPrefix ++ e.hint))
         else e.extentOf (elementSize exampleEnv soloWorld 1
           ((soloWorld.svgs 1).actualPrefix ++ e.element)))
      ∧ (hasBorder (soloWorld.get 1).enabledBorders e.border = true →
          marginSize w1 1 e = fixedMarginSize w1 1 e) :=
  fixedMarginSize_after_updateSizes exampleEnv 1 soloWorld (soloWorld.get 1) (by decide)

/-- C20: after `updateSizes`, for an edge whose border bit is disabled the effective
margin and the effective extent are 0, so `marginSize` is 0, whatever the theme has; the
fixed margin and the fixed extent are the values that `updateSizes` computes when the
border is enabled, where the effective margin and extent equal the fixed ones. -/
theorem disabled_border_margins (env : Env) (q : SvgId) (w : World) (f : FrameData)
    (e : MarginEdge) (hf : w.fd (w.active q) = some f)
    (hd : hasBorder f.enabledBorders e.border = false) :
    ∃ w1 f1, updateSizes env q w = some w1 ∧ w1.fd (w.active q) = some f1
      ∧ f1.margin e = 0 ∧ f1.extent e = 0 ∧ marginSize w1 q e = some 0
      ∧ ∀ b2 : Nat, hasBorder b2 e.border = true →
        ∃ w2 f2, updateSizes env q (w.setFd (w.active q) { f with enabledBorders := b2 })
            = some w2
          ∧ w2.fd (w.active q) = some f2
          ∧ f2.fixedMargin e = f1.fixedMargin e ∧ f2.fixedExtent e = f1.fixedExtent e
          ∧ f2.margin e = f2.fixedMargin e ∧ f2.extent e = f2.fixedExtent e := by
  have hf' : w.fd (w.framesValue q (w.svgs q).actualPrefix) = some f := hf
  have h1 : (w.setFd (w.framesValue q (w.svgs q).actualPrefix)
      (updatedSizes env (w.svgs q) f)).fd (w.framesValue q (w.svgs q).actualPrefix)
      = some (updatedSizes env (w.svgs q) f) := World.fd_setFd_self w _ f _ hf'
  refine ⟨_, updatedSizes env (w.svgs q) f, updateSizes_eq env q w f hf', h1, ?_, ?_, ?_, ?_⟩
  · cases e <;> simp only [MarginEdge.border] at hd <;>
      simp [FrameData.margin, updatedSizes, hd]
  · cases e <;> simp only [MarginEdge.border] at hd <;>
      simp [FrameData.extent, updatedSizes, hd]
  · simp only [marginSize, World.setFd_framesValue, World.setFd_svgs, h1, Option.some_bind]
    cases e <;> simp only [MarginEdge.border] at hd <;>
      simp [updatedSizes, hd]
  · intro b2 hb2
    have hset : (w.setFd (w.active q) { f with enabledBorders := b2 }).fd
        ((w.setFd (w.active q) { f with enabledBorders := b2 }).framesValue q
          ((w.setFd (w.active q) { f with enabledBorders := b2 }).svgs q).actualPrefix)
        = some { f with enabledBorders := b2 } := by
      simp only [World.setFd_framesValue, World.setFd_svgs]
      exact World.fd_setFd_self w _ f _ hf'
    refine ⟨_, updatedSizes env (w.svgs q) { f with enabledBorders := b2 },
      updateSizes_eq env q _ _ hset, ?_, ?_, ?_, ?_, ?_⟩
    · simp only [World.setFd_framesValue, World.setFd_svgs]
      exact World.fd_setFd_self _ _ _ _ (World.fd_setFd_self w _ f _ hf')
    · cases e <;> rfl
    · cases e <;> rfl
    · cases e <;> simp only [MarginEdge.border] at hb2 <;>
        simp [FrameData.margin, FrameData.fixedMargin, updatedSizes, hb2]
    · cases e <;> simp only [MarginEdge.border] at hb2 <;>
        simp [FrameData.extent, FrameData.fixedExtent, updatedSizes, hb2]

/-- C20, witness: consumer 1 of `topBorderWorld`, where only the top border is enabled,
and the left edge. -/
theorem disabled_border_margins_witness :
    ∃ w1 f1, updateSizes exampleEnv 1 topBorderWorld = some w1
      ∧ w1.fd (topBorderWorld.active 1) = some f1
      ∧ f1.margin MarginEdge.LeftMargin = 0 ∧ f1.extent MarginEdge.LeftMargin = 0
      ∧ marginSize w1 1 MarginEdge.LeftMargin = some 0
      ∧ ∀ b2 : Nat, hasBorder b2 MarginEdge.LeftMargin.border = true →
        ∃ w2 f2, updateSizes exampleEnv 1
            (topBorderWorld.setFd (topBorderWorld.active 1)
              { topBorderWorld.get 1 with enabledBorders := b2 }) = some w2
          ∧ w2.fd (topBorderWorld.active 1) = some f2
          ∧ f2.fixedMargin MarginEdge.LeftMargin = f1.fixedMargin MarginEdge.LeftMargin
          ∧ f2.fixedExtent MarginEdge.LeftMargin = f1.fixedExtent MarginEdge.LeftMargin
          ∧ f2.margin MarginEdge.LeftMargin = f2.fixedMargin MarginEdge.LeftMargin
          ∧ f2.extent MarginEdge.LeftMargin = f2.fixedExtent MarginEdge.LeftMargin :=
  disabled_border_margins exampleEnv 1 topBorderWorld (topBorderWorld.get 1)
    MarginEdge.LeftMargin (by decide) (by decide)

end Plasma
namespace Plasma

/-- C21: whenever `setElementPrefix (location)` returns, `prefix ()` returns `north` for
the top edge, `south` for the bottom edge, `west` for the left edge, `east` for the right
edge and the empty string for every other location, and the location is stored;
`hasElementPrefix (location)` equals `hasElementPrefix` of that same string in every
state; and the call does return when the consumer's collection and the registry of its
theme point to live FrameData only. -/
theorem setElementPrefixLocation_selects (env : Env) (q : SvgId) (loc : Location)
    (w : World) :
    (∀ w1, setElementPrefixLocation env q loc w = some w1 →
        requestedPrefixOf w1 q = loc.edgeName ∧ (w1.svgs q).location = loc
          ∧ FrameSvg_actualPrefix w1 q = resolvePrefix env w q loc.edgeName)
      ∧ (∀ v, hasElementPrefixLocation env v q loc = hasElementPrefix env v q loc.edgeName)
      ∧ ((∀ k x, QHash.value (w.svgs q).frames k = some x → ∃ f, w.fd x = some f) →
          (∀ k x, w.sharedFrames (w.svgs q).theme k = some x → ∃ f, w.fd x = some f) →
          ∃ w1, setElementPrefixLocation env q loc w = some w1) := by
  have hdef : setElementPrefixLocation env q loc w
      = (setElementPrefix env q loc.edgeName w).bind fun w1 =>
          some (w1.setSvg q { w1.svgs q with location := loc }) := by
    cases loc <;> rfl
  refine ⟨fun w1 h => ?_, fun v => by cases loc <;> rfl, fun hframes hreg => ?_⟩
  · rw [hdef] at h
    obtain ⟨w2, h2, h3⟩ := Option.bind_eq_some.1 h
    obtain ⟨r1, r2, -⟩ := setElementPrefix_record env q loc.edgeName w w2 h2
    simp only [Option.some.injEq] at h3
    subst h3
    simp [requestedPrefixOf, FrameSvg_actualPrefix, r1, r2]
  · obtain ⟨w2, h2⟩ := setElementPrefix_total env q loc.edgeName w hframes hreg
    rw [hdef, h2]
    exact ⟨_, rfl⟩

/-- C21, witness: consumer 1 of `registeredWorld` selects the top edge. -/
theorem setElementPrefixLocation_selects_witness :
    ∃ w1, setElementPrefixLocation sizedEnv 1 Location.TopEdge registeredWorld = some w1
      ∧ requestedPrefixOf w1 1 = "north" ∧ (w1.svgs 1).location = Location.TopEdge :=
  have hall := setElementPrefixLocation_selects sizedEnv 1 Location.TopEdge registeredWorld
  (hall.2.2 (registeredWorld_inv.frames_live (by simp))
    (registeredWorld_inv.registry_live _)).elim fun w1 h1 =>
      ⟨w1, h1, (hall.1 w1 h1).1, (hall.1 w1 h1).2.1⟩

end Plasma
namespace Plasma

/-- C22 fails when the mask raster stays null.  Consumer 1 of `oversizedWorld` (frame of
100000 x 100) and of `southWorld` (requested prefix without a center element) have the
default prefix active; `alphaMask ()` returns a null pixmap and leaves the active prefix
`mask-`.  In `soloWorld`, where the mask is rendered, the prefix is restored. -/
theorem alphaMask_leaves_mask_prefix :
    (oversizedWorld.svgs 1).actualPrefix = ""
      ∧ (alphaMask exampleEnv 1 8 oversizedWorld).map
          (fun r => (r.1, (r.2.svgs 1).actualPrefix)) = some (none, "mask-")
      ∧ (southWorld.svgs 1).actualPrefix = ""
      ∧ (alphaMask exampleEnv 1 8 southWorld).map
          (fun r => (r.1, (r.2.svgs 1).actualPrefix)) = some (none, "mask-")
      ∧ (alphaMask exampleEnv 1 8 soloWorld).map
          (fun r => (r.1, (r.2.svgs 1).actualPrefix))
        = some (some { width := 100, height := 100 }, "") := by
  decide

end Plasma
namespace Plasma

theorem qTruncate_intCast (n : Int) : qTruncate (n : ℚ) = n := by
  simp [qTruncate, Int.tdiv_one]

/-- C23: for the device pixel ratio 1, `contentGeometry (frame, size)` is the rectangle
of width `size.width - leftWidth - rightWidth` and height
`size.height - topHeight - bottomHeight` whose x origin is `leftWidth` when the left
border is enabled and the theme has the prefixed element `left`, and 0 otherwise, and
whose y origin is `topHeight` when the top border is enabled and the theme has the
prefixed element `top`, and 0 otherwise; when the four extents are not negative and fit in
`size`, the rectangle lies inside the rectangle of `size` at the origin. -/
theorem contentGeometry_ratio_one (env : Env) (w : World) (q : SvgId) (frame : FrameData)
    (size : QSize) (hr : (w.svgs q).devicePixelRatio = 1) :
    contentGeometry env w q frame size
        = { x := if hasBorder frame.enabledBorders LeftBorder = true
                    ∧ hasElement env w q ((w.svgs q).actualPrefix ++ "left") = true
                 then frame.leftWidth else 0,
            y := if hasBorder frame.enabledBorders TopBorder = true
                    ∧ hasElement env w q ((w.svgs q).actualPrefix ++ "top") = true
                 then frame.topHeight else 0,
            width := size.width - frame.leftWidth - frame.rightWidth,
            height := size.height - frame.topHeight - frame.bottomHeight }
      ∧ (0 ≤ frame.leftWidth → 0 ≤ frame.rightWidth → 0 ≤ frame.topHeight →
          0 ≤ frame.bottomHeight → frame.leftWidth + frame.rightWidth ≤ size.width →
          frame.topHeight + frame.bottomHeight ≤ size.height →
          0 ≤ (contentGeometry env w q frame size).x
            ∧ 0 ≤ (contentGeometry env w q frame size).y
            ∧ 0 ≤ (contentGeometry env w q frame size).width
            ∧ 0 ≤ (contentGeometry env w q frame size).height
            ∧ (contentGeometry env w q frame size).x
                + (contentGeometry env w q frame size).width ≤ size.width
            ∧ (contentGeometry env w q frame size).y
                + (contentGeometry env w q frame size).height ≤ size.height) := by
  have hw : qTruncate ((size.width : ℚ) - frame.leftWidth * 1 - frame.rightWidth * 1)
      = size.width - frame.leftWidth - frame.rightWidth := by
    rw [← qTruncate_intCast (size.width - frame.leftWidth - frame.rightWidth)]
    congr 1
    push_cast
    ring
  have hh : qTruncate ((size.height : ℚ) - frame.topHeight * 1 - frame.bottomHeight * 1)
      = size.height - frame.topHeight - frame.bottomHeight := by
    rw [← qTruncate_intCast (size.height - frame.topHeight - frame.bottomHeight)]
    congr 1
    push_cast
    ring
  have hl : qTruncate ((frame.leftWidth : ℚ) * 1) = frame.leftWidth := by
    rw [mul_one, qTruncate_intCast]
  have ht : qTruncate ((frame.topHeight : ℚ) * 1) = frame.topHeight := by
    rw [mul_one, qTruncate_intCast]
  have heq : contentGeometry env w q frame size
        = { x := if hasBorder frame.enabledBorders LeftBorder = true
                    ∧ hasElement env w q ((w.svgs q).actualPrefix ++ "left") = true
                 then frame.leftWidth else 0,
            y := if hasBorder frame.enabledBorders TopBorder = true
                    ∧ hasElement env w q ((w.svgs q).actualPrefix ++ "top") = true
                 then frame.topHeight else 0,
            width := size.width - frame.leftWidth - frame.rightWidth,
            height := size.height - frame.topHeight - frame.bottomHeight } := by
    simp only [contentGeometry, hr, hw, hh, hl, ht, Bool.and_eq_true]
  refine ⟨heq, fun h1 h2 h3 h4 h5 h6 => ?_⟩
  rw [heq]
  simp only
  refine ⟨?_, ?_, by omega, by omega, ?_, ?_⟩
  · split <;> omega
  · split <;> omega
  · split <;> omega
  · split <;> omega

/-- C23, witness: the FrameData of consumer 1 of `soloWorld` and the size 100 x 100. -/
theorem contentGeometry_ratio_one_witness :
    contentGeometry exampleEnv soloWorld 1 (soloWorld.get 1) { width := 100, height := 100 }
      = { x := 5, y := 5, width := 90, height := 90 } :=
  (contentGeometry_ratio_one exampleEnv soloWorld 1 (soloWorld.get 1)
    { width := 100, height := 100 } (by decide)).1.trans (by decide)

end Plasma
namespace Plasma

/-- What `clearCache` guarantees on a state with exact reference accounting in which the
active prefix of consumer `q` maps to the FrameData `pa`.  The call returns; the
collection of `q` keeps exactly the entries that map to `pa` (the entry of the active
prefix among them) and the other consumers keep theirs; the FrameData at `pa` is alive
with all its reference counts unchanged; every other FrameData stays alive, the count of
`q` on it goes down by the number of removed entries that pointed to it, one reference
each, which leaves no entry for `q`, and the counts of the other consumers are unchanged;
the registry only loses entries; and when the reference of `q` was the last one of a
removed FrameData with a valid frame size (count 1 for `q`, no other consumer), the
registry of its theme has no entry left under the cache key of that FrameData and the
removed prefix, so that the FrameData is in no registry entry when that key was its only
one.  The accounting is exact afterwards. -/
theorem clearCache_removes_inactive (env : Env) (q : SvgId) (w : World) (pa : Ptr)
    (fa : FrameData) (hacc : Accounted w)
    (hact : QHash.value (w.svgs q).frames (w.svgs q).actualPrefix = some pa)
    (hfa : w.fd pa = some fa) :
    ∃ w1, clearCache env q w = some w1
      ∧ (w1.svgs q).frames = (w.svgs q).frames.filter (fun e => decide (e.2 = pa))
      ∧ (∀ k x, QHash.value (w.svgs q).frames k = some x →
          QHash.value (w1.svgs q).frames k = (if x = pa then some pa else none))
      ∧ (w1.svgs q).actualPrefix = (w.svgs q).actualPrefix
      ∧ (∀ c, c ≠ q → w1.svgs c = w.svgs c)
      ∧ (∃ f1, w1.fd pa = some f1
          ∧ ∀ c, QHash.value f1.references c = QHash.value fa.references c)
      ∧ (∀ x f, x ≠ pa → w.fd x = some f → ∃ f1, w1.fd x = some f1
          ∧ f1.count q = f.count q - (w.holdCount q x : Int)
          ∧ QHash.value f1.references q = none
          ∧ ∀ c, c ≠ q → QHash.value f1.references c = QHash.value f.references c)
      ∧ (∀ t k, w1.sharedFrames t k = w.sharedFrames t k ∨ w1.sharedFrames t k = none)
      ∧ (∀ k x f, QHash.value (w.svgs q).frames k = some x → x ≠ pa → w.fd x = some f →
          f.frameSize.isValid = true → QHash.value f.references q = some 1 →
          (∀ c, c ≠ q → QHash.value f.references c = none) →
          w1.sharedFrames f.theme (cacheKey env f.enabledBorders f.frameSize.width
              f.frameSize.height (w.svgs q).scaleFactor (w.svgs q).devicePixelRatio k
              (w.svgs q).imagePath) = none
            ∧ ((∀ t k2, w.sharedFrames t k2 = some x → t = f.theme
                  ∧ k2 = cacheKey env f.enabledBorders f.frameSize.width
                      f.frameSize.height (w.svgs q).scaleFactor
                      (w.svgs q).devicePixelRatio k (w.svgs q).imagePath) →
                ∀ t k2, w1.sharedFrames t k2 ≠ some x))
      ∧ Accounted w1 := by
  obtain ⟨w1, h1, acc1, ⟨s1, s2⟩, oth, kept, reg, regkey⟩ := clearCache_spec env q w pa hacc hact
  have hcq : ∀ c x, c ≠ q → w1.holdCount c x = w.holdCount c x := by
    intro c x hc
    simp only [World.holdCount_eq, oth c hc]
  refine ⟨w1, h1, s2, fun k x hv => ?_, by rw [s1], oth, ?_, fun x f hx hf => ?_, reg,
    fun k x f hv hx hf hval hq1 hq0 => ?_, acc1⟩
  · by_cases hx : x = pa
    · rw [if_pos hx]
      apply QHash.value_of_mem _ _ _ (acc1.keys q)
      rw [s2]
      simp only [List.mem_filter, decide_True, and_true]
      rw [← hx]
      exact QHash.mem_of_value _ _ _ hv
    · rw [if_neg hx]
      cases hv1 : QHash.value (w1.svgs q).frames k with
      | none => rfl
      | some y =>
        exfalso
        have hm := QHash.mem_of_value _ _ _ hv1
        rw [s2] at hm
        simp only [List.mem_filter, decide_eq_true_eq] at hm
        have := QHash.value_of_mem _ _ _ (hacc.keys q) hm.1
        rw [hv] at this
        simp only [Option.some.injEq] at this
        exact hx (this.trans hm.2)
  · obtain ⟨f1, hf1, _⟩ := kept pa fa hfa
    refine ⟨f1, hf1, fun c => ?_⟩
    rw [acc1.counts pa f1 c hf1, hacc.counts pa fa c hfa]
    have : w1.holdCount c pa = w.holdCount c pa := by
      by_cases hc : c = q
      · rw [hc]
        simp only [World.holdCount_eq, s2]
        exact entryCount_filter_same _ _
      · exact hcq c pa hc
    rw [this]
  · obtain ⟨f1, hf1, _⟩ := kept x f hf
    have h0 : w1.holdCount q x = 0 := by
      simp only [World.holdCount_eq, s2]
      exact entryCount_filter_other _ _ _ hx
    have hn : QHash.value f1.references q = none := by
      rw [acc1.counts x f1 q hf1, if_pos h0]
    refine ⟨f1, hf1, ?_, hn, fun c hc => ?_⟩
    · rw [FrameData.count_of_none f1 q hn, hacc.count_held x f q hf]
      omega
    · rw [acc1.counts x f1 c hf1, hacc.counts x f c hf, hcq c x hc]
  · have hh1 := (hacc.held_of_value x f q hf).2 hq1
    have hh0 : ∀ c, c ≠ q → w.holdCount c x = 0 :=
      fun c hc => (hacc.held_of_value x f c hf).1 (hq0 c hc)
    have hk := regkey k x f hv hx hf hval hh1 hh0
    refine ⟨hk, fun hreg t k2 hc => ?_⟩
    rcases reg t k2 with h | h
    · rw [h] at hc
      obtain ⟨e1, e2⟩ := hreg t k2 hc
      rw [← h, e1, e2, hk] at hc
      simp at hc
    · rw [h] at hc
      simp at hc

/-- Consumer 1 of `visitedWorld`, with cache-all mode on, holds the FrameData 1 under the
default prefix, which is active, and the FrameData 2 under `north-`; `clearCache` leaves
it with the entry of the default prefix, and the registry has no entry left under the key
of the FrameData 2. -/
theorem clearCache_removes_inactive_witness :
    ∃ w1, clearCache sizedEnv 1 visitedWorld = some w1
      ∧ (w1.svgs 1).frames = [("", 1)]
      ∧ w1.sharedFrames 1 "15_100_100_1_1_north-_bg" = none := by
  obtain ⟨w1, h1, h2, -, -, -, -, -, -, h9, -⟩ := clearCache_removes_inactive sizedEnv 1
    visitedWorld 1 (visitedWorld.get 1) visitedWorld_accounted (by decide) (by decide)
  have hrefs : (visitedWorld.get 2).references = [(1, 1)] := by decide
  have hk := (h9 "north-" 2 (visitedWorld.get 2) (by decide) (by decide) (by decide)
    (by decide) (by decide) (fun c hc => by
      rw [hrefs]
      simp only [QHash.value]
      rw [if_neg (fun e => hc e.symm)])).1
  have e1 : (visitedWorld.get 2).theme = 1 := by decide
  have e2 : cacheKey sizedEnv (visitedWorld.get 2).enabledBorders
      (visitedWorld.get 2).frameSize.width (visitedWorld.get 2).frameSize.height
      (visitedWorld.svgs 1).scaleFactor (visitedWorld.svgs 1).devicePixelRatio "north-"
      (visitedWorld.svgs 1).imagePath = "15_100_100_1_1_north-_bg" := by decide
  rw [e1, e2] at hk
  exact ⟨w1, h1, h2.trans (by decide), hk⟩

/-- C24 fails in `staleKeyWorld`.  Consumer 1 holds the FrameData 5 under the default
prefix, which is active, and the mask FrameData 4 under `mask-`; it is the only holder of
the FrameData 4, with one reference, and the registry maps the key
`15_200_200_1_1_mask-_bg` to the FrameData 4, whose borders and size are by now those of
the key `1_300_300_1_1_mask-_bg`.  `clearCache` removes the entry `mask-` and releases the
last reference of the FrameData 4, whose reference set is empty afterwards; it removes
the key that `cacheId` computes, `1_300_300_1_1_mask-_bg`, under which nothing is
registered, and the registry still maps `15_200_200_1_1_mask-_bg` to the FrameData 4. -/
theorem clearCache_keeps_stale_entry :
    (staleKeyWorld.svgs 1).frames = [("", 5), ("mask-", 4)]
      ∧ (staleKeyWorld.svgs 1).actualPrefix = ""
      ∧ (staleKeyWorld.fd 4).map (fun f => f.view)
          = some { borders := TopBorder, size := { width := 300, height := 300 },
                   references := [(1, 1)] }
      ∧ staleKeyWorld.sharedFrames (staleKeyWorld.svgs 1).theme "15_200_200_1_1_mask-_bg"
          = some 4
      ∧ staleKeyWorld.sharedFrames (staleKeyWorld.svgs 1).theme "1_300_300_1_1_mask-_bg"
          = none
      ∧ (clearCache exampleEnv 1 staleKeyWorld).map (fun w =>
          ((w.svgs 1).frames, (w.fd 4).map (fun f => f.references),
            w.sharedFrames (w.svgs 1).theme "15_200_200_1_1_mask-_bg"))
        = some ([("", 5)], some [], some 4) :=
  ⟨by decide, by decide, by decide, by decide, by decide, by decide⟩

end Plasma
namespace Plasma

/-- C25: starting from a reference map whose stored counts are all at least 1, every
sequence of `ref`, `deref` and `removeRefs` calls, for any consumers, leaves all stored
counts at least 1; `ref` raises the count of its consumer by exactly one (an absent
consumer counting as 0) and leaves the entry of every other consumer as it is. -/
theorem reference_counts_positive (f : FrameData) (hpos : f.countsPositive) :
    (∀ ops : List RefOp, (f.calls ops).countsPositive)
      ∧ (∀ c, (f.ref c).count c = f.count c + 1
          ∧ ∀ c2, c2 ≠ c →
              QHash.value (f.ref c).references c2 = QHash.value f.references c2) := by
  have hmem : ∀ (h : List (SvgId × Int)) (k : SvgId) (e : SvgId × Int),
      e ∈ QHash.remove h k → e ∈ h := by
    intro h k e he
    simp only [QHash.remove, List.mem_filter] at he
    exact he.1
  have hval : ∀ (h : List (SvgId × Int)) (k : SvgId) (v : Int),
      QHash.value h k = some v → (k, v) ∈ h := by
    intro h k v
    induction h with
    | nil => simp [QHash.value]
    | cons a t ih =>
      obtain ⟨a1, a2⟩ := a
      simp only [QHash.value]
      split
      · rename_i hk
        intro hv
        simp only [Option.some.injEq] at hv
        simp [hk, hv]
      · intro hv
        exact List.mem_cons_of_mem _ (ih hv)
  have hcount : ∀ g : FrameData, g.countsPositive → ∀ c, 0 ≤ g.count c := by
    intro g hg c
    simp only [FrameData.count]
    cases hv : QHash.value g.references c with
    | none => simp
    | some v =>
      have := hg _ (hval _ _ _ hv)
      simp only [Option.getD_some]
      omega
  have hstep : ∀ (g : FrameData) (op : RefOp), g.countsPositive →
      (g.call op).countsPositive := by
    intro g op hg e he
    cases op with
    | ref c =>
      simp only [FrameData.call, FrameData.ref, QHash.insert, List.mem_cons] at he
      rcases he with he | he
      · have := hcount g hg c
        rw [he]
        simp only
        omega
      · exact hg e (hmem _ _ _ he)
    | deref c =>
      simp only [FrameData.call, FrameData.deref] at he
      split at he
      · simp only [QHash.remove, QHash.insert, List.mem_filter, List.mem_cons,
          decide_eq_true_eq] at he
        rcases he with ⟨he1 | he1, he2⟩
        · rw [he1] at he2
          exact absurd rfl he2
        · exact hg e he1.1
      · rename_i hn
        simp only [QHash.insert, List.mem_cons] at he
        rcases he with he | he
        · rw [he]
          simp only
          omega
        · exact hg e (hmem _ _ _ he)
    | removeRefs c =>
      simp only [FrameData.call, FrameData.removeRefs] at he
      exact hg e (hmem _ _ _ he)
  refine ⟨fun ops => ?_, fun c => ⟨FrameData.count_ref f c,
    fun c2 hc => FrameData.value_ref_ne f c c2 hc⟩⟩
  induction ops generalizing f with
  | nil => exact hpos
  | cons op rest ih =>
    simp only [FrameData.calls, List.foldl_cons]
    exact ih (f.call op) (hstep f op hpos)

/-- C25, witness: a FrameData created for consumer 1, then four calls by the consumers 1
and 2. -/
theorem reference_counts_positive_witness :
    ((FrameData.create 1 "" 1).calls
        [RefOp.ref 2, RefOp.deref 1, RefOp.ref 2, RefOp.removeRefs 1]).countsPositive
      ∧ ((FrameData.create 1 "" 1).ref 1).count 1 = (FrameData.create 1 "" 1).count 1 + 1 :=
  have hall := reference_counts_positive (FrameData.create 1 "" 1)
    (by simp [FrameData.countsPositive, FrameData.create])
  ⟨hall.1 _, (hall.2 1).1⟩

end Plasma
namespace Plasma

/-- C26: the overlay placement that `generateBackground` computes for a FrameData with a
valid frame size, without changing the state.  Under `hint-overlay-pos-right` the overlay
keeps its natural size at (frame width - overlay width, 0); else under
`hint-overlay-pos-bottom` it keeps its natural size at (0, frame height - overlay
height); else under `hint-overlay-stretch` it has the frame size at (0, 0); otherwise it
is at (0, 0) with its width replaced by the frame width under
`hint-overlay-tile-horizontal` and, independently, its height replaced by the frame
height under `hint-overlay-tile-vertical`. -/
theorem overlayPlacement_follows_hints (env : Env) (q : SvgId) (frame : Ptr) (w : World)
    (f : FrameData) (hf : w.fd frame = some f) (hv : f.frameSize.isValid = true) :
    overlayPlacement env q frame w = some
      (if hasElement env w q ((w.svgs q).actualPrefix ++ "hint-overlay-pos-right") = true then
        ((f.frameSize.width
            - (elementSize env w q ((w.svgs q).actualPrefix ++ "overlay")).width, 0),
          elementSize env w q ((w.svgs q).actualPrefix ++ "overlay"))
      else if hasElement env w q ((w.svgs q).actualPrefix ++ "hint-overlay-pos-bottom") = true
      then
        ((0, f.frameSize.height
            - (elementSize env w q ((w.svgs q).actualPrefix ++ "overlay")).height),
          elementSize env w q ((w.svgs q).actualPrefix ++ "overlay"))
      else if hasElement env w q ((w.svgs q).actualPrefix ++ "hint-overlay-stretch") = true
      then ((0, 0), f.frameSize)
      else
        ((0, 0),
          { width :=
              if hasElement env w q
                  ((w.svgs q).actualPrefix ++ "hint-overlay-tile-horizontal") = true
              then f.frameSize.width
              else (elementSize env w q ((w.svgs q).actualPrefix ++ "overlay")).width,
            height :=
              if hasElement env w q
                  ((w.svgs q).actualPrefix ++ "hint-overlay-tile-vertical") = true
              then f.frameSize.height
              else (elementSize env w q ((w.svgs q).actualPrefix ++ "overlay")).height }),
        w) := by
  have hfs := frameSize_valid env q frame w f hf hv
  unfold overlayPlacement
  simp only [hf, Option.some_bind]
  by_cases h1 : hasElement env w q ((w.svgs q).actualPrefix ++ "hint-overlay-pos-right") = true
  · simp [h1]
  by_cases h2 : hasElement env w q ((w.svgs q).actualPrefix ++ "hint-overlay-pos-bottom") = true
  · simp [h1, h2]
  by_cases h3 : hasElement env w q ((w.svgs q).actualPrefix ++ "hint-overlay-stretch") = true
  · simp [h1, h2, h3, hfs]
  by_cases h4 : hasElement env w q
      ((w.svgs q).actualPrefix ++ "hint-overlay-tile-horizontal") = true
  · by_cases h5 : hasElement env w q
        ((w.svgs q).actualPrefix ++ "hint-overlay-tile-vertical") = true
    · simp [h1, h2, h3, h4, h5, hfs]
    · simp [h1, h2, h3, h4, h5, hfs]
  · by_cases h5 : hasElement env w q
        ((w.svgs q).actualPrefix ++ "hint-overlay-tile-vertical") = true
    · simp [h1, h2, h3, h4, h5, hfs]
    · simp [h1, h2, h3, h4, h5]

/-- C26, witness: the FrameData of consumer 1 of `soloWorld`, of size 100 x 100, on the
theme `overlayEnv`, whose overlay of 20 x 10 is aligned to the right. -/
theorem overlayPlacement_follows_hints_witness :
    (overlayPlacement overlayEnv 1 1 soloWorld).map (fun r => r.1)
      = some ((80, 0), { width := 20, height := 10 }) :=
  (congrArg (fun o => Option.map (fun r => r.1) o)
    (overlayPlacement_follows_hints overlayEnv 1 1 soloWorld (soloWorld.get 1)
      (by decide) (by decide))).trans (by decide)

end Plasma
namespace Plasma

/-- C27 fails on the path that finds a FrameData in the registry.  In `staleMaskWorld`
the key of the size 200 x 200 for the prefix `mask-` maps to the FrameData 4, whose frame
size is 300 x 300.  Consumer 3, with the image `bg` and the prefix `mask-`, calls
`resizeFrame` with 200 x 200: it adopts the FrameData 4, and `frameSize ()` returns
300 x 300. -/
theorem resizeFrame_adopts_stale_size :
    (staleMaskWorld.svgs 3).imagePath = "bg"
      ∧ FrameSvg_actualPrefix staleMaskWorld 3 = "mask-"
      ∧ size200.isEmpty = false
      ∧ size200.toSize = { width := 200, height := 200 }
      ∧ staleMaskWorld.sharedFrames 1 "15_200_200_1_1_mask-_bg" = some 4
      ∧ (staleMaskWorld.get 4).frameSize = { width := 300, height := 300 }
      ∧ (resizeFrame exampleEnv 3 size200 staleMaskWorld).map
          (fun w => QHash.value (w.svgs 3).frames "mask-") = some (some 4)
      ∧ ((resizeFrame exampleEnv 3 size200 staleMaskWorld).bind fun w =>
          (FrameSvg_frameSize exampleEnv 3 w).map fun r => r.1)
        = some { width := 300, height := 300 } := by
  decide

end Plasma
namespace Plasma

/-- C28: the active prefix always has a FrameData.  In a state with exact reference
accounting, as every reached state is, in which the collection of consumer `q` has an
entry for the active prefix, every call of `setElementPrefix`, `setEnabledBorders`,
`resizeFrame`, `setImagePath` and `clearCache` that returns, with any argument and either
cache-all setting, leaves a state with exact accounting in which the collection of `q`
maps the active prefix to a live, non-null FrameData, and `clearCache` does return.  So
in every state reached by constructing consumers and calling the public operations,
`alphaMask` and `framePixmap` included, every constructed consumer has a live FrameData
under its active prefix. -/
theorem active_prefix_has_frame (env : Env) :
    (∀ q w, Accounted w → ActiveHeld w q →
        (∀ a w1, setElementPrefix env q a w = some w1 → Accounted w1 ∧ ActiveLive w1 q)
        ∧ (∀ b w1, setEnabledBorders env q b w = some w1 → Accounted w1 ∧ ActiveLive w1 q)
        ∧ (∀ s w1, resizeFrame env q s w = some w1 → Accounted w1 ∧ ActiveLive w1 q)
        ∧ (∀ path w1, setImagePath env q path w = some w1 → Accounted w1 ∧ ActiveLive w1 q)
        ∧ (∀ w1, clearCache env q w = some w1 → Accounted w1 ∧ ActiveLive w1 q)
        ∧ (∃ w1, clearCache env q w = some w1))
      ∧ (∀ qs w, Reached env qs w → ∀ q, q ∈ qs → ActiveLive w q) := by
  refine ⟨fun q w hacc hact => ⟨fun a w1 h => ?_, fun b w1 h => ?_, fun s w1 h => ?_,
    fun path w1 h => ?_, fun w1 h => ?_, ?_⟩, fun qs w h q hq => ?_⟩
  · obtain ⟨a1, a2, _⟩ := setElementPrefix_sound env q a w w1 hacc hact h
    exact ⟨a1, ActiveLive.of_held a1 a2⟩
  · obtain ⟨a1, a2, _⟩ := setEnabledBorders_sound env q b w w1 hacc hact h
    exact ⟨a1, ActiveLive.of_held a1 a2⟩
  · obtain ⟨a1, a2, _⟩ := resizeFrame_sound env q s w w1 hacc hact h
    exact ⟨a1, ActiveLive.of_held a1 a2⟩
  · obtain ⟨a1, a2, _⟩ := setImagePath_sound env q path w w1 hacc hact h
    exact ⟨a1, ActiveLive.of_held a1 a2⟩
  · obtain ⟨a1, a2, _⟩ := clearCache_sound env q w w1 hacc hact h
    exact ⟨a1, ActiveLive.of_held a1 a2⟩
  · obtain ⟨pa, hpa⟩ := hact
    obtain ⟨w1, h1, _⟩ := clearCache_spec env q w pa hacc hpa
    exact ⟨w1, h1⟩
  · have hs := Reached.is_sound env qs w h
    exact ActiveLive.of_held hs.1 (hs.2.1 q hq)

/-- C28, witness: consumer 1 has a live FrameData under its active prefix after
`alphaMask ()`, and after it switches to the prefix `north` with cache-all mode on. -/
theorem active_prefix_has_frame_witness :
    ActiveLive maskedWorld 1
      ∧ ActiveLive ((setElementPrefix sizedEnv 1 "north" cacheAllWorld).getD World.empty) 1 :=
  ⟨(active_prefix_has_frame sizedEnv).2 [1] maskedWorld maskedWorld_reached 1 (by simp),
    (((active_prefix_has_frame sizedEnv).1 1 cacheAllWorld cacheAllWorld_accounted
      cacheAllWorld_held).1 "north" _ (Option.eq_some_getD _ World.empty (by decide))).2⟩

end Plasma
namespace Plasma

/-- C29: reference accounting is exact.  In every state reached by constructing consumers
and calling `setImagePath`, `setElementPrefix` (both overloads), `setEnabledBorders`,
`resizeFrame`, `clearCache`, `setCacheAllRenderedFrames`, `alphaMask` and `framePixmap`,
the reference map of every live FrameData `f`, at pointer `p`, stores for every consumer
`c` the number of prefixes of the collection of `c` that map to `p`, and `c` is absent
from the map when that number is 0; the collections have no prefix twice, so that the
entries count prefixes, and they point to live FrameData only. -/
theorem reference_accounting_exact (env : Env) (qs : List SvgId) (w : World)
    (h : Reached env qs w) :
    (∀ p f c, w.fd p = some f →
        f.count c = (w.holdCount c p : Int)
          ∧ (w.holdCount c p = 0 → QHash.value f.references c = none)
          ∧ (w.holdCount c p ≠ 0 →
              QHash.value f.references c = some (w.holdCount c p : Int)))
      ∧ (∀ c, ((w.svgs c).frames.map Prod.fst).Nodup)
      ∧ (∀ c k x, QHash.value (w.svgs c).frames k = some x → ∃ f, w.fd x = some f) := by
  have hacc := (Reached.is_sound env qs w h).1
  refine ⟨fun p f c hf => ⟨hacc.count_held p f c hf, fun h0 => ?_, fun h0 => ?_⟩, hacc.keys,
    hacc.live⟩
  · rw [hacc.counts p f c hf, if_pos h0]
  · rw [hacc.counts p f c hf, if_neg h0]

/-- C29, witness: after consumer 1 of `registeredWorld` has called `alphaMask ()` it holds
the mask FrameData, at pointer 2, under one prefix, and the reference map of that
FrameData stores the count 1 for it. -/
theorem reference_accounting_exact_witness :
    maskedWorld.holdCount 1 2 = 1
      ∧ QHash.value (maskedWorld.get 2).references 1 = some ((1 : Nat) : Int) :=
  have h1 : maskedWorld.holdCount 1 2 = 1 := by decide
  ⟨h1, h1 ▸ ((reference_accounting_exact sizedEnv [1] maskedWorld maskedWorld_reached).1 2
    (maskedWorld.get 2) 1 (by decide)).2.2 (by decide)⟩

end Plasma
namespace Plasma

/-- C30 as stated fails: the separator may occur in a prefix or an image path.  The
configurations with prefix `a-_b-` and image path `c`, and with prefix `a-` and image
path `b-_c`, equal in all other components, get the same key; so do two configurations
that differ in the scale factor only, 1000000 and 1000001, which `QString::number` writes
alike. -/
theorem cacheKey_collisions :
    ("a-_b-" ≠ "a-" ∧ "c" ≠ "b-_c"
        ∧ cacheKey exampleEnv 15 100 100 1 1 "a-_b-" "c"
          = cacheKey exampleEnv 15 100 100 1 1 "a-" "b-_c")
      ∧ ((1000000 : ℚ) ≠ 1000001
        ∧ cacheKey exampleEnv 15 100 100 1000000 1 "" "bg"
          = cacheKey exampleEnv 15 100 100 1000001 1 "" "bg") := by
  decide

/-- C30 (amended): for prefixes that do not contain the separator (and scale factors and
device pixel ratios that `QString::number` writes without it), two configurations get the
same key exactly when they agree in the borders, the width, the height, the prefix and the
image path, and their scale factors and device pixel ratios are written alike; so two
configurations that differ in any of these get different keys. -/
theorem cacheKey_injective (env : Env) (b b2 : Nat) (w w2 h h2 : Int) (s s2 d d2 : ℚ)
    (p p2 x x2 : String)
    (hs : '_' ∉ (env.numberReal s).data) (hs2 : '_' ∉ (env.numberReal s2).data)
    (hd : '_' ∉ (env.numberReal d).data) (hd2 : '_' ∉ (env.numberReal d2).data)
    (hp : '_' ∉ p.data) (hp2 : '_' ∉ p2.data) :
    cacheKey env b w h s d p x = cacheKey env b2 w2 h2 s2 d2 p2 x2
      ↔ (b = b2 ∧ w = w2 ∧ h = h2 ∧ env.numberReal s = env.numberReal s2
          ∧ env.numberReal d = env.numberReal d2 ∧ p = p2 ∧ x = x2) := by
  constructor
  · intro hk
    have h1 := congrArg String.data hk
    simp only [cacheKey, String.data_append, List.append_assoc] at h1
    have hu : ("_" : String).data = ['_'] := rfl
    simp only [hu, List.singleton_append] at h1
    obtain ⟨e1, r1⟩ := List.split_at_sep '_' _ _ _ _ (toString_nat_no_sep b)
      (toString_nat_no_sep b2) h1
    obtain ⟨e2, r2⟩ := List.split_at_sep '_' _ _ _ _ (toString_int_no_sep w)
      (toString_int_no_sep w2) r1
    obtain ⟨e3, r3⟩ := List.split_at_sep '_' _ _ _ _ (toString_int_no_sep h)
      (toString_int_no_sep h2) r2
    obtain ⟨e4, r4⟩ := List.split_at_sep '_' _ _ _ _ hs hs2 r3
    obtain ⟨e5, r5⟩ := List.split_at_sep '_' _ _ _ _ hd hd2 r4
    obtain ⟨e6, e7⟩ := List.split_at_sep '_' _ _ _ _ hp hp2 r5
    exact ⟨toString_nat_injective b b2 (String.ext e1),
      toString_int_injective w w2 (String.ext e2),
      toString_int_injective h h2 (String.ext e3), String.ext e4, String.ext e5,
      String.ext e6, String.ext e7⟩
  · rintro ⟨rfl, rfl, rfl, e4, e5, rfl, rfl⟩
    simp only [cacheKey, e4, e5]

/-- C30, witness: the configurations of two prefixes of one image, `north-` and the
default prefix, on the example theme. -/
theorem cacheKey_injective_witness :
    cacheKey exampleEnv 15 100 100 1 1 "north-" "bg" = cacheKey exampleEnv 15 100 100 1 1 "" "bg"
      ↔ ((15 : Nat) = 15 ∧ (100 : Int) = 100 ∧ (100 : Int) = 100
          ∧ exampleEnv.numberReal 1 = exampleEnv.numberReal 1
          ∧ exampleEnv.numberReal 1 = exampleEnv.numberReal 1 ∧ "north-" = "" ∧ "bg" = "bg") :=
  cacheKey_injective exampleEnv 15 15 100 100 100 100 1 1 1 1 "north-" "" "bg" "bg"
    (by decide) (by decide) (by decide) (by decide) (by decide) (by decide)

end Plasma
namespace Plasma

/-- C31 fails when a raster is cached.  Consumer 1 of `paintedSouthWorld` has the requested
prefix `south`, for which the theme has no center element, and the default prefix active;
the theme has the element `center`; the FrameData of the default prefix still holds the
raster of 100 x 100 rendered before, and `framePixmap ()` returns it. -/
theorem framePixmap_returns_cached_raster :
    requestedPrefixOf paintedSouthWorld 1 = "south"
      ∧ hasElementPrefix exampleEnv paintedSouthWorld 1 "south" = false
      ∧ FrameSvg_actualPrefix paintedSouthWorld 1 = ""
      ∧ hasElement exampleEnv paintedSouthWorld 1 "center" = true
      ∧ (framePixmap exampleEnv 1 8 paintedSouthWorld).map (fun r => r.1)
        = some (some { width := 100, height := 100 }) := by
  decide

/-- C31, amended: `generateBackground` returns with the state untouched when the
FrameData holds a raster or `hasElementPrefix (prefix ())`, asked for the requested
prefix, is false.  So for a consumer whose requested prefix has no center element,
`framePixmap ()` generates nothing, leaves the state as it is and returns the raster that
the FrameData of the active prefix already holds: a null raster when it holds none,
whatever elements the theme has for the active prefix. -/
theorem framePixmap_gated_by_request (env : Env) (q : SvgId) (w : World)
    (f : FrameData) (hf : w.fd (w.framesValue q (w.svgs q).actualPrefix) = some f) :
    (∀ mask frame g, w.fd frame = some g →
        (g.cachedBackground.isSome = true
          ∨ hasElementPrefix env w q (requestedPrefixOf w q) = false) →
        generateBackground env q mask frame w = some w)
      ∧ (hasElementPrefix env w q (requestedPrefixOf w q) = false →
          ∀ fuel, framePixmap env q fuel w = some (f.cachedBackground, w))
      ∧ (hasElementPrefix env w q (requestedPrefixOf w q) = false →
          f.cachedBackground = none →
          ∀ fuel, framePixmap env q fuel w = some (none, w)) := by
  have hgen : ∀ mask frame g, w.fd frame = some g →
      (g.cachedBackground.isSome = true
        ∨ hasElementPrefix env w q (requestedPrefixOf w q) = false) →
      generateBackground env q mask frame w = some w := by
    intro mask frame g hg hc
    unfold generateBackground
    rw [hg]
    simp only [Option.some_bind]
    rw [if_pos]
    simp only [requestedPrefixOf] at hc
    rcases hc with hc | hc
    · simp [hc]
    · simp [hc]
  have hpix : hasElementPrefix env w q (requestedPrefixOf w q) = false →
      ∀ fuel, framePixmap env q fuel w = some (f.cachedBackground, w) := by
    intro hc fuel
    unfold framePixmap
    simp only [hf, Option.some_bind]
    by_cases hn : f.cachedBackground.isNone = true
    · rw [if_pos hn, hgen _ _ f hf (Or.inr hc)]
      simp only [Option.some_bind, hf]
    · rw [if_neg hn]
      simp only [Option.some_bind, hf]
  refine ⟨hgen, hpix, fun hc hn fuel => ?_⟩
  rw [hpix hc fuel, hn]

/-- C31, witness: consumer 1 of `southWorld` has asked for the prefix `south` without
having rendered anything; the theme has the element `center`, and `framePixmap ()`
returns a null raster. -/
theorem framePixmap_gated_by_request_witness :
    hasElement exampleEnv southWorld 1 "center" = true
      ∧ (framePixmap exampleEnv 1 8 southWorld).map (fun r => r.1) = some none :=
  ⟨by decide,
    congrArg (Option.map fun r => r.1)
      ((framePixmap_gated_by_request exampleEnv 1 southWorld (southWorld.get 1)
        (by decide)).2.2 (by decide) (by decide) 8)⟩

end Plasma
namespace Plasma

/-- When the no-border-padding hint of the active FrameData is not set, or when the
active prefix has no FrameData, `contentsRect ()` is the rectangle that the margin
accessors give. -/
theorem contentsRect_without_hint (w : World) (q : SvgId)
    (h : ∀ f, w.fd (w.framesValue q (w.svgs q).actualPrefix) = some f →
      f.noBorderPadding = false) :
    contentsRect w q = contentsRectFromMargins w q := by
  unfold contentsRect contentsRectFromMargins
  dsimp only
  by_cases h0 : w.framesValue q (w.svgs q).actualPrefix = 0
  · rw [if_pos h0, if_pos h0]
  · rw [if_neg h0, if_neg h0]
    cases hf : w.fd (w.framesValue q (w.svgs q).actualPrefix) with
    | none => rfl
    | some f =>
      have hp := h f hf
      simp only [Option.some_bind, marginSize, hf, hp, Bool.false_eq_true, if_false,
        QRectF.adjusted, QRectF.ofSize, Option.some.injEq, QRectF.mk.injEq]
      refine ⟨by ring, by ring, by ring, by ring⟩

/-- C32 fails when the no-border-padding hint is set.  In `paddingWorld` the active
FrameData of consumer 1 has the frame size 100 x 100, four margins of 5 and the hint:
`marginSize` is 0 for every edge, so the rectangle inset by the margin accessors is
(0, 0, 100, 100), but `contentsRect ()` is (5, 5, 90, 90). -/
theorem contentsRect_ignores_padding_hint :
    (paddingWorld.get 1).noBorderPadding = true
      ∧ marginSize paddingWorld 1 MarginEdge.LeftMargin = some 0
      ∧ marginSize paddingWorld 1 MarginEdge.TopMargin = some 0
      ∧ marginSize paddingWorld 1 MarginEdge.RightMargin = some 0
      ∧ marginSize paddingWorld 1 MarginEdge.BottomMargin = some 0
      ∧ contentsRectFromMargins paddingWorld 1
        = some { x := 0, y := 0, width := 100, height := 100 }
      ∧ contentsRect paddingWorld 1 = some { x := 5, y := 5, width := 90, height := 90 }
      ∧ contentsRect World.empty 1 = some QRectF.null := by
  have h0 : paddingWorld.framesValue 1 (paddingWorld.svgs 1).actualPrefix ≠ 0 := by decide
  have hfd : paddingWorld.fd (paddingWorld.framesValue 1 (paddingWorld.svgs 1).actualPrefix)
      = some (paddingWorld.get 1) := by decide
  have hp : (paddingWorld.get 1).noBorderPadding = true := by decide
  have hs : (paddingWorld.get 1).frameSize = { width := 100, height := 100 } := by decide
  have hl : (paddingWorld.get 1).leftMargin = 5 := by decide
  have ht : (paddingWorld.get 1).topMargin = 5 := by decide
  have hr : (paddingWorld.get 1).rightMargin = 5 := by decide
  have hb : (paddingWorld.get 1).bottomMargin = 5 := by decide
  have hm : ∀ e, marginSize paddingWorld 1 e = some 0 := by
    intro e
    simp only [marginSize, hfd, Option.some_bind, hp, if_true]
  refine ⟨hp, hm _, hm _, hm _, hm _, ?_, ?_, by decide⟩
  · simp only [contentsRectFromMargins, if_neg h0, hfd, hm, Option.some_bind, hs,
      Option.some.injEq, QRectF.mk.injEq]
    norm_num
  · simp only [contentsRect, if_neg h0, hfd, Option.some_bind, hs, hl, ht, hr, hb,
      QRectF.adjusted, QRectF.ofSize, Option.some.injEq, QRectF.mk.injEq]
    norm_num

end Plasma
namespace Plasma

/-- C33: the month of the Lunar binding is stored shifted by one.  For every `m` below
the largest `int`, `setMonth (m)` returns and `month ()` is `m + 1` afterwards, with year
and day unchanged; after `setYear (y)` the getter `year ()` returns `y`, and after
`setDay (d)` the getter `day ()` returns `d`, the other two components unchanged. -/
theorem lunar_month_shifted (lib : LunarLib) (s : Lunar) :
    (∀ m, m < INT_MAX →
        ∃ s1, Lunar.setMonth lib m s = some s1 ∧ s1.month = m + 1
          ∧ s1.year = s.year ∧ s1.day = s.day)
      ∧ (∀ y, (Lunar.setYear lib y s).year = y
          ∧ (Lunar.setYear lib y s).month = s.month ∧ (Lunar.setYear lib y s).day = s.day)
      ∧ (∀ d, (Lunar.setDay lib d s).day = d
          ∧ (Lunar.setDay lib d s).year = s.year ∧ (Lunar.setDay lib d s).month = s.month) := by
  have hget : ∀ t : Lunar, (Lunar.get lib t).m_year = t.m_year
      ∧ (Lunar.get lib t).m_month = t.m_month ∧ (Lunar.get lib t).m_day = t.m_day := by
    intro t
    unfold Lunar.get
    split <;> exact ⟨rfl, rfl, rfl⟩
  refine ⟨fun m hm => ?_, fun y => ?_, fun d => ?_⟩
  · have hno : ¬ (m + 1 > INT_MAX) := by omega
    refine ⟨Lunar.get lib { s with m_month := m + 1 }, ?_, ?_, ?_, ?_⟩
    · unfold Lunar.setMonth
      rw [if_neg hno]
    · exact (hget _).2.1
    · exact (hget _).1
    · exact (hget _).2.2
  · exact ⟨(hget _).1, (hget _).2.1, (hget _).2.2⟩
  · exact ⟨(hget _).2.2, (hget _).1, (hget _).2.1⟩

/-- C33, witness: on a new `Lunar`, `setMonth (5)` makes `month ()` return 6. -/
theorem lunar_month_shifted_witness :
    ∃ s1, Lunar.setMonth exampleLunarLib 5 Lunar.create = some s1 ∧ s1.month = 5 + 1
      ∧ s1.year = Lunar.create.year ∧ s1.day = Lunar.create.day :=
  (lunar_month_shifted exampleLunarLib Lunar.create).1 5 (by decide)

end Plasma
